import Mathlib

/-!
OrderBook: a shallow embedding of `OrderBook.hpp`.

The C++ engine keeps `shared_ptr<Order>` references to one mutable `Order`
record in several containers at once (price levels, the active-orders index,
the ingress queues).  The embedding therefore carries an explicit store
(`heap`) of order records; an `OrderPointer` is an index into it, and every
`order->field` access of the source is a read or write of the store.

* `double` prices are only ever compared and used as map keys, never computed
  with; they are embedded as `Int`.
* `int` quantities are embedded as `Int`; the only arithmetic is
  `quantity -= tradeQty` with `0 < tradeQty <= quantity`, which cannot wrap.
* `std::map<double, OrderList, Cmp>` is an association list kept in key order.
* `tbb::concurrent_hash_map<int, OrderPointer>` is an association list.
* `tbb::concurrent_queue<OrderPointer>` is a list (push at the back, pop at
  the front).
* The "Trade executed" lines written to `cout` are collected in `trades`.
* Every public operation takes the engine mutex for its whole body, so one
  operation is one atomic state transformer.
-/

/-- Order disciplines (`enum class OrderType`). -/
inductive OrderType where
  | Market
  | Limit
  | Stop
  | IOC
deriving DecidableEq

/-- The `side` string of an order.  The source only ever tests it against the
literals "buy" and "sell"; every other string behaves alike and is `other`. -/
inductive Side where
  | buy
  | sell
  | other
deriving DecidableEq

/-- The record `struct Order`. -/
structure Order where
  orderType : OrderType
  orderId : Int
  price : Int
  quantity : Int
  side : Side
  stopPrice : Int
deriving DecidableEq

instance : Inhabited Order := ⟨⟨OrderType.Market, 0, 0, 0, Side.other, 0⟩⟩

/-- A `shared_ptr<Order>`: an index into the store of order records. -/
abbrev OrderPointer := Nat

/-- A price level, `list<OrderPointer>`. -/
abbrev OrderList := List OrderPointer

/-- A side book, `map<double, OrderList, Cmp>`, in iteration order. -/
abbrev PriceMap := List (Int × OrderList)

/-- The index `tbb::concurrent_hash_map<int, OrderPointer>`. -/
abbrev ActiveOrdersMap := List (Int × OrderPointer)

/-- One "Trade executed" line. -/
structure Trade where
  buyId : Int
  sellId : Int
  qty : Int
  price : Int
deriving DecidableEq

/-- Key order of `buyOrders_` (`greater<double>`). -/
def buyBefore (a b : Int) : Bool := decide (b < a)

/-- Key order of `sellOrders_` (`less<double>`). -/
def sellBefore (a b : Int) : Bool := decide (a < b)

/-- Lookup `map::find`. -/
def mapFind : PriceMap → Int → Option OrderList
  | [], _ => none
  | (k, l) :: rest, key => if k = key then some l else mapFind rest key

/-- Removal `map::erase` of a key. -/
def mapErase : PriceMap → Int → PriceMap
  | [], _ => []
  | (k, l) :: rest, key => if k = key then mapErase rest key else (k, l) :: mapErase rest key

/-- Overwrite the level stored under a key that is present (a write through
the reference `it->second`). -/
def mapAssign : PriceMap → Int → OrderList → PriceMap
  | [], _, _ => []
  | (k, l) :: rest, key, v =>
    if k = key then (k, v) :: rest else (k, l) :: mapAssign rest key v

/-- Insert a new key at its place in the key order. -/
def mapInsert (before : Int → Int → Bool) : PriceMap → Int → OrderList → PriceMap
  | [], key, v => [(key, v)]
  | (k, l) :: rest, key, v =>
    if before key k then (key, v) :: (k, l) :: rest
    else (k, l) :: mapInsert before rest key v

/-- The statement `m[key].push_back(o)`: `operator[]` finds the level or
creates an empty one, then the order is appended. -/
def mapPushBack (before : Int → Int → Bool) (m : PriceMap) (key : Int)
    (o : OrderPointer) : PriceMap :=
  match mapFind m key with
  | some l => mapAssign m key (l ++ [o])
  | none => mapInsert before m key [o]

/-- The statements `lst.pop_front(); if(lst.empty()) m.erase(best);` on the
first level of a side book. -/
def popFront : PriceMap → PriceMap
  | [] => []
  | (k, l) :: rest =>
    if l.tail.isEmpty then mapErase ((k, l.tail) :: rest) k else (k, l.tail) :: rest

/-- Lookup in the index (`activeOrders_.find`). -/
def activeFind : ActiveOrdersMap → Int → Option OrderPointer
  | [], _ => none
  | (k, p) :: rest, key => if k = key then some p else activeFind rest key

/-- Removal from the index (`activeOrders_.erase`). -/
def activeErase : ActiveOrdersMap → Int → ActiveOrdersMap
  | [], _ => []
  | (k, p) :: rest, key =>
    if k = key then activeErase rest key else (k, p) :: activeErase rest key

/-- The statements `activeOrders_.insert(acc, id); acc->second = order;`:
the key is bound to the order, replacing an earlier binding. -/
def activeInsert (a : ActiveOrdersMap) (key : Int) (p : OrderPointer) : ActiveOrdersMap :=
  (key, p) :: activeErase a key

/-- The state of `class OrderBook`, with the store of order records and the
trade lines printed so far. -/
structure OrderBook where
  heap : List Order
  buyOrders_ : PriceMap
  sellOrders_ : PriceMap
  activeOrders_ : ActiveOrdersMap
  buyQueue_ : List OrderPointer
  sellQueue_ : List OrderPointer
  trades : List Trade
deriving DecidableEq

namespace OrderBook

/-- A freshly constructed `OrderBook`. -/
def empty : OrderBook := ⟨[], [], [], [], [], [], []⟩

/-- Read the record behind a pointer. -/
def deref (s : OrderBook) (p : OrderPointer) : Order := (s.heap[p]?).getD default

/-- The write `p->quantity = q`. -/
def setQuantity (s : OrderBook) (p : OrderPointer) (q : Int) : OrderBook :=
  { s with heap := s.heap.set p { s.deref p with quantity := q } }

/-- The write `p->quantity -= d`. -/
def subQuantity (s : OrderBook) (p : OrderPointer) (d : Int) : OrderBook :=
  s.setQuantity p ((s.deref p).quantity - d)

/-- The writes `p->price = newPrice; p->quantity = newQuantity;`. -/
def setPriceQuantity (s : OrderBook) (p : OrderPointer) (newPrice newQuantity : Int) : OrderBook :=
  { s with heap := s.heap.set p { s.deref p with price := newPrice, quantity := newQuantity } }

/-- The write `p->orderType = t`. -/
def setOrderType (s : OrderBook) (p : OrderPointer) (t : OrderType) : OrderBook :=
  { s with heap := s.heap.set p { s.deref p with orderType := t } }

/-- The block `auto it = m.find(price); if(it != m.end()) { it->second.remove_if(id
matches); if(it->second.empty()) m.erase(it); }`. -/
def removeFromLevel (s : OrderBook) (m : PriceMap) (price : Int) (orderId : Int) : PriceMap :=
  match mapFind m price with
  | none => m
  | some lst =>
    let lst1 := lst.filter (fun o => !decide ((s.deref o).orderId = orderId))
    if lst1.isEmpty then mapErase m price else mapAssign m price lst1

/-- Lines 82-88 of `matchBuyOrder`: a resting sell order whose quantity reached
zero leaves the index and the front of the best ask level. -/
def retireAskHead (s : OrderBook) (sellOrder : OrderPointer) : OrderBook :=
  if (s.deref sellOrder).quantity = 0 then
    { s with activeOrders_ := activeErase s.activeOrders_ (s.deref sellOrder).orderId,
             sellOrders_ := popFront s.sellOrders_ }
  else s

/-- Lines 89-100 of `matchBuyOrder`: an incoming buy order whose quantity reached
zero leaves the index and the bid level of its price. -/
def retireIncomingBuy (s : OrderBook) (buyOrder : OrderPointer) : OrderBook :=
  if (s.deref buyOrder).quantity = 0 then
    { s with activeOrders_ := activeErase s.activeOrders_ (s.deref buyOrder).orderId,
             buyOrders_ := removeFromLevel s s.buyOrders_ (s.deref buyOrder).price
               (s.deref buyOrder).orderId }
  else s

/-- Lines 125-129 of `matchSellOrder`: a resting buy order whose quantity reached
zero leaves the index and the front of the best bid level. -/
def retireBidHead (s : OrderBook) (buyOrder : OrderPointer) : OrderBook :=
  if (s.deref buyOrder).quantity = 0 then
    { s with activeOrders_ := activeErase s.activeOrders_ (s.deref buyOrder).orderId,
             buyOrders_ := popFront s.buyOrders_ }
  else s

/-- Lines 130-141 of `matchSellOrder`: an incoming sell order whose quantity
reached zero leaves the index and the ask level of its price. -/
def retireIncomingSell (s : OrderBook) (sellOrder : OrderPointer) : OrderBook :=
  if (s.deref sellOrder).quantity = 0 then
    { s with activeOrders_ := activeErase s.activeOrders_ (s.deref sellOrder).orderId,
             sellOrders_ := removeFromLevel s s.sellOrders_ (s.deref sellOrder).price
               (s.deref sellOrder).orderId }
  else s

/-- Lines 76-100 of `matchBuyOrder`: print the trade, decrement both
quantities, retire the orders that reached zero. -/
def tradeBuy (s : OrderBook) (buyOrder sellOrder : OrderPointer) (bestAsk tradeQty : Int) :
    OrderBook :=
  let s1 := { s with trades := s.trades ++
    [Trade.mk (s.deref buyOrder).orderId (s.deref sellOrder).orderId tradeQty bestAsk] }
  let s2 := s1.subQuantity buyOrder tradeQty
  let s3 := s2.subQuantity sellOrder tradeQty
  (s3.retireAskHead sellOrder).retireIncomingBuy buyOrder

/-- Lines 119-141 of `matchSellOrder`. -/
def tradeSell (s : OrderBook) (sellOrder buyOrder : OrderPointer) (bestBid tradeQty : Int) :
    OrderBook :=
  let s1 := { s with trades := s.trades ++
    [Trade.mk (s.deref buyOrder).orderId (s.deref sellOrder).orderId tradeQty bestBid] }
  let s2 := s1.subQuantity sellOrder tradeQty
  let s3 := s2.subQuantity buyOrder tradeQty
  (s3.retireBidHead buyOrder).retireIncomingSell sellOrder

/-- One evaluation of the loop condition and, when it holds, of the loop body
of `matchBuyOrder`.  The value `none` means the loop is left (condition false,
or `break`).  `front()` of an empty level is undefined in the source; the model
leaves the loop there. -/
def matchBuyStep (s : OrderBook) (buyOrder : OrderPointer) : Option OrderBook :=
  if (s.deref buyOrder).quantity > 0 then
    match s.sellOrders_ with
    | [] => none
    | (bestAsk, sellList) :: _ =>
      if (s.deref buyOrder).orderType = OrderType.Market ∨ bestAsk ≤ (s.deref buyOrder).price then
        match sellList with
        | [] => none
        | sellOrder :: _ =>
          if (s.deref sellOrder).quantity ≤ 0 then
            some { s with sellOrders_ := popFront s.sellOrders_ }
          else if min (s.deref buyOrder).quantity (s.deref sellOrder).quantity ≤ 0 then none
          else some (s.tradeBuy buyOrder sellOrder bestAsk
            (min (s.deref buyOrder).quantity (s.deref sellOrder).quantity))
      else none
  else none

/-- One evaluation of the loop condition and body of `matchSellOrder`.  The
zero-quantity test of the source (line 112) reads the incoming `sellOrder`, pops
the bid level without erasing it and erases from `sellOrders_`; it is embedded
as written. -/
def matchSellStep (s : OrderBook) (sellOrder : OrderPointer) : Option OrderBook :=
  if (s.deref sellOrder).quantity > 0 then
    match s.buyOrders_ with
    | [] => none
    | (bestBid, buyList) :: rest =>
      if (s.deref sellOrder).orderType = OrderType.Market ∨ bestBid ≥ (s.deref sellOrder).price then
        match buyList with
        | [] => none
        | buyOrder :: _ =>
          if (s.deref sellOrder).quantity ≤ 0 then
            some { s with buyOrders_ := (bestBid, buyList.tail) :: rest,
                          sellOrders_ := if buyList.tail.isEmpty then mapErase s.sellOrders_ bestBid
                                         else s.sellOrders_ }
          else if min (s.deref sellOrder).quantity (s.deref buyOrder).quantity ≤ 0 then none
          else some (s.tradeSell sellOrder buyOrder bestBid
            (min (s.deref sellOrder).quantity (s.deref buyOrder).quantity))
      else none
  else none

/-- The `while` loop of `matchBuyOrder`, cut after `fuel` iterations. -/
def matchBuyLoop : Nat → OrderBook → OrderPointer → OrderBook
  | 0, s, _ => s
  | fuel + 1, s, buyOrder =>
    match matchBuyStep s buyOrder with
    | none => s
    | some s1 => matchBuyLoop fuel s1 buyOrder

/-- The `while` loop of `matchSellOrder`, cut after `fuel` iterations. -/
def matchSellLoop : Nat → OrderBook → OrderPointer → OrderBook
  | 0, s, _ => s
  | fuel + 1, s, sellOrder =>
    match matchSellStep s sellOrder with
    | none => s
    | some s1 => matchSellLoop fuel s1 sellOrder

/-- Number of resting references in a side book. -/
def restingCount (m : PriceMap) : Nat := (m.map (fun e => e.2.length)).sum

/-- The function `matchBuyOrder`.  Every iteration that stays in the loop pops a
resting sell order, except at most one; the fuel given is enough for the loop
to run to its exit (see `matchBuyLoop_exit`). -/
def matchBuyOrder (s : OrderBook) (buyOrder : OrderPointer) : OrderBook :=
  matchBuyLoop (restingCount s.sellOrders_ + 1) s buyOrder

/-- The function `matchSellOrder`; fuel as for `matchBuyOrder`. -/
def matchSellOrder (s : OrderBook) (sellOrder : OrderPointer) : OrderBook :=
  matchSellLoop (restingCount s.buyOrders_ + 1) s sellOrder

/-- The function `processOrder`. -/
def processOrder (s : OrderBook) (order : OrderPointer) : OrderBook :=
  if (s.deref order).side = Side.buy then matchBuyOrder s order
  else if (s.deref order).side = Side.sell then matchSellOrder s order
  else s

/-- The allocation `make_shared<Order>(o)`: the new record gets the next free
pointer, `s.heap.length`. -/
def alloc (s : OrderBook) (o : Order) : OrderBook :=
  { s with heap := s.heap ++ [o] }

/-- The branch on the side in `addOrder` (lines 184-190) and in `modifyOrder`
(lines 290-296): append the order to the level of `price` on its side and push
it on that side's ingress queue. -/
def insertResting (s : OrderBook) (order : OrderPointer) (side : Side) (price : Int) :
    OrderBook :=
  if side = Side.buy then
    { s with buyOrders_ := mapPushBack buyBefore s.buyOrders_ price order,
             buyQueue_ := s.buyQueue_ ++ [order] }
  else
    { s with sellOrders_ := mapPushBack sellBefore s.sellOrders_ price order,
             sellQueue_ := s.sellQueue_ ++ [order] }

/-- The branch on the side in `cancelOrder` (lines 240-256) and in `modifyOrder`
(lines 270-286): remove the orders carrying `orderId` from the level of the
order's price on the order's side. -/
def removeResting (s : OrderBook) (order : OrderPointer) (orderId : Int) : OrderBook :=
  if (s.deref order).side = Side.buy then
    { s with buyOrders_ := removeFromLevel s s.buyOrders_ (s.deref order).price orderId }
  else
    { s with sellOrders_ := removeFromLevel s s.sellOrders_ (s.deref order).price orderId }

/-- The function `addOrder`. -/
def addOrder (s : OrderBook) (orderId price quantity : Int) (side : Side)
    (orderType : OrderType) : OrderBook :=
  let order : OrderPointer := s.heap.length
  let s0 := s.alloc ⟨orderType, orderId, price, quantity, side, 0⟩
  if orderType = OrderType.Market then processOrder s0 order
  else if orderType = OrderType.IOC then
    let s1 := processOrder s0 order
    if (s1.deref order).quantity > 0 then s1.setQuantity order 0 else s1
  else
    let s1 := { s0 with activeOrders_ := activeInsert s0.activeOrders_ orderId order }
    s1.insertResting order side price

/-- The function `reset`. -/
def reset (s : OrderBook) : OrderBook :=
  { s with buyOrders_ := [], sellOrders_ := [], activeOrders_ := [] }

/-- The function `getBestBid`. -/
def getBestBid (s : OrderBook) : Int :=
  match s.buyOrders_ with
  | [] => 0
  | (k, _) :: _ => k

/-- The function `getBestAsk`. -/
def getBestAsk (s : OrderBook) : Int :=
  match s.sellOrders_ with
  | [] => 0
  | (k, _) :: _ => k

/-- The function `cancelOrder`, with its return value. -/
def cancelOrder (s : OrderBook) (orderId : Int) : Bool × OrderBook :=
  match activeFind s.activeOrders_ orderId with
  | none => (false, s)
  | some order =>
    let s1 := s.removeResting order orderId
    (true, { s1 with activeOrders_ := activeErase s1.activeOrders_ orderId })

/-- The function `modifyOrder`, with its return value. -/
def modifyOrder (s : OrderBook) (orderId : Int) (newQuantity : Int) (newPrice : Int) :
    Bool × OrderBook :=
  match activeFind s.activeOrders_ orderId with
  | none => (false, s)
  | some order =>
    let s1 := s.removeResting order orderId
    let s2 := s1.setPriceQuantity order newPrice newQuantity
    (true, s2.insertResting order (s2.deref order).side newPrice)

/-- One iteration of the worker loop `processBuyOrders`: `try_pop` and, when an
order was popped, `matchBuyOrder`. -/
def processBuyOrdersStep (s : OrderBook) : OrderBook :=
  match s.buyQueue_ with
  | [] => s
  | order :: rest => matchBuyOrder { s with buyQueue_ := rest } order

/-- One iteration of the worker loop `processSellOrders`. -/
def processSellOrdersStep (s : OrderBook) : OrderBook :=
  match s.sellQueue_ with
  | [] => s
  | order :: rest => matchSellOrder { s with sellQueue_ := rest } order

end OrderBook

/-! ### Predicates used in the statements -/

/-- The fields of an order record that matching never writes. -/
def Order.static (o : Order) : Order := { o with quantity := 0 }

/-- Keys of a side book are strictly ordered by its comparator: the
representation invariant of `std::map`. -/
def SortedKeys (before : Int → Int → Bool) (m : PriceMap) : Prop :=
  (m.map Prod.fst).Pairwise (fun a b => before a b = true)

instance (before : Int → Int → Bool) (m : PriceMap) : Decidable (SortedKeys before m) :=
  inferInstanceAs (Decidable ((m.map Prod.fst).Pairwise (fun a b => before a b = true)))

/-- No price level of the side book is empty. -/
def NonemptyLevels (m : PriceMap) : Prop := ∀ e ∈ m, e.2 ≠ []

instance (m : PriceMap) : Decidable (NonemptyLevels m) :=
  inferInstanceAs (Decidable (∀ e ∈ m, e.2 ≠ []))

/-- The side book `m1` arises from `m` by removing orders and levels only. -/
def LevelSub (m1 m : PriceMap) : Prop :=
  (m1.map Prod.fst).Sublist (m.map Prod.fst) ∧
  ∀ e ∈ m1, ∃ e0 ∈ m, e.1 = e0.1 ∧ e.2.Sublist e0.2

/-- All pointers resting in a side book, in priority order: levels in key
order, each level front to back. -/
def restingOrders (m : PriceMap) : List OrderPointer := (m.map Prod.snd).flatten

/-- Resting pointers paired with the key of their level, in priority order. -/
def restingEntries (m : PriceMap) : List (Int × OrderPointer) :=
  (m.map (fun e => e.2.map (fun p => (e.1, p)))).flatten

namespace OrderBook

/-- The two states hold the same orders up to their quantities. -/
def SameStatic (s s1 : OrderBook) : Prop :=
  s1.heap.length = s.heap.length ∧ ∀ p, (s1.deref p).static = (s.deref p).static

/-- The state `s1` arises from `s` by matching or cancelling: quantities may
have changed, orders and index entries may have left, trades may have been
appended; nothing was added to a side book, to the index or to a queue. -/
def Shrinks (s s1 : OrderBook) : Prop :=
  SameStatic s s1 ∧
  LevelSub s1.buyOrders_ s.buyOrders_ ∧ LevelSub s1.sellOrders_ s.sellOrders_ ∧
  (NonemptyLevels s.buyOrders_ → NonemptyLevels s1.buyOrders_) ∧
  (NonemptyLevels s.sellOrders_ → NonemptyLevels s1.sellOrders_) ∧
  s1.activeOrders_.Sublist s.activeOrders_ ∧
  s1.buyQueue_ = s.buyQueue_ ∧ s1.sellQueue_ = s.sellQueue_ ∧
  s.trades <+: s1.trades

/-- Every order of a bid level is allocated, carries the level's key as its
price and has side "buy". -/
def BidLevelOk (s : OrderBook) (e : Int × OrderList) : Prop :=
  ∀ p ∈ e.2, p < s.heap.length ∧ (s.deref p).price = e.1 ∧ (s.deref p).side = Side.buy

/-- Every order of an ask level is allocated, carries the level's key as its
price and has a side other than "buy". -/
def AskLevelOk (s : OrderBook) (e : Int × OrderList) : Prop :=
  ∀ p ∈ e.2, p < s.heap.length ∧ (s.deref p).price = e.1 ∧ (s.deref p).side ≠ Side.buy

/-- Structural well-formedness of an engine state. -/
def WellFormed (s : OrderBook) : Prop :=
  SortedKeys buyBefore s.buyOrders_ ∧ SortedKeys sellBefore s.sellOrders_ ∧
  NonemptyLevels s.buyOrders_ ∧ NonemptyLevels s.sellOrders_ ∧
  (∀ e ∈ s.buyOrders_, BidLevelOk s e) ∧ (∀ e ∈ s.sellOrders_, AskLevelOk s e) ∧
  (∀ e ∈ s.activeOrders_, e.2 < s.heap.length ∧ (s.deref e.2).orderId = e.1) ∧
  (∀ p ∈ s.buyQueue_, p < s.heap.length ∧ (s.deref p).side = Side.buy) ∧
  (∀ p ∈ s.sellQueue_, p < s.heap.length ∧ (s.deref p).side ≠ Side.buy)

end OrderBook

namespace OrderBook

/-- The two states agree on everything except the discipline recorded in the
order records. -/
def SameButType (s t : OrderBook) : Prop :=
  t.buyOrders_ = s.buyOrders_ ∧ t.sellOrders_ = s.sellOrders_ ∧
  t.activeOrders_ = s.activeOrders_ ∧ t.buyQueue_ = s.buyQueue_ ∧
  t.sellQueue_ = s.sellQueue_ ∧ t.trades = s.trades ∧ t.heap.length = s.heap.length ∧
  ∀ p, (t.deref p).orderId = (s.deref p).orderId ∧ (t.deref p).price = (s.deref p).price ∧
    (t.deref p).quantity = (s.deref p).quantity ∧ (t.deref p).side = (s.deref p).side

end OrderBook

namespace OrderBook

/-- States reachable from the empty book by the public operations (`addOrder`,
`cancelOrder`, `modifyOrder`, `reset`, with arbitrary arguments) and by worker
steps. -/
inductive Reachable : OrderBook → Prop
  | init : Reachable empty
  | add (s : OrderBook) (orderId price quantity : Int) (side : Side) (orderType : OrderType) :
      Reachable s → Reachable (s.addOrder orderId price quantity side orderType)
  | cancel (s : OrderBook) (orderId : Int) : Reachable s → Reachable (s.cancelOrder orderId).2
  | modify (s : OrderBook) (orderId newQuantity newPrice : Int) :
      Reachable s → Reachable (s.modifyOrder orderId newQuantity newPrice).2
  | reset (s : OrderBook) : Reachable s → Reachable s.reset
  | buyWorker (s : OrderBook) : Reachable s → Reachable s.processBuyOrdersStep
  | sellWorker (s : OrderBook) : Reachable s → Reachable s.processSellOrdersStep

/-- States at the head of a matching loop: a reachable state, possibly after the
allocation of the incoming order (`addOrder`) or the pop of a queue (worker),
and after any number of loop iterations for any incoming order. -/
inductive Visited : OrderBook → Prop
  | reachable (s : OrderBook) : Reachable s → Visited s
  | alloc (s : OrderBook) (o : Order) : Visited s → Visited (s.alloc o)
  | popBuy (s : OrderBook) : Visited s → Visited { s with buyQueue_ := s.buyQueue_.tail }
  | popSell (s : OrderBook) : Visited s → Visited { s with sellQueue_ := s.sellQueue_.tail }
  | buyIteration (s s1 : OrderBook) (incoming : OrderPointer) :
      Visited s → matchBuyStep s incoming = some s1 → Visited s1
  | sellIteration (s s1 : OrderBook) (incoming : OrderPointer) :
      Visited s → matchSellStep s incoming = some s1 → Visited s1

end OrderBook

namespace OrderBook

/-- Example state: one ask (id 8, price 150, quantity 10) rests, and a Market
buy (id 5, quantity 5) has just been allocated by `addOrder`. -/
def marketBuyExample : OrderBook :=
  (empty.addOrder 8 150 10 Side.sell OrderType.Limit).alloc
    (Order.mk OrderType.Market 5 120 5 Side.buy 0)

end OrderBook

/-- The fills of a sweep of quantity `q` over the residuals of the resting
orders in priority order: every order is filled in turn with
`min(remaining, residual)` until nothing remains. -/
def sweepFills : Int → List Int → List Int
  | _, [] => []
  | q, r :: rest => if q ≤ 0 then [] else min q r :: sweepFills (q - min q r) rest

namespace OrderBook

/-- Example state: the asks 1 (price 100, quantity 3), 2 (price 100, quantity 4)
and 3 (price 101, quantity 5) rest, in that order of arrival. -/
def askLadderExample : OrderBook :=
  ((empty.addOrder 1 100 3 Side.sell OrderType.Limit).addOrder 2 100 4 Side.sell
    OrderType.Limit).addOrder 3 101 5 Side.sell OrderType.Limit

end OrderBook

namespace OrderBook

/-- Every level of the side book lists distinct orders, each with a positive
residual quantity. -/
def LevelsPositive (s : OrderBook) (m : PriceMap) : Prop :=
  ∀ e ∈ m, e.2.Nodup ∧ ∀ p ∈ e.2, 0 < (s.deref p).quantity

/-- Every crossing pair of resting orders (a bid level at or above an ask
level) has a member that is still awaiting its worker. -/
def CrossPending (s : OrderBook) (pendingBuy pendingSell : OrderPointer → Prop) : Prop :=
  ∀ eb ∈ s.buyOrders_, ∀ es ∈ s.sellOrders_, es.1 ≤ eb.1 →
    ∀ pb ∈ eb.2, ∀ ps ∈ es.2, pendingBuy pb ∨ pendingSell ps

/-- The invariant behind non-crossing at quiescence: the state is well formed,
resting orders have positive residuals, and every crossing pair of resting
orders has a member in its ingress queue. -/
def Settled (s : OrderBook) : Prop :=
  WellFormed s ∧ LevelsPositive s s.buyOrders_ ∧ LevelsPositive s s.sellOrders_ ∧
  CrossPending s (fun p => p ∈ s.buyQueue_) (fun p => p ∈ s.sellQueue_)

/-- States reachable from the empty book by `addOrder` with an id never used
before and a positive quantity, `cancelOrder`, `modifyOrder` with a positive
new quantity, and worker steps. -/
inductive Disciplined : OrderBook → Prop
  | init : Disciplined empty
  | add (s : OrderBook) (orderId price quantity : Int) (side : Side) (orderType : OrderType) :
      Disciplined s → (∀ p, p < s.heap.length → (s.deref p).orderId ≠ orderId) →
      0 < quantity → Disciplined (s.addOrder orderId price quantity side orderType)
  | cancel (s : OrderBook) (orderId : Int) : Disciplined s → Disciplined (s.cancelOrder orderId).2
  | modify (s : OrderBook) (orderId newQuantity newPrice : Int) :
      Disciplined s → 0 < newQuantity →
      Disciplined (s.modifyOrder orderId newQuantity newPrice).2
  | buyWorker (s : OrderBook) : Disciplined s → Disciplined s.processBuyOrdersStep
  | sellWorker (s : OrderBook) : Disciplined s → Disciplined s.processSellOrdersStep

end OrderBook

/-- Total quantity of a list of trades. -/
def tradedQuantity (T : List Trade) : Int := (T.map Trade.qty).sum

/-- Total quantity of the trades an order id takes part in, as buyer or as
seller. -/
def filled (T : List Trade) (orderId : Int) : Int :=
  tradedQuantity (T.filter (fun t => decide (t.buyId = orderId) || decide (t.sellId = orderId)))

/-- Bookkeeping of a run, kept beside the engine state and never read by it:
for every order (by pointer) the quantity it was admitted with and the leftover
that `addOrder` discarded for it (IOC only), and the orders rewritten by
`modifyOrder`. -/
structure Ledger where
  original : List Int
  discarded : List Int
  modified : List OrderPointer

namespace OrderBook

/-- The leftover of a new order that `addOrder` discards: for an IOC order the
quantity still open when its match call returns (line 173 overwrites it with
zero), for any other discipline nothing. -/
def discardedByAdd (s : OrderBook) (orderId price quantity : Int) (side : Side)
    (orderType : OrderType) : Int :=
  if orderType = OrderType.IOC then
    (((s.alloc (Order.mk orderType orderId price quantity side 0)).processOrder
      s.heap.length).deref s.heap.length).quantity
  else 0

/-- Runs of the engine from the empty book by `addOrder` (id never used before,
quantity > 0), `cancelOrder`, `modifyOrder` (new quantity > 0), `reset` and worker
steps, together with their bookkeeping. -/
inductive Run : OrderBook → Ledger → Prop
  | init : Run empty ⟨[], [], []⟩
  | add (s : OrderBook) (g : Ledger) (orderId price quantity : Int) (side : Side)
      (orderType : OrderType) :
      Run s g → (∀ p, p < s.heap.length → (s.deref p).orderId ≠ orderId) → 0 < quantity →
      Run (s.addOrder orderId price quantity side orderType)
        ⟨g.original ++ [quantity],
         g.discarded ++ [s.discardedByAdd orderId price quantity side orderType], g.modified⟩
  | cancel (s : OrderBook) (g : Ledger) (orderId : Int) :
      Run s g → Run (s.cancelOrder orderId).2 g
  | modify (s : OrderBook) (g : Ledger) (orderId newQuantity newPrice : Int) :
      Run s g → 0 < newQuantity →
      Run (s.modifyOrder orderId newQuantity newPrice).2
        ⟨g.original, g.discarded, (activeFind s.activeOrders_ orderId).toList ++ g.modified⟩
  | reset (s : OrderBook) (g : Ledger) : Run s g → Run s.reset g
  | buyWorker (s : OrderBook) (g : Ledger) : Run s g → Run s.processBuyOrdersStep g
  | sellWorker (s : OrderBook) (g : Ledger) : Run s g → Run s.processSellOrdersStep g

/-- Order ids identify order records. -/
def IdsDistinct (s : OrderBook) : Prop :=
  ∀ p q, p < s.heap.length → q < s.heap.length →
    (s.deref p).orderId = (s.deref q).orderId → p = q

/-- Every emitted trade has a positive quantity and names two allocated
orders. -/
def TradesKnown (s : OrderBook) : Prop :=
  ∀ t ∈ s.trades, 0 < t.qty ∧ (∃ p, p < s.heap.length ∧ (s.deref p).orderId = t.buyId) ∧
    (∃ p, p < s.heap.length ∧ (s.deref p).orderId = t.sellId)

/-- Per order, trades and the quantity field move in step between two states:
what was traded was taken off the quantity. -/
def Conserved (s t : OrderBook) : Prop :=
  ∀ p, p < s.heap.length →
    filled t.trades (s.deref p).orderId + (t.deref p).quantity =
      filled s.trades (s.deref p).orderId + (s.deref p).quantity ∧
    (0 ≤ (s.deref p).quantity → 0 ≤ (t.deref p).quantity)

end OrderBook

namespace OrderBook

/-- The ledger of a run balances against the state: it has one entry per
allocated order, and for every order that `modifyOrder` never rewrote the
quantity it was admitted with is the quantity of its trades plus its quantity
field plus what `addOrder` discarded for it; the field and the discard are never
negative, and only an IOC order has a discard. -/
def Balanced (s : OrderBook) (g : Ledger) : Prop :=
  g.original.length = s.heap.length ∧ g.discarded.length = s.heap.length ∧
  ∀ p, p < s.heap.length → p ∉ g.modified →
    filled s.trades (s.deref p).orderId + (s.deref p).quantity + g.discarded.getD p 0 =
      g.original.getD p 0 ∧
    0 ≤ (s.deref p).quantity ∧ 0 ≤ g.discarded.getD p 0 ∧
    ((s.deref p).orderType ≠ OrderType.IOC → g.discarded.getD p 0 = 0)

end OrderBook

namespace OrderBook

/-- No order occurs twice in a level of a side book. -/
def LevelsNodup (m : PriceMap) : Prop := ∀ e ∈ m, e.2.Nodup

end OrderBook

namespace OrderBook

/-- Example run: a sell of 10 at 150 (id 1) rests; a Limit buy of 4 at 150
(id 2) is added and matched by the buy worker; an IOC buy of 8 at 150 (id 3)
takes the remaining 6 and its leftover of 2 is discarded. -/
def conservationExample : OrderBook :=
  (((empty.addOrder 1 150 10 Side.sell OrderType.Limit).addOrder 2 150 4 Side.buy
    OrderType.Limit).processBuyOrdersStep).addOrder 3 150 8 Side.buy OrderType.IOC

/-- The ledger of the run `conservationExample`. -/
def conservationLedger : Ledger := ⟨[10, 4, 8], [0, 0, 2], []⟩

end OrderBook

/-- The level stored under `k` in a side book (empty when there is none) with
the order `p` left out; the other orders keep their relative order. -/
def levelWithout (m : PriceMap) (k : Int) (p : OrderPointer) : OrderList :=
  ((mapFind m k).getD []).filter (fun x => !decide (x = p))

/-- What is compared of an order when two states are compared up to the
identity of the records: id, side, discipline, price and residual quantity. -/
structure OrderView where
  orderId : Int
  side : Side
  orderType : OrderType
  price : Int
  quantity : Int
deriving DecidableEq

/-- The view of an order record. -/
def Order.view (o : Order) : OrderView :=
  ⟨o.orderId, o.side, o.orderType, o.price, o.quantity⟩

namespace OrderBook

/-- A side book seen through the records: the levels in key order, each with
its key and the views of its orders from front to back. -/
def bookView (s : OrderBook) (m : PriceMap) : List (Int × List OrderView) :=
  m.map (fun e => (e.1, e.2.map (fun p => (s.deref p).view)))

/-- The index seen through the records: the view of the order an id is mapped
to, if any. -/
def indexView (s : OrderBook) (orderId : Int) : Option OrderView :=
  (activeFind s.activeOrders_ orderId).map (fun p => (s.deref p).view)

end OrderBook

namespace OrderBook

/-- Every order the index refers to rests in a side book. -/
def IndexRests (s : OrderBook) : Prop :=
  ∀ e ∈ s.activeOrders_, e.2 ∈ restingOrders s.buyOrders_ ∨ e.2 ∈ restingOrders s.sellOrders_

end OrderBook

namespace OrderBook

/-- The order `x` is gone from the book: it is in no price level of either
side, and the index has no entry for its id. -/
def Retired (s : OrderBook) (x : OrderPointer) : Prop :=
  x ∉ restingOrders s.buyOrders_ ∧ x ∉ restingOrders s.sellOrders_ ∧
  activeFind s.activeOrders_ (s.deref x).orderId = none

end OrderBook

namespace OrderBook

/-- Example state: the sell 1 (price 100, quantity 10) rests; the buy 2 (price
100, quantity 5) was added and cancelled before the buy worker popped it, so it
is gone from the bid book and from the index but is still in the buy queue. -/
def cancelledInQueueExample : OrderBook :=
  (((empty.addOrder 1 100 10 Side.sell OrderType.Limit).addOrder 2 100 5 Side.buy
    OrderType.Limit).cancelOrder 2).2

/-- Example state: the buy 2 (price 100, quantity 5) was added and dropped by
`reset` before the buy worker popped it; then the sell 3 (price 100, quantity 5)
was added. -/
def resetInQueueExample : OrderBook :=
  ((empty.addOrder 2 100 5 Side.buy OrderType.Limit).reset).addOrder 3 100 5 Side.sell
    OrderType.Limit

end OrderBook

namespace OrderBook

/-- Example state: the buy 1 (price 101, quantity 5) rests and has been
re-examined by the buy worker while the ask book was empty; then the buy 2
(price 100, quantity 5) and the sell 3 (price 100, quantity 5) were added.  The
buy queue holds the buy 2, the sell queue the sell 3. -/
def priorityExample : OrderBook :=
  (((empty.addOrder 1 101 5 Side.buy OrderType.Limit).processBuyOrdersStep).addOrder 2 100 5
    Side.buy OrderType.Limit).addOrder 3 100 5 Side.sell OrderType.Limit

end OrderBook

namespace OrderBook

/-- A sequence of worker steps: `true` stands for one iteration of the buy
worker, `false` for one iteration of the sell worker. -/
def runWorkers : List Bool → OrderBook → OrderBook
  | [], s => s
  | true :: steps, s => runWorkers steps s.processBuyOrdersStep
  | false :: steps, s => runWorkers steps s.processSellOrdersStep

/-- The state right after a Limit buy `b` and a Limit sell `a` at the same price
`p` were added to the empty book `s0` (at the pointers `s0.heap.length` and the
next one): both rest, both are indexed and queued, nothing has traded. -/
def TwoResting (s0 : OrderBook) (b a p q1 q2 : Int) (u : OrderBook) : Prop :=
  u.buyOrders_ = [(p, [s0.heap.length])] ∧ u.sellOrders_ = [(p, [s0.heap.length + 1])] ∧
  u.activeOrders_ = [(a, s0.heap.length + 1), (b, s0.heap.length)] ∧
  u.buyQueue_ = [s0.heap.length] ∧ u.sellQueue_ = [s0.heap.length + 1] ∧
  u.trades = s0.trades ∧
  u.deref s0.heap.length = Order.mk OrderType.Limit b p q1 Side.buy 0 ∧
  u.deref (s0.heap.length + 1) = Order.mk OrderType.Limit a p q2 Side.sell 0

/-- The states after the two orders traded: one trade, the order with the
larger quantity rests with the difference, an order filled completely is gone
from its side book and from the index, and at most one of the two is still
queued. -/
def TwoTraded (s0 : OrderBook) (b a p q1 q2 : Int) (u : OrderBook) : Prop :=
  u.trades = s0.trades ++ [Trade.mk b a (min q1 q2) p] ∧
  u.buyOrders_ = (if q1 ≤ q2 then [] else [(p, [s0.heap.length])]) ∧
  u.sellOrders_ = (if q2 ≤ q1 then [] else [(p, [s0.heap.length + 1])]) ∧
  u.activeOrders_ = (if q2 ≤ q1 then [] else [(a, s0.heap.length + 1)]) ++
    (if q1 ≤ q2 then [] else [(b, s0.heap.length)]) ∧
  u.deref s0.heap.length = Order.mk OrderType.Limit b p (q1 - min q1 q2) Side.buy 0 ∧
  u.deref (s0.heap.length + 1) = Order.mk OrderType.Limit a p (q2 - min q1 q2) Side.sell 0 ∧
  ((u.buyQueue_ = [] ∧ u.sellQueue_ = [s0.heap.length + 1]) ∨
   (u.buyQueue_ = [s0.heap.length] ∧ u.sellQueue_ = []) ∨
   (u.buyQueue_ = [] ∧ u.sellQueue_ = []))

end OrderBook

namespace OrderBook

/-- The scenario of two crossing Limit orders at one price: on the state `s0`
the buy `b` (quantity `q1`) and the sell `a` (quantity `q2`) are added at price
`p`, then the workers take the steps `steps`. -/
def crossingPair (s0 : OrderBook) (b a p q1 q2 : Int) (steps : List Bool) : OrderBook :=
  runWorkers steps
    ((s0.addOrder b p q1 Side.buy OrderType.Limit).addOrder a p q2 Side.sell OrderType.Limit)

end OrderBook

/-! ### The stop-order scheduler (`StopOrderScheduler.cpp`) -/

namespace StopOrderScheduler

/-- The body of the `for` loop of `StopOrderScheduler::run` for the table entry
that holds `order`: the trigger test and, if it succeeds, the promotion to
Market and the call of `processOrder`.  The first component tells whether the
entry is erased from `pendingStopOrders_`, the second is the order book
afterwards. -/
def examine (ob : OrderBook) (order : OrderPointer) : Bool × OrderBook :=
  if (ob.deref order).side = Side.buy ∧ ob.getBestAsk ≥ (ob.deref order).stopPrice then
    (true, (ob.setOrderType order OrderType.Market).processOrder order)
  else if (ob.deref order).side = Side.sell ∧ ob.getBestBid ≤ (ob.deref order).stopPrice then
    (true, (ob.setOrderType order OrderType.Market).processOrder order)
  else (false, ob)

/-- The `for` loop of `StopOrderScheduler::run` over the entries of
`pendingStopOrders_` (an `unordered_map<int, OrderPointer>`, listed in
iteration order): an activated entry is erased, any other entry is kept.  The
result is the table and the order book after the pass. -/
def poll : List (Int × OrderPointer) → OrderBook → List (Int × OrderPointer) × OrderBook
  | [], ob => ([], ob)
  | e :: rest, ob =>
    if (examine ob e.2).1 then poll rest (examine ob e.2).2
    else (e :: (poll rest (examine ob e.2).2).1, (poll rest (examine ob e.2).2).2)

/-- The state of `testStopOrder` when the scheduler polls: the buy stop 30
(price 140, quantity 10, stop price 150) is pending, the sell 31 (price 155,
quantity 10) rests. -/
def stopExample : OrderBook :=
  (OrderBook.empty.alloc (Order.mk OrderType.Stop 30 140 10 Side.buy 150)).addOrder 31 155 10
    Side.sell OrderType.Limit

end StopOrderScheduler

namespace OrderBook

/-- Example state: the buy 1 (price 100, quantity 0) rests at the head of the
best bid level and the buy 2 (price 100, quantity 5) behind it. -/
def staleBidExample : OrderBook :=
  (empty.addOrder 1 100 0 Side.buy OrderType.Limit).addOrder 2 100 5 Side.buy OrderType.Limit

/-- Example state, the mirror image of `staleBidExample`: the sell 1 (price 100,
quantity 0) rests at the head of the best ask level and the sell 2 (price 100,
quantity 5) behind it. -/
def staleAskExample : OrderBook :=
  (empty.addOrder 1 100 0 Side.sell OrderType.Limit).addOrder 2 100 5 Side.sell OrderType.Limit

end OrderBook

namespace StopOrderScheduler

/-- Example state for a poll with two pending stops: the buy stops 40 and 41
(price 140, quantity 10, stop price 150 each) are allocated at the pointers 0
and 1, and the sell 31 (price 155, quantity 10) rests alone on the ask side. -/
def twoStopsExample : OrderBook :=
  ((OrderBook.empty.alloc (Order.mk OrderType.Stop 40 140 10 Side.buy 150)).alloc
    (Order.mk OrderType.Stop 41 140 10 Side.buy 150)).addOrder 31 155 10 Side.sell
    OrderType.Limit

end StopOrderScheduler

namespace OrderBook

/-- The state `staleAskExample` with an incoming Market buy 3 of quantity 5
allocated at the pointer 2, as `addOrder` hands it to `matchBuyOrder`. -/
def staleAskIncoming : OrderBook :=
  staleAskExample.alloc (Order.mk OrderType.Market 3 100 5 Side.buy 0)

end OrderBook

namespace OrderBook

/-- Example state: the bids 1 (price 101, quantity 3), 2 (price 101, quantity 4)
and 3 (price 100, quantity 5) rest, in that order of arrival. -/
def bidLadderExample : OrderBook :=
  ((empty.addOrder 1 101 3 Side.buy OrderType.Limit).addOrder 2 101 4 Side.buy
    OrderType.Limit).addOrder 3 100 5 Side.buy OrderType.Limit

end OrderBook

namespace OrderBook

/-- Example state with a stale index entry: the sell 1 (price 100, quantity 0)
was added and then popped as a zero-quantity head by the Market buy 2, which
does not touch the index; nothing rests, yet the index still maps 1 to its
record. -/
def staleIndexExample : OrderBook :=
  (empty.addOrder 1 100 0 Side.sell OrderType.Limit).addOrder 2 0 5 Side.buy OrderType.Market

end OrderBook

namespace OrderBook

/-- States reachable from the empty book through the programmatic interface of
the spec: `addOrder` with one of the disciplines Limit, Market and IOC (a Stop
order goes to the stop scheduler, never to `addOrder`), `cancelOrder`,
`modifyOrder` and `reset`, each with arbitrary further arguments, worker steps,
and the match of a record of its own that the stop scheduler hands to
`processOrder` (the record is allocated outside the book; it enters the store
here when it is matched). -/
inductive Admitted : OrderBook → Prop
  | init : Admitted empty
  | add (s : OrderBook) (orderId price quantity : Int) (side : Side) (orderType : OrderType) :
      Admitted s → orderType ≠ OrderType.Stop →
      Admitted (s.addOrder orderId price quantity side orderType)
  | cancel (s : OrderBook) (orderId : Int) : Admitted s → Admitted (s.cancelOrder orderId).2
  | modify (s : OrderBook) (orderId newQuantity newPrice : Int) :
      Admitted s → Admitted (s.modifyOrder orderId newQuantity newPrice).2
  | reset (s : OrderBook) : Admitted s → Admitted s.reset
  | buyWorker (s : OrderBook) : Admitted s → Admitted s.processBuyOrdersStep
  | sellWorker (s : OrderBook) : Admitted s → Admitted s.processSellOrdersStep
  | stop (s : OrderBook) (o : Order) :
      Admitted s → Admitted ((s.alloc o).processOrder s.heap.length)

/-- Every order of the index has the discipline Limit. -/
def IndexedLimit (s : OrderBook) : Prop :=
  ∀ e ∈ s.activeOrders_, (s.deref e.2).orderType = OrderType.Limit

end OrderBook

namespace OrderBook

/-- Example state: the sells 11 (price 130, quantity 10) and 12 (price 125,
quantity 4) and the buy 13 (price 120, quantity 6) rest. -/
def modifyExample : OrderBook :=
  ((empty.addOrder 11 130 10 Side.sell OrderType.Limit).addOrder 12 125 4 Side.sell
    OrderType.Limit).addOrder 13 120 6 Side.buy OrderType.Limit

end OrderBook

namespace OrderBook

/-- The state with both ingress queues replaced; used to compare states that
differ only in their queues. -/
def withQueues (s : OrderBook) (qb qs : List OrderPointer) : OrderBook :=
  { s with buyQueue_ := qb, sellQueue_ := qs }

end OrderBook

/-- The engine together with its worker threads.  A worker runs
`if(buyQueue_.try_pop(order)) matchBuyOrder(order);`: the pop happens before
`matchBuyOrder` takes the engine mutex, so between the two the popped order sits
in the worker's local variable `order` while any other operation may run.
`buyPopped` and `sellPopped` list the orders held that way by the buy workers
and by the sell workers. -/
structure Engine where
  book : OrderBook
  buyPopped : List OrderPointer
  sellPopped : List OrderPointer
deriving DecidableEq

namespace Engine

/-- A freshly constructed engine: no worker holds an order. -/
def init : Engine := ⟨OrderBook.empty, [], []⟩

/-- The call `addOrder(...)` of a client; the workers keep what they hold. -/
def addOrder (e : Engine) (orderId price quantity : Int) (side : Side) (orderType : OrderType) :
    Engine :=
  { e with book := e.book.addOrder orderId price quantity side orderType }

/-- The call `cancelOrder(orderId)` of a client. -/
def cancelOrder (e : Engine) (orderId : Int) : Engine :=
  { e with book := (e.book.cancelOrder orderId).2 }

/-- The call `modifyOrder(orderId, newQuantity, newPrice)` of a client. -/
def modifyOrder (e : Engine) (orderId newQuantity newPrice : Int) : Engine :=
  { e with book := (e.book.modifyOrder orderId newQuantity newPrice).2 }

/-- The call `reset()` of a client. -/
def reset (e : Engine) : Engine := { e with book := e.book.reset }

/-- The call `processOrder(order)` of the stop scheduler for a record `o` of its
own; the record enters the store when it is matched. -/
def processStop (e : Engine) (o : Order) : Engine :=
  { e with book := (e.book.alloc o).processOrder e.book.heap.length }

/-- The call `buyQueue_.try_pop(order)` of a buy worker (line 307): when the
queue is empty nothing happens, otherwise the worker now holds the head. -/
def popBuy (e : Engine) : Engine :=
  match e.book.buyQueue_ with
  | [] => e
  | order :: rest => ⟨{ e.book with buyQueue_ := rest }, e.buyPopped ++ [order], e.sellPopped⟩

/-- The call `sellQueue_.try_pop(order)` of a sell worker (line 316). -/
def popSell (e : Engine) : Engine :=
  match e.book.sellQueue_ with
  | [] => e
  | order :: rest => ⟨{ e.book with sellQueue_ := rest }, e.buyPopped, e.sellPopped ++ [order]⟩

/-- The call `matchBuyOrder(order)` of the buy worker that holds `order`. -/
def matchBuy (e : Engine) (order : OrderPointer) : Engine :=
  ⟨e.book.matchBuyOrder order, e.buyPopped.erase order, e.sellPopped⟩

/-- The call `matchSellOrder(order)` of the sell worker that holds `order`. -/
def matchSell (e : Engine) (order : OrderPointer) : Engine :=
  ⟨e.book.matchSellOrder order, e.buyPopped, e.sellPopped.erase order⟩

/-- The book with the orders held by the workers put back in front of their
queues: the orders that still await their match. -/
def pending (e : Engine) : OrderBook :=
  e.book.withQueues (e.buyPopped ++ e.book.buyQueue_) (e.sellPopped ++ e.book.sellQueue_)

/-- Runs of the engine in which a worker's pop and its match call are separate
steps, so that any operation may come between them: `addOrder` with a positive
quantity, `cancelOrder`, `modifyOrder` with a positive new quantity, `reset`,
the match of a record of its own handed to `processOrder` by the stop
scheduler, and the pops and match calls of the workers. -/
inductive Interleaved : Engine → Prop
  | init : Interleaved Engine.init
  | add (e : Engine) (orderId price quantity : Int) (side : Side) (orderType : OrderType) :
      Interleaved e → 0 < quantity →
      Interleaved (e.addOrder orderId price quantity side orderType)
  | cancel (e : Engine) (orderId : Int) : Interleaved e → Interleaved (e.cancelOrder orderId)
  | modify (e : Engine) (orderId newQuantity newPrice : Int) :
      Interleaved e → 0 < newQuantity →
      Interleaved (e.modifyOrder orderId newQuantity newPrice)
  | reset (e : Engine) : Interleaved e → Interleaved e.reset
  | stop (e : Engine) (o : Order) : Interleaved e → Interleaved (e.processStop o)
  | popBuy (e : Engine) : Interleaved e → Interleaved e.popBuy
  | popSell (e : Engine) : Interleaved e → Interleaved e.popSell
  | matchBuy (e : Engine) (order : OrderPointer) :
      Interleaved e → order ∈ e.buyPopped → Interleaved (e.matchBuy order)
  | matchSell (e : Engine) (order : OrderPointer) :
      Interleaved e → order ∈ e.sellPopped → Interleaved (e.matchSell order)

/-- Example run: the buy 1 (price 101) was added and matched by the buy worker
while no sell rested; then the buy 2 and the sell 3 were added at price 100;
the sell worker has popped the sell 3 and the buy worker has popped the buy 2,
and neither has run its match call yet.  Both queues are empty. -/
def raceExample : Engine :=
  ((((((Engine.init.addOrder 1 101 5 Side.buy OrderType.Limit).popBuy).matchBuy 0).addOrder
    2 100 5 Side.buy OrderType.Limit).addOrder 3 100 5 Side.sell OrderType.Limit).popSell).popBuy

end Engine

namespace Engine

/-- Example run with an order of quantity 0: the buy 1 (price 101, quantity 0)
was added and matched by the buy worker; then the buy 2 and the sell 3 were
added at price 100 with quantity 5; the sell worker has popped and matched the
sell 3 (`tradeQty` is 0 against the head bid 1, so the loop breaks and the sell
rests), and the buy worker has popped the buy 2.  Both queues are empty. -/
def zeroQuantityExample : Engine :=
  (((((((Engine.init.addOrder 1 101 0 Side.buy OrderType.Limit).popBuy).matchBuy 0).addOrder
    2 100 5 Side.buy OrderType.Limit).addOrder 3 100 5 Side.sell OrderType.Limit).popSell).matchSell
    2).popBuy

end Engine

/-! ## Theorems -/

namespace OrderBook

/-! ### The store -/

theorem deref_setQuantity (s : OrderBook) (p p1 : OrderPointer) (q : Int) :
    (s.setQuantity p q).deref p1 =
      if p1 = p ∧ p < s.heap.length then { s.deref p with quantity := q } else s.deref p1 := by
  unfold setQuantity deref
  simp only [List.getElem?_set]
  by_cases h : p = p1
  · subst h
    by_cases h2 : p < s.heap.length
    · simp [h2]
    · have h3 : s.heap[p]? = none := List.getElem?_eq_none (Nat.le_of_not_lt h2)
      simp [h2, h3]
  · have h3 : ¬ p1 = p := fun e => h e.symm
    simp [h, h3]

theorem deref_setQuantity_quantity_self (s : OrderBook) (p : OrderPointer) (q : Int)
    (h : p < s.heap.length) : ((s.setQuantity p q).deref p).quantity = q := by
  rw [deref_setQuantity]; simp [h]

theorem deref_setQuantity_of_ne (s : OrderBook) (p p1 : OrderPointer) (q : Int) (h : p1 ≠ p) :
    (s.setQuantity p q).deref p1 = s.deref p1 := by
  rw [deref_setQuantity]; simp [h]

theorem deref_invalid (s : OrderBook) (p : OrderPointer) (h : s.heap.length ≤ p) :
    s.deref p = default := by
  unfold deref; rw [List.getElem?_eq_none h]; rfl

theorem deref_alloc_new (s : OrderBook) (o : Order) : (s.alloc o).deref s.heap.length = o := by
  unfold alloc deref; simp

theorem deref_alloc_old (s : OrderBook) (o : Order) (p : OrderPointer) (h : p < s.heap.length) :
    (s.alloc o).deref p = s.deref p := by
  unfold alloc deref; simp [List.getElem?_append_left h]

/-! ### Price maps -/

theorem mapFind_mapAssign_self (m : PriceMap) (k : Int) (v : OrderList) :
    mapFind (mapAssign m k v) k = if (mapFind m k).isSome then some v else none := by
  induction m with
  | nil => simp [mapAssign, mapFind]
  | cons e rest ih =>
    obtain ⟨k1, l⟩ := e
    by_cases h : k1 = k
    · simp [mapAssign, mapFind, h]
    · simp [mapAssign, mapFind, h, ih]

theorem mapFind_mapAssign_of_ne (m : PriceMap) (k k1 : Int) (v : OrderList) (h : k1 ≠ k) :
    mapFind (mapAssign m k v) k1 = mapFind m k1 := by
  induction m with
  | nil => simp [mapAssign, mapFind]
  | cons e rest ih =>
    obtain ⟨k2, l⟩ := e
    simp only [mapAssign]
    split_ifs with h2
    · subst h2
      have : ¬ k2 = k1 := fun e => h e.symm
      simp [mapFind, this]
    · simp only [mapFind, ih]

theorem mapFind_mapInsert_self (before : Int → Int → Bool) (m : PriceMap) (k : Int)
    (v : OrderList) (h : mapFind m k = none) : mapFind (mapInsert before m k v) k = some v := by
  induction m with
  | nil => simp [mapInsert, mapFind]
  | cons e rest ih =>
    obtain ⟨k1, l⟩ := e
    by_cases h1 : k1 = k
    · simp [mapFind, h1] at h
    · simp only [mapFind, h1, if_false] at h
      by_cases h2 : before k k1 = true
      · simp [mapInsert, mapFind, h2]
      · simp [mapInsert, mapFind, h2, h1, ih h]

theorem mapFind_mapInsert_of_ne (before : Int → Int → Bool) (m : PriceMap) (k k1 : Int)
    (v : OrderList) (h : k1 ≠ k) : mapFind (mapInsert before m k v) k1 = mapFind m k1 := by
  have hk : ¬ k = k1 := fun e => h e.symm
  induction m with
  | nil => simp [mapInsert, mapFind, hk]
  | cons e rest ih =>
    obtain ⟨k2, l⟩ := e
    simp only [mapInsert]
    split_ifs with h2
    · simp [mapFind, hk]
    · simp only [mapFind, ih]

theorem mapFind_mapPushBack_self (before : Int → Int → Bool) (m : PriceMap) (k : Int)
    (o : OrderPointer) :
    mapFind (mapPushBack before m k o) k = some ((mapFind m k).getD [] ++ [o]) := by
  unfold mapPushBack
  cases h : mapFind m k with
  | none => simp [mapFind_mapInsert_self before m k [o] h]
  | some l => simp [mapFind_mapAssign_self, h]

theorem mapFind_mapPushBack_of_ne (before : Int → Int → Bool) (m : PriceMap) (k k1 : Int)
    (o : OrderPointer) (h : k1 ≠ k) : mapFind (mapPushBack before m k o) k1 = mapFind m k1 := by
  unfold mapPushBack
  cases h2 : mapFind m k with
  | none => simp [mapFind_mapInsert_of_ne before m k k1 [o] h]
  | some l => simp [mapFind_mapAssign_of_ne m k k1 _ h]

theorem mapErase_mapAssign (m : PriceMap) (k : Int) (v : OrderList) :
    mapErase (mapAssign m k v) k = mapErase m k := by
  induction m with
  | nil => simp [mapAssign, mapErase]
  | cons e rest ih =>
    obtain ⟨k1, l⟩ := e
    by_cases h : k1 = k
    · simp [mapAssign, mapErase, h]
    · simp [mapAssign, mapErase, h, ih]

theorem mapErase_mapInsert (before : Int → Int → Bool) (m : PriceMap) (k : Int) (v : OrderList) :
    mapErase (mapInsert before m k v) k = mapErase m k := by
  induction m with
  | nil => simp [mapInsert, mapErase]
  | cons e rest ih =>
    obtain ⟨k1, l⟩ := e
    simp only [mapInsert]
    split_ifs with h2
    · simp [mapErase]
    · simp only [mapErase, ih]

theorem mapErase_mapPushBack (before : Int → Int → Bool) (m : PriceMap) (k : Int)
    (o : OrderPointer) : mapErase (mapPushBack before m k o) k = mapErase m k := by
  unfold mapPushBack
  cases h2 : mapFind m k with
  | none => simp [mapErase_mapInsert]
  | some l => simp [mapErase_mapAssign]

theorem mapFind_mapErase_self (m : PriceMap) (k : Int) : mapFind (mapErase m k) k = none := by
  induction m with
  | nil => simp [mapErase, mapFind]
  | cons e rest ih =>
    obtain ⟨k1, l⟩ := e
    by_cases h : k1 = k <;> simp [mapErase, mapFind, h, ih]

theorem mapFind_mapErase_of_ne (m : PriceMap) (k k1 : Int) (h : k1 ≠ k) :
    mapFind (mapErase m k) k1 = mapFind m k1 := by
  induction m with
  | nil => simp [mapErase, mapFind]
  | cons e rest ih =>
    obtain ⟨k2, l⟩ := e
    simp only [mapErase]
    split_ifs with h2
    · subst h2
      have : ¬ k2 = k1 := fun e => h e.symm
      simp [mapFind, this, ih]
    · simp only [mapFind, ih]

theorem mapErase_of_find_none (m : PriceMap) (k : Int) (h : mapFind m k = none) :
    mapErase m k = m := by
  induction m with
  | nil => simp [mapErase]
  | cons e rest ih =>
    obtain ⟨k1, l⟩ := e
    by_cases h1 : k1 = k
    · simp [mapFind, h1] at h
    · simp only [mapFind, h1, if_false] at h
      simp [mapErase, h1, ih h]

/-! ### The index -/

theorem activeFind_activeErase_self (a : ActiveOrdersMap) (k : Int) :
    activeFind (activeErase a k) k = none := by
  induction a with
  | nil => simp [activeErase, activeFind]
  | cons e rest ih =>
    obtain ⟨k1, l⟩ := e
    by_cases h : k1 = k <;> simp [activeErase, activeFind, h, ih]

theorem activeFind_activeErase_of_ne (a : ActiveOrdersMap) (k k1 : Int) (h : k1 ≠ k) :
    activeFind (activeErase a k) k1 = activeFind a k1 := by
  induction a with
  | nil => simp [activeErase, activeFind]
  | cons e rest ih =>
    obtain ⟨k2, l⟩ := e
    simp only [activeErase]
    split_ifs with h2
    · subst h2
      have : ¬ k2 = k1 := fun e => h e.symm
      simp [activeFind, this, ih]
    · simp only [activeFind, ih]

theorem activeErase_of_find_none (a : ActiveOrdersMap) (k : Int) (h : activeFind a k = none) :
    activeErase a k = a := by
  induction a with
  | nil => simp [activeErase]
  | cons e rest ih =>
    obtain ⟨k1, l⟩ := e
    by_cases h1 : k1 = k
    · simp [activeFind, h1] at h
    · simp only [activeFind, h1, if_false] at h
      simp [activeErase, h1, ih h]

theorem activeErase_idem (a : ActiveOrdersMap) (k : Int) :
    activeErase (activeErase a k) k = activeErase a k :=
  activeErase_of_find_none _ _ (activeFind_activeErase_self a k)

end OrderBook

/-! ### Removal from a side book -/

theorem mapFind_mem (m : PriceMap) (k : Int) (l : OrderList) (h : mapFind m k = some l) :
    (k, l) ∈ m := by
  induction m with
  | nil => simp [mapFind] at h
  | cons e rest ih =>
    obtain ⟨k1, l1⟩ := e
    simp only [mapFind] at h
    split_ifs at h with h1
    · simp only [Option.some.injEq] at h
      subst h1; subst h
      exact List.mem_cons_self _ _
    · exact List.mem_cons_of_mem _ (ih h)

theorem levelSub_refl (m : PriceMap) : LevelSub m m :=
  ⟨List.Sublist.refl _, fun e he => ⟨e, he, rfl, List.Sublist.refl _⟩⟩

theorem levelSub_trans {m2 m1 m : PriceMap} (h2 : LevelSub m2 m1) (h1 : LevelSub m1 m) :
    LevelSub m2 m := by
  refine ⟨h2.1.trans h1.1, fun e he => ?_⟩
  obtain ⟨e1, he1, hk1, hs1⟩ := h2.2 e he
  obtain ⟨e0, he0, hk0, hs0⟩ := h1.2 e1 he1
  exact ⟨e0, he0, hk1.trans hk0, hs1.trans hs0⟩

theorem mapErase_sublist (m : PriceMap) (k : Int) : (mapErase m k).Sublist m := by
  induction m with
  | nil => simp [mapErase]
  | cons e rest ih =>
    obtain ⟨k1, l⟩ := e
    simp only [mapErase]
    split_ifs with h
    · exact ih.cons _
    · exact ih.cons₂ _

theorem levelSub_of_sublist {m1 m : PriceMap} (h : m1.Sublist m) : LevelSub m1 m :=
  ⟨h.map _, fun e he => ⟨e, h.subset he, rfl, List.Sublist.refl _⟩⟩

theorem levelSub_mapErase (m : PriceMap) (k : Int) : LevelSub (mapErase m k) m :=
  levelSub_of_sublist (mapErase_sublist m k)

theorem nonemptyLevels_of_sublist {m1 m : PriceMap} (h : m1.Sublist m) (hn : NonemptyLevels m) :
    NonemptyLevels m1 := fun e he => hn e (h.subset he)

theorem nonemptyLevels_mapErase {m : PriceMap} (k : Int) (hn : NonemptyLevels m) :
    NonemptyLevels (mapErase m k) := nonemptyLevels_of_sublist (mapErase_sublist m k) hn

theorem mapAssign_keys (m : PriceMap) (k : Int) (v : OrderList) :
    (mapAssign m k v).map Prod.fst = m.map Prod.fst := by
  induction m with
  | nil => simp [mapAssign]
  | cons e rest ih =>
    obtain ⟨k1, l⟩ := e
    simp only [mapAssign]
    split_ifs with h
    · simp
    · simp [ih]

theorem mem_mapAssign (m : PriceMap) (k : Int) (v : OrderList) (e : Int × OrderList)
    (h : e ∈ mapAssign m k v) : e ∈ m ∨ e = (k, v) := by
  induction m with
  | nil => simp [mapAssign] at h
  | cons e1 rest ih =>
    obtain ⟨k1, l⟩ := e1
    simp only [mapAssign] at h
    split_ifs at h with h1
    · rcases List.mem_cons.1 h with h2 | h2
      · right; rw [h2, h1]
      · left; exact List.mem_cons_of_mem _ h2
    · rcases List.mem_cons.1 h with h2 | h2
      · left; rw [h2]; exact List.mem_cons_self _ _
      · rcases ih h2 with h3 | h3
        · left; exact List.mem_cons_of_mem _ h3
        · right; exact h3

theorem levelSub_mapAssign (m : PriceMap) (k : Int) (l v : OrderList)
    (hf : mapFind m k = some l) (hv : v.Sublist l) : LevelSub (mapAssign m k v) m := by
  refine ⟨by rw [mapAssign_keys], fun e he => ?_⟩
  rcases mem_mapAssign m k v e he with h | h
  · exact ⟨e, h, rfl, List.Sublist.refl _⟩
  · exact ⟨(k, l), mapFind_mem m k l hf, by rw [h], by rw [h]; exact hv⟩

theorem nonemptyLevels_mapAssign {m : PriceMap} (k : Int) (v : OrderList) (hv : v ≠ [])
    (hn : NonemptyLevels m) : NonemptyLevels (mapAssign m k v) := by
  intro e he
  rcases mem_mapAssign m k v e he with h | h
  · exact hn e h
  · rw [h]; exact hv

theorem levelSub_cons_tail (k : Int) (l : OrderList) (rest : PriceMap) :
    LevelSub ((k, l.tail) :: rest) ((k, l) :: rest) := by
  refine ⟨by simp, fun e he => ?_⟩
  rcases List.mem_cons.1 he with h | h
  · exact ⟨(k, l), List.mem_cons_self _ _, by rw [h], by rw [h]; exact List.tail_sublist l⟩
  · exact ⟨e, List.mem_cons_of_mem _ h, rfl, List.Sublist.refl _⟩

theorem levelSub_popFront (m : PriceMap) : LevelSub (popFront m) m := by
  cases m with
  | nil => exact levelSub_refl _
  | cons e rest =>
    obtain ⟨k, l⟩ := e
    simp only [popFront]
    split_ifs with h
    · exact levelSub_trans (levelSub_mapErase _ k) (levelSub_cons_tail k l rest)
    · exact levelSub_cons_tail k l rest

theorem nonemptyLevels_popFront {m : PriceMap} (hn : NonemptyLevels m) :
    NonemptyLevels (popFront m) := by
  cases m with
  | nil => exact hn
  | cons e rest =>
    obtain ⟨k, l⟩ := e
    have hrest : NonemptyLevels rest := fun e he => hn e (List.mem_cons_of_mem _ he)
    simp only [popFront]
    split_ifs with h
    · simp only [mapErase, if_true]
      exact nonemptyLevels_mapErase k hrest
    · intro e he
      rcases List.mem_cons.1 he with h1 | h1
      · rw [h1]; simpa using h
      · exact hrest e h1

namespace OrderBook

theorem LevelSub_removeFromLevel (s : OrderBook) (m : PriceMap) (price orderId : Int) :
    LevelSub (removeFromLevel s m price orderId) m := by
  unfold removeFromLevel
  cases hf : mapFind m price with
  | none => exact levelSub_refl _
  | some lst =>
    simp only
    split_ifs with h
    · exact levelSub_mapErase _ _
    · exact levelSub_mapAssign m price lst _ hf (List.filter_sublist _)

theorem NonemptyLevels_removeFromLevel (s : OrderBook) (m : PriceMap) (price orderId : Int)
    (hn : NonemptyLevels m) : NonemptyLevels (removeFromLevel s m price orderId) := by
  unfold removeFromLevel
  cases hf : mapFind m price with
  | none => exact hn
  | some lst =>
    simp only
    split_ifs with h
    · exact nonemptyLevels_mapErase _ hn
    · exact nonemptyLevels_mapAssign _ _ (by simpa using h) hn

end OrderBook

theorem activeErase_sublist (a : ActiveOrdersMap) (k : Int) : (activeErase a k).Sublist a := by
  induction a with
  | nil => simp [activeErase]
  | cons e rest ih =>
    obtain ⟨k1, l⟩ := e
    simp only [activeErase]
    split_ifs with h
    · exact ih.cons _
    · exact ih.cons₂ _

namespace OrderBook

/-! ### Quantity writes keep the static fields -/

theorem sameStatic_refl (s : OrderBook) : SameStatic s s := ⟨rfl, fun _ => rfl⟩

theorem sameStatic_trans {s s1 s2 : OrderBook} (h1 : SameStatic s s1) (h2 : SameStatic s1 s2) :
    SameStatic s s2 :=
  ⟨h2.1.trans h1.1, fun p => (h2.2 p).trans (h1.2 p)⟩

theorem sameStatic_setQuantity (s : OrderBook) (p : OrderPointer) (q : Int) :
    SameStatic s (s.setQuantity p q) := by
  refine ⟨by simp [setQuantity], fun p1 => ?_⟩
  rw [deref_setQuantity]
  split_ifs with h
  · rw [h.1]; rfl
  · rfl

theorem sameStatic_of_heap_eq {s s1 : OrderBook} (h : s1.heap = s.heap) : SameStatic s s1 :=
  ⟨by rw [h], fun p => by unfold deref; rw [h]⟩

theorem SameStatic.orderId {s s1 : OrderBook} (h : SameStatic s s1) (p : OrderPointer) :
    (s1.deref p).orderId = (s.deref p).orderId := by
  simpa [Order.static] using congrArg Order.orderId (h.2 p)

theorem SameStatic.price {s s1 : OrderBook} (h : SameStatic s s1) (p : OrderPointer) :
    (s1.deref p).price = (s.deref p).price := by
  simpa [Order.static] using congrArg Order.price (h.2 p)

theorem SameStatic.side {s s1 : OrderBook} (h : SameStatic s s1) (p : OrderPointer) :
    (s1.deref p).side = (s.deref p).side := by
  simpa [Order.static] using congrArg Order.side (h.2 p)

theorem SameStatic.orderType {s s1 : OrderBook} (h : SameStatic s s1) (p : OrderPointer) :
    (s1.deref p).orderType = (s.deref p).orderType := by
  simpa [Order.static] using congrArg Order.orderType (h.2 p)

/-! ### Matching only shrinks the books -/

theorem shrinks_refl (s : OrderBook) : Shrinks s s :=
  ⟨sameStatic_refl s, levelSub_refl _, levelSub_refl _, id, id, List.Sublist.refl _, rfl, rfl,
    List.prefix_refl _⟩

theorem shrinks_trans {s s1 s2 : OrderBook} (h1 : Shrinks s s1) (h2 : Shrinks s1 s2) :
    Shrinks s s2 := by
  obtain ⟨a1, b1, c1, d1, e1, f1, g1, i1, j1⟩ := h1
  obtain ⟨a2, b2, c2, d2, e2, f2, g2, i2, j2⟩ := h2
  exact ⟨sameStatic_trans a1 a2, levelSub_trans b2 b1, levelSub_trans c2 c1, fun h => d2 (d1 h),
    fun h => e2 (e1 h), f2.trans f1, g2.trans g1, i2.trans i1, j1.trans j2⟩

theorem shrinks_setQuantity (s : OrderBook) (p : OrderPointer) (q : Int) :
    Shrinks s (s.setQuantity p q) :=
  ⟨sameStatic_setQuantity s p q, levelSub_refl _, levelSub_refl _, id, id, List.Sublist.refl _,
    rfl, rfl, List.prefix_refl _⟩

theorem shrinks_subQuantity (s : OrderBook) (p : OrderPointer) (d : Int) :
    Shrinks s (s.subQuantity p d) := shrinks_setQuantity s p _

theorem shrinks_trades (s : OrderBook) (t : List Trade) :
    Shrinks s { s with trades := s.trades ++ t } :=
  ⟨sameStatic_of_heap_eq rfl, levelSub_refl _, levelSub_refl _, id, id, List.Sublist.refl _,
    rfl, rfl, List.prefix_append _ _⟩

theorem shrinks_popAsk (s : OrderBook) :
    Shrinks s { s with sellOrders_ := popFront s.sellOrders_ } :=
  ⟨sameStatic_of_heap_eq rfl, levelSub_refl _, levelSub_popFront _, id, nonemptyLevels_popFront,
    List.Sublist.refl _, rfl, rfl, List.prefix_refl _⟩

theorem shrinks_popBid (s : OrderBook) :
    Shrinks s { s with buyOrders_ := popFront s.buyOrders_ } :=
  ⟨sameStatic_of_heap_eq rfl, levelSub_popFront _, levelSub_refl _, nonemptyLevels_popFront, id,
    List.Sublist.refl _, rfl, rfl, List.prefix_refl _⟩

theorem shrinks_retireAskHead (s : OrderBook) (p : OrderPointer) :
    Shrinks s (s.retireAskHead p) := by
  unfold retireAskHead
  split_ifs with h
  · exact ⟨sameStatic_of_heap_eq rfl, levelSub_refl _, levelSub_popFront _, id,
      nonemptyLevels_popFront, activeErase_sublist _ _, rfl, rfl, List.prefix_refl _⟩
  · exact shrinks_refl s

theorem shrinks_retireBidHead (s : OrderBook) (p : OrderPointer) :
    Shrinks s (s.retireBidHead p) := by
  unfold retireBidHead
  split_ifs with h
  · exact ⟨sameStatic_of_heap_eq rfl, levelSub_popFront _, levelSub_refl _,
      nonemptyLevels_popFront, id, activeErase_sublist _ _, rfl, rfl, List.prefix_refl _⟩
  · exact shrinks_refl s

theorem shrinks_retireIncomingBuy (s : OrderBook) (p : OrderPointer) :
    Shrinks s (s.retireIncomingBuy p) := by
  unfold retireIncomingBuy
  split_ifs with h
  · exact ⟨sameStatic_of_heap_eq rfl, LevelSub_removeFromLevel _ _ _ _, levelSub_refl _,
      NonemptyLevels_removeFromLevel _ _ _ _, id, activeErase_sublist _ _, rfl, rfl,
      List.prefix_refl _⟩
  · exact shrinks_refl s

theorem shrinks_retireIncomingSell (s : OrderBook) (p : OrderPointer) :
    Shrinks s (s.retireIncomingSell p) := by
  unfold retireIncomingSell
  split_ifs with h
  · exact ⟨sameStatic_of_heap_eq rfl, levelSub_refl _, LevelSub_removeFromLevel _ _ _ _, id,
      NonemptyLevels_removeFromLevel _ _ _ _, activeErase_sublist _ _, rfl, rfl,
      List.prefix_refl _⟩
  · exact shrinks_refl s

theorem shrinks_tradeBuy (s : OrderBook) (b sp : OrderPointer) (k q : Int) :
    Shrinks s (s.tradeBuy b sp k q) := by
  unfold tradeBuy
  exact shrinks_trans (shrinks_trans (shrinks_trans (shrinks_trans (shrinks_trades s _)
    (shrinks_subQuantity _ _ _)) (shrinks_subQuantity _ _ _)) (shrinks_retireAskHead _ _))
    (shrinks_retireIncomingBuy _ _)

theorem shrinks_tradeSell (s : OrderBook) (sp b : OrderPointer) (k q : Int) :
    Shrinks s (s.tradeSell sp b k q) := by
  unfold tradeSell
  exact shrinks_trans (shrinks_trans (shrinks_trans (shrinks_trans (shrinks_trades s _)
    (shrinks_subQuantity _ _ _)) (shrinks_subQuantity _ _ _)) (shrinks_retireBidHead _ _))
    (shrinks_retireIncomingSell _ _)

/-! ### Case analysis of one loop iteration -/

theorem matchBuyStep_some {s s1 : OrderBook} {b : OrderPointer}
    (h : matchBuyStep s b = some s1) :
    ∃ bestAsk sp tl rest, s.sellOrders_ = (bestAsk, sp :: tl) :: rest ∧
      0 < (s.deref b).quantity ∧
      ((s.deref b).orderType = OrderType.Market ∨ bestAsk ≤ (s.deref b).price) ∧
      (((s.deref sp).quantity ≤ 0 ∧ s1 = { s with sellOrders_ := popFront s.sellOrders_ }) ∨
       (0 < (s.deref sp).quantity ∧
        s1 = s.tradeBuy b sp bestAsk (min (s.deref b).quantity (s.deref sp).quantity))) := by
  unfold matchBuyStep at h
  by_cases h1 : (s.deref b).quantity > 0
  · rw [if_pos h1] at h
    split at h
    · exact absurd h (by simp)
    · rename_i bestAsk sellList rest hs
      by_cases h2 : (s.deref b).orderType = OrderType.Market ∨ bestAsk ≤ (s.deref b).price
      · rw [if_pos h2] at h
        split at h
        · exact absurd h (by simp)
        · rename_i sp tl
          refine ⟨bestAsk, sp, tl, rest, hs, h1, h2, ?_⟩
          by_cases h3 : (s.deref sp).quantity ≤ 0
          · rw [if_pos h3] at h
            left; exact ⟨h3, (Option.some.inj h).symm⟩
          · rw [if_neg h3] at h
            by_cases h4 : min (s.deref b).quantity (s.deref sp).quantity ≤ 0
            · rw [if_pos h4] at h; exact absurd h (by simp)
            · rw [if_neg h4] at h
              right; exact ⟨lt_of_not_ge h3, (Option.some.inj h).symm⟩
      · rw [if_neg h2] at h; exact absurd h (by simp)
  · rw [if_neg h1] at h; exact absurd h (by simp)

theorem matchBuyStep_none {s : OrderBook} {b : OrderPointer} (h : matchBuyStep s b = none) :
    (s.deref b).quantity ≤ 0 ∨ s.sellOrders_ = [] ∨
    (∃ bestAsk l rest, s.sellOrders_ = (bestAsk, l) :: rest ∧
      (((s.deref b).orderType ≠ OrderType.Market ∧ (s.deref b).price < bestAsk) ∨ l = [])) := by
  unfold matchBuyStep at h
  by_cases h1 : (s.deref b).quantity > 0
  · rw [if_pos h1] at h
    split at h
    · right; left; assumption
    · rename_i bestAsk sellList rest hs
      right; right
      refine ⟨bestAsk, sellList, rest, hs, ?_⟩
      by_cases h2 : (s.deref b).orderType = OrderType.Market ∨ bestAsk ≤ (s.deref b).price
      · rw [if_pos h2] at h
        split at h
        · right; rfl
        · rename_i sp tl
          exfalso
          by_cases h3 : (s.deref sp).quantity ≤ 0
          · rw [if_pos h3] at h; exact absurd h (by simp)
          · rw [if_neg h3] at h
            by_cases h4 : min (s.deref b).quantity (s.deref sp).quantity ≤ 0
            · rcases min_choice (s.deref b).quantity (s.deref sp).quantity with h7 | h7 <;>
                rw [h7] at h4 <;> omega
            · rw [if_neg h4] at h; exact absurd h (by simp)
      · left
        simp only [not_or, not_le] at h2
        exact h2
  · left; exact le_of_not_gt h1

theorem matchSellStep_some {s s1 : OrderBook} {sp : OrderPointer}
    (h : matchSellStep s sp = some s1) :
    ∃ bestBid b tl rest, s.buyOrders_ = (bestBid, b :: tl) :: rest ∧
      0 < (s.deref sp).quantity ∧
      ((s.deref sp).orderType = OrderType.Market ∨ (s.deref sp).price ≤ bestBid) ∧
      0 < (s.deref b).quantity ∧
      s1 = s.tradeSell sp b bestBid (min (s.deref sp).quantity (s.deref b).quantity) := by
  unfold matchSellStep at h
  by_cases h1 : (s.deref sp).quantity > 0
  · rw [if_pos h1] at h
    split at h
    · exact absurd h (by simp)
    · rename_i bestBid buyList rest hs
      by_cases h2 : (s.deref sp).orderType = OrderType.Market ∨ bestBid ≥ (s.deref sp).price
      · rw [if_pos h2] at h
        split at h
        · exact absurd h (by simp)
        · rename_i b tl
          have h3 : ¬ (s.deref sp).quantity ≤ 0 := not_le.2 h1
          rw [if_neg h3] at h
          by_cases h4 : min (s.deref sp).quantity (s.deref b).quantity ≤ 0
          · rw [if_pos h4] at h; exact absurd h (by simp)
          · rw [if_neg h4] at h
            refine ⟨bestBid, b, tl, rest, hs, h1, h2, ?_, (Option.some.inj h).symm⟩
            by_contra h5
            exact h4 (le_trans (min_le_right _ _) (le_of_not_gt h5))
      · rw [if_neg h2] at h; exact absurd h (by simp)
  · rw [if_neg h1] at h; exact absurd h (by simp)

theorem matchSellStep_none {s : OrderBook} {sp : OrderPointer} (h : matchSellStep s sp = none) :
    (s.deref sp).quantity ≤ 0 ∨ s.buyOrders_ = [] ∨
    (∃ bestBid l rest, s.buyOrders_ = (bestBid, l) :: rest ∧
      (((s.deref sp).orderType ≠ OrderType.Market ∧ bestBid < (s.deref sp).price) ∨ l = [] ∨
       ∃ b tl, l = b :: tl ∧ (s.deref b).quantity ≤ 0)) := by
  unfold matchSellStep at h
  by_cases h1 : (s.deref sp).quantity > 0
  · rw [if_pos h1] at h
    split at h
    · right; left; assumption
    · rename_i bestBid buyList rest hs
      right; right
      refine ⟨bestBid, buyList, rest, hs, ?_⟩
      by_cases h2 : (s.deref sp).orderType = OrderType.Market ∨ bestBid ≥ (s.deref sp).price
      · rw [if_pos h2] at h
        split at h
        · right; left; rfl
        · rename_i b tl
          right; right
          refine ⟨b, tl, rfl, ?_⟩
          have h3 : ¬ (s.deref sp).quantity ≤ 0 := not_le.2 h1
          rw [if_neg h3] at h
          by_cases h4 : min (s.deref sp).quantity (s.deref b).quantity ≤ 0
          · rcases min_choice (s.deref sp).quantity (s.deref b).quantity with h7 | h7
            · rw [h7] at h4; exact absurd h4 h3
            · rw [h7] at h4; exact h4
          · rw [if_neg h4] at h; exact absurd h (by simp)
      · left
        simp only [not_or, not_le, ge_iff_le] at h2
        exact h2
  · left; exact le_of_not_gt h1

theorem shrinks_matchBuyStep {s s1 : OrderBook} {b : OrderPointer}
    (h : matchBuyStep s b = some s1) : Shrinks s s1 := by
  obtain ⟨k, sp, tl, rest, _, _, _, h4 | h4⟩ := matchBuyStep_some h
  · rw [h4.2]; exact shrinks_popAsk s
  · rw [h4.2]; exact shrinks_tradeBuy _ _ _ _ _

theorem shrinks_matchSellStep {s s1 : OrderBook} {sp : OrderPointer}
    (h : matchSellStep s sp = some s1) : Shrinks s s1 := by
  obtain ⟨k, b, tl, rest, _, _, _, _, h4⟩ := matchSellStep_some h
  rw [h4]; exact shrinks_tradeSell _ _ _ _ _

/-! ### Induction over the matching loops -/

theorem matchBuyLoop_induct (P : OrderBook → Prop) (b : OrderPointer)
    (hstep : ∀ s s1, P s → matchBuyStep s b = some s1 → P s1) :
    ∀ (n : Nat) (s : OrderBook), P s → P (matchBuyLoop n s b) := by
  intro n
  induction n with
  | zero => intro s hs; exact hs
  | succ n ih =>
    intro s hs
    simp only [matchBuyLoop]
    cases h : matchBuyStep s b with
    | none => exact hs
    | some s1 => exact ih s1 (hstep s s1 hs h)

theorem matchSellLoop_induct (P : OrderBook → Prop) (sp : OrderPointer)
    (hstep : ∀ s s1, P s → matchSellStep s sp = some s1 → P s1) :
    ∀ (n : Nat) (s : OrderBook), P s → P (matchSellLoop n s sp) := by
  intro n
  induction n with
  | zero => intro s hs; exact hs
  | succ n ih =>
    intro s hs
    simp only [matchSellLoop]
    cases h : matchSellStep s sp with
    | none => exact hs
    | some s1 => exact ih s1 (hstep s s1 hs h)

theorem shrinks_matchBuyLoop (n : Nat) (s : OrderBook) (b : OrderPointer) :
    Shrinks s (matchBuyLoop n s b) :=
  matchBuyLoop_induct (fun t => Shrinks s t) b
    (fun _ _ ht hstep => shrinks_trans ht (shrinks_matchBuyStep hstep)) n s (shrinks_refl s)

theorem shrinks_matchSellLoop (n : Nat) (s : OrderBook) (sp : OrderPointer) :
    Shrinks s (matchSellLoop n s sp) :=
  matchSellLoop_induct (fun t => Shrinks s t) sp
    (fun _ _ ht hstep => shrinks_trans ht (shrinks_matchSellStep hstep)) n s (shrinks_refl s)

theorem shrinks_matchBuyOrder (s : OrderBook) (b : OrderPointer) :
    Shrinks s (s.matchBuyOrder b) := shrinks_matchBuyLoop _ s b

theorem shrinks_matchSellOrder (s : OrderBook) (sp : OrderPointer) :
    Shrinks s (s.matchSellOrder sp) := shrinks_matchSellLoop _ s sp

theorem shrinks_processOrder (s : OrderBook) (p : OrderPointer) :
    Shrinks s (s.processOrder p) := by
  unfold processOrder
  split_ifs
  · exact shrinks_matchBuyOrder s p
  · exact shrinks_matchSellOrder s p
  · exact shrinks_refl s

end OrderBook

namespace OrderBook

/-! ### Effect of one trade on each component -/

theorem deref_congr {s s1 : OrderBook} (h : s1.heap = s.heap) (p : OrderPointer) :
    s1.deref p = s.deref p := by unfold deref; rw [h]

theorem valid_of_quantity_ne {s : OrderBook} {p : OrderPointer} (h : (s.deref p).quantity ≠ 0) :
    p < s.heap.length := by
  by_contra hc
  rw [deref_invalid s p (Nat.le_of_not_lt hc)] at h
  exact h rfl

theorem valid_of_quantity_pos {s : OrderBook} {p : OrderPointer} (h : 0 < (s.deref p).quantity) :
    p < s.heap.length := valid_of_quantity_ne (ne_of_gt h)

theorem deref_subQuantity_self (s : OrderBook) (p : OrderPointer) (d : Int)
    (h : p < s.heap.length) :
    ((s.subQuantity p d).deref p).quantity = (s.deref p).quantity - d :=
  deref_setQuantity_quantity_self s p _ h

theorem deref_subQuantity_of_ne (s : OrderBook) (p p1 : OrderPointer) (d : Int) (h : p1 ≠ p) :
    (s.subQuantity p d).deref p1 = s.deref p1 := deref_setQuantity_of_ne s p p1 _ h

theorem subQuantity_heap_length (s : OrderBook) (p : OrderPointer) (d : Int) :
    (s.subQuantity p d).heap.length = s.heap.length := by
  simp [subQuantity, setQuantity]

theorem retireAskHead_heap (s : OrderBook) (p : OrderPointer) :
    (s.retireAskHead p).heap = s.heap := by
  unfold retireAskHead; split_ifs <;> rfl

theorem retireBidHead_heap (s : OrderBook) (p : OrderPointer) :
    (s.retireBidHead p).heap = s.heap := by
  unfold retireBidHead; split_ifs <;> rfl

theorem retireIncomingBuy_heap (s : OrderBook) (p : OrderPointer) :
    (s.retireIncomingBuy p).heap = s.heap := by
  unfold retireIncomingBuy; split_ifs <;> rfl

theorem retireIncomingSell_heap (s : OrderBook) (p : OrderPointer) :
    (s.retireIncomingSell p).heap = s.heap := by
  unfold retireIncomingSell; split_ifs <;> rfl

theorem tradeBuy_heap (s : OrderBook) (b sp : OrderPointer) (k q : Int) :
    (s.tradeBuy b sp k q).heap = ((s.subQuantity b q).subQuantity sp q).heap := by
  unfold tradeBuy
  simp only [retireIncomingBuy_heap, retireAskHead_heap]
  rfl

theorem tradeSell_heap (s : OrderBook) (sp b : OrderPointer) (k q : Int) :
    (s.tradeSell sp b k q).heap = ((s.subQuantity sp q).subQuantity b q).heap := by
  unfold tradeSell
  simp only [retireIncomingSell_heap, retireBidHead_heap]
  rfl

theorem tradeBuy_deref (s : OrderBook) (b sp : OrderPointer) (k q : Int) (p : OrderPointer) :
    (s.tradeBuy b sp k q).deref p = ((s.subQuantity b q).subQuantity sp q).deref p :=
  deref_congr (tradeBuy_heap s b sp k q) p

theorem tradeSell_deref (s : OrderBook) (sp b : OrderPointer) (k q : Int) (p : OrderPointer) :
    (s.tradeSell sp b k q).deref p = ((s.subQuantity sp q).subQuantity b q).deref p :=
  deref_congr (tradeSell_heap s sp b k q) p

theorem retireAskHead_trades (s : OrderBook) (p : OrderPointer) :
    (s.retireAskHead p).trades = s.trades := by
  unfold retireAskHead; split_ifs <;> rfl

theorem retireBidHead_trades (s : OrderBook) (p : OrderPointer) :
    (s.retireBidHead p).trades = s.trades := by
  unfold retireBidHead; split_ifs <;> rfl

theorem retireIncomingBuy_trades (s : OrderBook) (p : OrderPointer) :
    (s.retireIncomingBuy p).trades = s.trades := by
  unfold retireIncomingBuy; split_ifs <;> rfl

theorem retireIncomingSell_trades (s : OrderBook) (p : OrderPointer) :
    (s.retireIncomingSell p).trades = s.trades := by
  unfold retireIncomingSell; split_ifs <;> rfl

theorem retireIncomingBuy_sellOrders (s : OrderBook) (p : OrderPointer) :
    (s.retireIncomingBuy p).sellOrders_ = s.sellOrders_ := by
  unfold retireIncomingBuy; split_ifs <;> rfl

theorem retireIncomingSell_buyOrders (s : OrderBook) (p : OrderPointer) :
    (s.retireIncomingSell p).buyOrders_ = s.buyOrders_ := by
  unfold retireIncomingSell; split_ifs <;> rfl

theorem retireAskHead_buyOrders (s : OrderBook) (p : OrderPointer) :
    (s.retireAskHead p).buyOrders_ = s.buyOrders_ := by
  unfold retireAskHead; split_ifs <;> rfl

theorem retireBidHead_sellOrders (s : OrderBook) (p : OrderPointer) :
    (s.retireBidHead p).sellOrders_ = s.sellOrders_ := by
  unfold retireBidHead; split_ifs <;> rfl

theorem retireAskHead_sellOrders (s : OrderBook) (p : OrderPointer) :
    (s.retireAskHead p).sellOrders_ =
      if (s.deref p).quantity = 0 then popFront s.sellOrders_ else s.sellOrders_ := by
  unfold retireAskHead; split_ifs <;> rfl

theorem retireBidHead_buyOrders (s : OrderBook) (p : OrderPointer) :
    (s.retireBidHead p).buyOrders_ =
      if (s.deref p).quantity = 0 then popFront s.buyOrders_ else s.buyOrders_ := by
  unfold retireBidHead; split_ifs <;> rfl

theorem retireIncomingBuy_buyOrders (s : OrderBook) (p : OrderPointer) :
    (s.retireIncomingBuy p).buyOrders_ =
      if (s.deref p).quantity = 0 then
        removeFromLevel s s.buyOrders_ (s.deref p).price (s.deref p).orderId
      else s.buyOrders_ := by
  unfold retireIncomingBuy; split_ifs <;> rfl

theorem retireIncomingSell_sellOrders (s : OrderBook) (p : OrderPointer) :
    (s.retireIncomingSell p).sellOrders_ =
      if (s.deref p).quantity = 0 then
        removeFromLevel s s.sellOrders_ (s.deref p).price (s.deref p).orderId
      else s.sellOrders_ := by
  unfold retireIncomingSell; split_ifs <;> rfl

theorem tradeBuy_trades (s : OrderBook) (b sp : OrderPointer) (k q : Int) :
    (s.tradeBuy b sp k q).trades =
      s.trades ++ [Trade.mk (s.deref b).orderId (s.deref sp).orderId q k] := by
  simp only [tradeBuy, retireIncomingBuy_trades, retireAskHead_trades]
  rfl

theorem tradeSell_trades (s : OrderBook) (sp b : OrderPointer) (k q : Int) :
    (s.tradeSell sp b k q).trades =
      s.trades ++ [Trade.mk (s.deref b).orderId (s.deref sp).orderId q k] := by
  simp only [tradeSell, retireIncomingSell_trades, retireBidHead_trades]
  rfl

theorem tradeBuy_sellOrders (s : OrderBook) (b sp : OrderPointer) (k q : Int) :
    (s.tradeBuy b sp k q).sellOrders_ =
      if (((s.subQuantity b q).subQuantity sp q).deref sp).quantity = 0
      then popFront s.sellOrders_ else s.sellOrders_ := by
  simp only [tradeBuy, retireIncomingBuy_sellOrders, retireAskHead_sellOrders]
  rfl

theorem tradeSell_buyOrders (s : OrderBook) (sp b : OrderPointer) (k q : Int) :
    (s.tradeSell sp b k q).buyOrders_ =
      if (((s.subQuantity sp q).subQuantity b q).deref b).quantity = 0
      then popFront s.buyOrders_ else s.buyOrders_ := by
  simp only [tradeSell, retireIncomingSell_buyOrders, retireBidHead_buyOrders]
  rfl

/-! ### The fuel of `matchBuyOrder` and `matchSellOrder` is enough -/

theorem restingCount_cons (k : Int) (l : OrderList) (rest : PriceMap) :
    restingCount ((k, l) :: rest) = l.length + restingCount rest := by
  simp [restingCount]

theorem restingCount_mapErase_le (m : PriceMap) (k : Int) :
    restingCount (mapErase m k) ≤ restingCount m := by
  induction m with
  | nil => simp [mapErase]
  | cons e rest ih =>
    obtain ⟨k1, l⟩ := e
    simp only [mapErase]
    split_ifs with h
    · rw [restingCount_cons]; omega
    · rw [restingCount_cons, restingCount_cons]; omega

theorem restingCount_popFront_lt (k : Int) (p : OrderPointer) (tl : OrderList) (rest : PriceMap) :
    restingCount (popFront ((k, p :: tl) :: rest)) < restingCount ((k, p :: tl) :: rest) := by
  simp only [popFront, List.tail_cons]
  split_ifs with h
  · simp only [mapErase, if_true]
    have := restingCount_mapErase_le rest k
    rw [restingCount_cons]
    simp only [List.length_cons]
    omega
  · rw [restingCount_cons, restingCount_cons]
    simp only [List.length_cons]
    omega

theorem quantities_after_trade (s : OrderBook) (b sp : OrderPointer)
    (hb : 0 < (s.deref b).quantity) (hs : 0 < (s.deref sp).quantity) :
    let q := min (s.deref b).quantity (s.deref sp).quantity
    let s3 := (s.subQuantity b q).subQuantity sp q
    (s3.deref sp).quantity = 0 ∨ (s3.deref b).quantity ≤ 0 := by
  intro q s3
  have vb := valid_of_quantity_pos hb
  have vs := valid_of_quantity_pos hs
  by_cases hbs : b = sp
  · right
    subst hbs
    have h1 : ((s.subQuantity b q).deref b).quantity = (s.deref b).quantity - q :=
      deref_subQuantity_self s b q vb
    have h2 : (s3.deref b).quantity = ((s.subQuantity b q).deref b).quantity - q :=
      deref_subQuantity_self _ b q (by rw [subQuantity_heap_length]; exact vb)
    rw [h2, h1]
    have : q = (s.deref b).quantity := min_self _
    omega
  · have h1 : (s3.deref sp).quantity = ((s.subQuantity b q).deref sp).quantity - q :=
      deref_subQuantity_self _ sp q (by rw [subQuantity_heap_length]; exact vs)
    have h2 : (s.subQuantity b q).deref sp = s.deref sp :=
      deref_subQuantity_of_ne s b sp q (fun e => hbs e.symm)
    have h3 : s3.deref b = (s.subQuantity b q).deref b :=
      deref_subQuantity_of_ne _ sp b q hbs
    have h4 : ((s.subQuantity b q).deref b).quantity = (s.deref b).quantity - q :=
      deref_subQuantity_self s b q vb
    rw [h1, h2, h3, h4]
    rcases min_choice (s.deref b).quantity (s.deref sp).quantity with h7 | h7
    · right; show (s.deref b).quantity - min _ _ ≤ 0; omega
    · left; show (s.deref sp).quantity - min _ _ = 0; omega

theorem matchBuyStep_measure {s s1 : OrderBook} {b : OrderPointer}
    (h : matchBuyStep s b = some s1) :
    restingCount s1.sellOrders_ < restingCount s.sellOrders_ ∨
    (restingCount s1.sellOrders_ ≤ restingCount s.sellOrders_ ∧ (s1.deref b).quantity ≤ 0) := by
  obtain ⟨k, sp, tl, rest, hs, hb, _, h4 | h4⟩ := matchBuyStep_some h
  · left
    rw [h4.2]
    show restingCount (popFront s.sellOrders_) < _
    rw [hs]
    exact restingCount_popFront_lt k sp tl rest
  · rw [h4.2, tradeBuy_sellOrders, tradeBuy_deref]
    rcases quantities_after_trade s b sp hb h4.1 with h5 | h5
    · left
      rw [if_pos h5, hs]
      exact restingCount_popFront_lt k sp tl rest
    · right
      refine ⟨?_, h5⟩
      split_ifs
      · rw [hs]; exact le_of_lt (restingCount_popFront_lt k sp tl rest)
      · exact le_refl _

theorem matchSellStep_measure {s s1 : OrderBook} {sp : OrderPointer}
    (h : matchSellStep s sp = some s1) :
    restingCount s1.buyOrders_ < restingCount s.buyOrders_ ∨
    (restingCount s1.buyOrders_ ≤ restingCount s.buyOrders_ ∧ (s1.deref sp).quantity ≤ 0) := by
  obtain ⟨k, b, tl, rest, hs, hsp, _, hb, h4⟩ := matchSellStep_some h
  rw [h4, tradeSell_buyOrders, tradeSell_deref]
  rcases quantities_after_trade s sp b hsp hb with h5 | h5
  · left
    rw [if_pos h5, hs]
    exact restingCount_popFront_lt k b tl rest
  · right
    refine ⟨?_, h5⟩
    split_ifs
    · rw [hs]; exact le_of_lt (restingCount_popFront_lt k b tl rest)
    · exact le_refl _

theorem matchBuyStep_of_nonpos {s : OrderBook} {b : OrderPointer}
    (h : (s.deref b).quantity ≤ 0) : matchBuyStep s b = none := by
  unfold matchBuyStep
  rw [if_neg (not_lt.2 h)]

theorem matchSellStep_of_nonpos {s : OrderBook} {sp : OrderPointer}
    (h : (s.deref sp).quantity ≤ 0) : matchSellStep s sp = none := by
  unfold matchSellStep
  rw [if_neg (not_lt.2 h)]

theorem matchBuyLoop_of_none {s : OrderBook} {b : OrderPointer} (h : matchBuyStep s b = none)
    (n : Nat) : matchBuyLoop n s b = s := by
  cases n with
  | zero => rfl
  | succ n => simp only [matchBuyLoop, h]

theorem matchSellLoop_of_none {s : OrderBook} {sp : OrderPointer}
    (h : matchSellStep s sp = none) (n : Nat) : matchSellLoop n s sp = s := by
  cases n with
  | zero => rfl
  | succ n => simp only [matchSellLoop, h]

/-- With more fuel than resting sell orders the loop of `matchBuyOrder` has
reached its exit: the next evaluation of the loop condition leaves the loop. -/
theorem matchBuyLoop_exit (n : Nat) (s : OrderBook) (b : OrderPointer)
    (h : restingCount s.sellOrders_ < n) : matchBuyStep (matchBuyLoop n s b) b = none := by
  induction n generalizing s with
  | zero => omega
  | succ n ih =>
    simp only [matchBuyLoop]
    cases hstep : matchBuyStep s b with
    | none => exact hstep
    | some s1 =>
      simp only
      rcases matchBuyStep_measure hstep with h1 | h1
      · exact ih s1 (by omega)
      · rw [matchBuyLoop_of_none (matchBuyStep_of_nonpos h1.2)]
        exact matchBuyStep_of_nonpos h1.2

theorem matchSellLoop_exit (n : Nat) (s : OrderBook) (sp : OrderPointer)
    (h : restingCount s.buyOrders_ < n) : matchSellStep (matchSellLoop n s sp) sp = none := by
  induction n generalizing s with
  | zero => omega
  | succ n ih =>
    simp only [matchSellLoop]
    cases hstep : matchSellStep s sp with
    | none => exact hstep
    | some s1 =>
      simp only
      rcases matchSellStep_measure hstep with h1 | h1
      · exact ih s1 (by omega)
      · rw [matchSellLoop_of_none (matchSellStep_of_nonpos h1.2)]
        exact matchSellStep_of_nonpos h1.2

theorem matchBuyOrder_exit (s : OrderBook) (b : OrderPointer) :
    matchBuyStep (s.matchBuyOrder b) b = none :=
  matchBuyLoop_exit _ s b (Nat.lt_succ_self _)

theorem matchSellOrder_exit (s : OrderBook) (sp : OrderPointer) :
    matchSellStep (s.matchSellOrder sp) sp = none :=
  matchSellLoop_exit _ s sp (Nat.lt_succ_self _)

end OrderBook

namespace OrderBook

/-- C10 (not-found is a no-op): when `orderId` is not a key of the Active-Orders
Index, `cancelOrder` returns false and `modifyOrder` returns false for every
new quantity and price, and both leave the whole state (side books, index,
ingress queues, order records and emitted trades) exactly as it was. -/
theorem cancel_modify_not_found (s : OrderBook) (orderId : Int)
    (h : activeFind s.activeOrders_ orderId = none) :
    s.cancelOrder orderId = (false, s) ∧
    ∀ newQuantity newPrice, s.modifyOrder orderId newQuantity newPrice = (false, s) := by
  constructor
  · unfold cancelOrder; rw [h]
  · intro q p; unfold modifyOrder; rw [h]

theorem cancel_modify_not_found_witness :
    activeFind (empty.addOrder 2 100 10 Side.buy OrderType.Limit).activeOrders_ 7 = none ∧
    (empty.addOrder 2 100 10 Side.buy OrderType.Limit).cancelOrder 7 =
      (false, empty.addOrder 2 100 10 Side.buy OrderType.Limit) ∧
    (empty.addOrder 2 100 10 Side.buy OrderType.Limit).modifyOrder 7 3 90 =
      (false, empty.addOrder 2 100 10 Side.buy OrderType.Limit) :=
  ⟨by decide,
   (cancel_modify_not_found (empty.addOrder 2 100 10 Side.buy OrderType.Limit) 7 (by decide)).1,
   (cancel_modify_not_found (empty.addOrder 2 100 10 Side.buy OrderType.Limit) 7 (by decide)).2 3 90⟩

theorem activeFind_activeInsert_self (a : ActiveOrdersMap) (k : Int) (p : OrderPointer) :
    activeFind (activeInsert a k p) k = some p := by
  simp [activeInsert, activeFind]

theorem activeErase_activeInsert (a : ActiveOrdersMap) (k : Int) (p : OrderPointer) :
    activeErase (activeInsert a k p) k = activeErase a k := by
  simp [activeInsert, activeErase, activeErase_idem]

/-- C8 (a Limit order only rests and enqueues): `addOrder` with discipline Limit
emits no trade; the new order (the record at the next free pointer
`s.heap.length`) becomes the last element of the level of `price` on its side,
the level being created when absent; all other levels of that side are as
before, in the same order; the opposite side is untouched; the index maps
`orderId` to the new order and is otherwise as before; the order is pushed at
the back of its side's ingress queue and the other queue is untouched.  Nothing
depends on whether `price` crosses the opposite best price.  In the scenario
"buy at 80, sell at 120" no trade is emitted and best bid and best ask are 80
and 120. -/
theorem addOrder_limit_rests (s : OrderBook) (orderId price quantity : Int) :
    ((s.addOrder orderId price quantity Side.buy OrderType.Limit).trades = s.trades ∧
     (s.addOrder orderId price quantity Side.buy OrderType.Limit).heap =
        s.heap ++ [Order.mk OrderType.Limit orderId price quantity Side.buy 0] ∧
     mapFind (s.addOrder orderId price quantity Side.buy OrderType.Limit).buyOrders_ price =
        some ((mapFind s.buyOrders_ price).getD [] ++ [s.heap.length]) ∧
     mapErase (s.addOrder orderId price quantity Side.buy OrderType.Limit).buyOrders_ price =
        mapErase s.buyOrders_ price ∧
     (s.addOrder orderId price quantity Side.buy OrderType.Limit).sellOrders_ = s.sellOrders_ ∧
     activeFind (s.addOrder orderId price quantity Side.buy OrderType.Limit).activeOrders_ orderId =
        some s.heap.length ∧
     activeErase (s.addOrder orderId price quantity Side.buy OrderType.Limit).activeOrders_ orderId =
        activeErase s.activeOrders_ orderId ∧
     (s.addOrder orderId price quantity Side.buy OrderType.Limit).buyQueue_ =
        s.buyQueue_ ++ [s.heap.length] ∧
     (s.addOrder orderId price quantity Side.buy OrderType.Limit).sellQueue_ = s.sellQueue_) ∧
    ((s.addOrder orderId price quantity Side.sell OrderType.Limit).trades = s.trades ∧
     (s.addOrder orderId price quantity Side.sell OrderType.Limit).heap =
        s.heap ++ [Order.mk OrderType.Limit orderId price quantity Side.sell 0] ∧
     mapFind (s.addOrder orderId price quantity Side.sell OrderType.Limit).sellOrders_ price =
        some ((mapFind s.sellOrders_ price).getD [] ++ [s.heap.length]) ∧
     mapErase (s.addOrder orderId price quantity Side.sell OrderType.Limit).sellOrders_ price =
        mapErase s.sellOrders_ price ∧
     (s.addOrder orderId price quantity Side.sell OrderType.Limit).buyOrders_ = s.buyOrders_ ∧
     activeFind (s.addOrder orderId price quantity Side.sell OrderType.Limit).activeOrders_ orderId =
        some s.heap.length ∧
     activeErase (s.addOrder orderId price quantity Side.sell OrderType.Limit).activeOrders_ orderId =
        activeErase s.activeOrders_ orderId ∧
     (s.addOrder orderId price quantity Side.sell OrderType.Limit).sellQueue_ =
        s.sellQueue_ ++ [s.heap.length] ∧
     (s.addOrder orderId price quantity Side.sell OrderType.Limit).buyQueue_ = s.buyQueue_) ∧
    (((empty.addOrder 6 80 5 Side.buy OrderType.Limit).addOrder 7 120 5 Side.sell
        OrderType.Limit).trades = [] ∧
     ((empty.addOrder 6 80 5 Side.buy OrderType.Limit).addOrder 7 120 5 Side.sell
        OrderType.Limit).getBestBid = 80 ∧
     ((empty.addOrder 6 80 5 Side.buy OrderType.Limit).addOrder 7 120 5 Side.sell
        OrderType.Limit).getBestAsk = 120) := by
  refine ⟨⟨rfl, rfl, ?_, ?_, rfl, ?_, ?_, rfl, rfl⟩, ⟨rfl, rfl, ?_, ?_, rfl, ?_, ?_, rfl, rfl⟩,
    by decide⟩
  · exact mapFind_mapPushBack_self buyBefore s.buyOrders_ price s.heap.length
  · exact mapErase_mapPushBack buyBefore s.buyOrders_ price s.heap.length
  · exact activeFind_activeInsert_self _ _ _
  · exact activeErase_activeInsert _ _ _
  · exact mapFind_mapPushBack_self sellBefore s.sellOrders_ price s.heap.length
  · exact mapErase_mapPushBack sellBefore s.sellOrders_ price s.heap.length
  · exact activeFind_activeInsert_self _ _ _
  · exact activeErase_activeInsert _ _ _

end OrderBook

namespace OrderBook

/-! ### Trades of one iteration -/

theorem matchBuyStep_trades {s s1 : OrderBook} {b : OrderPointer}
    (h : matchBuyStep s b = some s1) :
    s1.trades = s.trades ∨
    ∃ bestAsk sp tl rest, s.sellOrders_ = (bestAsk, sp :: tl) :: rest ∧
      ((s.deref b).orderType = OrderType.Market ∨ bestAsk ≤ (s.deref b).price) ∧
      0 < (s.deref b).quantity ∧ 0 < (s.deref sp).quantity ∧
      s1.trades = s.trades ++ [Trade.mk (s.deref b).orderId (s.deref sp).orderId
        (min (s.deref b).quantity (s.deref sp).quantity) bestAsk] := by
  obtain ⟨k, sp, tl, rest, hs, hb, hc, h4 | h4⟩ := matchBuyStep_some h
  · left; rw [h4.2]
  · right
    exact ⟨k, sp, tl, rest, hs, hc, hb, h4.1, by rw [h4.2, tradeBuy_trades]⟩

theorem matchSellStep_trades {s s1 : OrderBook} {sp : OrderPointer}
    (h : matchSellStep s sp = some s1) :
    ∃ bestBid b tl rest, s.buyOrders_ = (bestBid, b :: tl) :: rest ∧
      ((s.deref sp).orderType = OrderType.Market ∨ (s.deref sp).price ≤ bestBid) ∧
      0 < (s.deref sp).quantity ∧ 0 < (s.deref b).quantity ∧
      s1.trades = s.trades ++ [Trade.mk (s.deref b).orderId (s.deref sp).orderId
        (min (s.deref sp).quantity (s.deref b).quantity) bestBid] := by
  obtain ⟨k, b, tl, rest, hs, hsp, hc, hb, h4⟩ := matchSellStep_some h
  exact ⟨k, b, tl, rest, hs, hc, hsp, hb, by rw [h4, tradeSell_trades]⟩

theorem matchBuyStep_no_cross {s : OrderBook} {b : OrderPointer} {bestAsk : Int}
    {l : OrderList} {rest : PriceMap} (hs : s.sellOrders_ = (bestAsk, l) :: rest)
    (ht : (s.deref b).orderType ≠ OrderType.Market) (hp : (s.deref b).price < bestAsk) :
    matchBuyStep s b = none := by
  unfold matchBuyStep
  by_cases h1 : (s.deref b).quantity > 0
  · rw [if_pos h1, hs]
    simp only
    rw [if_neg]
    simp only [not_or, not_le]
    exact ⟨ht, hp⟩
  · rw [if_neg h1]

theorem matchSellStep_no_cross {s : OrderBook} {sp : OrderPointer} {bestBid : Int}
    {l : OrderList} {rest : PriceMap} (hs : s.buyOrders_ = (bestBid, l) :: rest)
    (ht : (s.deref sp).orderType ≠ OrderType.Market) (hp : bestBid < (s.deref sp).price) :
    matchSellStep s sp = none := by
  unfold matchSellStep
  by_cases h1 : (s.deref sp).quantity > 0
  · rw [if_pos h1, hs]
    simp only
    rw [if_neg]
    simp only [not_or, not_le, ge_iff_le]
    exact ⟨ht, hp⟩
  · rw [if_neg h1]

/-- Trades emitted by the loop of `matchBuyOrder` for a price-checked order
are at or below its price. -/
theorem matchBuyLoop_price_le (n : Nat) (s : OrderBook) (b : OrderPointer)
    (ht : (s.deref b).orderType ≠ OrderType.Market) :
    ∃ T, (matchBuyLoop n s b).trades = s.trades ++ T ∧ ∀ t ∈ T, t.price ≤ (s.deref b).price := by
  have key := matchBuyLoop_induct
    (fun t => SameStatic s t ∧ ∃ T, t.trades = s.trades ++ T ∧ ∀ t ∈ T, t.price ≤ (s.deref b).price)
    b ?_ n s ⟨sameStatic_refl s, [], by simp, by simp⟩
  · exact key.2
  · intro t t1 ⟨hst, T, hT, hle⟩ hstep
    refine ⟨sameStatic_trans hst (shrinks_matchBuyStep hstep).1, ?_⟩
    rcases matchBuyStep_trades hstep with h | ⟨k, sp, tl, rest, _, hc, _, _, h⟩
    · exact ⟨T, by rw [h, hT], hle⟩
    · refine ⟨T ++ [Trade.mk (t.deref b).orderId (t.deref sp).orderId
        (min (t.deref b).quantity (t.deref sp).quantity) k], by rw [h, hT, List.append_assoc], ?_⟩
      intro x hx
      rcases List.mem_append.1 hx with hx | hx
      · exact hle x hx
      · rw [List.mem_singleton.1 hx]
        rw [hst.orderType, hst.price] at hc
        rcases hc with hc | hc
        · exact absurd hc ht
        · exact hc

theorem matchSellLoop_price_ge (n : Nat) (s : OrderBook) (sp : OrderPointer)
    (ht : (s.deref sp).orderType ≠ OrderType.Market) :
    ∃ T, (matchSellLoop n s sp).trades = s.trades ++ T ∧
      ∀ t ∈ T, (s.deref sp).price ≤ t.price := by
  have key := matchSellLoop_induct
    (fun t => SameStatic s t ∧ ∃ T, t.trades = s.trades ++ T ∧ ∀ t ∈ T, (s.deref sp).price ≤ t.price)
    sp ?_ n s ⟨sameStatic_refl s, [], by simp, by simp⟩
  · exact key.2
  · intro t t1 ⟨hst, T, hT, hle⟩ hstep
    refine ⟨sameStatic_trans hst (shrinks_matchSellStep hstep).1, ?_⟩
    obtain ⟨k, b, tl, rest, _, hc, _, _, h⟩ := matchSellStep_trades hstep
    refine ⟨T ++ [Trade.mk (t.deref b).orderId (t.deref sp).orderId
      (min (t.deref sp).quantity (t.deref b).quantity) k], by rw [h, hT, List.append_assoc], ?_⟩
    intro x hx
    rcases List.mem_append.1 hx with hx | hx
    · exact hle x hx
    · rw [List.mem_singleton.1 hx]
      rw [hst.orderType, hst.price] at hc
      rcases hc with hc | hc
      · exact absurd hc ht
      · exact hc

/-- C5 (limit price protection): when a worker step pops a Limit order from
the buy queue, every trade it emits has a price at most the order's limit
price, and when the best ask is strictly above the limit the step emits no
trade and changes nothing but the queue it popped from (side books, index,
order records and trades stay as they were).  Symmetrically for a Limit order
popped from the sell queue: every trade price is at least the limit, and when
the best bid is strictly below the limit nothing but the queue changes. -/
theorem limit_price_protection (s : OrderBook) (order : OrderPointer)
    (rest : List OrderPointer) (hLimit : (s.deref order).orderType = OrderType.Limit) :
    (s.buyQueue_ = order :: rest →
      (∃ T, s.processBuyOrdersStep.trades = s.trades ++ T ∧
        ∀ t ∈ T, t.price ≤ (s.deref order).price) ∧
      (∀ bestAsk l more, s.sellOrders_ = (bestAsk, l) :: more →
        (s.deref order).price < bestAsk →
        s.processBuyOrdersStep = { s with buyQueue_ := rest })) ∧
    (s.sellQueue_ = order :: rest →
      (∃ T, s.processSellOrdersStep.trades = s.trades ++ T ∧
        ∀ t ∈ T, (s.deref order).price ≤ t.price) ∧
      (∀ bestBid l more, s.buyOrders_ = (bestBid, l) :: more →
        bestBid < (s.deref order).price →
        s.processSellOrdersStep = { s with sellQueue_ := rest })) := by
  have ht : (s.deref order).orderType ≠ OrderType.Market := by rw [hLimit]; decide
  constructor
  · intro hq
    have hstep : s.processBuyOrdersStep = matchBuyOrder { s with buyQueue_ := rest } order := by
      unfold processBuyOrdersStep; rw [hq]
    rw [hstep]
    constructor
    · exact matchBuyLoop_price_le _ { s with buyQueue_ := rest } order ht
    · intro bestAsk l more hs hp
      exact matchBuyLoop_of_none
        (matchBuyStep_no_cross (s := { s with buyQueue_ := rest }) hs ht hp) _
  · intro hq
    have hstep : s.processSellOrdersStep = matchSellOrder { s with sellQueue_ := rest } order := by
      unfold processSellOrdersStep; rw [hq]
    rw [hstep]
    constructor
    · exact matchSellLoop_price_ge _ { s with sellQueue_ := rest } order ht
    · intro bestBid l more hs hp
      exact matchSellLoop_of_none
        (matchSellStep_no_cross (s := { s with sellQueue_ := rest }) hs ht hp) _

theorem limit_price_protection_witness :
    (((empty.addOrder 1 100 10 Side.sell OrderType.Limit).addOrder 2 90 5 Side.buy
        OrderType.Limit).deref 1).orderType = OrderType.Limit ∧
    ((empty.addOrder 1 100 10 Side.sell OrderType.Limit).addOrder 2 90 5 Side.buy
        OrderType.Limit).buyQueue_ = [1] ∧
    ((empty.addOrder 1 100 10 Side.sell OrderType.Limit).addOrder 2 90 5 Side.buy
        OrderType.Limit).processBuyOrdersStep =
      { (empty.addOrder 1 100 10 Side.sell OrderType.Limit).addOrder 2 90 5 Side.buy
          OrderType.Limit with buyQueue_ := [] } :=
  ⟨by decide, by decide,
   ((limit_price_protection ((empty.addOrder 1 100 10 Side.sell OrderType.Limit).addOrder 2 90 5
      Side.buy OrderType.Limit) 1 [] (by decide)).1 (by decide)).2 100 [0] [] (by decide)
      (by decide)⟩

end OrderBook

theorem mem_restingOrders {m : PriceMap} {p : OrderPointer} :
    p ∈ restingOrders m ↔ ∃ e ∈ m, p ∈ e.2 := by
  simp only [restingOrders, List.mem_flatten, List.mem_map]
  constructor
  · rintro ⟨l, ⟨e, he, rfl⟩, hp⟩
    exact ⟨e, he, hp⟩
  · rintro ⟨e, he, hp⟩
    exact ⟨e.2, ⟨e, he, rfl⟩, hp⟩

theorem mem_restingOrders_of_levelSub {m1 m : PriceMap} (h : LevelSub m1 m) {p : OrderPointer}
    (hp : p ∈ restingOrders m1) : p ∈ restingOrders m := by
  obtain ⟨e, he, hpe⟩ := mem_restingOrders.1 hp
  obtain ⟨e0, he0, _, hsub⟩ := h.2 e he
  exact mem_restingOrders.2 ⟨e0, he0, hsub.subset hpe⟩

theorem activeFind_eq_none {a : ActiveOrdersMap} {k : Int} :
    activeFind a k = none ↔ ∀ e ∈ a, e.1 ≠ k := by
  induction a with
  | nil => simp [activeFind]
  | cons e rest ih =>
    obtain ⟨k1, p⟩ := e
    simp only [activeFind]
    split_ifs with h
    · simp [h]
    · simp [ih, h]

theorem activeFind_none_of_sublist {a1 a : ActiveOrdersMap} (h : a1.Sublist a) {k : Int}
    (hk : activeFind a k = none) : activeFind a1 k = none :=
  activeFind_eq_none.2 (fun e he => activeFind_eq_none.1 hk e (h.subset he))

namespace OrderBook

theorem matchBuyStep_of_no_asks {s : OrderBook} {b : OrderPointer} (h : s.sellOrders_ = []) :
    matchBuyStep s b = none := by
  unfold matchBuyStep
  by_cases h1 : (s.deref b).quantity > 0
  · rw [if_pos h1, h]
  · rw [if_neg h1]

theorem matchSellStep_of_no_bids {s : OrderBook} {sp : OrderPointer} (h : s.buyOrders_ = []) :
    matchSellStep s sp = none := by
  unfold matchSellStep
  by_cases h1 : (s.deref sp).quantity > 0
  · rw [if_pos h1, h]
  · rw [if_neg h1]

theorem shrinks_addOrder_immediate (s : OrderBook) (orderId price quantity : Int) (side : Side)
    (orderType : OrderType) (ht : orderType = OrderType.Market ∨ orderType = OrderType.IOC) :
    Shrinks (s.alloc (Order.mk orderType orderId price quantity side 0))
      (s.addOrder orderId price quantity side orderType) := by
  unfold addOrder
  rcases ht with ht | ht
  · subst ht
    simp only [if_true]
    exact shrinks_processOrder _ _
  · subst ht
    simp only [if_true, if_false, (by decide : ¬ OrderType.IOC = OrderType.Market)]
    split_ifs
    · exact shrinks_trans (shrinks_processOrder _ _) (shrinks_setQuantity _ _ _)
    · exact shrinks_processOrder _ _

theorem addOrder_immediate_buy_no_asks (s : OrderBook) (orderId price quantity : Int)
    (orderType : OrderType) (ht : orderType = OrderType.Market ∨ orderType = OrderType.IOC)
    (h : s.sellOrders_ = []) :
    (s.addOrder orderId price quantity Side.buy orderType).trades = s.trades ∧
    (s.addOrder orderId price quantity Side.buy orderType).buyOrders_ = s.buyOrders_ ∧
    (s.addOrder orderId price quantity Side.buy orderType).sellOrders_ = s.sellOrders_ ∧
    (s.addOrder orderId price quantity Side.buy orderType).activeOrders_ = s.activeOrders_ := by
  have hp : ∀ o : Order, o.side = Side.buy →
      (s.alloc o).processOrder s.heap.length = s.alloc o := by
    intro o ho
    unfold processOrder
    rw [deref_alloc_new, if_pos ho]
    exact matchBuyLoop_of_none (matchBuyStep_of_no_asks (s := s.alloc o) h) _
  unfold addOrder
  rcases ht with ht | ht
  · subst ht
    simp only [if_true]
    rw [hp _ rfl]
    exact ⟨rfl, rfl, rfl, rfl⟩
  · subst ht
    simp only [if_true, if_false, (by decide : ¬ OrderType.IOC = OrderType.Market)]
    rw [hp _ rfl]
    split_ifs <;> exact ⟨rfl, rfl, rfl, rfl⟩

theorem addOrder_immediate_sell_no_bids (s : OrderBook) (orderId price quantity : Int)
    (orderType : OrderType) (ht : orderType = OrderType.Market ∨ orderType = OrderType.IOC)
    (h : s.buyOrders_ = []) :
    (s.addOrder orderId price quantity Side.sell orderType).trades = s.trades ∧
    (s.addOrder orderId price quantity Side.sell orderType).buyOrders_ = s.buyOrders_ ∧
    (s.addOrder orderId price quantity Side.sell orderType).sellOrders_ = s.sellOrders_ ∧
    (s.addOrder orderId price quantity Side.sell orderType).activeOrders_ = s.activeOrders_ := by
  have hp : ∀ o : Order, o.side = Side.sell →
      (s.alloc o).processOrder s.heap.length = s.alloc o := by
    intro o ho
    unfold processOrder
    rw [deref_alloc_new, if_neg (by rw [ho]; decide), if_pos ho]
    exact matchSellLoop_of_none (matchSellStep_of_no_bids (s := s.alloc o) h) _
  unfold addOrder
  rcases ht with ht | ht
  · subst ht
    simp only [if_true]
    rw [hp _ rfl]
    exact ⟨rfl, rfl, rfl, rfl⟩
  · subst ht
    simp only [if_true, if_false, (by decide : ¬ OrderType.IOC = OrderType.Market)]
    rw [hp _ rfl]
    split_ifs <;> exact ⟨rfl, rfl, rfl, rfl⟩

/-- C7 (Market and IOC orders never rest): let every resting pointer of `s` be
allocated and let no resting order carry `orderId`.  After `addOrder` with
discipline Market or IOC the incoming order (the record at pointer
`s.heap.length`) is in no price level of either side, no resting order carries
its id, the index is a sub-list of the old index (so it has no key it did not
have before), and both ingress queues are as they were.  When the opposing
side is empty (no asks for a buy, no bids for a sell) no trade is emitted and
both side books and the index are unchanged. -/
theorem market_ioc_never_rest (s : OrderBook) (orderId price quantity : Int) (side : Side)
    (orderType : OrderType) (ht : orderType = OrderType.Market ∨ orderType = OrderType.IOC)
    (hvalid : ∀ p ∈ restingOrders s.buyOrders_ ++ restingOrders s.sellOrders_, p < s.heap.length)
    (hid : ∀ p ∈ restingOrders s.buyOrders_ ++ restingOrders s.sellOrders_,
      (s.deref p).orderId ≠ orderId) :
    (s.heap.length ∉ restingOrders (s.addOrder orderId price quantity side orderType).buyOrders_ ∧
     s.heap.length ∉ restingOrders (s.addOrder orderId price quantity side orderType).sellOrders_) ∧
    (∀ p ∈ restingOrders (s.addOrder orderId price quantity side orderType).buyOrders_ ++
        restingOrders (s.addOrder orderId price quantity side orderType).sellOrders_,
      ((s.addOrder orderId price quantity side orderType).deref p).orderId ≠ orderId) ∧
    (s.addOrder orderId price quantity side orderType).activeOrders_.Sublist s.activeOrders_ ∧
    (∀ k, activeFind s.activeOrders_ k = none →
      activeFind (s.addOrder orderId price quantity side orderType).activeOrders_ k = none) ∧
    (s.addOrder orderId price quantity side orderType).buyQueue_ = s.buyQueue_ ∧
    (s.addOrder orderId price quantity side orderType).sellQueue_ = s.sellQueue_ ∧
    (side = Side.buy → s.sellOrders_ = [] →
      (s.addOrder orderId price quantity side orderType).trades = s.trades ∧
      (s.addOrder orderId price quantity side orderType).buyOrders_ = s.buyOrders_ ∧
      (s.addOrder orderId price quantity side orderType).sellOrders_ = s.sellOrders_ ∧
      (s.addOrder orderId price quantity side orderType).activeOrders_ = s.activeOrders_) ∧
    (side = Side.sell → s.buyOrders_ = [] →
      (s.addOrder orderId price quantity side orderType).trades = s.trades ∧
      (s.addOrder orderId price quantity side orderType).buyOrders_ = s.buyOrders_ ∧
      (s.addOrder orderId price quantity side orderType).sellOrders_ = s.sellOrders_ ∧
      (s.addOrder orderId price quantity side orderType).activeOrders_ = s.activeOrders_) := by
  obtain ⟨hst, hb, hsl, _, _, hidx, hbq, hsq, _⟩ :=
    shrinks_addOrder_immediate s orderId price quantity side orderType ht
  have hb1 : ∀ p ∈ restingOrders (s.addOrder orderId price quantity side orderType).buyOrders_,
      p ∈ restingOrders s.buyOrders_ := fun p hp => mem_restingOrders_of_levelSub hb hp
  have hs1 : ∀ p ∈ restingOrders (s.addOrder orderId price quantity side orderType).sellOrders_,
      p ∈ restingOrders s.sellOrders_ := fun p hp => mem_restingOrders_of_levelSub hsl hp
  refine ⟨⟨?_, ?_⟩, ?_, hidx, fun k hk => activeFind_none_of_sublist hidx hk, hbq, hsq, ?_, ?_⟩
  · intro hp
    exact absurd (hvalid _ (List.mem_append_left _ (hb1 _ hp))) (lt_irrefl _)
  · intro hp
    exact absurd (hvalid _ (List.mem_append_right _ (hs1 _ hp))) (lt_irrefl _)
  · intro p hp
    have hp0 : p ∈ restingOrders s.buyOrders_ ++ restingOrders s.sellOrders_ := by
      rcases List.mem_append.1 hp with h | h
      · exact List.mem_append_left _ (hb1 p h)
      · exact List.mem_append_right _ (hs1 p h)
    rw [hst.orderId, deref_alloc_old s _ p (hvalid p hp0)]
    exact hid p hp0
  · intro hside hempty
    subst hside
    exact addOrder_immediate_buy_no_asks s orderId price quantity orderType ht hempty
  · intro hside hempty
    subst hside
    exact addOrder_immediate_sell_no_bids s orderId price quantity orderType ht hempty

theorem market_ioc_never_rest_witness :
    (∀ p ∈ restingOrders (empty.addOrder 8 150 10 Side.buy OrderType.Limit).buyOrders_ ++
        restingOrders (empty.addOrder 8 150 10 Side.buy OrderType.Limit).sellOrders_,
      p < (empty.addOrder 8 150 10 Side.buy OrderType.Limit).heap.length) ∧
    (∀ p ∈ restingOrders (empty.addOrder 8 150 10 Side.buy OrderType.Limit).buyOrders_ ++
        restingOrders (empty.addOrder 8 150 10 Side.buy OrderType.Limit).sellOrders_,
      ((empty.addOrder 8 150 10 Side.buy OrderType.Limit).deref p).orderId ≠ 5) ∧
    1 ∉ restingOrders ((empty.addOrder 8 150 10 Side.buy OrderType.Limit).addOrder 5 120 5
      Side.sell OrderType.Market).buyOrders_ ∧
    ((empty.addOrder 8 150 10 Side.buy OrderType.Limit).addOrder 5 120 5
      Side.sell OrderType.Market).sellQueue_ = [] :=
  ⟨by decide, by decide,
   (market_ioc_never_rest (empty.addOrder 8 150 10 Side.buy OrderType.Limit) 5 120 5 Side.sell
      OrderType.Market (Or.inl rfl) (by decide) (by decide)).1.1,
   (market_ioc_never_rest (empty.addOrder 8 150 10 Side.buy OrderType.Limit) 5 120 5 Side.sell
      OrderType.Market (Or.inl rfl) (by decide) (by decide)).2.2.2.2.2.1⟩

end OrderBook

theorem restingOrders_cons (k : Int) (l : OrderList) (rest : PriceMap) :
    restingOrders ((k, l) :: rest) = l ++ restingOrders rest := by
  simp [restingOrders]

theorem level_sublist_restingOrders {m : PriceMap} {e : Int × OrderList} (h : e ∈ m) :
    e.2.Sublist (restingOrders m) :=
  List.sublist_flatten_of_mem (List.mem_map.2 ⟨e, h, rfl⟩)

theorem mapFind_eq_none {m : PriceMap} {k : Int} :
    mapFind m k = none ↔ ∀ e ∈ m, e.1 ≠ k := by
  induction m with
  | nil => simp [mapFind]
  | cons e rest ih =>
    obtain ⟨k1, p⟩ := e
    simp only [mapFind]
    split_ifs with h
    · simp [h]
    · simp [ih, h]

theorem mapFind_none_of_not_mem_keys {m : PriceMap} {k : Int} (h : k ∉ m.map Prod.fst) :
    mapFind m k = none :=
  mapFind_eq_none.2 (fun e he hk => h (List.mem_map.2 ⟨e, he, hk⟩))

/-- Removing by a key that identifies one element of a list is `List.erase`. -/
theorem filter_key_eq_erase {α : Type} (f : OrderPointer → α) [DecidableEq α] (l : OrderList)
    (p : OrderPointer) (hn : (l.map f).Nodup) (hp : p ∈ l) :
    l.filter (fun o => !decide (f o = f p)) = l.erase p := by
  induction l with
  | nil => simp at hp
  | cons a t ih =>
    simp only [List.map_cons, List.nodup_cons] at hn
    by_cases hap : a = p
    · subst hap
      have : t.filter (fun o => !decide (f o = f a)) = t := by
        rw [List.filter_eq_self]
        intro x hx
        have : f x ≠ f a := fun e => hn.1 (e ▸ List.mem_map_of_mem f hx)
        simp [this]
      simp [List.filter_cons, this]
    · have hpt : p ∈ t := by
        rcases List.mem_cons.1 hp with h | h
        · exact absurd h.symm hap
        · exact h
      have hf : f a ≠ f p := fun e => hn.1 (e ▸ List.mem_map_of_mem f hpt)
      have hne : ¬ (a == p) = true := by simpa using hap
      rw [List.erase_cons, if_neg hne, ← ih hn.2 hpt]
      simp [List.filter_cons, hf]

namespace OrderBook

theorem removeFromLevel_cons_ne (s : OrderBook) (k1 : Int) (l1 : OrderList) (rest : PriceMap)
    (price orderId : Int) (h : k1 ≠ price) :
    removeFromLevel s ((k1, l1) :: rest) price orderId =
      (k1, l1) :: removeFromLevel s rest price orderId := by
  unfold removeFromLevel
  simp only [mapFind, if_neg h]
  cases mapFind rest price with
  | none => rfl
  | some lst =>
    simp only
    split_ifs <;> simp [mapErase, mapAssign, h]

theorem removeFromLevel_of_find (s : OrderBook) (m : PriceMap) (price orderId : Int)
    (l : OrderList) (h : mapFind m price = some l) :
    removeFromLevel s m price orderId =
      if (l.filter (fun o => !decide ((s.deref o).orderId = orderId))) = [] then
        mapErase m price
      else mapAssign m price (l.filter (fun o => !decide ((s.deref o).orderId = orderId))) := by
  unfold removeFromLevel
  rw [h]
  simp only [List.isEmpty_iff]

theorem restingOrders_removeFromLevel (s : OrderBook) (m : PriceMap) (p : OrderPointer)
    (l : OrderList) (hkeys : (m.map Prod.fst).Nodup)
    (hn : ((restingOrders m).map (fun x => (s.deref x).orderId)).Nodup)
    (hf : mapFind m (s.deref p).price = some l) (hp : p ∈ l) :
    restingOrders (removeFromLevel s m (s.deref p).price (s.deref p).orderId) =
      (restingOrders m).erase p := by
  induction m with
  | nil => simp [mapFind] at hf
  | cons e rest ih =>
    obtain ⟨k1, l1⟩ := e
    simp only [List.map_cons, List.nodup_cons] at hkeys
    rw [restingOrders_cons, List.map_append, List.nodup_append] at hn
    by_cases hk : k1 = (s.deref p).price
    · have hl : l1 = l := by
        simp only [mapFind, if_pos hk, Option.some.injEq] at hf
        exact hf
      subst hl
      have hfil := filter_key_eq_erase (fun x => (s.deref x).orderId) l1 p hn.1 hp
      rw [removeFromLevel_of_find s _ _ _ l1 hf, hfil, restingOrders_cons,
        List.erase_append_left _ hp]
      split_ifs with he
      · simp only [mapErase, if_pos hk]
        rw [mapErase_of_find_none rest _ (mapFind_none_of_not_mem_keys (hk ▸ hkeys.1)), he]
        rfl
      · simp only [mapAssign, if_pos hk]
        rw [restingOrders_cons]
    · have hf1 : mapFind rest (s.deref p).price = some l := by
        simpa only [mapFind, if_neg hk] using hf
      have hpr : p ∈ restingOrders rest :=
        (level_sublist_restingOrders (mapFind_mem _ _ _ hf1)).subset hp
      have hpl : p ∉ l1 := by
        intro hc
        exact hn.2.2 (List.mem_map_of_mem _ hc) (List.mem_map_of_mem _ hpr)
      rw [removeFromLevel_cons_ne s k1 l1 rest _ _ hk, restingOrders_cons, restingOrders_cons,
        ih hkeys.2 hn.2.1 hf1, List.erase_append_right _ hpl]

theorem mapFind_removeFromLevel_self (s : OrderBook) (m : PriceMap) (price orderId : Int)
    (l : OrderList) (hf : mapFind m price = some l) :
    mapFind (removeFromLevel s m price orderId) price =
      if (l.filter (fun o => !decide ((s.deref o).orderId = orderId))) = [] then none
      else some (l.filter (fun o => !decide ((s.deref o).orderId = orderId))) := by
  rw [removeFromLevel_of_find s m price orderId l hf]
  split_ifs with h
  · exact mapFind_mapErase_self m price
  · rw [mapFind_mapAssign_self, hf]; rfl

theorem mapFind_removeFromLevel_of_ne (s : OrderBook) (m : PriceMap) (price orderId k : Int)
    (hk : k ≠ price) :
    mapFind (removeFromLevel s m price orderId) k = mapFind m k := by
  unfold removeFromLevel
  cases mapFind m price with
  | none => rfl
  | some l =>
    simp only
    split_ifs
    · exact mapFind_mapErase_of_ne m price k hk
    · exact mapFind_mapAssign_of_ne m price k _ hk

end OrderBook

namespace OrderBook

theorem removeResting_of_buy (s : OrderBook) (p : OrderPointer) (orderId : Int)
    (h : (s.deref p).side = Side.buy) :
    s.removeResting p orderId =
      { s with buyOrders_ := removeFromLevel s s.buyOrders_ (s.deref p).price orderId } := by
  unfold removeResting; rw [if_pos h]

theorem removeResting_of_not_buy (s : OrderBook) (p : OrderPointer) (orderId : Int)
    (h : (s.deref p).side ≠ Side.buy) :
    s.removeResting p orderId =
      { s with sellOrders_ := removeFromLevel s s.sellOrders_ (s.deref p).price orderId } := by
  unfold removeResting; rw [if_neg h]

theorem removeResting_activeOrders (s : OrderBook) (p : OrderPointer) (orderId : Int) :
    (s.removeResting p orderId).activeOrders_ = s.activeOrders_ := by
  unfold removeResting; split_ifs <;> rfl

theorem cancelOrder_of_find (s : OrderBook) (orderId : Int) (p : OrderPointer)
    (h : activeFind s.activeOrders_ orderId = some p) :
    s.cancelOrder orderId =
      (true, { s.removeResting p orderId with
        activeOrders_ := activeErase s.activeOrders_ orderId }) := by
  unfold cancelOrder
  rw [h]
  simp only [removeResting_activeOrders]

end OrderBook

namespace OrderBook

/-! ### Matching does not read the discipline of resting orders -/

theorem sameButType_setQuantity {s t : OrderBook} (h : SameButType s t) (p : OrderPointer)
    (q : Int) : SameButType (s.setQuantity p q) (t.setQuantity p q) := by
  obtain ⟨h1, h2, h3, h4, h5, h6, h7, h8⟩ := h
  refine ⟨h1, h2, h3, h4, h5, h6, by simpa [setQuantity] using h7, fun p1 => ?_⟩
  rw [deref_setQuantity, deref_setQuantity, h7]
  split_ifs with hc
  · exact ⟨(h8 p).1, (h8 p).2.1, rfl, (h8 p).2.2.2⟩
  · exact h8 p1

theorem sameButType_subQuantity {s t : OrderBook} (h : SameButType s t) (p : OrderPointer)
    (d : Int) : SameButType (s.subQuantity p d) (t.subQuantity p d) := by
  unfold subQuantity
  rw [(h.2.2.2.2.2.2.2 p).2.2.1]
  exact sameButType_setQuantity h p _

theorem removeFromLevel_congr {s t : OrderBook}
    (h : ∀ p, (t.deref p).orderId = (s.deref p).orderId) (m : PriceMap) (price orderId : Int) :
    removeFromLevel t m price orderId = removeFromLevel s m price orderId := by
  unfold removeFromLevel
  simp only [h]

theorem sameButType_retireAskHead {s t : OrderBook} (h : SameButType s t) (p : OrderPointer) :
    SameButType (s.retireAskHead p) (t.retireAskHead p) := by
  obtain ⟨h1, h2, h3, h4, h5, h6, h7, h8⟩ := h
  unfold retireAskHead
  rw [(h8 p).2.2.1, (h8 p).1, h2, h3]
  split_ifs
  · exact ⟨h1, rfl, rfl, h4, h5, h6, h7, h8⟩
  · exact ⟨h1, h2, h3, h4, h5, h6, h7, h8⟩

theorem sameButType_retireBidHead {s t : OrderBook} (h : SameButType s t) (p : OrderPointer) :
    SameButType (s.retireBidHead p) (t.retireBidHead p) := by
  obtain ⟨h1, h2, h3, h4, h5, h6, h7, h8⟩ := h
  unfold retireBidHead
  rw [(h8 p).2.2.1, (h8 p).1, h1, h3]
  split_ifs
  · exact ⟨rfl, h2, rfl, h4, h5, h6, h7, h8⟩
  · exact ⟨h1, h2, h3, h4, h5, h6, h7, h8⟩

theorem sameButType_retireIncomingBuy {s t : OrderBook} (h : SameButType s t)
    (p : OrderPointer) : SameButType (s.retireIncomingBuy p) (t.retireIncomingBuy p) := by
  obtain ⟨h1, h2, h3, h4, h5, h6, h7, h8⟩ := h
  unfold retireIncomingBuy
  rw [(h8 p).2.2.1, (h8 p).1, (h8 p).2.1, h1, h3, removeFromLevel_congr (fun x => (h8 x).1)]
  split_ifs
  · exact ⟨rfl, h2, rfl, h4, h5, h6, h7, h8⟩
  · exact ⟨h1, h2, h3, h4, h5, h6, h7, h8⟩

theorem sameButType_retireIncomingSell {s t : OrderBook} (h : SameButType s t)
    (p : OrderPointer) : SameButType (s.retireIncomingSell p) (t.retireIncomingSell p) := by
  obtain ⟨h1, h2, h3, h4, h5, h6, h7, h8⟩ := h
  unfold retireIncomingSell
  rw [(h8 p).2.2.1, (h8 p).1, (h8 p).2.1, h2, h3, removeFromLevel_congr (fun x => (h8 x).1)]
  split_ifs
  · exact ⟨h1, rfl, rfl, h4, h5, h6, h7, h8⟩
  · exact ⟨h1, h2, h3, h4, h5, h6, h7, h8⟩

theorem sameButType_trades {s t : OrderBook} (h : SameButType s t) (x : List Trade) :
    SameButType { s with trades := s.trades ++ x } { t with trades := t.trades ++ x } := by
  obtain ⟨h1, h2, h3, h4, h5, h6, h7, h8⟩ := h
  exact ⟨h1, h2, h3, h4, h5, by show t.trades ++ x = s.trades ++ x; rw [h6], h7, h8⟩

theorem sameButType_tradeBuy {s t : OrderBook} (h : SameButType s t) (b sp : OrderPointer)
    (k q : Int) : SameButType (s.tradeBuy b sp k q) (t.tradeBuy b sp k q) := by
  unfold tradeBuy
  simp only
  rw [(h.2.2.2.2.2.2.2 b).1, (h.2.2.2.2.2.2.2 sp).1]
  exact sameButType_retireIncomingBuy (sameButType_retireAskHead (sameButType_subQuantity
    (sameButType_subQuantity (sameButType_trades h _) b q) sp q) sp) b

theorem sameButType_tradeSell {s t : OrderBook} (h : SameButType s t) (sp b : OrderPointer)
    (k q : Int) : SameButType (s.tradeSell sp b k q) (t.tradeSell sp b k q) := by
  unfold tradeSell
  simp only
  rw [(h.2.2.2.2.2.2.2 b).1, (h.2.2.2.2.2.2.2 sp).1]
  exact sameButType_retireIncomingSell (sameButType_retireBidHead (sameButType_subQuantity
    (sameButType_subQuantity (sameButType_trades h _) sp q) b q) b) sp

end OrderBook

namespace OrderBook

theorem matchBuyStep_sim {s t : OrderBook} (h : SameButType s t) (b : OrderPointer)
    (hs : (s.deref b).orderType = OrderType.Market)
    (hk : ∀ e ∈ s.sellOrders_, e.1 ≤ (s.deref b).price) :
    (matchBuyStep s b = none ∧ matchBuyStep t b = none) ∨
    ∃ s1 t1, matchBuyStep s b = some s1 ∧ matchBuyStep t b = some t1 ∧ SameButType s1 t1 := by
  have h8 := h.2.2.2.2.2.2.2
  unfold matchBuyStep
  rw [(h8 b).2.2.1, h.2.1]
  by_cases h1 : (s.deref b).quantity > 0
  · rw [if_pos h1, if_pos h1]
    cases hso : s.sellOrders_ with
    | nil => left; exact ⟨rfl, rfl⟩
    | cons e rest =>
      obtain ⟨bestAsk, sellList⟩ := e
      have hle : bestAsk ≤ (s.deref b).price := hk (bestAsk, sellList) (by rw [hso]; simp)
      simp only
      rw [if_pos (Or.inl hs), if_pos (Or.inr (by rw [(h8 b).2.1]; exact hle))]
      cases sellList with
      | nil => left; exact ⟨rfl, rfl⟩
      | cons sp tl =>
        simp only
        rw [(h8 sp).2.2.1]
        by_cases h3 : (s.deref sp).quantity ≤ 0
        · rw [if_pos h3, if_pos h3]
          right
          refine ⟨_, _, rfl, rfl, ?_⟩
          obtain ⟨a1, a2, a3, a4, a5, a6, a7, a8⟩ := h
          exact ⟨a1, rfl, a3, a4, a5, a6, a7, a8⟩
        · rw [if_neg h3, if_neg h3]
          by_cases h4 : min (s.deref b).quantity (s.deref sp).quantity ≤ 0
          · rw [if_pos h4, if_pos h4]; left; exact ⟨rfl, rfl⟩
          · rw [if_neg h4, if_neg h4]
            right
            exact ⟨_, _, rfl, rfl, sameButType_tradeBuy h b sp _ _⟩
  · rw [if_neg h1, if_neg h1]; left; exact ⟨rfl, rfl⟩

theorem matchSellStep_sim {s t : OrderBook} (h : SameButType s t) (sp : OrderPointer)
    (hs : (s.deref sp).orderType = OrderType.Market)
    (hk : ∀ e ∈ s.buyOrders_, (s.deref sp).price ≤ e.1) :
    (matchSellStep s sp = none ∧ matchSellStep t sp = none) ∨
    ∃ s1 t1, matchSellStep s sp = some s1 ∧ matchSellStep t sp = some t1 ∧
      SameButType s1 t1 := by
  have h8 := h.2.2.2.2.2.2.2
  unfold matchSellStep
  rw [(h8 sp).2.2.1, h.1]
  by_cases h1 : (s.deref sp).quantity > 0
  · rw [if_pos h1, if_pos h1]
    cases hso : s.buyOrders_ with
    | nil => left; exact ⟨rfl, rfl⟩
    | cons e rest =>
      obtain ⟨bestBid, buyList⟩ := e
      have hle : (s.deref sp).price ≤ bestBid := hk (bestBid, buyList) (by rw [hso]; simp)
      simp only
      rw [if_pos (Or.inl hs), if_pos (Or.inr (by rw [(h8 sp).2.1]; exact hle))]
      cases buyList with
      | nil => left; exact ⟨rfl, rfl⟩
      | cons b tl =>
        simp only
        rw [(h8 b).2.2.1]
        have h3 : ¬ (s.deref sp).quantity ≤ 0 := not_le.2 h1
        rw [if_neg h3, if_neg h3]
        by_cases h4 : min (s.deref sp).quantity (s.deref b).quantity ≤ 0
        · rw [if_pos h4, if_pos h4]; left; exact ⟨rfl, rfl⟩
        · rw [if_neg h4, if_neg h4]
          right
          exact ⟨_, _, rfl, rfl, sameButType_tradeSell h sp b _ _⟩
  · rw [if_neg h1, if_neg h1]; left; exact ⟨rfl, rfl⟩

theorem keys_le_of_levelSub {m1 m : PriceMap} (h : LevelSub m1 m) {P : Int → Prop}
    (hk : ∀ e ∈ m, P e.1) : ∀ e ∈ m1, P e.1 := by
  intro e he
  obtain ⟨e0, he0, hkey, _⟩ := h.2 e he
  rw [hkey]; exact hk e0 he0

theorem matchBuyLoop_sim (n : Nat) {s t : OrderBook} (h : SameButType s t) (b : OrderPointer)
    (hs : (s.deref b).orderType = OrderType.Market)
    (hk : ∀ e ∈ s.sellOrders_, e.1 ≤ (s.deref b).price) :
    SameButType (matchBuyLoop n s b) (matchBuyLoop n t b) := by
  induction n generalizing s t with
  | zero => exact h
  | succ n ih =>
    simp only [matchBuyLoop]
    rcases matchBuyStep_sim h b hs hk with ⟨h1, h2⟩ | ⟨s1, t1, h1, h2, h3⟩
    · rw [h1, h2]; exact h
    · rw [h1, h2]
      have hsh := shrinks_matchBuyStep h1
      refine ih h3 ?_ ?_
      · rw [hsh.1.orderType]; exact hs
      · rw [hsh.1.price]
        exact keys_le_of_levelSub (P := fun k => k ≤ (s.deref b).price) hsh.2.2.1 hk

theorem matchSellLoop_sim (n : Nat) {s t : OrderBook} (h : SameButType s t) (sp : OrderPointer)
    (hs : (s.deref sp).orderType = OrderType.Market)
    (hk : ∀ e ∈ s.buyOrders_, (s.deref sp).price ≤ e.1) :
    SameButType (matchSellLoop n s sp) (matchSellLoop n t sp) := by
  induction n generalizing s t with
  | zero => exact h
  | succ n ih =>
    simp only [matchSellLoop]
    rcases matchSellStep_sim h sp hs hk with ⟨h1, h2⟩ | ⟨s1, t1, h1, h2, h3⟩
    · rw [h1, h2]; exact h
    · rw [h1, h2]
      have hsh := shrinks_matchSellStep h1
      refine ih h3 ?_ ?_
      · rw [hsh.1.orderType]; exact hs
      · rw [hsh.1.price]
        exact keys_le_of_levelSub (P := fun k => (s.deref sp).price ≤ k) hsh.2.1 hk

theorem sameButType_alloc (s : OrderBook) (o1 o2 : Order) (hid : o2.orderId = o1.orderId)
    (hp : o2.price = o1.price) (hq : o2.quantity = o1.quantity) (hsd : o2.side = o1.side) :
    SameButType (s.alloc o1) (s.alloc o2) := by
  refine ⟨rfl, rfl, rfl, rfl, rfl, rfl, by simp [alloc], fun p => ?_⟩
  rcases Nat.lt_trichotomy p s.heap.length with h | h | h
  · rw [deref_alloc_old s o1 p h, deref_alloc_old s o2 p h]
    exact ⟨rfl, rfl, rfl, rfl⟩
  · subst h
    rw [deref_alloc_new, deref_alloc_new]
    exact ⟨hid, hp, hq, hsd⟩
  · have h1 : (s.alloc o1).heap.length ≤ p := by simp [alloc]; omega
    have h2 : (s.alloc o2).heap.length ≤ p := by simp [alloc]; omega
    rw [deref_invalid _ p h1, deref_invalid _ p h2]
    exact ⟨rfl, rfl, rfl, rfl⟩

theorem addOrder_market_trades (s : OrderBook) (orderId price quantity : Int) (side : Side) :
    (s.addOrder orderId price quantity side OrderType.Market).trades =
      ((s.alloc (Order.mk OrderType.Market orderId price quantity side 0)).processOrder
        s.heap.length).trades := by
  unfold addOrder
  simp only [if_true]

theorem addOrder_ioc_trades (s : OrderBook) (orderId price quantity : Int) (side : Side) :
    (s.addOrder orderId price quantity side OrderType.IOC).trades =
      ((s.alloc (Order.mk OrderType.IOC orderId price quantity side 0)).processOrder
        s.heap.length).trades := by
  unfold addOrder
  simp only [if_false, if_true, (by decide : ¬ OrderType.IOC = OrderType.Market)]
  split_ifs <;> rfl

theorem processOrder_alloc_buy (s : OrderBook) (o : Order) (h : o.side = Side.buy) :
    (s.alloc o).processOrder s.heap.length = (s.alloc o).matchBuyOrder s.heap.length := by
  unfold processOrder
  rw [deref_alloc_new, if_pos h]

theorem processOrder_alloc_sell (s : OrderBook) (o : Order) (h : o.side = Side.sell) :
    (s.alloc o).processOrder s.heap.length = (s.alloc o).matchSellOrder s.heap.length := by
  unfold processOrder
  rw [deref_alloc_new, if_neg (by rw [h]; decide), if_pos h]

/-- C6, as the code has it: an IOC order is price-checked like a Limit order
(only `OrderType::Market` skips the check).  `addOrder` with discipline IOC
emits the same trades as with discipline Market when its price crosses every
level of the opposing side (a buy at or above every ask key, a sell at or
below every bid key); when its price does not cross the best opposing price (a
buy below the best ask, a sell above the best bid) it emits no trade at all. -/
theorem ioc_is_price_checked (s : OrderBook) (orderId price quantity : Int) :
    ((∀ e ∈ s.sellOrders_, e.1 ≤ price) →
      (s.addOrder orderId price quantity Side.buy OrderType.IOC).trades =
        (s.addOrder orderId price quantity Side.buy OrderType.Market).trades) ∧
    ((∀ e ∈ s.buyOrders_, price ≤ e.1) →
      (s.addOrder orderId price quantity Side.sell OrderType.IOC).trades =
        (s.addOrder orderId price quantity Side.sell OrderType.Market).trades) ∧
    (∀ bestAsk l rest, s.sellOrders_ = (bestAsk, l) :: rest → price < bestAsk →
      (s.addOrder orderId price quantity Side.buy OrderType.IOC).trades = s.trades) ∧
    (∀ bestBid l rest, s.buyOrders_ = (bestBid, l) :: rest → bestBid < price →
      (s.addOrder orderId price quantity Side.sell OrderType.IOC).trades = s.trades) := by
  refine ⟨?_, ?_, ?_, ?_⟩
  · intro hk
    rw [addOrder_market_trades, addOrder_ioc_trades, processOrder_alloc_buy _ _ rfl,
      processOrder_alloc_buy _ _ rfl]
    have hsim := matchBuyLoop_sim (restingCount s.sellOrders_ + 1)
      (sameButType_alloc s (Order.mk OrderType.Market orderId price quantity Side.buy 0)
        (Order.mk OrderType.IOC orderId price quantity Side.buy 0) rfl rfl rfl rfl)
      s.heap.length (by rw [deref_alloc_new]) (by rw [deref_alloc_new]; exact hk)
    exact hsim.2.2.2.2.2.1
  · intro hk
    rw [addOrder_market_trades, addOrder_ioc_trades, processOrder_alloc_sell _ _ rfl,
      processOrder_alloc_sell _ _ rfl]
    have hsim := matchSellLoop_sim (restingCount s.buyOrders_ + 1)
      (sameButType_alloc s (Order.mk OrderType.Market orderId price quantity Side.sell 0)
        (Order.mk OrderType.IOC orderId price quantity Side.sell 0) rfl rfl rfl rfl)
      s.heap.length (by rw [deref_alloc_new]) (by rw [deref_alloc_new]; exact hk)
    exact hsim.2.2.2.2.2.1
  · intro bestAsk l rest hs hp
    rw [addOrder_ioc_trades, processOrder_alloc_buy _ _ rfl]
    have hnone : matchBuyStep (s.alloc (Order.mk OrderType.IOC orderId price quantity Side.buy 0))
        s.heap.length = none :=
      matchBuyStep_no_cross (s := s.alloc _) hs (by rw [deref_alloc_new]; simp)
        (by rw [deref_alloc_new]; exact hp)
    unfold matchBuyOrder
    rw [matchBuyLoop_of_none hnone]
    rfl
  · intro bestBid l rest hs hp
    rw [addOrder_ioc_trades, processOrder_alloc_sell _ _ rfl]
    have hnone : matchSellStep
        (s.alloc (Order.mk OrderType.IOC orderId price quantity Side.sell 0))
        s.heap.length = none :=
      matchSellStep_no_cross (s := s.alloc _) hs (by rw [deref_alloc_new]; simp)
        (by rw [deref_alloc_new]; exact hp)
    unfold matchSellOrder
    rw [matchSellLoop_of_none hnone]
    rfl

theorem ioc_is_price_checked_witness :
    (∀ e ∈ (empty.addOrder 8 150 10 Side.sell OrderType.Limit).sellOrders_, e.1 ≤ 150) ∧
    ((empty.addOrder 8 150 10 Side.sell OrderType.Limit).addOrder 5 150 5 Side.buy
        OrderType.IOC).trades =
      ((empty.addOrder 8 150 10 Side.sell OrderType.Limit).addOrder 5 150 5 Side.buy
        OrderType.Market).trades ∧
    ((empty.addOrder 8 150 10 Side.sell OrderType.Limit).addOrder 5 120 5 Side.buy
        OrderType.IOC).trades = (empty.addOrder 8 150 10 Side.sell OrderType.Limit).trades :=
  ⟨by decide,
   (ioc_is_price_checked (empty.addOrder 8 150 10 Side.sell OrderType.Limit) 5 150 5).1
     (by decide),
   (ioc_is_price_checked (empty.addOrder 8 150 10 Side.sell OrderType.Limit) 5 120 5).2.2.1
     150 [0] [] (by decide) (by decide)⟩

/-- C6 fails as stated: with one ask resting at 150, an IOC buy priced 120 emits
no trade, while a Market buy with the same id, side and quantity trades. -/
theorem ioc_differs_from_market :
    ((empty.addOrder 8 150 10 Side.sell OrderType.Limit).addOrder 5 120 5 Side.buy
        OrderType.IOC).trades = [] ∧
    ((empty.addOrder 8 150 10 Side.sell OrderType.Limit).addOrder 5 120 5 Side.buy
        OrderType.Market).trades = [Trade.mk 5 8 5 150] ∧
    ((empty.addOrder 8 150 10 Side.sell OrderType.Limit).addOrder 5 120 5 Side.buy
        OrderType.IOC).trades ≠
      ((empty.addOrder 8 150 10 Side.sell OrderType.Limit).addOrder 5 120 5 Side.buy
        OrderType.Market).trades := by
  decide

end OrderBook

/-! ### Key order of the side books -/

theorem sortedKeys_of_levelSub {before : Int → Int → Bool} {m1 m : PriceMap}
    (h : LevelSub m1 m) (hs : SortedKeys before m) : SortedKeys before m1 :=
  List.Pairwise.sublist h.1 hs

theorem mem_mapInsert {before : Int → Int → Bool} {m : PriceMap} {k : Int} {v : OrderList}
    {e : Int × OrderList} : e ∈ mapInsert before m k v ↔ e = (k, v) ∨ e ∈ m := by
  induction m with
  | nil => simp [mapInsert]
  | cons e1 rest ih =>
    obtain ⟨k1, l1⟩ := e1
    simp only [mapInsert]
    split_ifs with h
    · simp
    · simp only [List.mem_cons, ih]
      tauto

theorem sortedKeys_mapInsert {before : Int → Int → Bool}
    (htrans : ∀ a b c, before a b = true → before b c = true → before a c = true)
    (htotal : ∀ a b, before a b ≠ true → a ≠ b → before b a = true)
    {m : PriceMap} {k : Int} (v : OrderList) (hs : SortedKeys before m)
    (hk : mapFind m k = none) : SortedKeys before (mapInsert before m k v) := by
  induction m with
  | nil => simp [mapInsert, SortedKeys]
  | cons e1 rest ih =>
    obtain ⟨k1, l1⟩ := e1
    have hk1 : k1 ≠ k := mapFind_eq_none.1 hk (k1, l1) (List.mem_cons_self _ _)
    have hkr : mapFind rest k = none :=
      mapFind_eq_none.2 (fun e he => mapFind_eq_none.1 hk e (List.mem_cons_of_mem _ he))
    unfold SortedKeys at hs ih ⊢
    simp only [List.map_cons, List.pairwise_cons] at hs
    simp only [mapInsert]
    split_ifs with h
    · simp only [List.map_cons, List.pairwise_cons]
      refine ⟨?_, hs.1, hs.2⟩
      intro x hx
      rcases List.mem_cons.1 hx with hx | hx
      · rw [hx]; exact h
      · exact htrans _ _ _ h (hs.1 x hx)
    · simp only [List.map_cons, List.pairwise_cons]
      refine ⟨?_, ih hs.2 hkr⟩
      intro x hx
      obtain ⟨e, he, rfl⟩ := List.mem_map.1 hx
      rcases mem_mapInsert.1 he with he | he
      · rw [he]
        exact htotal _ _ h (fun e => hk1 e.symm)
      · exact hs.1 _ (List.mem_map_of_mem _ he)

theorem sortedKeys_mapPushBack {before : Int → Int → Bool}
    (htrans : ∀ a b c, before a b = true → before b c = true → before a c = true)
    (htotal : ∀ a b, before a b ≠ true → a ≠ b → before b a = true)
    {m : PriceMap} (k : Int) (o : OrderPointer) (hs : SortedKeys before m) :
    SortedKeys before (mapPushBack before m k o) := by
  unfold mapPushBack
  cases h : mapFind m k with
  | none => exact sortedKeys_mapInsert htrans htotal _ hs h
  | some l =>
    simp only
    unfold SortedKeys
    rw [mapAssign_keys]
    exact hs

theorem buyBefore_trans (a b c : Int) (h1 : buyBefore a b = true) (h2 : buyBefore b c = true) :
    buyBefore a c = true := by
  simp only [buyBefore, decide_eq_true_eq] at *
  omega

theorem buyBefore_total (a b : Int) (h1 : buyBefore a b ≠ true) (h2 : a ≠ b) :
    buyBefore b a = true := by
  simp only [buyBefore, decide_eq_true_eq, ne_eq] at h1 ⊢
  omega

theorem sellBefore_trans (a b c : Int) (h1 : sellBefore a b = true) (h2 : sellBefore b c = true) :
    sellBefore a c = true := by
  simp only [sellBefore, decide_eq_true_eq] at *
  omega

theorem sellBefore_total (a b : Int) (h1 : sellBefore a b ≠ true) (h2 : a ≠ b) :
    sellBefore b a = true := by
  simp only [sellBefore, decide_eq_true_eq, ne_eq] at h1 ⊢
  omega

theorem sortedKeys_buy_nodup {m : PriceMap} (h : SortedKeys buyBefore m) :
    (m.map Prod.fst).Nodup := by
  unfold SortedKeys at h
  exact List.Pairwise.imp (fun {a b} hab => by
    simp only [buyBefore, decide_eq_true_eq] at hab; omega) h

theorem sortedKeys_sell_nodup {m : PriceMap} (h : SortedKeys sellBefore m) :
    (m.map Prod.fst).Nodup := by
  unfold SortedKeys at h
  exact List.Pairwise.imp (fun {a b} hab => by
    simp only [sellBefore, decide_eq_true_eq] at hab; omega) h

theorem mem_mapPushBack {before : Int → Int → Bool} {m : PriceMap} {k : Int}
    {o : OrderPointer} {e : Int × OrderList} (h : e ∈ mapPushBack before m k o) :
    e ∈ m ∨ e = (k, (mapFind m k).getD [] ++ [o]) := by
  unfold mapPushBack at h
  cases hf : mapFind m k with
  | none =>
    rw [hf] at h
    rcases mem_mapInsert.1 h with h1 | h1
    · right; rw [h1]; rfl
    · left; exact h1
  | some l =>
    rw [hf] at h
    rcases mem_mapAssign m k _ e h with h1 | h1
    · left; exact h1
    · right; rw [h1]; rfl

theorem nonemptyLevels_mapPushBack {before : Int → Int → Bool} {m : PriceMap} (k : Int)
    (o : OrderPointer) (h : NonemptyLevels m) : NonemptyLevels (mapPushBack before m k o) := by
  intro e he
  rcases mem_mapPushBack he with h1 | h1
  · exact h e h1
  · rw [h1]; simp

theorem mem_mapErase {m : PriceMap} {k : Int} {e : Int × OrderList} :
    e ∈ mapErase m k ↔ e ∈ m ∧ e.1 ≠ k := by
  induction m with
  | nil => simp [mapErase]
  | cons e1 rest ih =>
    obtain ⟨k1, l1⟩ := e1
    simp only [mapErase]
    split_ifs with h
    · rw [ih]
      constructor
      · rintro ⟨h1, h2⟩; exact ⟨List.mem_cons_of_mem _ h1, h2⟩
      · rintro ⟨h1, h2⟩
        rcases List.mem_cons.1 h1 with h3 | h3
        · exact absurd (by rw [h3]; exact h) h2
        · exact ⟨h3, h2⟩
    · simp only [List.mem_cons, ih]
      constructor
      · rintro (h1 | ⟨h1, h2⟩)
        · exact ⟨Or.inl h1, by rw [h1]; exact h⟩
        · exact ⟨Or.inr h1, h2⟩
      · rintro ⟨h1 | h1, h2⟩
        · exact Or.inl h1
        · exact Or.inr ⟨h1, h2⟩

theorem mem_mapAssign_of_nodup {m : PriceMap} {k : Int} {v : OrderList} {e : Int × OrderList}
    (hn : (m.map Prod.fst).Nodup) (h : e ∈ mapAssign m k v) :
    (e ∈ m ∧ e.1 ≠ k) ∨ e = (k, v) := by
  induction m with
  | nil => simp [mapAssign] at h
  | cons e1 rest ih =>
    obtain ⟨k1, l1⟩ := e1
    simp only [List.map_cons, List.nodup_cons] at hn
    simp only [mapAssign] at h
    split_ifs at h with h1
    · rcases List.mem_cons.1 h with h2 | h2
      · right; rw [h2, h1]
      · left
        refine ⟨List.mem_cons_of_mem _ h2, fun hk => hn.1 ?_⟩
        rw [h1, ← hk]
        exact List.mem_map_of_mem _ h2
    · rcases List.mem_cons.1 h with h2 | h2
      · left; rw [h2]; exact ⟨List.mem_cons_self _ _, h1⟩
      · rcases ih hn.2 h2 with h3 | h3
        · left; exact ⟨List.mem_cons_of_mem _ h3.1, h3.2⟩
        · right; exact h3

namespace OrderBook

theorem mem_removeFromLevel {s : OrderBook} {m : PriceMap} {price orderId : Int}
    {e : Int × OrderList} (hn : (m.map Prod.fst).Nodup)
    (h : e ∈ removeFromLevel s m price orderId) :
    (e ∈ m ∧ e.1 ≠ price) ∨
    ∃ l, mapFind m price = some l ∧
      e = (price, l.filter (fun o => !decide ((s.deref o).orderId = orderId))) := by
  unfold removeFromLevel at h
  cases hf : mapFind m price with
  | none =>
    rw [hf] at h
    left; exact ⟨h, mapFind_eq_none.1 hf e h⟩
  | some l =>
    rw [hf] at h
    simp only at h
    split_ifs at h with h1
    · left; exact mem_mapErase.1 h
    · rcases mem_mapAssign_of_nodup hn h with h2 | h2
      · left; exact h2
      · right; exact ⟨l, rfl, h2⟩

/-! ### Well-formedness is kept by every operation -/

theorem wellFormed_empty : WellFormed empty := by
  unfold WellFormed SortedKeys NonemptyLevels empty
  simp

theorem wellFormed_transport {s s1 : OrderBook} (h : WellFormed s)
    (hlen : s.heap.length ≤ s1.heap.length)
    (hst : ∀ p, p < s.heap.length → (s1.deref p).static = (s.deref p).static)
    (hb : LevelSub s1.buyOrders_ s.buyOrders_) (hs : LevelSub s1.sellOrders_ s.sellOrders_)
    (hbn : NonemptyLevels s.buyOrders_ → NonemptyLevels s1.buyOrders_)
    (hsn : NonemptyLevels s.sellOrders_ → NonemptyLevels s1.sellOrders_)
    (hidx : ∀ e ∈ s1.activeOrders_, e ∈ s.activeOrders_)
    (hbq : ∀ p ∈ s1.buyQueue_, p ∈ s.buyQueue_) (hsq : ∀ p ∈ s1.sellQueue_, p ∈ s.sellQueue_) :
    WellFormed s1 := by
  obtain ⟨w1, w2, w3, w4, w5, w6, w7, w8, w9⟩ := h
  have hprice : ∀ p, p < s.heap.length → (s1.deref p).price = (s.deref p).price := fun p hp => by
    simpa [Order.static] using congrArg Order.price (hst p hp)
  have hside : ∀ p, p < s.heap.length → (s1.deref p).side = (s.deref p).side := fun p hp => by
    simpa [Order.static] using congrArg Order.side (hst p hp)
  have hoid : ∀ p, p < s.heap.length → (s1.deref p).orderId = (s.deref p).orderId :=
    fun p hp => by simpa [Order.static] using congrArg Order.orderId (hst p hp)
  refine ⟨sortedKeys_of_levelSub hb w1, sortedKeys_of_levelSub hs w2, hbn w3, hsn w4, ?_, ?_, ?_,
    ?_, ?_⟩
  · intro lv hlv p hp
    obtain ⟨e0, he0, hk, hsub⟩ := hb.2 lv hlv
    obtain ⟨v1, v2, v3⟩ := w5 e0 he0 p (hsub.subset hp)
    exact ⟨lt_of_lt_of_le v1 hlen, by rw [hprice p v1, hk]; exact v2, by rw [hside p v1]; exact v3⟩
  · intro lv hlv p hp
    obtain ⟨e0, he0, hk, hsub⟩ := hs.2 lv hlv
    obtain ⟨v1, v2, v3⟩ := w6 e0 he0 p (hsub.subset hp)
    exact ⟨lt_of_lt_of_le v1 hlen, by rw [hprice p v1, hk]; exact v2, by rw [hside p v1]; exact v3⟩
  · intro e he
    obtain ⟨v1, v2⟩ := w7 e (hidx e he)
    exact ⟨lt_of_lt_of_le v1 hlen, by rw [hoid _ v1]; exact v2⟩
  · intro p hp
    obtain ⟨v1, v2⟩ := w8 p (hbq p hp)
    exact ⟨lt_of_lt_of_le v1 hlen, by rw [hside p v1]; exact v2⟩
  · intro p hp
    obtain ⟨v1, v2⟩ := w9 p (hsq p hp)
    exact ⟨lt_of_lt_of_le v1 hlen, by rw [hside p v1]; exact v2⟩

theorem wellFormed_of_shrinks {s s1 : OrderBook} (h : WellFormed s) (hs : Shrinks s s1) :
    WellFormed s1 := by
  obtain ⟨a, b, c, d, e, f, g, i, _⟩ := hs
  exact wellFormed_transport h (le_of_eq a.1.symm) (fun p _ => a.2 p) b c d e
    (fun x hx => f.subset hx) (fun p hp => g ▸ hp) (fun p hp => i ▸ hp)

theorem wellFormed_alloc {s : OrderBook} (h : WellFormed s) (o : Order) :
    WellFormed (s.alloc o) :=
  wellFormed_transport h (by simp [alloc]) (fun p hp => by rw [deref_alloc_old s o p hp])
    (levelSub_refl _) (levelSub_refl _) id id (fun _ hx => hx) (fun _ hp => hp) (fun _ hp => hp)

theorem wellFormed_popBuy {s : OrderBook} (h : WellFormed s) :
    WellFormed { s with buyQueue_ := s.buyQueue_.tail } :=
  wellFormed_transport h (le_refl _) (fun _ _ => rfl) (levelSub_refl _) (levelSub_refl _) id id
    (fun _ hx => hx) (fun _ hp => List.mem_of_mem_tail hp) (fun _ hp => hp)

theorem wellFormed_popSell {s : OrderBook} (h : WellFormed s) :
    WellFormed { s with sellQueue_ := s.sellQueue_.tail } :=
  wellFormed_transport h (le_refl _) (fun _ _ => rfl) (levelSub_refl _) (levelSub_refl _) id id
    (fun _ hx => hx) (fun _ hp => hp) (fun _ hp => List.mem_of_mem_tail hp)

theorem wellFormed_reset {s : OrderBook} (h : WellFormed s) : WellFormed s.reset := by
  obtain ⟨w1, w2, w3, w4, w5, w6, w7, w8, w9⟩ := h
  refine ⟨?_, ?_, ?_, ?_, ?_, ?_, ?_, w8, w9⟩ <;>
    simp [reset, SortedKeys, NonemptyLevels]

theorem wellFormed_processBuyOrdersStep {s : OrderBook} (h : WellFormed s) :
    WellFormed s.processBuyOrdersStep := by
  unfold processBuyOrdersStep
  cases hq : s.buyQueue_ with
  | nil => exact h
  | cons order rest =>
    simp only
    have h1 := wellFormed_popBuy h
    rw [hq] at h1
    exact wellFormed_of_shrinks h1 (shrinks_matchBuyOrder _ _)

theorem wellFormed_processSellOrdersStep {s : OrderBook} (h : WellFormed s) :
    WellFormed s.processSellOrdersStep := by
  unfold processSellOrdersStep
  cases hq : s.sellQueue_ with
  | nil => exact h
  | cons order rest =>
    simp only
    have h1 := wellFormed_popSell h
    rw [hq] at h1
    exact wellFormed_of_shrinks h1 (shrinks_matchSellOrder _ _)

theorem shrinks_removeResting (s : OrderBook) (p : OrderPointer) (orderId : Int) :
    Shrinks s (s.removeResting p orderId) := by
  unfold removeResting
  split_ifs
  · exact ⟨sameStatic_of_heap_eq rfl, LevelSub_removeFromLevel _ _ _ _, levelSub_refl _,
      NonemptyLevels_removeFromLevel _ _ _ _, id, List.Sublist.refl _, rfl, rfl,
      List.prefix_refl _⟩
  · exact ⟨sameStatic_of_heap_eq rfl, levelSub_refl _, LevelSub_removeFromLevel _ _ _ _, id,
      NonemptyLevels_removeFromLevel _ _ _ _, List.Sublist.refl _, rfl, rfl,
      List.prefix_refl _⟩

theorem shrinks_activeErase (s : OrderBook) (orderId : Int) :
    Shrinks s { s with activeOrders_ := activeErase s.activeOrders_ orderId } :=
  ⟨sameStatic_of_heap_eq rfl, levelSub_refl _, levelSub_refl _, id, id, activeErase_sublist _ _,
    rfl, rfl, List.prefix_refl _⟩

theorem shrinks_cancelOrder (s : OrderBook) (orderId : Int) :
    Shrinks s (s.cancelOrder orderId).2 := by
  unfold cancelOrder
  cases h : activeFind s.activeOrders_ orderId with
  | none => exact shrinks_refl s
  | some p =>
    exact shrinks_trans (shrinks_removeResting s p orderId) (shrinks_activeErase _ orderId)

theorem wellFormed_cancelOrder {s : OrderBook} (h : WellFormed s) (orderId : Int) :
    WellFormed (s.cancelOrder orderId).2 :=
  wellFormed_of_shrinks h (shrinks_cancelOrder s orderId)

end OrderBook

namespace OrderBook

theorem wellFormed_pushBuy {s : OrderBook} (h : WellFormed s) (p : OrderPointer) (k : Int)
    (hv : p < s.heap.length) (hp : (s.deref p).price = k) (hsd : (s.deref p).side = Side.buy) :
    WellFormed { s with buyOrders_ := mapPushBack buyBefore s.buyOrders_ k p,
                        buyQueue_ := s.buyQueue_ ++ [p] } := by
  obtain ⟨w1, w2, w3, w4, w5, w6, w7, w8, w9⟩ := h
  refine ⟨sortedKeys_mapPushBack buyBefore_trans buyBefore_total k p w1, w2,
    nonemptyLevels_mapPushBack k p w3, w4, ?_, w6, w7, ?_, w9⟩
  · intro e he x hx
    rcases mem_mapPushBack he with h1 | h1
    · exact w5 e h1 x hx
    · rw [h1] at hx ⊢
      rcases List.mem_append.1 hx with h2 | h2
      · cases hf : mapFind s.buyOrders_ k with
        | none => rw [hf] at h2; simp at h2
        | some l =>
          rw [hf] at h2
          exact w5 (k, l) (mapFind_mem _ _ _ hf) x h2
      · rw [List.mem_singleton.1 h2]
        exact ⟨hv, hp, hsd⟩
  · intro x hx
    rcases List.mem_append.1 hx with h2 | h2
    · exact w8 x h2
    · rw [List.mem_singleton.1 h2]
      exact ⟨hv, hsd⟩

theorem wellFormed_pushSell {s : OrderBook} (h : WellFormed s) (p : OrderPointer) (k : Int)
    (hv : p < s.heap.length) (hp : (s.deref p).price = k) (hsd : (s.deref p).side ≠ Side.buy) :
    WellFormed { s with sellOrders_ := mapPushBack sellBefore s.sellOrders_ k p,
                        sellQueue_ := s.sellQueue_ ++ [p] } := by
  obtain ⟨w1, w2, w3, w4, w5, w6, w7, w8, w9⟩ := h
  refine ⟨w1, sortedKeys_mapPushBack sellBefore_trans sellBefore_total k p w2, w3,
    nonemptyLevels_mapPushBack k p w4, w5, ?_, w7, w8, ?_⟩
  · intro e he x hx
    rcases mem_mapPushBack he with h1 | h1
    · exact w6 e h1 x hx
    · rw [h1] at hx ⊢
      rcases List.mem_append.1 hx with h2 | h2
      · cases hf : mapFind s.sellOrders_ k with
        | none => rw [hf] at h2; simp at h2
        | some l =>
          rw [hf] at h2
          exact w6 (k, l) (mapFind_mem _ _ _ hf) x h2
      · rw [List.mem_singleton.1 h2]
        exact ⟨hv, hp, hsd⟩
  · intro x hx
    rcases List.mem_append.1 hx with h2 | h2
    · exact w9 x h2
    · rw [List.mem_singleton.1 h2]
      exact ⟨hv, hsd⟩

theorem mem_activeErase {a : ActiveOrdersMap} {k : Int} {e : Int × OrderPointer}
    (h : e ∈ activeErase a k) : e ∈ a := (activeErase_sublist a k).subset h

theorem wellFormed_activeInsert {s : OrderBook} (h : WellFormed s) (orderId : Int)
    (p : OrderPointer) (hv : p < s.heap.length) (hid : (s.deref p).orderId = orderId) :
    WellFormed { s with activeOrders_ := activeInsert s.activeOrders_ orderId p } := by
  obtain ⟨w1, w2, w3, w4, w5, w6, w7, w8, w9⟩ := h
  refine ⟨w1, w2, w3, w4, w5, w6, ?_, w8, w9⟩
  intro e he
  rcases List.mem_cons.1 he with h1 | h1
  · rw [h1]; exact ⟨hv, hid⟩
  · exact w7 e (mem_activeErase h1)

theorem wellFormed_insertResting {s : OrderBook} (h : WellFormed s) (p : OrderPointer)
    (side : Side) (k : Int) (hv : p < s.heap.length) (hp : (s.deref p).price = k)
    (hsd : (s.deref p).side = side) : WellFormed (s.insertResting p side k) := by
  unfold insertResting
  split_ifs with hside
  · exact wellFormed_pushBuy h p k hv hp (hsd.trans hside)
  · exact wellFormed_pushSell h p k hv hp (by rw [hsd]; exact hside)

theorem wellFormed_addOrder {s : OrderBook} (h : WellFormed s) (orderId price quantity : Int)
    (side : Side) (orderType : OrderType) :
    WellFormed (s.addOrder orderId price quantity side orderType) := by
  have h0 := wellFormed_alloc h (Order.mk orderType orderId price quantity side 0)
  by_cases ht : orderType = OrderType.Market ∨ orderType = OrderType.IOC
  · exact wellFormed_of_shrinks h0 (shrinks_addOrder_immediate s _ _ _ _ _ ht)
  · simp only [not_or] at ht
    have hv : s.heap.length <
        (s.alloc (Order.mk orderType orderId price quantity side 0)).heap.length := by
      simp [alloc]
    have h1 := wellFormed_activeInsert h0 orderId s.heap.length hv (by rw [deref_alloc_new])
    unfold addOrder
    rw [if_neg ht.1, if_neg ht.2]
    exact wellFormed_insertResting h1 s.heap.length side price hv
      (by show ((s.alloc _).deref _).price = _; rw [deref_alloc_new])
      (by show ((s.alloc _).deref _).side = _; rw [deref_alloc_new])

theorem deref_setPriceQuantity (s : OrderBook) (p p1 : OrderPointer) (a b : Int) :
    (s.setPriceQuantity p a b).deref p1 =
      if p1 = p ∧ p < s.heap.length then { s.deref p with price := a, quantity := b }
      else s.deref p1 := by
  unfold setPriceQuantity deref
  simp only [List.getElem?_set]
  by_cases h : p = p1
  · subst h
    by_cases h2 : p < s.heap.length
    · simp [h2]
    · have h3 : s.heap[p]? = none := List.getElem?_eq_none (Nat.le_of_not_lt h2)
      simp [h2, h3]
  · have h3 : ¬ p1 = p := fun e => h e.symm
    simp [h, h3]

theorem wellFormed_setPriceQuantity {s : OrderBook} (h : WellFormed s) (p : OrderPointer)
    (a b : Int) (hb : p ∉ restingOrders s.buyOrders_) (hs : p ∉ restingOrders s.sellOrders_) :
    WellFormed (s.setPriceQuantity p a b) := by
  obtain ⟨w1, w2, w3, w4, w5, w6, w7, w8, w9⟩ := h
  have hlen : (s.setPriceQuantity p a b).heap.length = s.heap.length := by
    simp [setPriceQuantity]
  have hne : ∀ x, x ≠ p → (s.setPriceQuantity p a b).deref x = s.deref x := by
    intro x hx; rw [deref_setPriceQuantity]; simp [hx]
  have hside : ∀ x, ((s.setPriceQuantity p a b).deref x).side = (s.deref x).side := by
    intro x; rw [deref_setPriceQuantity]; split_ifs with hc
    · rw [hc.1]
    · rfl
  have hoid : ∀ x, ((s.setPriceQuantity p a b).deref x).orderId = (s.deref x).orderId := by
    intro x; rw [deref_setPriceQuantity]; split_ifs with hc
    · rw [hc.1]
    · rfl
  refine ⟨w1, w2, w3, w4, ?_, ?_, ?_, ?_, ?_⟩
  · intro e he x hx
    have hxp : x ≠ p := fun hc => hb (mem_restingOrders.2 ⟨e, he, hc ▸ hx⟩)
    rw [hlen, hne x hxp]
    exact w5 e he x hx
  · intro e he x hx
    have hxp : x ≠ p := fun hc => hs (mem_restingOrders.2 ⟨e, he, hc ▸ hx⟩)
    rw [hlen, hne x hxp]
    exact w6 e he x hx
  · intro e he
    rw [hlen, hoid]; exact w7 e he
  · intro x hx
    rw [hlen, hside]; exact w8 x hx
  · intro x hx
    rw [hlen, hside]; exact w9 x hx

theorem not_mem_removeFromLevel_buy {s : OrderBook} (h : WellFormed s) (p : OrderPointer)
    (hside : (s.deref p).side = Side.buy) :
    p ∉ restingOrders (removeFromLevel s s.buyOrders_ (s.deref p).price (s.deref p).orderId) ∧
    p ∉ restingOrders s.sellOrders_ := by
  obtain ⟨w1, w2, w3, w4, w5, w6, w7, w8, w9⟩ := h
  constructor
  · intro hc
    obtain ⟨e, he, hpe⟩ := mem_restingOrders.1 hc
    rcases mem_removeFromLevel (sortedKeys_buy_nodup w1) he with ⟨h1, h2⟩ | ⟨l, _, h2⟩
    · exact h2 (w5 e h1 p hpe).2.1.symm
    · rw [h2] at hpe
      simp at hpe
  · intro hc
    obtain ⟨e, he, hpe⟩ := mem_restingOrders.1 hc
    exact (w6 e he p hpe).2.2 hside

theorem not_mem_removeFromLevel_sell {s : OrderBook} (h : WellFormed s) (p : OrderPointer)
    (hside : (s.deref p).side ≠ Side.buy) :
    p ∉ restingOrders s.buyOrders_ ∧
    p ∉ restingOrders (removeFromLevel s s.sellOrders_ (s.deref p).price (s.deref p).orderId) := by
  obtain ⟨w1, w2, w3, w4, w5, w6, w7, w8, w9⟩ := h
  constructor
  · intro hc
    obtain ⟨e, he, hpe⟩ := mem_restingOrders.1 hc
    exact hside (w5 e he p hpe).2.2
  · intro hc
    obtain ⟨e, he, hpe⟩ := mem_restingOrders.1 hc
    rcases mem_removeFromLevel (sortedKeys_sell_nodup w2) he with ⟨h1, h2⟩ | ⟨l, _, h2⟩
    · exact h2 (w6 e h1 p hpe).2.1.symm
    · rw [h2] at hpe
      simp at hpe

theorem mem_of_activeFind {a : ActiveOrdersMap} {k : Int} {p : OrderPointer}
    (hf : activeFind a k = some p) : (k, p) ∈ a := by
  induction a with
  | nil => simp [activeFind] at hf
  | cons e rest ih =>
    obtain ⟨k1, p1⟩ := e
    simp only [activeFind] at hf
    split_ifs at hf with hk
    · simp only [Option.some.injEq] at hf
      rw [hk, hf]; exact List.mem_cons_self _ _
    · exact List.mem_cons_of_mem _ (ih hf)

theorem not_mem_removeResting {s : OrderBook} (h : WellFormed s) (p : OrderPointer) :
    p ∉ restingOrders (s.removeResting p (s.deref p).orderId).buyOrders_ ∧
    p ∉ restingOrders (s.removeResting p (s.deref p).orderId).sellOrders_ := by
  by_cases hside : (s.deref p).side = Side.buy
  · rw [removeResting_of_buy s p _ hside]
    exact not_mem_removeFromLevel_buy h p hside
  · rw [removeResting_of_not_buy s p _ hside]
    exact not_mem_removeFromLevel_sell h p hside

theorem wellFormed_modifyOrder {s : OrderBook} (h : WellFormed s)
    (orderId newQuantity newPrice : Int) :
    WellFormed (s.modifyOrder orderId newQuantity newPrice).2 := by
  unfold modifyOrder
  cases hf : activeFind s.activeOrders_ orderId with
  | none => exact h
  | some p =>
    simp only
    obtain ⟨hv, hid⟩ := h.2.2.2.2.2.2.1 (orderId, p) (mem_of_activeFind hf)
    simp only at hv hid
    have hnot := not_mem_removeResting h p
    rw [hid] at hnot
    have hsh := shrinks_removeResting s p orderId
    have h1 := wellFormed_of_shrinks h hsh
    have h2 := wellFormed_setPriceQuantity h1 p newPrice newQuantity hnot.1 hnot.2
    have hv1 : p < (s.removeResting p orderId).heap.length := by rw [hsh.1.1]; exact hv
    have hd : ((s.removeResting p orderId).setPriceQuantity p newPrice newQuantity).deref p =
        { (s.removeResting p orderId).deref p with price := newPrice, quantity := newQuantity } := by
      rw [deref_setPriceQuantity]
      simp only [true_and]
      rw [if_pos hv1]
    exact wellFormed_insertResting h2 p _ newPrice (by simpa [setPriceQuantity] using hv1)
      (by rw [hd]) rfl

theorem wellFormed_of_reachable {s : OrderBook} (h : Reachable s) : WellFormed s := by
  induction h with
  | init => exact wellFormed_empty
  | add s orderId price quantity side orderType _ ih => exact wellFormed_addOrder ih _ _ _ _ _
  | cancel s orderId _ ih => exact wellFormed_cancelOrder ih _
  | modify s orderId q p _ ih => exact wellFormed_modifyOrder ih _ _ _
  | reset s _ ih => exact wellFormed_reset ih
  | buyWorker s _ ih => exact wellFormed_processBuyOrdersStep ih
  | sellWorker s _ ih => exact wellFormed_processSellOrdersStep ih

theorem wellFormed_of_visited {s : OrderBook} (h : Visited s) : WellFormed s := by
  induction h with
  | reachable s hr => exact wellFormed_of_reachable hr
  | alloc s o _ ih => exact wellFormed_alloc ih o
  | popBuy s _ ih => exact wellFormed_popBuy ih
  | popSell s _ ih => exact wellFormed_popSell ih
  | buyIteration s s1 b _ hstep ih => exact wellFormed_of_shrinks ih (shrinks_matchBuyStep hstep)
  | sellIteration s s1 b _ hstep ih => exact wellFormed_of_shrinks ih (shrinks_matchSellStep hstep)

end OrderBook

theorem sortedKeys_sell_head {k : Int} {l : OrderList} {rest : PriceMap}
    (h : SortedKeys sellBefore ((k, l) :: rest)) : ∀ e ∈ (k, l) :: rest, k ≤ e.1 := by
  unfold SortedKeys at h
  simp only [List.map_cons, List.pairwise_cons] at h
  intro e he
  rcases List.mem_cons.1 he with h1 | h1
  · rw [h1]
  · have := h.1 e.1 (List.mem_map_of_mem _ h1)
    simp only [sellBefore, decide_eq_true_eq] at this
    exact le_of_lt this

theorem sortedKeys_buy_head {k : Int} {l : OrderList} {rest : PriceMap}
    (h : SortedKeys buyBefore ((k, l) :: rest)) : ∀ e ∈ (k, l) :: rest, e.1 ≤ k := by
  unfold SortedKeys at h
  simp only [List.map_cons, List.pairwise_cons] at h
  intro e he
  rcases List.mem_cons.1 he with h1 | h1
  · rw [h1]
  · have := h.1 e.1 (List.mem_map_of_mem _ h1)
    simp only [buyBefore, decide_eq_true_eq] at this
    exact le_of_lt this

namespace OrderBook

/-- C3 (trade price is the passive order's price): at the head of any matching
loop iteration in a reachable run, for any incoming order, a trade emitted by
that iteration of `matchBuyOrder` is made with the order at the front of the
first ask level, and its price is the key of that level, which is the `price`
field of that resting order, the value `getBestAsk` returns at that moment and
the least ask price on the book; symmetrically a trade emitted by an iteration
of `matchSellOrder` has the price of the resting order at the front of the first
bid level, the value of `getBestBid` and the greatest bid price.  The incoming
order's own price does not occur in the trade. -/
theorem trade_price_is_passive_price (s : OrderBook) (h : Visited s) :
    (∀ incoming s1, matchBuyStep s incoming = some s1 →
      s1.trades = s.trades ∨
      ∃ bestAsk resting tl rest, s.sellOrders_ = (bestAsk, resting :: tl) :: rest ∧
        s1.trades = s.trades ++ [Trade.mk (s.deref incoming).orderId (s.deref resting).orderId
          (min (s.deref incoming).quantity (s.deref resting).quantity) bestAsk] ∧
        (s.deref resting).price = bestAsk ∧ s.getBestAsk = bestAsk ∧
        ∀ e ∈ s.sellOrders_, bestAsk ≤ e.1) ∧
    (∀ incoming s1, matchSellStep s incoming = some s1 →
      ∃ bestBid resting tl rest, s.buyOrders_ = (bestBid, resting :: tl) :: rest ∧
        s1.trades = s.trades ++ [Trade.mk (s.deref resting).orderId (s.deref incoming).orderId
          (min (s.deref incoming).quantity (s.deref resting).quantity) bestBid] ∧
        (s.deref resting).price = bestBid ∧ s.getBestBid = bestBid ∧
        ∀ e ∈ s.buyOrders_, e.1 ≤ bestBid) := by
  obtain ⟨w1, w2, w3, w4, w5, w6, w7, w8, w9⟩ := wellFormed_of_visited h
  constructor
  · intro b s1 hstep
    rcases matchBuyStep_trades hstep with h1 | ⟨k, sp, tl, rest, hs, _, _, _, ht⟩
    · left; exact h1
    · right
      refine ⟨k, sp, tl, rest, hs, ht, ?_, ?_, ?_⟩
      · exact (w6 (k, sp :: tl) (by rw [hs]; exact List.mem_cons_self _ _) sp
          (List.mem_cons_self _ _)).2.1
      · unfold getBestAsk; rw [hs]
      · rw [hs] at w2 ⊢
        exact sortedKeys_sell_head w2
  · intro sp s1 hstep
    obtain ⟨k, b, tl, rest, hs, _, _, _, ht⟩ := matchSellStep_trades hstep
    refine ⟨k, b, tl, rest, hs, ht, ?_, ?_, ?_⟩
    · exact (w5 (k, b :: tl) (by rw [hs]; exact List.mem_cons_self _ _) b
        (List.mem_cons_self _ _)).2.1
    · unfold getBestBid; rw [hs]
    · rw [hs] at w1 ⊢
      exact sortedKeys_buy_head w1

theorem trade_price_is_passive_price_witness :
    Visited marketBuyExample ∧
    matchBuyStep marketBuyExample 1 = some (marketBuyExample.tradeBuy 1 0 150 5) ∧
    ((marketBuyExample.tradeBuy 1 0 150 5).trades = marketBuyExample.trades ∨
     ∃ bestAsk resting tl rest,
      marketBuyExample.sellOrders_ = (bestAsk, resting :: tl) :: rest ∧
      (marketBuyExample.tradeBuy 1 0 150 5).trades = marketBuyExample.trades ++
        [Trade.mk (marketBuyExample.deref 1).orderId (marketBuyExample.deref resting).orderId
          (min (marketBuyExample.deref 1).quantity (marketBuyExample.deref resting).quantity)
          bestAsk] ∧
      (marketBuyExample.deref resting).price = bestAsk ∧
      marketBuyExample.getBestAsk = bestAsk ∧
      ∀ e ∈ marketBuyExample.sellOrders_, bestAsk ≤ e.1) :=
  ⟨Visited.alloc _ _ (Visited.reachable _ (Reachable.add _ 8 150 10 Side.sell OrderType.Limit
      Reachable.init)),
   by decide,
   (trade_price_is_passive_price marketBuyExample (Visited.alloc _ _ (Visited.reachable _
      (Reachable.add _ 8 150 10 Side.sell OrderType.Limit Reachable.init)))).1 1
      (marketBuyExample.tradeBuy 1 0 150 5) (by decide)⟩

end OrderBook

/-! ### The reference sweep -/

theorem sweepFills_nonpos (q : Int) (l : List Int) (h : q ≤ 0) : sweepFills q l = [] := by
  cases l with
  | nil => rfl
  | cons r rest => simp [sweepFills, h]

theorem sweepFills_length_le (q : Int) (l : List Int) : (sweepFills q l).length ≤ l.length := by
  induction l generalizing q with
  | nil => simp [sweepFills]
  | cons r rest ih =>
    simp only [sweepFills]
    split_ifs
    · simp
    · simp only [List.length_cons]
      exact Nat.succ_le_succ (ih _)

theorem sweepFills_sum_le (q : Int) (l : List Int) (hq : 0 ≤ q) (hl : ∀ r ∈ l, 0 < r) :
    (sweepFills q l).sum ≤ q := by
  induction l generalizing q with
  | nil => simpa [sweepFills] using hq
  | cons r rest ih =>
    simp only [sweepFills]
    split_ifs with h
    · simpa using hq
    · have hr : 0 < r := hl r (List.mem_cons_self _ _)
      have h1 : 0 ≤ q - min q r := by
        have := min_le_left q r
        omega
      have := ih (q - min q r) h1 (fun x hx => hl x (List.mem_cons_of_mem _ hx))
      simp only [List.sum_cons]
      omega

theorem sweepFills_bounds (q : Int) (l : List Int) (hl : ∀ r ∈ l, 0 < r) :
    List.Forall₂ (fun f r => 0 < f ∧ f ≤ r) (sweepFills q l)
      (l.take (sweepFills q l).length) := by
  induction l generalizing q with
  | nil => simp [sweepFills]
  | cons r rest ih =>
    simp only [sweepFills]
    split_ifs with h
    · simp
    · have hr : 0 < r := hl r (List.mem_cons_self _ _)
      simp only [List.length_cons, List.take_succ_cons, List.forall₂_cons]
      refine ⟨⟨lt_min (by omega) hr, min_le_right _ _⟩, ih _ (fun x hx => hl x (List.mem_cons_of_mem _ hx))⟩

theorem sweepFills_full (q : Int) (l : List Int) :
    List.Forall₂ (fun f r => f = r) (sweepFills q l).dropLast
      (l.take ((sweepFills q l).length - 1)) := by
  induction l generalizing q with
  | nil => simp [sweepFills]
  | cons r rest ih =>
    simp only [sweepFills]
    split_ifs with h
    · simp
    · cases hrest : sweepFills (q - min q r) rest with
      | nil => simp
      | cons f fs =>
        have hpos : ¬ (q - min q r ≤ 0) := by
          intro hc
          rw [sweepFills_nonpos _ _ hc] at hrest
          exact absurd hrest (by simp)
        have hmin : min q r = r := by
          rcases min_choice q r with h1 | h1
          · rw [h1] at hpos; omega
          · exact h1
        have := ih (q - min q r)
        rw [hrest] at this
        simp only [List.length_cons, Nat.add_sub_cancel] at this ⊢
        rw [List.dropLast_cons_of_ne_nil (by simp), List.take_succ_cons]
        exact List.Forall₂.cons hmin this

namespace OrderBook

/-! ### Effect of a trade on the quantities -/

theorem deref_sub_sub (s : OrderBook) (a c : OrderPointer) (m : Int) (hne : a ≠ c)
    (ha : a < s.heap.length) (hc : c < s.heap.length) :
    (((s.subQuantity a m).subQuantity c m).deref a).quantity = (s.deref a).quantity - m ∧
    (((s.subQuantity a m).subQuantity c m).deref c).quantity = (s.deref c).quantity - m ∧
    ∀ x, x ≠ a → x ≠ c → ((s.subQuantity a m).subQuantity c m).deref x = s.deref x := by
  refine ⟨?_, ?_, ?_⟩
  · rw [deref_subQuantity_of_ne _ c a m hne, deref_subQuantity_self s a m ha]
  · rw [deref_subQuantity_self _ c m (by rw [subQuantity_heap_length]; exact hc),
      deref_subQuantity_of_ne s a c m (fun e => hne e.symm)]
  · intro x hxa hxc
    rw [deref_subQuantity_of_ne _ c x m hxc, deref_subQuantity_of_ne s a x m hxa]

theorem tradeBuy_effect (s : OrderBook) (b sp : OrderPointer) (k m : Int) (hne : b ≠ sp)
    (hb : 0 < (s.deref b).quantity) (hs : 0 < (s.deref sp).quantity) :
    ((s.tradeBuy b sp k m).deref b).quantity = (s.deref b).quantity - m ∧
    ((s.tradeBuy b sp k m).deref sp).quantity = (s.deref sp).quantity - m ∧
    ∀ x, x ≠ b → x ≠ sp → (s.tradeBuy b sp k m).deref x = s.deref x := by
  simp only [tradeBuy_deref]
  exact deref_sub_sub s b sp m hne (valid_of_quantity_pos hb) (valid_of_quantity_pos hs)

theorem tradeSell_effect (s : OrderBook) (sp b : OrderPointer) (k m : Int) (hne : sp ≠ b)
    (hs : 0 < (s.deref sp).quantity) (hb : 0 < (s.deref b).quantity) :
    ((s.tradeSell sp b k m).deref sp).quantity = (s.deref sp).quantity - m ∧
    ((s.tradeSell sp b k m).deref b).quantity = (s.deref b).quantity - m ∧
    ∀ x, x ≠ sp → x ≠ b → (s.tradeSell sp b k m).deref x = s.deref x := by
  simp only [tradeSell_deref]
  exact deref_sub_sub s sp b m hne (valid_of_quantity_pos hs) (valid_of_quantity_pos hb)

theorem matchBuyStep_of_trade {s : OrderBook} {b sp : OrderPointer} {k : Int} {tl : OrderList}
    {rest : PriceMap} (hs : s.sellOrders_ = (k, sp :: tl) :: rest)
    (hb : 0 < (s.deref b).quantity)
    (hc : (s.deref b).orderType = OrderType.Market ∨ k ≤ (s.deref b).price)
    (hsp : 0 < (s.deref sp).quantity) :
    matchBuyStep s b =
      some (s.tradeBuy b sp k (min (s.deref b).quantity (s.deref sp).quantity)) := by
  unfold matchBuyStep
  rw [if_pos hb, hs]
  simp only
  rw [if_pos hc, if_neg (not_le.2 hsp), if_neg (not_le.2 (lt_min hb hsp))]

theorem matchSellStep_of_trade {s : OrderBook} {sp b : OrderPointer} {k : Int} {tl : OrderList}
    {rest : PriceMap} (hs : s.buyOrders_ = (k, b :: tl) :: rest)
    (hsp : 0 < (s.deref sp).quantity)
    (hc : (s.deref sp).orderType = OrderType.Market ∨ k ≥ (s.deref sp).price)
    (hb : 0 < (s.deref b).quantity) :
    matchSellStep s sp =
      some (s.tradeSell sp b k (min (s.deref sp).quantity (s.deref b).quantity)) := by
  unfold matchSellStep
  rw [if_pos hsp, hs]
  simp only
  rw [if_pos hc, if_neg (not_le.2 hsp), if_neg (not_le.2 (lt_min hsp hb))]

end OrderBook

/-! ### Priority order after a pop -/

theorem restingEntries_cons (k : Int) (l : OrderList) (rest : PriceMap) :
    restingEntries ((k, l) :: rest) = l.map (fun p => (k, p)) ++ restingEntries rest := by
  simp [restingEntries]

theorem popFront_of_sorted {k : Int} {p : OrderPointer}
    {tl : OrderList} {rest : PriceMap} (hk : k ∉ rest.map Prod.fst) :
    popFront ((k, p :: tl) :: rest) = if tl = [] then rest else (k, tl) :: rest := by
  simp only [popFront, List.tail_cons, List.isEmpty_iff]
  split_ifs with h
  · simp only [mapErase, if_true]
    exact OrderBook.mapErase_of_find_none rest k (mapFind_none_of_not_mem_keys hk)
  · rfl

theorem restingEntries_popFront {k : Int} {p : OrderPointer} {tl : OrderList} {rest : PriceMap}
    (hk : k ∉ rest.map Prod.fst) :
    restingEntries (popFront ((k, p :: tl) :: rest)) =
      tl.map (fun x => (k, x)) ++ restingEntries rest := by
  rw [popFront_of_sorted hk]
  split_ifs with h
  · rw [h]; rfl
  · rw [restingEntries_cons]

theorem restingOrders_popFront {k : Int} {p : OrderPointer} {tl : OrderList} {rest : PriceMap}
    (hk : k ∉ rest.map Prod.fst) :
    restingOrders (popFront ((k, p :: tl) :: rest)) = tl ++ restingOrders rest := by
  rw [popFront_of_sorted hk]
  split_ifs with h
  · rw [h]; rfl
  · rw [restingOrders_cons]

theorem restingOrders_eq_map_restingEntries (m : PriceMap) :
    restingOrders m = (restingEntries m).map Prod.snd := by
  induction m with
  | nil => rfl
  | cons e rest ih =>
    obtain ⟨k, l⟩ := e
    rw [restingOrders_cons, restingEntries_cons, List.map_append, ih]
    simp

namespace OrderBook

theorem matchBuyLoop_sweep (n : Nat) (s : OrderBook) (b : OrderPointer)
    (hn : restingCount s.sellOrders_ < n)
    (hkeys : (s.sellOrders_.map Prod.fst).Nodup)
    (hne : NonemptyLevels s.sellOrders_)
    (hnd : (restingOrders s.sellOrders_).Nodup)
    (hpos : ∀ p ∈ restingOrders s.sellOrders_, p ≠ b ∧ 0 < (s.deref p).quantity)
    (hq : 0 ≤ (s.deref b).quantity)
    (ht : (s.deref b).orderType = OrderType.Market) :
    (matchBuyLoop n s b).trades = s.trades ++
      List.zipWith (fun e f => Trade.mk (s.deref b).orderId (s.deref e.2).orderId f e.1)
        (restingEntries s.sellOrders_)
        (sweepFills (s.deref b).quantity
          ((restingEntries s.sellOrders_).map (fun e => (s.deref e.2).quantity))) ∧
    ((matchBuyLoop n s b).deref b).quantity = (s.deref b).quantity -
      (sweepFills (s.deref b).quantity
        ((restingEntries s.sellOrders_).map (fun e => (s.deref e.2).quantity))).sum ∧
    ((matchBuyLoop n s b).sellOrders_ = [] ∨ ((matchBuyLoop n s b).deref b).quantity = 0) := by
  induction n generalizing s with
  | zero => omega
  | succ n ih =>
    by_cases hq0 : (s.deref b).quantity ≤ 0
    · rw [matchBuyLoop_of_none (matchBuyStep_of_nonpos hq0), sweepFills_nonpos _ _ hq0]
      simp only [List.zipWith_nil_right, List.append_nil, List.sum_nil, sub_zero, true_and]
      right; omega
    · have hqb : 0 < (s.deref b).quantity := lt_of_not_ge hq0
      cases hs : s.sellOrders_ with
      | nil =>
        rw [matchBuyLoop_of_none (matchBuyStep_of_no_asks hs), hs]
        simp [restingEntries, sweepFills]
      | cons e rest =>
        obtain ⟨k, l⟩ := e
        cases l with
        | nil => exact absurd rfl (hne (k, []) (by rw [hs]; exact List.mem_cons_self _ _))
        | cons sp tl =>
          rw [hs] at hkeys hnd hpos hn
          simp only [List.map_cons, List.nodup_cons] at hkeys
          rw [restingOrders_cons] at hnd hpos
          simp only [List.cons_append, List.nodup_cons] at hnd
          obtain ⟨hspb, hqs⟩ := hpos sp (by simp)
          have hbsp : b ≠ sp := fun e => hspb e.symm
          have hstep := matchBuyStep_of_trade hs hqb (Or.inl ht) hqs
          obtain ⟨e1, e2, e3⟩ := tradeBuy_effect s b sp k
            (min (s.deref b).quantity (s.deref sp).quantity) hbsp hqb hqs
          have hsh := shrinks_tradeBuy s b sp k (min (s.deref b).quantity (s.deref sp).quantity)
          have hsells := tradeBuy_sellOrders s b sp k
            (min (s.deref b).quantity (s.deref sp).quantity)
          rw [← tradeBuy_deref s b sp k _ sp, e2, hs] at hsells
          simp only [matchBuyLoop, hstep]
          obtain ⟨E1, hE1⟩ : ∃ E1, E1 = tl.map (fun x => (k, x)) ++ restingEntries rest :=
            ⟨_, rfl⟩
          have hE : restingEntries ((k, sp :: tl) :: rest) = (k, sp) :: E1 := by
            rw [restingEntries_cons, hE1]; rfl
          rw [hE]
          simp only [List.map_cons, sweepFills, if_neg hq0, List.zipWith_cons_cons, List.sum_cons]
          by_cases hle : (s.deref sp).quantity ≤ (s.deref b).quantity
          · -- the resting order is filled completely and popped
            have hmin : min (s.deref b).quantity (s.deref sp).quantity = (s.deref sp).quantity :=
              min_eq_right hle
            rw [hmin] at e1 e2 e3 hsells hsh ⊢
            rw [sub_self, if_pos rfl] at hsells
            have hro : restingOrders (s.tradeBuy b sp k (s.deref sp).quantity).sellOrders_ =
                tl ++ restingOrders rest := by
              rw [hsells]; exact restingOrders_popFront hkeys.1
            have hre : restingEntries (s.tradeBuy b sp k (s.deref sp).quantity).sellOrders_ =
                E1 := by
              rw [hsells, hE1]; exact restingEntries_popFront hkeys.1
            have hsame : ∀ x ∈ tl ++ restingOrders rest,
                (s.tradeBuy b sp k (s.deref sp).quantity).deref x = s.deref x := by
              intro x hx
              exact e3 x (hpos x (List.mem_cons_of_mem _ hx)).1 (fun hc => hnd.1 (hc ▸ hx))
            have hih := ih (s.tradeBuy b sp k (s.deref sp).quantity)
              (by
                rw [hsells]
                have := restingCount_popFront_lt k sp tl rest
                omega)
              (by rw [hsells]; exact (levelSub_popFront _).1.nodup (by
                simp only [List.map_cons, List.nodup_cons]; exact hkeys))
              (by
                have := hsh.2.2.2.2.1
                rw [hs] at this
                exact this (hs ▸ hne))
              (by rw [hro]; exact hnd.2)
              (by
                intro x hx
                rw [hro] at hx
                rw [hsame x hx]
                exact hpos x (List.mem_cons_of_mem _ hx))
              (by rw [e1]; omega)
              (by rw [hsh.1.orderType]; exact ht)
            rw [hre, e1] at hih
            have hmapq : List.map (fun e => ((s.tradeBuy b sp k (s.deref sp).quantity).deref
                e.2).quantity) E1 = List.map (fun e => (s.deref e.2).quantity) E1 := by
              apply List.map_congr_left
              intro e he
              have : e.2 ∈ tl ++ restingOrders rest := by
                rw [restingOrders_eq_map_restingEntries]
                rw [hE1] at he
                rcases List.mem_append.1 he with h1 | h1
                · obtain ⟨x, hx, rfl⟩ := List.mem_map.1 h1
                  exact List.mem_append_left _ hx
                · exact List.mem_append_right _ (List.mem_map_of_mem _ h1)
              rw [hsame _ this]
            have hfun : (fun (e : Int × OrderPointer) (f : Int) =>
                Trade.mk ((s.tradeBuy b sp k (s.deref sp).quantity).deref b).orderId
                  ((s.tradeBuy b sp k (s.deref sp).quantity).deref e.2).orderId f e.1) =
                (fun e f => Trade.mk (s.deref b).orderId (s.deref e.2).orderId f e.1) := by
              funext e f
              rw [hsh.1.orderId, hsh.1.orderId]
            rw [hmapq, hfun, tradeBuy_trades] at hih
            obtain ⟨i1, i2, i3⟩ := hih
            refine ⟨?_, ?_, i3⟩
            · rw [i1, List.append_assoc]
              rfl
            · rw [i2]
              have : ∀ a c d : Int, a - c - d = a - (c + d) := fun a c d => by omega
              exact this _ _ _
          · -- the incoming order is used up; the resting order keeps a residual
            have hlt : (s.deref b).quantity < (s.deref sp).quantity := lt_of_not_ge hle
            have hmin : min (s.deref b).quantity (s.deref sp).quantity = (s.deref b).quantity :=
              min_eq_left (le_of_lt hlt)
            rw [hmin] at e1 ⊢
            rw [sub_self] at e1
            rw [matchBuyLoop_of_none (matchBuyStep_of_nonpos (le_of_eq e1)), sub_self,
              sweepFills_nonpos _ _ (le_refl 0), tradeBuy_trades]
            simp only [List.zipWith_nil_right, List.sum_nil, add_zero, sub_self]
            exact ⟨trivial, e1, Or.inr e1⟩

end OrderBook

namespace OrderBook

theorem matchSellLoop_sweep (n : Nat) (s : OrderBook) (b : OrderPointer)
    (hn : restingCount s.buyOrders_ < n)
    (hkeys : (s.buyOrders_.map Prod.fst).Nodup)
    (hne : NonemptyLevels s.buyOrders_)
    (hnd : (restingOrders s.buyOrders_).Nodup)
    (hpos : ∀ p ∈ restingOrders s.buyOrders_, p ≠ b ∧ 0 < (s.deref p).quantity)
    (hq : 0 ≤ (s.deref b).quantity)
    (ht : (s.deref b).orderType = OrderType.Market) :
    (matchSellLoop n s b).trades = s.trades ++
      List.zipWith (fun e f => Trade.mk (s.deref e.2).orderId (s.deref b).orderId f e.1)
        (restingEntries s.buyOrders_)
        (sweepFills (s.deref b).quantity
          ((restingEntries s.buyOrders_).map (fun e => (s.deref e.2).quantity))) ∧
    ((matchSellLoop n s b).deref b).quantity = (s.deref b).quantity -
      (sweepFills (s.deref b).quantity
        ((restingEntries s.buyOrders_).map (fun e => (s.deref e.2).quantity))).sum ∧
    ((matchSellLoop n s b).buyOrders_ = [] ∨ ((matchSellLoop n s b).deref b).quantity = 0) := by
  induction n generalizing s with
  | zero => omega
  | succ n ih =>
    by_cases hq0 : (s.deref b).quantity ≤ 0
    · rw [matchSellLoop_of_none (matchSellStep_of_nonpos hq0), sweepFills_nonpos _ _ hq0]
      simp only [List.zipWith_nil_right, List.append_nil, List.sum_nil, sub_zero, true_and]
      right; omega
    · have hqb : 0 < (s.deref b).quantity := lt_of_not_ge hq0
      cases hs : s.buyOrders_ with
      | nil =>
        rw [matchSellLoop_of_none (matchSellStep_of_no_bids hs), hs]
        simp [restingEntries, sweepFills]
      | cons e rest =>
        obtain ⟨k, l⟩ := e
        cases l with
        | nil => exact absurd rfl (hne (k, []) (by rw [hs]; exact List.mem_cons_self _ _))
        | cons sp tl =>
          rw [hs] at hkeys hnd hpos hn
          simp only [List.map_cons, List.nodup_cons] at hkeys
          rw [restingOrders_cons] at hnd hpos
          simp only [List.cons_append, List.nodup_cons] at hnd
          obtain ⟨hspb, hqs⟩ := hpos sp (by simp)
          have hbsp : b ≠ sp := fun e => hspb e.symm
          have hstep := matchSellStep_of_trade hs hqb (Or.inl ht) hqs
          obtain ⟨e1, e2, e3⟩ := tradeSell_effect s b sp k
            (min (s.deref b).quantity (s.deref sp).quantity) hbsp hqb hqs
          have hsh := shrinks_tradeSell s b sp k (min (s.deref b).quantity (s.deref sp).quantity)
          have hsells := tradeSell_buyOrders s b sp k
            (min (s.deref b).quantity (s.deref sp).quantity)
          rw [← tradeSell_deref s b sp k _ sp, e2, hs] at hsells
          simp only [matchSellLoop, hstep]
          obtain ⟨E1, hE1⟩ : ∃ E1, E1 = tl.map (fun x => (k, x)) ++ restingEntries rest :=
            ⟨_, rfl⟩
          have hE : restingEntries ((k, sp :: tl) :: rest) = (k, sp) :: E1 := by
            rw [restingEntries_cons, hE1]; rfl
          rw [hE]
          simp only [List.map_cons, sweepFills, if_neg hq0, List.zipWith_cons_cons, List.sum_cons]
          by_cases hle : (s.deref sp).quantity ≤ (s.deref b).quantity
          · -- the resting order is filled completely and popped
            have hmin : min (s.deref b).quantity (s.deref sp).quantity = (s.deref sp).quantity :=
              min_eq_right hle
            rw [hmin] at e1 e2 e3 hsells hsh ⊢
            rw [sub_self, if_pos rfl] at hsells
            have hro : restingOrders (s.tradeSell b sp k (s.deref sp).quantity).buyOrders_ =
                tl ++ restingOrders rest := by
              rw [hsells]; exact restingOrders_popFront hkeys.1
            have hre : restingEntries (s.tradeSell b sp k (s.deref sp).quantity).buyOrders_ =
                E1 := by
              rw [hsells, hE1]; exact restingEntries_popFront hkeys.1
            have hsame : ∀ x ∈ tl ++ restingOrders rest,
                (s.tradeSell b sp k (s.deref sp).quantity).deref x = s.deref x := by
              intro x hx
              exact e3 x (hpos x (List.mem_cons_of_mem _ hx)).1 (fun hc => hnd.1 (hc ▸ hx))
            have hih := ih (s.tradeSell b sp k (s.deref sp).quantity)
              (by
                rw [hsells]
                have := restingCount_popFront_lt k sp tl rest
                omega)
              (by rw [hsells]; exact (levelSub_popFront _).1.nodup (by
                simp only [List.map_cons, List.nodup_cons]; exact hkeys))
              (by
                have := hsh.2.2.2.1
                rw [hs] at this
                exact this (hs ▸ hne))
              (by rw [hro]; exact hnd.2)
              (by
                intro x hx
                rw [hro] at hx
                rw [hsame x hx]
                exact hpos x (List.mem_cons_of_mem _ hx))
              (by rw [e1]; omega)
              (by rw [hsh.1.orderType]; exact ht)
            rw [hre, e1] at hih
            have hmapq : List.map (fun e => ((s.tradeSell b sp k (s.deref sp).quantity).deref
                e.2).quantity) E1 = List.map (fun e => (s.deref e.2).quantity) E1 := by
              apply List.map_congr_left
              intro e he
              have : e.2 ∈ tl ++ restingOrders rest := by
                rw [restingOrders_eq_map_restingEntries]
                rw [hE1] at he
                rcases List.mem_append.1 he with h1 | h1
                · obtain ⟨x, hx, rfl⟩ := List.mem_map.1 h1
                  exact List.mem_append_left _ hx
                · exact List.mem_append_right _ (List.mem_map_of_mem _ h1)
              rw [hsame _ this]
            have hfun : (fun (e : Int × OrderPointer) (f : Int) =>
                Trade.mk ((s.tradeSell b sp k (s.deref sp).quantity).deref e.2).orderId
                  ((s.tradeSell b sp k (s.deref sp).quantity).deref b).orderId f e.1) =
                (fun e f => Trade.mk (s.deref e.2).orderId (s.deref b).orderId f e.1) := by
              funext e f
              rw [hsh.1.orderId, hsh.1.orderId]
            rw [hmapq, hfun, tradeSell_trades] at hih
            obtain ⟨i1, i2, i3⟩ := hih
            refine ⟨?_, ?_, i3⟩
            · rw [i1, List.append_assoc]
              rfl
            · rw [i2]
              have : ∀ a c d : Int, a - c - d = a - (c + d) := fun a c d => by omega
              exact this _ _ _
          · -- the incoming order is used up; the resting order keeps a residual
            have hlt : (s.deref b).quantity < (s.deref sp).quantity := lt_of_not_ge hle
            have hmin : min (s.deref b).quantity (s.deref sp).quantity = (s.deref b).quantity :=
              min_eq_left (le_of_lt hlt)
            rw [hmin] at e1 ⊢
            rw [sub_self] at e1
            rw [matchSellLoop_of_none (matchSellStep_of_nonpos (le_of_eq e1)), sub_self,
              sweepFills_nonpos _ _ (le_refl 0), tradeSell_trades]
            simp only [List.zipWith_nil_right, List.sum_nil, add_zero, sub_self]
            exact ⟨trivial, e1, Or.inr e1⟩

end OrderBook

theorem mem_restingEntries {m : PriceMap} {x : Int × OrderPointer} :
    x ∈ restingEntries m ↔ ∃ e ∈ m, x.1 = e.1 ∧ x.2 ∈ e.2 := by
  induction m with
  | nil => simp [restingEntries]
  | cons e rest ih =>
    obtain ⟨k, l⟩ := e
    rw [restingEntries_cons, List.mem_append, ih]
    constructor
    · rintro (h | ⟨e, he, h1, h2⟩)
      · obtain ⟨p, hp, rfl⟩ := List.mem_map.1 h
        exact ⟨(k, l), List.mem_cons_self _ _, rfl, hp⟩
      · exact ⟨e, List.mem_cons_of_mem _ he, h1, h2⟩
    · rintro ⟨e, he, h1, h2⟩
      rcases List.mem_cons.1 he with h | h
      · left
        rw [h] at h1 h2
        exact List.mem_map.2 ⟨x.2, h2, Prod.ext h1.symm rfl⟩
      · right; exact ⟨e, h, h1, h2⟩

theorem restingEntries_ascending {m : PriceMap} (h : SortedKeys sellBefore m) :
    ((restingEntries m).map Prod.fst).Pairwise (fun a b => a ≤ b) := by
  induction m with
  | nil => simp [restingEntries]
  | cons e rest ih =>
    obtain ⟨k, l⟩ := e
    have hhead := sortedKeys_sell_head h
    unfold SortedKeys at h ih
    simp only [List.map_cons, List.pairwise_cons] at h
    rw [restingEntries_cons, List.map_append, List.pairwise_append]
    refine ⟨?_, ih h.2, ?_⟩
    · rw [List.map_map]
      rw [List.pairwise_map]
      exact List.pairwise_of_forall (fun _ _ => le_refl _)
    · intro a ha c hc
      rw [List.map_map] at ha
      obtain ⟨p, _, rfl⟩ := List.mem_map.1 ha
      obtain ⟨x, hx, rfl⟩ := List.mem_map.1 hc
      obtain ⟨e, he, h1, _⟩ := mem_restingEntries.1 hx
      rw [h1]
      exact hhead e (List.mem_cons_of_mem _ he)

theorem restingEntries_descending {m : PriceMap} (h : SortedKeys buyBefore m) :
    ((restingEntries m).map Prod.fst).Pairwise (fun a b => b ≤ a) := by
  induction m with
  | nil => simp [restingEntries]
  | cons e rest ih =>
    obtain ⟨k, l⟩ := e
    have hhead := sortedKeys_buy_head h
    unfold SortedKeys at h ih
    simp only [List.map_cons, List.pairwise_cons] at h
    rw [restingEntries_cons, List.map_append, List.pairwise_append]
    refine ⟨?_, ih h.2, ?_⟩
    · rw [List.map_map]
      rw [List.pairwise_map]
      exact List.pairwise_of_forall (fun _ _ => le_refl _)
    · intro a ha c hc
      rw [List.map_map] at ha
      obtain ⟨p, _, rfl⟩ := List.mem_map.1 ha
      obtain ⟨x, hx, rfl⟩ := List.mem_map.1 hc
      obtain ⟨e, he, h1, _⟩ := mem_restingEntries.1 hx
      rw [h1]
      exact hhead e (List.mem_cons_of_mem _ he)

namespace OrderBook

theorem addOrder_market_eq (s : OrderBook) (orderId price quantity : Int) (side : Side) :
    s.addOrder orderId price quantity side OrderType.Market =
      (s.alloc (Order.mk OrderType.Market orderId price quantity side 0)).processOrder
        s.heap.length := by
  unfold addOrder
  simp only [if_true]

/-- The properties of the fills of a sweep, over the resting entries. -/
theorem sweepFills_spec (q : Int) (hq : 0 ≤ q) (E : List (Int × OrderPointer))
    (g : OrderPointer → Int) (hg : ∀ e ∈ E, 0 < g e.2) :
    (sweepFills q (E.map (fun e => g e.2))).length ≤ E.length ∧
    List.Forall₂ (fun f e => 0 < f ∧ f ≤ g e.2) (sweepFills q (E.map (fun e => g e.2)))
      (E.take (sweepFills q (E.map (fun e => g e.2))).length) ∧
    List.Forall₂ (fun f e => f = g e.2) (sweepFills q (E.map (fun e => g e.2))).dropLast
      (E.take ((sweepFills q (E.map (fun e => g e.2))).length - 1)) ∧
    (sweepFills q (E.map (fun e => g e.2))).sum ≤ q := by
  have hpos : ∀ r ∈ E.map (fun e => g e.2), 0 < r := by
    intro r hr
    obtain ⟨e, he, rfl⟩ := List.mem_map.1 hr
    exact hg e he
  refine ⟨?_, ?_, ?_, sweepFills_sum_le q _ hq hpos⟩
  · simpa using sweepFills_length_le q (E.map (fun e => g e.2))
  · have := sweepFills_bounds q (E.map (fun e => g e.2)) hpos
    rw [← List.map_take, List.forall₂_map_right_iff] at this
    exact this
  · have := sweepFills_full q (E.map (fun e => g e.2))
    rw [← List.map_take, List.forall₂_map_right_iff] at this
    exact this

end OrderBook

namespace OrderBook

theorem zipWith_congr_left {α β γ : Type} (f g : α → β → γ) (E : List α) (F : List β)
    (h : ∀ e ∈ E, ∀ x, f e x = g e x) : List.zipWith f E F = List.zipWith g E F := by
  induction E generalizing F with
  | nil => simp
  | cons e rest ih =>
    cases F with
    | nil => simp
    | cons x xs =>
      simp only [List.zipWith_cons_cons]
      rw [h e (List.mem_cons_self _ _) x, ih xs (fun a ha => h a (List.mem_cons_of_mem _ ha))]

theorem mem_restingOrders_of_entry {m : PriceMap} {e : Int × OrderPointer}
    (h : e ∈ restingEntries m) : e.2 ∈ restingOrders m := by
  rw [restingOrders_eq_map_restingEntries]
  exact List.mem_map_of_mem _ h

theorem addOrder_market_buy_sweep (s : OrderBook) (orderId price quantity : Int)
    (hq : 0 < quantity) (hsorted : SortedKeys sellBefore s.sellOrders_)
    (hne : NonemptyLevels s.sellOrders_) (hnd : (restingOrders s.sellOrders_).Nodup)
    (hpos : ∀ p ∈ restingOrders s.sellOrders_, p < s.heap.length ∧ 0 < (s.deref p).quantity) :
    ∃ fills : List Int,
      fills = sweepFills quantity
        ((restingEntries s.sellOrders_).map (fun e => (s.deref e.2).quantity)) ∧
      (s.addOrder orderId price quantity Side.buy OrderType.Market).trades = s.trades ++
        List.zipWith (fun e f => Trade.mk orderId (s.deref e.2).orderId f e.1)
          (restingEntries s.sellOrders_) fills ∧
      fills.length ≤ (restingEntries s.sellOrders_).length ∧
      List.Forall₂ (fun f e => 0 < f ∧ f ≤ (s.deref e.2).quantity) fills
        ((restingEntries s.sellOrders_).take fills.length) ∧
      List.Forall₂ (fun f e => f = (s.deref e.2).quantity) fills.dropLast
        ((restingEntries s.sellOrders_).take (fills.length - 1)) ∧
      fills.sum ≤ quantity ∧
      (fills.sum = quantity ∨
        (s.addOrder orderId price quantity Side.buy OrderType.Market).sellOrders_ = []) ∧
      ((s.addOrder orderId price quantity Side.buy OrderType.Market).deref
        s.heap.length).quantity = quantity - fills.sum := by
  have hold : ∀ p ∈ restingOrders s.sellOrders_,
      (s.alloc (Order.mk OrderType.Market orderId price quantity Side.buy 0)).deref p =
        s.deref p := fun p hp => deref_alloc_old s _ p (hpos p hp).1
  have hloop := matchBuyLoop_sweep (restingCount s.sellOrders_ + 1)
    (s.alloc (Order.mk OrderType.Market orderId price quantity Side.buy 0)) s.heap.length
    (Nat.lt_succ_self _) (sortedKeys_sell_nodup hsorted) hne hnd
    (fun p hp => ⟨ne_of_lt (hpos p hp).1, by rw [hold p hp]; exact (hpos p hp).2⟩)
    (by rw [deref_alloc_new]; exact le_of_lt hq) (by rw [deref_alloc_new])
  rw [deref_alloc_new] at hloop
  have hE : (s.alloc (Order.mk OrderType.Market orderId price quantity Side.buy 0)).sellOrders_
      = s.sellOrders_ := rfl
  rw [hE] at hloop
  have hmapq : List.map (fun e => ((s.alloc (Order.mk OrderType.Market orderId price quantity
      Side.buy 0)).deref e.2).quantity) (restingEntries s.sellOrders_) =
      List.map (fun e => (s.deref e.2).quantity) (restingEntries s.sellOrders_) :=
    List.map_congr_left (fun e he => by rw [hold _ (mem_restingOrders_of_entry he)])
  rw [hmapq] at hloop
  have hzip := zipWith_congr_left
    (fun (e : Int × OrderPointer) (f : Int) => Trade.mk orderId
      ((s.alloc (Order.mk OrderType.Market orderId price quantity Side.buy 0)).deref
        e.2).orderId f e.1)
    (fun e f => Trade.mk orderId (s.deref e.2).orderId f e.1)
    (restingEntries s.sellOrders_)
    (sweepFills quantity (List.map (fun e => (s.deref e.2).quantity)
      (restingEntries s.sellOrders_)))
    (fun e he x => by dsimp only; rw [hold _ (mem_restingOrders_of_entry he)])
  have hadd : s.addOrder orderId price quantity Side.buy OrderType.Market =
      matchBuyLoop (restingCount s.sellOrders_ + 1)
        (s.alloc (Order.mk OrderType.Market orderId price quantity Side.buy 0))
        s.heap.length := by
    rw [addOrder_market_eq, processOrder_alloc_buy _ _ rfl]
    rfl
  obtain ⟨l1, l2, l3⟩ := hloop
  obtain ⟨p1, p2, p3, p4⟩ := sweepFills_spec quantity (le_of_lt hq)
    (restingEntries s.sellOrders_) (fun p => (s.deref p).quantity)
    (fun e he => (hpos _ (mem_restingOrders_of_entry he)).2)
  refine ⟨_, rfl, ?_, p1, p2, p3, p4, ?_, ?_⟩
  · rw [hadd, l1]
    exact congrArg _ hzip
  · rw [hadd]
    rcases l3 with h | h
    · right; exact h
    · left
      rw [l2] at h
      exact (sub_eq_zero.1 h).symm
  · rw [hadd, l2]

end OrderBook

namespace OrderBook

theorem addOrder_market_sell_sweep (s : OrderBook) (orderId price quantity : Int)
    (hq : 0 < quantity) (hsorted : SortedKeys buyBefore s.buyOrders_)
    (hne : NonemptyLevels s.buyOrders_) (hnd : (restingOrders s.buyOrders_).Nodup)
    (hpos : ∀ p ∈ restingOrders s.buyOrders_, p < s.heap.length ∧ 0 < (s.deref p).quantity) :
    ∃ fills : List Int,
      fills = sweepFills quantity
        ((restingEntries s.buyOrders_).map (fun e => (s.deref e.2).quantity)) ∧
      (s.addOrder orderId price quantity Side.sell OrderType.Market).trades = s.trades ++
        List.zipWith (fun e f => Trade.mk (s.deref e.2).orderId orderId f e.1)
          (restingEntries s.buyOrders_) fills ∧
      fills.length ≤ (restingEntries s.buyOrders_).length ∧
      List.Forall₂ (fun f e => 0 < f ∧ f ≤ (s.deref e.2).quantity) fills
        ((restingEntries s.buyOrders_).take fills.length) ∧
      List.Forall₂ (fun f e => f = (s.deref e.2).quantity) fills.dropLast
        ((restingEntries s.buyOrders_).take (fills.length - 1)) ∧
      fills.sum ≤ quantity ∧
      (fills.sum = quantity ∨
        (s.addOrder orderId price quantity Side.sell OrderType.Market).buyOrders_ = []) ∧
      ((s.addOrder orderId price quantity Side.sell OrderType.Market).deref
        s.heap.length).quantity = quantity - fills.sum := by
  have hold : ∀ p ∈ restingOrders s.buyOrders_,
      (s.alloc (Order.mk OrderType.Market orderId price quantity Side.sell 0)).deref p =
        s.deref p := fun p hp => deref_alloc_old s _ p (hpos p hp).1
  have hloop := matchSellLoop_sweep (restingCount s.buyOrders_ + 1)
    (s.alloc (Order.mk OrderType.Market orderId price quantity Side.sell 0)) s.heap.length
    (Nat.lt_succ_self _) (sortedKeys_buy_nodup hsorted) hne hnd
    (fun p hp => ⟨ne_of_lt (hpos p hp).1, by rw [hold p hp]; exact (hpos p hp).2⟩)
    (by rw [deref_alloc_new]; exact le_of_lt hq) (by rw [deref_alloc_new])
  rw [deref_alloc_new] at hloop
  have hE : (s.alloc (Order.mk OrderType.Market orderId price quantity Side.sell 0)).buyOrders_
      = s.buyOrders_ := rfl
  rw [hE] at hloop
  have hmapq : List.map (fun e => ((s.alloc (Order.mk OrderType.Market orderId price quantity
      Side.sell 0)).deref e.2).quantity) (restingEntries s.buyOrders_) =
      List.map (fun e => (s.deref e.2).quantity) (restingEntries s.buyOrders_) :=
    List.map_congr_left (fun e he => by rw [hold _ (mem_restingOrders_of_entry he)])
  rw [hmapq] at hloop
  have hzip := zipWith_congr_left
    (fun (e : Int × OrderPointer) (f : Int) => Trade.mk
      ((s.alloc (Order.mk OrderType.Market orderId price quantity Side.sell 0)).deref
        e.2).orderId orderId f e.1)
    (fun e f => Trade.mk (s.deref e.2).orderId orderId f e.1)
    (restingEntries s.buyOrders_)
    (sweepFills quantity (List.map (fun e => (s.deref e.2).quantity)
      (restingEntries s.buyOrders_)))
    (fun e he x => by dsimp only; rw [hold _ (mem_restingOrders_of_entry he)])
  have hadd : s.addOrder orderId price quantity Side.sell OrderType.Market =
      matchSellLoop (restingCount s.buyOrders_ + 1)
        (s.alloc (Order.mk OrderType.Market orderId price quantity Side.sell 0))
        s.heap.length := by
    rw [addOrder_market_eq, processOrder_alloc_sell _ _ rfl]
    rfl
  obtain ⟨l1, l2, l3⟩ := hloop
  obtain ⟨p1, p2, p3, p4⟩ := sweepFills_spec quantity (le_of_lt hq)
    (restingEntries s.buyOrders_) (fun p => (s.deref p).quantity)
    (fun e he => (hpos _ (mem_restingOrders_of_entry he)).2)
  refine ⟨_, rfl, ?_, p1, p2, p3, p4, ?_, ?_⟩
  · rw [hadd, l1]
    exact congrArg _ hzip
  · rw [hadd]
    rcases l3 with h | h
    · right; exact h
    · left
      rw [l2] at h
      exact (sub_eq_zero.1 h).symm
  · rw [hadd, l2]


theorem filter_pos_eq_self (s : OrderBook) (E : List (Int × OrderPointer))
    (h : ∀ e ∈ E, 0 < (s.deref e.2).quantity) :
    E.filter (fun e => decide (0 < (s.deref e.2).quantity)) = E :=
  List.filter_eq_self.2 (fun e he => decide_eq_true (h e he))

/-- The book a Market sweep leaves behind: the records of the orders that are
neither the incoming one nor resting asks are untouched, the asks that still
rest are the former ones with a positive residual, in the same order, every
counterparty has lost its fill, and the asks the sweep did not reach are
unchanged. -/
theorem matchBuyLoop_sweep_book (n : Nat) (s : OrderBook) (b : OrderPointer)
    (hn : restingCount s.sellOrders_ < n)
    (hkeys : (s.sellOrders_.map Prod.fst).Nodup)
    (hne : NonemptyLevels s.sellOrders_)
    (hnd : (restingOrders s.sellOrders_).Nodup)
    (hpos : ∀ p ∈ restingOrders s.sellOrders_, p ≠ b ∧ 0 < (s.deref p).quantity)
    (hq : 0 ≤ (s.deref b).quantity)
    (ht : (s.deref b).orderType = OrderType.Market) :
    (∀ x, x ≠ b → x ∉ restingOrders s.sellOrders_ →
      (matchBuyLoop n s b).deref x = s.deref x) ∧
    restingEntries (matchBuyLoop n s b).sellOrders_ =
      (restingEntries s.sellOrders_).filter
        (fun e => decide (0 < ((matchBuyLoop n s b).deref e.2).quantity)) ∧
    ((restingEntries s.sellOrders_).take
        (sweepFills (s.deref b).quantity
          ((restingEntries s.sellOrders_).map (fun e => (s.deref e.2).quantity))).length).map
        (fun e => ((matchBuyLoop n s b).deref e.2).quantity) =
      List.zipWith (fun e f => (s.deref e.2).quantity - f) (restingEntries s.sellOrders_)
        (sweepFills (s.deref b).quantity
          ((restingEntries s.sellOrders_).map (fun e => (s.deref e.2).quantity))) ∧
    (∀ e ∈ (restingEntries s.sellOrders_).drop
        (sweepFills (s.deref b).quantity
          ((restingEntries s.sellOrders_).map (fun e => (s.deref e.2).quantity))).length,
      (matchBuyLoop n s b).deref e.2 = s.deref e.2) := by
  induction n generalizing s with
  | zero => omega
  | succ n ih =>
    have hposE : ∀ e ∈ restingEntries s.sellOrders_, 0 < (s.deref e.2).quantity :=
      fun e he => (hpos _ (mem_restingOrders_of_entry he)).2
    by_cases hq0 : (s.deref b).quantity ≤ 0
    · rw [matchBuyLoop_of_none (matchBuyStep_of_nonpos hq0), sweepFills_nonpos _ _ hq0]
      refine ⟨fun _ _ _ => rfl, (filter_pos_eq_self s _ hposE).symm, ?_, fun _ _ => rfl⟩
      simp
    · have hqb : 0 < (s.deref b).quantity := lt_of_not_ge hq0
      cases hs : s.sellOrders_ with
      | nil =>
        rw [matchBuyLoop_of_none (matchBuyStep_of_no_asks hs), hs]
        simp [restingEntries, sweepFills]
      | cons e rest =>
        obtain ⟨k, l⟩ := e
        cases l with
        | nil => exact absurd rfl (hne (k, []) (by rw [hs]; exact List.mem_cons_self _ _))
        | cons sp tl =>
          rw [hs] at hkeys hnd hpos hn hposE
          simp only [List.map_cons, List.nodup_cons] at hkeys
          rw [restingOrders_cons] at hnd hpos
          simp only [List.cons_append, List.nodup_cons] at hnd
          obtain ⟨hspb, hqs⟩ := hpos sp (by simp)
          have hbsp : b ≠ sp := fun e => hspb e.symm
          have hstep := matchBuyStep_of_trade hs hqb (Or.inl ht) hqs
          obtain ⟨e1, e2, e3⟩ := tradeBuy_effect s b sp k
            (min (s.deref b).quantity (s.deref sp).quantity) hbsp hqb hqs
          have hsh := shrinks_tradeBuy s b sp k (min (s.deref b).quantity (s.deref sp).quantity)
          have hsells := tradeBuy_sellOrders s b sp k
            (min (s.deref b).quantity (s.deref sp).quantity)
          rw [← tradeBuy_deref s b sp k _ sp, e2, hs] at hsells
          simp only [matchBuyLoop, hstep]
          obtain ⟨E1, hE1⟩ : ∃ E1, E1 = tl.map (fun x => (k, x)) ++ restingEntries rest :=
            ⟨_, rfl⟩
          have hE : restingEntries ((k, sp :: tl) :: rest) = (k, sp) :: E1 := by
            rw [restingEntries_cons, hE1]; rfl
          have hmemE1 : ∀ e ∈ E1, e.2 ∈ tl ++ restingOrders rest := by
            intro e he
            rw [restingOrders_eq_map_restingEntries]
            rw [hE1] at he
            rcases List.mem_append.1 he with h1 | h1
            · obtain ⟨x, hx, rfl⟩ := List.mem_map.1 h1
              exact List.mem_append_left _ hx
            · exact List.mem_append_right _ (List.mem_map_of_mem _ h1)
          rw [hE] at hposE ⊢
          rw [restingOrders_cons]
          simp only [List.map_cons, sweepFills, if_neg hq0, List.zipWith_cons_cons,
            List.length_cons, List.take_succ_cons, List.drop_succ_cons, List.cons_append]
          have hsame : ∀ x ∈ tl ++ restingOrders rest,
              (s.tradeBuy b sp k (min (s.deref b).quantity (s.deref sp).quantity)).deref x =
                s.deref x := by
            intro x hx
            exact e3 x (hpos x (List.mem_cons_of_mem _ hx)).1 (fun hc => hnd.1 (hc ▸ hx))
          by_cases hle : (s.deref sp).quantity ≤ (s.deref b).quantity
          · -- the resting order is filled completely and popped
            have hmin : min (s.deref b).quantity (s.deref sp).quantity = (s.deref sp).quantity :=
              min_eq_right hle
            rw [hmin] at e1 e2 e3 hsells hsh hsame ⊢
            rw [sub_self, if_pos rfl] at hsells
            have hro : restingOrders (s.tradeBuy b sp k (s.deref sp).quantity).sellOrders_ =
                tl ++ restingOrders rest := by
              rw [hsells]; exact restingOrders_popFront hkeys.1
            have hre : restingEntries (s.tradeBuy b sp k (s.deref sp).quantity).sellOrders_ =
                E1 := by
              rw [hsells, hE1]; exact restingEntries_popFront hkeys.1
            have hih := ih (s.tradeBuy b sp k (s.deref sp).quantity)
              (by
                rw [hsells]
                have := restingCount_popFront_lt k sp tl rest
                omega)
              (by rw [hsells]; exact (levelSub_popFront _).1.nodup (by
                simp only [List.map_cons, List.nodup_cons]; exact hkeys))
              (by
                have := hsh.2.2.2.2.1
                rw [hs] at this
                exact this (hs ▸ hne))
              (by rw [hro]; exact hnd.2)
              (by
                intro x hx
                rw [hro] at hx
                rw [hsame x hx]
                exact hpos x (List.mem_cons_of_mem _ hx))
              (by rw [e1]; omega)
              (by rw [hsh.1.orderType]; exact ht)
            rw [hre, hro, e1] at hih
            have hmapq : List.map (fun e => ((s.tradeBuy b sp k (s.deref sp).quantity).deref
                e.2).quantity) E1 = List.map (fun e => (s.deref e.2).quantity) E1 :=
              List.map_congr_left (fun e he => by rw [hsame _ (hmemE1 e he)])
            have hzip := zipWith_congr_left
              (fun (e : Int × OrderPointer) (f : Int) =>
                ((s.tradeBuy b sp k (s.deref sp).quantity).deref e.2).quantity - f)
              (fun e f => (s.deref e.2).quantity - f) E1
              (sweepFills ((s.deref b).quantity - (s.deref sp).quantity)
                (List.map (fun e => (s.deref e.2).quantity) E1))
              (fun e he x => by dsimp only; rw [hsame _ (hmemE1 e he)])
            rw [hmapq, hzip] at hih
            obtain ⟨i1, i2, i3, i4⟩ := hih
            have hsp0 : ((matchBuyLoop n (s.tradeBuy b sp k (s.deref sp).quantity) b).deref
                sp).quantity = 0 := by
              rw [i1 sp hspb hnd.1, e2, sub_self]
            refine ⟨?_, ?_, ?_, ?_⟩
            · intro x hxb hx
              simp only [List.mem_cons, List.mem_append, not_or] at hx
              rw [i1 x hxb (fun hc => by
                rcases List.mem_append.1 hc with h | h
                · exact hx.2.1 h
                · exact hx.2.2 h)]
              exact e3 x hxb hx.1
            · rw [i2, List.filter_cons_of_neg (by rw [hsp0]; decide)]
            · simp only [List.map_cons, hsp0, sub_self]
              rw [i3]
            · intro e he
              rw [i4 e he]
              exact hsame _ (hmemE1 e (List.mem_of_mem_drop he))
          · -- the incoming order is used up; the resting order keeps a residual
            have hlt : (s.deref b).quantity < (s.deref sp).quantity := lt_of_not_ge hle
            have hmin : min (s.deref b).quantity (s.deref sp).quantity = (s.deref b).quantity :=
              min_eq_left (le_of_lt hlt)
            rw [hmin] at e1 e2 e3 hsells hsame ⊢
            rw [sub_self] at e1
            rw [if_neg (by omega)] at hsells
            rw [matchBuyLoop_of_none (matchBuyStep_of_nonpos (le_of_eq e1)), sub_self,
              sweepFills_nonpos _ _ (le_refl 0)]
            simp only [List.length_nil, List.take_zero, List.drop_zero, List.map_nil,
              List.zipWith_nil_right, List.map_cons]
            refine ⟨?_, ?_, ?_, ?_⟩
            · intro x hxb hx
              simp only [List.mem_cons, List.mem_append, not_or] at hx
              exact e3 x hxb hx.1
            · rw [hsells, hE]
              refine (List.filter_eq_self.2 ?_).symm
              intro e he
              rcases List.mem_cons.1 he with h | h
              · rw [h]
                exact decide_eq_true (by rw [e2]; omega)
              · rw [hsame _ (hmemE1 e h)]
                exact decide_eq_true (hposE e (List.mem_cons_of_mem _ h))
            · rw [e2]
            · intro e he
              exact hsame _ (hmemE1 e he)

/-- The book a Market sweep leaves behind: the records of the orders that are
neither the incoming one nor resting bids are untouched, the bids that still
rest are the former ones with a positive residual, in the same order, every
counterparty has lost its fill, and the bids the sweep did not reach are
unchanged. -/
theorem matchSellLoop_sweep_book (n : Nat) (s : OrderBook) (b : OrderPointer)
    (hn : restingCount s.buyOrders_ < n)
    (hkeys : (s.buyOrders_.map Prod.fst).Nodup)
    (hne : NonemptyLevels s.buyOrders_)
    (hnd : (restingOrders s.buyOrders_).Nodup)
    (hpos : ∀ p ∈ restingOrders s.buyOrders_, p ≠ b ∧ 0 < (s.deref p).quantity)
    (hq : 0 ≤ (s.deref b).quantity)
    (ht : (s.deref b).orderType = OrderType.Market) :
    (∀ x, x ≠ b → x ∉ restingOrders s.buyOrders_ →
      (matchSellLoop n s b).deref x = s.deref x) ∧
    restingEntries (matchSellLoop n s b).buyOrders_ =
      (restingEntries s.buyOrders_).filter
        (fun e => decide (0 < ((matchSellLoop n s b).deref e.2).quantity)) ∧
    ((restingEntries s.buyOrders_).take
        (sweepFills (s.deref b).quantity
          ((restingEntries s.buyOrders_).map (fun e => (s.deref e.2).quantity))).length).map
        (fun e => ((matchSellLoop n s b).deref e.2).quantity) =
      List.zipWith (fun e f => (s.deref e.2).quantity - f) (restingEntries s.buyOrders_)
        (sweepFills (s.deref b).quantity
          ((restingEntries s.buyOrders_).map (fun e => (s.deref e.2).quantity))) ∧
    (∀ e ∈ (restingEntries s.buyOrders_).drop
        (sweepFills (s.deref b).quantity
          ((restingEntries s.buyOrders_).map (fun e => (s.deref e.2).quantity))).length,
      (matchSellLoop n s b).deref e.2 = s.deref e.2) := by
  induction n generalizing s with
  | zero => omega
  | succ n ih =>
    have hposE : ∀ e ∈ restingEntries s.buyOrders_, 0 < (s.deref e.2).quantity :=
      fun e he => (hpos _ (mem_restingOrders_of_entry he)).2
    by_cases hq0 : (s.deref b).quantity ≤ 0
    · rw [matchSellLoop_of_none (matchSellStep_of_nonpos hq0), sweepFills_nonpos _ _ hq0]
      refine ⟨fun _ _ _ => rfl, (filter_pos_eq_self s _ hposE).symm, ?_, fun _ _ => rfl⟩
      simp
    · have hqb : 0 < (s.deref b).quantity := lt_of_not_ge hq0
      cases hs : s.buyOrders_ with
      | nil =>
        rw [matchSellLoop_of_none (matchSellStep_of_no_bids hs), hs]
        simp [restingEntries, sweepFills]
      | cons e rest =>
        obtain ⟨k, l⟩ := e
        cases l with
        | nil => exact absurd rfl (hne (k, []) (by rw [hs]; exact List.mem_cons_self _ _))
        | cons sp tl =>
          rw [hs] at hkeys hnd hpos hn hposE
          simp only [List.map_cons, List.nodup_cons] at hkeys
          rw [restingOrders_cons] at hnd hpos
          simp only [List.cons_append, List.nodup_cons] at hnd
          obtain ⟨hspb, hqs⟩ := hpos sp (by simp)
          have hbsp : b ≠ sp := fun e => hspb e.symm
          have hstep := matchSellStep_of_trade hs hqb (Or.inl ht) hqs
          obtain ⟨e1, e2, e3⟩ := tradeSell_effect s b sp k
            (min (s.deref b).quantity (s.deref sp).quantity) hbsp hqb hqs
          have hsh := shrinks_tradeSell s b sp k (min (s.deref b).quantity (s.deref sp).quantity)
          have hsells := tradeSell_buyOrders s b sp k
            (min (s.deref b).quantity (s.deref sp).quantity)
          rw [← tradeSell_deref s b sp k _ sp, e2, hs] at hsells
          simp only [matchSellLoop, hstep]
          obtain ⟨E1, hE1⟩ : ∃ E1, E1 = tl.map (fun x => (k, x)) ++ restingEntries rest :=
            ⟨_, rfl⟩
          have hE : restingEntries ((k, sp :: tl) :: rest) = (k, sp) :: E1 := by
            rw [restingEntries_cons, hE1]; rfl
          have hmemE1 : ∀ e ∈ E1, e.2 ∈ tl ++ restingOrders rest := by
            intro e he
            rw [restingOrders_eq_map_restingEntries]
            rw [hE1] at he
            rcases List.mem_append.1 he with h1 | h1
            · obtain ⟨x, hx, rfl⟩ := List.mem_map.1 h1
              exact List.mem_append_left _ hx
            · exact List.mem_append_right _ (List.mem_map_of_mem _ h1)
          rw [hE] at hposE ⊢
          rw [restingOrders_cons]
          simp only [List.map_cons, sweepFills, if_neg hq0, List.zipWith_cons_cons,
            List.length_cons, List.take_succ_cons, List.drop_succ_cons, List.cons_append]
          have hsame : ∀ x ∈ tl ++ restingOrders rest,
              (s.tradeSell b sp k (min (s.deref b).quantity (s.deref sp).quantity)).deref x =
                s.deref x := by
            intro x hx
            exact e3 x (hpos x (List.mem_cons_of_mem _ hx)).1 (fun hc => hnd.1 (hc ▸ hx))
          by_cases hle : (s.deref sp).quantity ≤ (s.deref b).quantity
          · -- the resting order is filled completely and popped
            have hmin : min (s.deref b).quantity (s.deref sp).quantity = (s.deref sp).quantity :=
              min_eq_right hle
            rw [hmin] at e1 e2 e3 hsells hsh hsame ⊢
            rw [sub_self, if_pos rfl] at hsells
            have hro : restingOrders (s.tradeSell b sp k (s.deref sp).quantity).buyOrders_ =
                tl ++ restingOrders rest := by
              rw [hsells]; exact restingOrders_popFront hkeys.1
            have hre : restingEntries (s.tradeSell b sp k (s.deref sp).quantity).buyOrders_ =
                E1 := by
              rw [hsells, hE1]; exact restingEntries_popFront hkeys.1
            have hih := ih (s.tradeSell b sp k (s.deref sp).quantity)
              (by
                rw [hsells]
                have := restingCount_popFront_lt k sp tl rest
                omega)
              (by rw [hsells]; exact (levelSub_popFront _).1.nodup (by
                simp only [List.map_cons, List.nodup_cons]; exact hkeys))
              (by
                have := hsh.2.2.2.1
                rw [hs] at this
                exact this (hs ▸ hne))
              (by rw [hro]; exact hnd.2)
              (by
                intro x hx
                rw [hro] at hx
                rw [hsame x hx]
                exact hpos x (List.mem_cons_of_mem _ hx))
              (by rw [e1]; omega)
              (by rw [hsh.1.orderType]; exact ht)
            rw [hre, hro, e1] at hih
            have hmapq : List.map (fun e => ((s.tradeSell b sp k (s.deref sp).quantity).deref
                e.2).quantity) E1 = List.map (fun e => (s.deref e.2).quantity) E1 :=
              List.map_congr_left (fun e he => by rw [hsame _ (hmemE1 e he)])
            have hzip := zipWith_congr_left
              (fun (e : Int × OrderPointer) (f : Int) =>
                ((s.tradeSell b sp k (s.deref sp).quantity).deref e.2).quantity - f)
              (fun e f => (s.deref e.2).quantity - f) E1
              (sweepFills ((s.deref b).quantity - (s.deref sp).quantity)
                (List.map (fun e => (s.deref e.2).quantity) E1))
              (fun e he x => by dsimp only; rw [hsame _ (hmemE1 e he)])
            rw [hmapq, hzip] at hih
            obtain ⟨i1, i2, i3, i4⟩ := hih
            have hsp0 : ((matchSellLoop n (s.tradeSell b sp k (s.deref sp).quantity) b).deref
                sp).quantity = 0 := by
              rw [i1 sp hspb hnd.1, e2, sub_self]
            refine ⟨?_, ?_, ?_, ?_⟩
            · intro x hxb hx
              simp only [List.mem_cons, List.mem_append, not_or] at hx
              rw [i1 x hxb (fun hc => by
                rcases List.mem_append.1 hc with h | h
                · exact hx.2.1 h
                · exact hx.2.2 h)]
              exact e3 x hxb hx.1
            · rw [i2, List.filter_cons_of_neg (by rw [hsp0]; decide)]
            · simp only [List.map_cons, hsp0, sub_self]
              rw [i3]
            · intro e he
              rw [i4 e he]
              exact hsame _ (hmemE1 e (List.mem_of_mem_drop he))
          · -- the incoming order is used up; the resting order keeps a residual
            have hlt : (s.deref b).quantity < (s.deref sp).quantity := lt_of_not_ge hle
            have hmin : min (s.deref b).quantity (s.deref sp).quantity = (s.deref b).quantity :=
              min_eq_left (le_of_lt hlt)
            rw [hmin] at e1 e2 e3 hsells hsame ⊢
            rw [sub_self] at e1
            rw [if_neg (by omega)] at hsells
            rw [matchSellLoop_of_none (matchSellStep_of_nonpos (le_of_eq e1)), sub_self,
              sweepFills_nonpos _ _ (le_refl 0)]
            simp only [List.length_nil, List.take_zero, List.drop_zero, List.map_nil,
              List.zipWith_nil_right, List.map_cons]
            refine ⟨?_, ?_, ?_, ?_⟩
            · intro x hxb hx
              simp only [List.mem_cons, List.mem_append, not_or] at hx
              exact e3 x hxb hx.1
            · rw [hsells, hE]
              refine (List.filter_eq_self.2 ?_).symm
              intro e he
              rcases List.mem_cons.1 he with h | h
              · rw [h]
                exact decide_eq_true (by rw [e2]; omega)
              · rw [hsame _ (hmemE1 e h)]
                exact decide_eq_true (hposE e (List.mem_cons_of_mem _ h))
            · rw [e2]
            · intro e he
              exact hsame _ (hmemE1 e he)

theorem addOrder_market_buy_book (s : OrderBook) (orderId price quantity : Int)
    (hq : 0 < quantity) (hsorted : SortedKeys sellBefore s.sellOrders_)
    (hne : NonemptyLevels s.sellOrders_) (hnd : (restingOrders s.sellOrders_).Nodup)
    (hpos : ∀ p ∈ restingOrders s.sellOrders_, p < s.heap.length ∧ 0 < (s.deref p).quantity) :
    restingEntries (s.addOrder orderId price quantity Side.buy OrderType.Market).sellOrders_ =
      (restingEntries s.sellOrders_).filter (fun e => decide (0 <
        ((s.addOrder orderId price quantity Side.buy OrderType.Market).deref e.2).quantity)) ∧
    ((restingEntries s.sellOrders_).take
        (sweepFills quantity
          ((restingEntries s.sellOrders_).map (fun e => (s.deref e.2).quantity))).length).map
        (fun e =>
          ((s.addOrder orderId price quantity Side.buy OrderType.Market).deref e.2).quantity) =
      List.zipWith (fun e f => (s.deref e.2).quantity - f) (restingEntries s.sellOrders_)
        (sweepFills quantity
          ((restingEntries s.sellOrders_).map (fun e => (s.deref e.2).quantity))) ∧
    (∀ e ∈ (restingEntries s.sellOrders_).drop
        (sweepFills quantity
          ((restingEntries s.sellOrders_).map (fun e => (s.deref e.2).quantity))).length,
      (s.addOrder orderId price quantity Side.buy OrderType.Market).deref e.2 =
        s.deref e.2) := by
  have hold : ∀ p ∈ restingOrders s.sellOrders_,
      (s.alloc (Order.mk OrderType.Market orderId price quantity Side.buy 0)).deref p =
        s.deref p := fun p hp => deref_alloc_old s _ p (hpos p hp).1
  have hloop := matchBuyLoop_sweep_book (restingCount s.sellOrders_ + 1)
    (s.alloc (Order.mk OrderType.Market orderId price quantity Side.buy 0)) s.heap.length
    (Nat.lt_succ_self _) (sortedKeys_sell_nodup hsorted) hne hnd
    (fun p hp => ⟨ne_of_lt (hpos p hp).1, by rw [hold p hp]; exact (hpos p hp).2⟩)
    (by rw [deref_alloc_new]; exact le_of_lt hq) (by rw [deref_alloc_new])
  rw [deref_alloc_new] at hloop
  have hE : (s.alloc (Order.mk OrderType.Market orderId price quantity Side.buy 0)).sellOrders_
      = s.sellOrders_ := rfl
  rw [hE] at hloop
  have hmapq : List.map (fun e => ((s.alloc (Order.mk OrderType.Market orderId price quantity
      Side.buy 0)).deref e.2).quantity) (restingEntries s.sellOrders_) =
      List.map (fun e => (s.deref e.2).quantity) (restingEntries s.sellOrders_) :=
    List.map_congr_left (fun e he => by rw [hold _ (mem_restingOrders_of_entry he)])
  rw [hmapq] at hloop
  have hzip := zipWith_congr_left
    (fun (e : Int × OrderPointer) (f : Int) =>
      ((s.alloc (Order.mk OrderType.Market orderId price quantity Side.buy 0)).deref
        e.2).quantity - f)
    (fun e f => (s.deref e.2).quantity - f)
    (restingEntries s.sellOrders_)
    (sweepFills quantity (List.map (fun e => (s.deref e.2).quantity)
      (restingEntries s.sellOrders_)))
    (fun e he x => by dsimp only; rw [hold _ (mem_restingOrders_of_entry he)])
  rw [hzip] at hloop
  have hadd : s.addOrder orderId price quantity Side.buy OrderType.Market =
      matchBuyLoop (restingCount s.sellOrders_ + 1)
        (s.alloc (Order.mk OrderType.Market orderId price quantity Side.buy 0))
        s.heap.length := by
    rw [addOrder_market_eq, processOrder_alloc_buy _ _ rfl]
    rfl
  obtain ⟨_, l2, l3, l4⟩ := hloop
  rw [hadd]
  refine ⟨l2, l3, ?_⟩
  intro e he
  rw [l4 e he]
  exact hold _ (mem_restingOrders_of_entry (List.mem_of_mem_drop he))

theorem addOrder_market_sell_book (s : OrderBook) (orderId price quantity : Int)
    (hq : 0 < quantity) (hsorted : SortedKeys buyBefore s.buyOrders_)
    (hne : NonemptyLevels s.buyOrders_) (hnd : (restingOrders s.buyOrders_).Nodup)
    (hpos : ∀ p ∈ restingOrders s.buyOrders_, p < s.heap.length ∧ 0 < (s.deref p).quantity) :
    restingEntries (s.addOrder orderId price quantity Side.sell OrderType.Market).buyOrders_ =
      (restingEntries s.buyOrders_).filter (fun e => decide (0 <
        ((s.addOrder orderId price quantity Side.sell OrderType.Market).deref e.2).quantity)) ∧
    ((restingEntries s.buyOrders_).take
        (sweepFills quantity
          ((restingEntries s.buyOrders_).map (fun e => (s.deref e.2).quantity))).length).map
        (fun e =>
          ((s.addOrder orderId price quantity Side.sell OrderType.Market).deref e.2).quantity) =
      List.zipWith (fun e f => (s.deref e.2).quantity - f) (restingEntries s.buyOrders_)
        (sweepFills quantity
          ((restingEntries s.buyOrders_).map (fun e => (s.deref e.2).quantity))) ∧
    (∀ e ∈ (restingEntries s.buyOrders_).drop
        (sweepFills quantity
          ((restingEntries s.buyOrders_).map (fun e => (s.deref e.2).quantity))).length,
      (s.addOrder orderId price quantity Side.sell OrderType.Market).deref e.2 =
        s.deref e.2) := by
  have hold : ∀ p ∈ restingOrders s.buyOrders_,
      (s.alloc (Order.mk OrderType.Market orderId price quantity Side.sell 0)).deref p =
        s.deref p := fun p hp => deref_alloc_old s _ p (hpos p hp).1
  have hloop := matchSellLoop_sweep_book (restingCount s.buyOrders_ + 1)
    (s.alloc (Order.mk OrderType.Market orderId price quantity Side.sell 0)) s.heap.length
    (Nat.lt_succ_self _) (sortedKeys_buy_nodup hsorted) hne hnd
    (fun p hp => ⟨ne_of_lt (hpos p hp).1, by rw [hold p hp]; exact (hpos p hp).2⟩)
    (by rw [deref_alloc_new]; exact le_of_lt hq) (by rw [deref_alloc_new])
  rw [deref_alloc_new] at hloop
  have hE : (s.alloc (Order.mk OrderType.Market orderId price quantity Side.sell 0)).buyOrders_
      = s.buyOrders_ := rfl
  rw [hE] at hloop
  have hmapq : List.map (fun e => ((s.alloc (Order.mk OrderType.Market orderId price quantity
      Side.sell 0)).deref e.2).quantity) (restingEntries s.buyOrders_) =
      List.map (fun e => (s.deref e.2).quantity) (restingEntries s.buyOrders_) :=
    List.map_congr_left (fun e he => by rw [hold _ (mem_restingOrders_of_entry he)])
  rw [hmapq] at hloop
  have hzip := zipWith_congr_left
    (fun (e : Int × OrderPointer) (f : Int) =>
      ((s.alloc (Order.mk OrderType.Market orderId price quantity Side.sell 0)).deref
        e.2).quantity - f)
    (fun e f => (s.deref e.2).quantity - f)
    (restingEntries s.buyOrders_)
    (sweepFills quantity (List.map (fun e => (s.deref e.2).quantity)
      (restingEntries s.buyOrders_)))
    (fun e he x => by dsimp only; rw [hold _ (mem_restingOrders_of_entry he)])
  rw [hzip] at hloop
  have hadd : s.addOrder orderId price quantity Side.sell OrderType.Market =
      matchSellLoop (restingCount s.buyOrders_ + 1)
        (s.alloc (Order.mk OrderType.Market orderId price quantity Side.sell 0))
        s.heap.length := by
    rw [addOrder_market_eq, processOrder_alloc_sell _ _ rfl]
    rfl
  obtain ⟨_, l2, l3, l4⟩ := hloop
  rw [hadd]
  refine ⟨l2, l3, ?_⟩
  intro e he
  rw [l4 e he]
  exact hold _ (mem_restingOrders_of_entry (List.mem_of_mem_drop he))

/-- C2 (price-time priority of a sweep): let the ask side be a well-formed
`std::map` (keys in order, no empty level), let its resting orders be distinct
allocated orders with positive residual, and let a Market buy of quantity
`quantity > 0` be added.  The resting asks in priority order
(`restingEntries`: levels by ascending price, each level front to back) are
ascending in price, and the trades emitted are exactly one trade with each of
the first `fills.length` of them, in that order, at the price of its level,
where `fills` is the sweep of `quantity` over their residuals (`sweepFills`:
each order in turn receives the smaller of what is left of `quantity` and its
residual, until nothing is left).  Each fill is positive and at most the
counterparty's residual, every fill except possibly the last equals the
counterparty's residual (it is filled completely), the fills sum to at most
`quantity`, the sweep ends only when they sum to `quantity` or the ask side has
become empty, and the incoming order is left with `quantity` minus their sum.
In the book the sweep leaves behind, the asks that rest are exactly the former
ones whose residual is still positive, in the same order; every counterparty
has lost exactly its fill, and the record of every ask the sweep did not reach
is unchanged.  Symmetrically a Market sell consumes the bids by descending
price, front to back within a level. -/
theorem market_sweep_price_time_priority (s : OrderBook) (orderId price quantity : Int)
    (hq : 0 < quantity) :
    (SortedKeys sellBefore s.sellOrders_ → NonemptyLevels s.sellOrders_ →
      (restingOrders s.sellOrders_).Nodup →
      (∀ p ∈ restingOrders s.sellOrders_, p < s.heap.length ∧ 0 < (s.deref p).quantity) →
      ((restingEntries s.sellOrders_).map Prod.fst).Pairwise (fun a b => a ≤ b) ∧
      ∃ fills : List Int,
        fills = sweepFills quantity
          ((restingEntries s.sellOrders_).map (fun e => (s.deref e.2).quantity)) ∧
        (s.addOrder orderId price quantity Side.buy OrderType.Market).trades = s.trades ++
          List.zipWith (fun e f => Trade.mk orderId (s.deref e.2).orderId f e.1)
            (restingEntries s.sellOrders_) fills ∧
        fills.length ≤ (restingEntries s.sellOrders_).length ∧
        List.Forall₂ (fun f e => 0 < f ∧ f ≤ (s.deref e.2).quantity) fills
          ((restingEntries s.sellOrders_).take fills.length) ∧
        List.Forall₂ (fun f e => f = (s.deref e.2).quantity) fills.dropLast
          ((restingEntries s.sellOrders_).take (fills.length - 1)) ∧
        fills.sum ≤ quantity ∧
        (fills.sum = quantity ∨
          (s.addOrder orderId price quantity Side.buy OrderType.Market).sellOrders_ = []) ∧
        ((s.addOrder orderId price quantity Side.buy OrderType.Market).deref
          s.heap.length).quantity = quantity - fills.sum ∧
        restingEntries (s.addOrder orderId price quantity Side.buy OrderType.Market).sellOrders_ =
          (restingEntries s.sellOrders_).filter (fun e => decide (0 <
            ((s.addOrder orderId price quantity Side.buy OrderType.Market).deref
              e.2).quantity)) ∧
        ((restingEntries s.sellOrders_).take fills.length).map (fun e =>
            ((s.addOrder orderId price quantity Side.buy OrderType.Market).deref
              e.2).quantity) =
          List.zipWith (fun e f => (s.deref e.2).quantity - f)
            (restingEntries s.sellOrders_) fills ∧
        (∀ e ∈ (restingEntries s.sellOrders_).drop fills.length,
          (s.addOrder orderId price quantity Side.buy OrderType.Market).deref e.2 =
            s.deref e.2)) ∧
    (SortedKeys buyBefore s.buyOrders_ → NonemptyLevels s.buyOrders_ →
      (restingOrders s.buyOrders_).Nodup →
      (∀ p ∈ restingOrders s.buyOrders_, p < s.heap.length ∧ 0 < (s.deref p).quantity) →
      ((restingEntries s.buyOrders_).map Prod.fst).Pairwise (fun a b => b ≤ a) ∧
      ∃ fills : List Int,
        fills = sweepFills quantity
          ((restingEntries s.buyOrders_).map (fun e => (s.deref e.2).quantity)) ∧
        (s.addOrder orderId price quantity Side.sell OrderType.Market).trades = s.trades ++
          List.zipWith (fun e f => Trade.mk (s.deref e.2).orderId orderId f e.1)
            (restingEntries s.buyOrders_) fills ∧
        fills.length ≤ (restingEntries s.buyOrders_).length ∧
        List.Forall₂ (fun f e => 0 < f ∧ f ≤ (s.deref e.2).quantity) fills
          ((restingEntries s.buyOrders_).take fills.length) ∧
        List.Forall₂ (fun f e => f = (s.deref e.2).quantity) fills.dropLast
          ((restingEntries s.buyOrders_).take (fills.length - 1)) ∧
        fills.sum ≤ quantity ∧
        (fills.sum = quantity ∨
          (s.addOrder orderId price quantity Side.sell OrderType.Market).buyOrders_ = []) ∧
        ((s.addOrder orderId price quantity Side.sell OrderType.Market).deref
          s.heap.length).quantity = quantity - fills.sum ∧
        restingEntries (s.addOrder orderId price quantity Side.sell OrderType.Market).buyOrders_ =
          (restingEntries s.buyOrders_).filter (fun e => decide (0 <
            ((s.addOrder orderId price quantity Side.sell OrderType.Market).deref
              e.2).quantity)) ∧
        ((restingEntries s.buyOrders_).take fills.length).map (fun e =>
            ((s.addOrder orderId price quantity Side.sell OrderType.Market).deref
              e.2).quantity) =
          List.zipWith (fun e f => (s.deref e.2).quantity - f)
            (restingEntries s.buyOrders_) fills ∧
        (∀ e ∈ (restingEntries s.buyOrders_).drop fills.length,
          (s.addOrder orderId price quantity Side.sell OrderType.Market).deref e.2 =
            s.deref e.2)) := by
  refine ⟨fun h1 h2 h3 h4 => ⟨restingEntries_ascending h1, ?_⟩,
    fun h1 h2 h3 h4 => ⟨restingEntries_descending h1, ?_⟩⟩
  · obtain ⟨fills, hf, c1, c2, c3, c4, c5, c6, c7⟩ :=
      addOrder_market_buy_sweep s orderId price quantity hq h1 h2 h3 h4
    obtain ⟨b1, b2, b3⟩ := addOrder_market_buy_book s orderId price quantity hq h1 h2 h3 h4
    rw [← hf] at b2 b3
    exact ⟨fills, hf, c1, c2, c3, c4, c5, c6, c7, b1, b2, b3⟩
  · obtain ⟨fills, hf, c1, c2, c3, c4, c5, c6, c7⟩ :=
      addOrder_market_sell_sweep s orderId price quantity hq h1 h2 h3 h4
    obtain ⟨b1, b2, b3⟩ := addOrder_market_sell_book s orderId price quantity hq h1 h2 h3 h4
    rw [← hf] at b2 b3
    exact ⟨fills, hf, c1, c2, c3, c4, c5, c6, c7, b1, b2, b3⟩

/-- Example for C2, both halves.  In `askLadderExample` the asks 1 (price 100,
quantity 3), 2 (price 100, quantity 4) and 3 (price 101, quantity 5) rest; a
Market buy 9 of quantity 9 fills 1 and 2 completely and takes 2 from 3, which
is left resting alone with residual 3.  In `bidLadderExample` the bids 1 (price
101, quantity 3), 2 (price 101, quantity 4) and 3 (price 100, quantity 5) rest;
a Market sell 9 of quantity 9 fills 1 and 2 completely and takes 2 from 3,
which is left resting alone with residual 3. -/
theorem market_sweep_price_time_priority_witness :
    ((0 : Int) < 9 ∧
      SortedKeys sellBefore askLadderExample.sellOrders_ ∧
      NonemptyLevels askLadderExample.sellOrders_ ∧
      (restingOrders askLadderExample.sellOrders_).Nodup ∧
      (∀ p ∈ restingOrders askLadderExample.sellOrders_,
        p < askLadderExample.heap.length ∧ 0 < (askLadderExample.deref p).quantity) ∧
      SortedKeys buyBefore bidLadderExample.buyOrders_ ∧
      NonemptyLevels bidLadderExample.buyOrders_ ∧
      (restingOrders bidLadderExample.buyOrders_).Nodup ∧
      (∀ p ∈ restingOrders bidLadderExample.buyOrders_,
        p < bidLadderExample.heap.length ∧ 0 < (bidLadderExample.deref p).quantity)) ∧
    ((askLadderExample.addOrder 9 0 9 Side.buy OrderType.Market).trades =
        [Trade.mk 9 1 3 100, Trade.mk 9 2 4 100, Trade.mk 9 3 2 101] ∧
      sweepFills 9 ((restingEntries askLadderExample.sellOrders_).map
        (fun e => (askLadderExample.deref e.2).quantity)) = [3, 4, 2] ∧
      restingEntries askLadderExample.sellOrders_ = [(100, 0), (100, 1), (101, 2)] ∧
      restingEntries (askLadderExample.addOrder 9 0 9 Side.buy OrderType.Market).sellOrders_ =
        [(101, 2)] ∧
      (restingEntries askLadderExample.sellOrders_).map (fun e =>
        ((askLadderExample.addOrder 9 0 9 Side.buy OrderType.Market).deref e.2).quantity) =
        [0, 0, 3] ∧
      (bidLadderExample.addOrder 9 0 9 Side.sell OrderType.Market).trades =
        [Trade.mk 1 9 3 101, Trade.mk 2 9 4 101, Trade.mk 3 9 2 100] ∧
      sweepFills 9 ((restingEntries bidLadderExample.buyOrders_).map
        (fun e => (bidLadderExample.deref e.2).quantity)) = [3, 4, 2] ∧
      restingEntries bidLadderExample.buyOrders_ = [(101, 0), (101, 1), (100, 2)] ∧
      restingEntries (bidLadderExample.addOrder 9 0 9 Side.sell OrderType.Market).buyOrders_ =
        [(100, 2)] ∧
      (restingEntries bidLadderExample.buyOrders_).map (fun e =>
        ((bidLadderExample.addOrder 9 0 9 Side.sell OrderType.Market).deref e.2).quantity) =
        [0, 0, 3]) ∧
    (((restingEntries askLadderExample.sellOrders_).map Prod.fst).Pairwise (fun a b => a ≤ b) ∧
      ∃ fills : List Int,
        fills = sweepFills 9
          ((restingEntries askLadderExample.sellOrders_).map
            (fun e => (askLadderExample.deref e.2).quantity)) ∧
        (askLadderExample.addOrder 9 0 9 Side.buy OrderType.Market).trades =
          askLadderExample.trades ++
          List.zipWith (fun e f => Trade.mk 9 (askLadderExample.deref e.2).orderId f e.1)
            (restingEntries askLadderExample.sellOrders_) fills ∧
        fills.length ≤ (restingEntries askLadderExample.sellOrders_).length ∧
        List.Forall₂ (fun f e => 0 < f ∧ f ≤ (askLadderExample.deref e.2).quantity) fills
          ((restingEntries askLadderExample.sellOrders_).take fills.length) ∧
        List.Forall₂ (fun f e => f = (askLadderExample.deref e.2).quantity) fills.dropLast
          ((restingEntries askLadderExample.sellOrders_).take (fills.length - 1)) ∧
        fills.sum ≤ 9 ∧
        (fills.sum = 9 ∨
          (askLadderExample.addOrder 9 0 9 Side.buy OrderType.Market).sellOrders_ = []) ∧
        ((askLadderExample.addOrder 9 0 9 Side.buy OrderType.Market).deref
          askLadderExample.heap.length).quantity = 9 - fills.sum ∧
        restingEntries (askLadderExample.addOrder 9 0 9 Side.buy OrderType.Market).sellOrders_ =
          (restingEntries askLadderExample.sellOrders_).filter (fun e => decide (0 <
            ((askLadderExample.addOrder 9 0 9 Side.buy OrderType.Market).deref
              e.2).quantity)) ∧
        ((restingEntries askLadderExample.sellOrders_).take fills.length).map (fun e =>
            ((askLadderExample.addOrder 9 0 9 Side.buy OrderType.Market).deref
              e.2).quantity) =
          List.zipWith (fun e f => (askLadderExample.deref e.2).quantity - f)
            (restingEntries askLadderExample.sellOrders_) fills ∧
        (∀ e ∈ (restingEntries askLadderExample.sellOrders_).drop fills.length,
          (askLadderExample.addOrder 9 0 9 Side.buy OrderType.Market).deref e.2 =
            askLadderExample.deref e.2)) ∧
    (((restingEntries bidLadderExample.buyOrders_).map Prod.fst).Pairwise (fun a b => b ≤ a) ∧
      ∃ fills : List Int,
        fills = sweepFills 9
          ((restingEntries bidLadderExample.buyOrders_).map
            (fun e => (bidLadderExample.deref e.2).quantity)) ∧
        (bidLadderExample.addOrder 9 0 9 Side.sell OrderType.Market).trades =
          bidLadderExample.trades ++
          List.zipWith (fun e f => Trade.mk (bidLadderExample.deref e.2).orderId 9 f e.1)
            (restingEntries bidLadderExample.buyOrders_) fills ∧
        fills.length ≤ (restingEntries bidLadderExample.buyOrders_).length ∧
        List.Forall₂ (fun f e => 0 < f ∧ f ≤ (bidLadderExample.deref e.2).quantity) fills
          ((restingEntries bidLadderExample.buyOrders_).take fills.length) ∧
        List.Forall₂ (fun f e => f = (bidLadderExample.deref e.2).quantity) fills.dropLast
          ((restingEntries bidLadderExample.buyOrders_).take (fills.length - 1)) ∧
        fills.sum ≤ 9 ∧
        (fills.sum = 9 ∨
          (bidLadderExample.addOrder 9 0 9 Side.sell OrderType.Market).buyOrders_ = []) ∧
        ((bidLadderExample.addOrder 9 0 9 Side.sell OrderType.Market).deref
          bidLadderExample.heap.length).quantity = 9 - fills.sum ∧
        restingEntries (bidLadderExample.addOrder 9 0 9 Side.sell OrderType.Market).buyOrders_ =
          (restingEntries bidLadderExample.buyOrders_).filter (fun e => decide (0 <
            ((bidLadderExample.addOrder 9 0 9 Side.sell OrderType.Market).deref
              e.2).quantity)) ∧
        ((restingEntries bidLadderExample.buyOrders_).take fills.length).map (fun e =>
            ((bidLadderExample.addOrder 9 0 9 Side.sell OrderType.Market).deref
              e.2).quantity) =
          List.zipWith (fun e f => (bidLadderExample.deref e.2).quantity - f)
            (restingEntries bidLadderExample.buyOrders_) fills ∧
        (∀ e ∈ (restingEntries bidLadderExample.buyOrders_).drop fills.length,
          (bidLadderExample.addOrder 9 0 9 Side.sell OrderType.Market).deref e.2 =
            bidLadderExample.deref e.2)) :=
  ⟨by decide, by decide,
   (market_sweep_price_time_priority askLadderExample 9 0 9 (by decide)).1 (by decide)
     (by decide) (by decide) (by decide),
   (market_sweep_price_time_priority bidLadderExample 9 0 9 (by decide)).2 (by decide)
     (by decide) (by decide) (by decide)⟩

end OrderBook

namespace OrderBook

/-! ### Positive residuals and pending crosses under removal -/

theorem levelsPositive_transport {s s1 : OrderBook} {m m1 : PriceMap}
    (h : LevelsPositive s m) (hsub : LevelSub m1 m)
    (hq : ∀ e ∈ m1, ∀ p ∈ e.2, 0 < (s.deref p).quantity → 0 < (s1.deref p).quantity) :
    LevelsPositive s1 m1 := by
  intro e he
  obtain ⟨e0, he0, _, hs⟩ := hsub.2 e he
  exact ⟨hs.nodup (h e0 he0).1, fun p hp => hq e he p hp ((h e0 he0).2 p (hs.subset hp))⟩

theorem crossPending_transport {s s1 : OrderBook} {PB PS PB1 PS1 : OrderPointer → Prop}
    (h : CrossPending s PB PS) (hb : LevelSub s1.buyOrders_ s.buyOrders_)
    (hs : LevelSub s1.sellOrders_ s.sellOrders_) (hPB : ∀ p, PB p → PB1 p)
    (hPS : ∀ p, PS p → PS1 p) : CrossPending s1 PB1 PS1 := by
  intro eb heb es hes hle pb hpb ps hps
  obtain ⟨eb0, heb0, hkb, hsb⟩ := hb.2 eb heb
  obtain ⟨es0, hes0, hks, hss⟩ := hs.2 es hes
  rcases h eb0 heb0 es0 hes0 (by rw [← hkb, ← hks]; exact hle) pb (hsb.subset hpb) ps
    (hss.subset hps) with h1 | h1
  · exact Or.inl (hPB _ h1)
  · exact Or.inr (hPS _ h1)

theorem not_mem_popFront {k : Int} {p : OrderPointer} {tl : OrderList} {rest : PriceMap}
    (hk : k ∉ rest.map Prod.fst) (hn : (p :: tl).Nodup) (hr : ∀ e ∈ rest, p ∉ e.2) :
    p ∉ restingOrders (popFront ((k, p :: tl) :: rest)) := by
  rw [restingOrders_popFront hk]
  intro hc
  rcases List.mem_append.1 hc with h | h
  · exact (List.nodup_cons.1 hn).1 h
  · obtain ⟨e, he, hpe⟩ := mem_restingOrders.1 h
    exact hr e he hpe

/-- In a well-formed state the order at the front of the best ask level occurs
nowhere else on the ask side. -/
theorem ask_head_unique {s : OrderBook} (h : WellFormed s) {k : Int} {sp : OrderPointer}
    {tl : OrderList} {rest : PriceMap} (hs : s.sellOrders_ = (k, sp :: tl) :: rest) :
    k ∉ rest.map Prod.fst ∧ ∀ e ∈ rest, sp ∉ e.2 := by
  obtain ⟨_, w2, _, _, _, w6, _⟩ := h
  have hkeys := sortedKeys_sell_nodup w2
  rw [hs] at hkeys w6
  simp only [List.map_cons, List.nodup_cons] at hkeys
  refine ⟨hkeys.1, fun e he hc => hkeys.1 ?_⟩
  have h1 := (w6 e (List.mem_cons_of_mem _ he) sp hc).2.1
  have h2 := (w6 (k, sp :: tl) (List.mem_cons_self _ _) sp (List.mem_cons_self _ _)).2.1
  simp only at h2
  rw [← h2, h1]
  exact List.mem_map_of_mem _ he

theorem bid_head_unique {s : OrderBook} (h : WellFormed s) {k : Int} {b : OrderPointer}
    {tl : OrderList} {rest : PriceMap} (hs : s.buyOrders_ = (k, b :: tl) :: rest) :
    k ∉ rest.map Prod.fst ∧ ∀ e ∈ rest, b ∉ e.2 := by
  obtain ⟨w1, _, _, _, w5, _⟩ := h
  have hkeys := sortedKeys_buy_nodup w1
  rw [hs] at hkeys w5
  simp only [List.map_cons, List.nodup_cons] at hkeys
  refine ⟨hkeys.1, fun e he hc => hkeys.1 ?_⟩
  have h1 := (w5 e (List.mem_cons_of_mem _ he) b hc).2.1
  have h2 := (w5 (k, b :: tl) (List.mem_cons_self _ _) b (List.mem_cons_self _ _)).2.1
  simp only at h2
  rw [← h2, h1]
  exact List.mem_map_of_mem _ he

end OrderBook

namespace OrderBook

theorem retireAskHead_deref (s : OrderBook) (p x : OrderPointer) :
    (s.retireAskHead p).deref x = s.deref x := deref_congr (retireAskHead_heap s p) x

theorem retireBidHead_deref (s : OrderBook) (p x : OrderPointer) :
    (s.retireBidHead p).deref x = s.deref x := deref_congr (retireBidHead_heap s p) x

theorem retireIncomingBuy_deref (s : OrderBook) (p x : OrderPointer) :
    (s.retireIncomingBuy p).deref x = s.deref x := deref_congr (retireIncomingBuy_heap s p) x

theorem retireIncomingSell_deref (s : OrderBook) (p x : OrderPointer) :
    (s.retireIncomingSell p).deref x = s.deref x := deref_congr (retireIncomingSell_heap s p) x

theorem tradeBuy_buyOrders (s : OrderBook) (b sp : OrderPointer) (k q : Int) :
    (s.tradeBuy b sp k q).buyOrders_ =
      if ((s.tradeBuy b sp k q).deref b).quantity = 0 then
        removeFromLevel s s.buyOrders_ (s.deref b).price (s.deref b).orderId
      else s.buyOrders_ := by
  have hsh := shrinks_tradeBuy s b sp k q
  obtain ⟨s4, hs4⟩ : ∃ s4, s4 = ((({ s with trades := s.trades ++
      [Trade.mk (s.deref b).orderId (s.deref sp).orderId q k] } : OrderBook).subQuantity
        b q).subQuantity sp q).retireAskHead sp := ⟨_, rfl⟩
  have h1 : s.tradeBuy b sp k q = s4.retireIncomingBuy b := by rw [hs4]; rfl
  have h2 : s4.buyOrders_ = s.buyOrders_ := by rw [hs4, retireAskHead_buyOrders]; rfl
  have h3 : ∀ x, s4.deref x = (s.tradeBuy b sp k q).deref x := by
    intro x; rw [h1, retireIncomingBuy_deref]
  have h4 : ∀ x, (s4.deref x).orderId = (s.deref x).orderId := by
    intro x; rw [h3, hsh.1.orderId]
  have h5 : (s4.deref b).price = (s.deref b).price := by rw [h3, hsh.1.price]
  rw [← h3 b, h1, retireIncomingBuy_buyOrders, h2, h4, h5, removeFromLevel_congr h4]

theorem tradeSell_sellOrders (s : OrderBook) (sp b : OrderPointer) (k q : Int) :
    (s.tradeSell sp b k q).sellOrders_ =
      if ((s.tradeSell sp b k q).deref sp).quantity = 0 then
        removeFromLevel s s.sellOrders_ (s.deref sp).price (s.deref sp).orderId
      else s.sellOrders_ := by
  have hsh := shrinks_tradeSell s sp b k q
  obtain ⟨s4, hs4⟩ : ∃ s4, s4 = ((({ s with trades := s.trades ++
      [Trade.mk (s.deref b).orderId (s.deref sp).orderId q k] } : OrderBook).subQuantity
        sp q).subQuantity b q).retireBidHead b := ⟨_, rfl⟩
  have h1 : s.tradeSell sp b k q = s4.retireIncomingSell sp := by rw [hs4]; rfl
  have h2 : s4.sellOrders_ = s.sellOrders_ := by rw [hs4, retireBidHead_sellOrders]; rfl
  have h3 : ∀ x, s4.deref x = (s.tradeSell sp b k q).deref x := by
    intro x; rw [h1, retireIncomingSell_deref]
  have h4 : ∀ x, (s4.deref x).orderId = (s.deref x).orderId := by
    intro x; rw [h3, hsh.1.orderId]
  have h5 : (s4.deref sp).price = (s.deref sp).price := by rw [h3, hsh.1.price]
  rw [← h3 sp, h1, retireIncomingSell_sellOrders, h2, h4, h5, removeFromLevel_congr h4]

end OrderBook

namespace OrderBook

theorem levelsPositive_matchBuyStep {s s1 : OrderBook} {b : OrderPointer} (hw : WellFormed s)
    (hpb : LevelsPositive s s.buyOrders_) (hps : LevelsPositive s s.sellOrders_)
    (hside : (s.deref b).side = Side.buy) (hstep : matchBuyStep s b = some s1) :
    LevelsPositive s1 s1.buyOrders_ ∧ LevelsPositive s1 s1.sellOrders_ := by
  have hsh := shrinks_matchBuyStep hstep
  obtain ⟨k, sp, tl, rest, hs, hqb, _, h4 | h4⟩ := matchBuyStep_some hstep
  · obtain ⟨_, rfl⟩ := h4
    exact ⟨levelsPositive_transport hpb hsh.2.1 (fun _ _ _ _ hq => hq),
      levelsPositive_transport hps hsh.2.2.1 (fun _ _ _ _ hq => hq)⟩
  · obtain ⟨hqs, rfl⟩ := h4
    have hhead : (k, sp :: tl) ∈ s.sellOrders_ := by rw [hs]; exact List.mem_cons_self _ _
    have hspside : (s.deref sp).side ≠ Side.buy :=
      (hw.2.2.2.2.2.1 _ hhead sp (List.mem_cons_self _ _)).2.2
    have hbsp : b ≠ sp := fun e => hspside (e ▸ hside)
    obtain ⟨e1, e2, e3⟩ := tradeBuy_effect s b sp k
      (min (s.deref b).quantity (s.deref sp).quantity) hbsp hqb hqs
    have hm1 := min_le_left (s.deref b).quantity (s.deref sp).quantity
    have hm2 := min_le_right (s.deref b).quantity (s.deref sp).quantity
    constructor
    · refine levelsPositive_transport hpb hsh.2.1 (fun e he p hp hq => ?_)
      by_cases hpb1 : p = b
      · subst hpb1
        have hne : ((s.tradeBuy p sp k (min (s.deref p).quantity
            (s.deref sp).quantity)).deref p).quantity ≠ 0 := by
          intro h0
          have hbo := tradeBuy_buyOrders s p sp k (min (s.deref p).quantity (s.deref sp).quantity)
          rw [if_pos h0] at hbo
          rw [hbo] at he
          exact (not_mem_removeFromLevel_buy hw p hside).1 (mem_restingOrders.2 ⟨e, he, hp⟩)
        rw [e1] at hne ⊢
        omega
      · have hpsp : p ≠ sp := by
          intro hc
          obtain ⟨e0, he0, _, hsub⟩ := hsh.2.1.2 e he
          exact hspside (hc ▸ (hw.2.2.2.2.1 e0 he0 p (hsub.subset hp)).2.2)
        rw [e3 p hpb1 hpsp]
        exact hq
    · refine levelsPositive_transport hps hsh.2.2.1 (fun e he p hp hq => ?_)
      by_cases hpsp : p = sp
      · subst hpsp
        have hne : ((s.tradeBuy b p k (min (s.deref b).quantity
            (s.deref p).quantity)).deref p).quantity ≠ 0 := by
          intro h0
          have hso := tradeBuy_sellOrders s b p k (min (s.deref b).quantity (s.deref p).quantity)
          rw [← tradeBuy_deref, if_pos h0, hs] at hso
          rw [hso] at he
          obtain ⟨u1, u2⟩ := ask_head_unique hw hs
          exact not_mem_popFront u1 (hps _ hhead).1 u2 (mem_restingOrders.2 ⟨e, he, hp⟩)
        rw [e2] at hne ⊢
        omega
      · have hpb1 : p ≠ b := by
          intro hc
          obtain ⟨e0, he0, _, hsub⟩ := hsh.2.2.1.2 e he
          exact (hw.2.2.2.2.2.1 e0 he0 p (hsub.subset hp)).2.2 (hc ▸ hside)
        rw [e3 p hpb1 hpsp]
        exact hq

end OrderBook

namespace OrderBook

theorem levelsPositive_matchSellStep {s s1 : OrderBook} {b : OrderPointer} (hw : WellFormed s)
    (hpb : LevelsPositive s s.buyOrders_) (hps : LevelsPositive s s.sellOrders_)
    (hside : (s.deref b).side ≠ Side.buy) (hstep : matchSellStep s b = some s1) :
    LevelsPositive s1 s1.buyOrders_ ∧ LevelsPositive s1 s1.sellOrders_ := by
  have hsh := shrinks_matchSellStep hstep
  obtain ⟨k, sp, tl, rest, hs, hqb, _, hqs, rfl⟩ := matchSellStep_some hstep
  have hhead : (k, sp :: tl) ∈ s.buyOrders_ := by rw [hs]; exact List.mem_cons_self _ _
  have hspside : (s.deref sp).side = Side.buy :=
    (hw.2.2.2.2.1 _ hhead sp (List.mem_cons_self _ _)).2.2
  have hbsp : b ≠ sp := fun e => hside (e ▸ hspside)
  obtain ⟨e1, e2, e3⟩ := tradeSell_effect s b sp k
    (min (s.deref b).quantity (s.deref sp).quantity) hbsp hqb hqs
  have hm1 := min_le_left (s.deref b).quantity (s.deref sp).quantity
  have hm2 := min_le_right (s.deref b).quantity (s.deref sp).quantity
  constructor
  · refine levelsPositive_transport hpb hsh.2.1 (fun e he p hp hq => ?_)
    by_cases hpsp : p = sp
    · subst hpsp
      have hne : ((s.tradeSell b p k (min (s.deref b).quantity
          (s.deref p).quantity)).deref p).quantity ≠ 0 := by
        intro h0
        have hso := tradeSell_buyOrders s b p k (min (s.deref b).quantity (s.deref p).quantity)
        rw [← tradeSell_deref, if_pos h0, hs] at hso
        rw [hso] at he
        obtain ⟨u1, u2⟩ := bid_head_unique hw hs
        exact not_mem_popFront u1 (hpb _ hhead).1 u2 (mem_restingOrders.2 ⟨e, he, hp⟩)
      rw [e2] at hne ⊢
      omega
    · have hpb1 : p ≠ b := by
        intro hc
        obtain ⟨e0, he0, _, hsub⟩ := hsh.2.1.2 e he
        exact hside (hc ▸ (hw.2.2.2.2.1 e0 he0 p (hsub.subset hp)).2.2)
      rw [e3 p hpb1 hpsp]
      exact hq
  · refine levelsPositive_transport hps hsh.2.2.1 (fun e he p hp hq => ?_)
    by_cases hpb1 : p = b
    · subst hpb1
      have hne : ((s.tradeSell p sp k (min (s.deref p).quantity
          (s.deref sp).quantity)).deref p).quantity ≠ 0 := by
        intro h0
        have hbo := tradeSell_sellOrders s p sp k (min (s.deref p).quantity (s.deref sp).quantity)
        rw [if_pos h0] at hbo
        rw [hbo] at he
        exact (not_mem_removeFromLevel_sell hw p hside).2 (mem_restingOrders.2 ⟨e, he, hp⟩)
      rw [e1] at hne ⊢
      omega
    · have hpsp : p ≠ sp := by
        intro hc
        obtain ⟨e0, he0, _, hsub⟩ := hsh.2.2.1.2 e he
        exact (hw.2.2.2.2.2.1 e0 he0 p (hsub.subset hp)).2.2 (hc ▸ hspside)
      rw [e3 p hpb1 hpsp]
      exact hq

/-- The part of `Settled` that a matching loop keeps whatever the queues
hold. -/
theorem core_matchBuyLoop (n : Nat) {s : OrderBook} {b : OrderPointer}
    {PB PS : OrderPointer → Prop} (hw : WellFormed s)
    (hpb : LevelsPositive s s.buyOrders_) (hps : LevelsPositive s s.sellOrders_)
    (hc : CrossPending s PB PS) (hside : (s.deref b).side = Side.buy) :
    WellFormed (matchBuyLoop n s b) ∧
    LevelsPositive (matchBuyLoop n s b) (matchBuyLoop n s b).buyOrders_ ∧
    LevelsPositive (matchBuyLoop n s b) (matchBuyLoop n s b).sellOrders_ ∧
    CrossPending (matchBuyLoop n s b) PB PS ∧
    ((matchBuyLoop n s b).deref b).side = Side.buy :=
  matchBuyLoop_induct
    (fun t => WellFormed t ∧ LevelsPositive t t.buyOrders_ ∧ LevelsPositive t t.sellOrders_ ∧
      CrossPending t PB PS ∧ (t.deref b).side = Side.buy) b
    (fun t t1 ⟨a1, a2, a3, a4, a5⟩ hstep =>
      have hsh := shrinks_matchBuyStep hstep
      have hl := levelsPositive_matchBuyStep a1 a2 a3 a5 hstep
      ⟨wellFormed_of_shrinks a1 hsh, hl.1, hl.2,
        crossPending_transport a4 hsh.2.1 hsh.2.2.1 (fun _ h => h) (fun _ h => h),
        by rw [hsh.1.side]; exact a5⟩)
    n s ⟨hw, hpb, hps, hc, hside⟩

theorem core_matchSellLoop (n : Nat) {s : OrderBook} {b : OrderPointer}
    {PB PS : OrderPointer → Prop} (hw : WellFormed s)
    (hpb : LevelsPositive s s.buyOrders_) (hps : LevelsPositive s s.sellOrders_)
    (hc : CrossPending s PB PS) (hside : (s.deref b).side ≠ Side.buy) :
    WellFormed (matchSellLoop n s b) ∧
    LevelsPositive (matchSellLoop n s b) (matchSellLoop n s b).buyOrders_ ∧
    LevelsPositive (matchSellLoop n s b) (matchSellLoop n s b).sellOrders_ ∧
    CrossPending (matchSellLoop n s b) PB PS ∧
    ((matchSellLoop n s b).deref b).side ≠ Side.buy :=
  matchSellLoop_induct
    (fun t => WellFormed t ∧ LevelsPositive t t.buyOrders_ ∧ LevelsPositive t t.sellOrders_ ∧
      CrossPending t PB PS ∧ (t.deref b).side ≠ Side.buy) b
    (fun t t1 ⟨a1, a2, a3, a4, a5⟩ hstep =>
      have hsh := shrinks_matchSellStep hstep
      have hl := levelsPositive_matchSellStep a1 a2 a3 a5 hstep
      ⟨wellFormed_of_shrinks a1 hsh, hl.1, hl.2,
        crossPending_transport a4 hsh.2.1 hsh.2.2.1 (fun _ h => h) (fun _ h => h),
        by rw [hsh.1.side]; exact a5⟩)
    n s ⟨hw, hpb, hps, hc, hside⟩

/-- When the loop of `matchBuyOrder` is left, the incoming order, if it rests,
crosses no ask level. -/
theorem no_cross_after_buy_exit {s : OrderBook} {b : OrderPointer} (hw : WellFormed s)
    (hpb : LevelsPositive s s.buyOrders_) (hside : (s.deref b).side = Side.buy)
    (hexit : matchBuyStep s b = none) :
    ∀ eb ∈ s.buyOrders_, ∀ es ∈ s.sellOrders_, es.1 ≤ eb.1 →
      (b ∉ eb.2 ∧ b ∉ es.2) := by
  intro eb heb es hes hle
  constructor
  · intro hb
    have hprice := (hw.2.2.2.2.1 eb heb b hb).2.1
    have hqpos := (hpb eb heb).2 b hb
    rcases matchBuyStep_none hexit with h | h | ⟨k, l, rest, hs, h | h⟩
    · omega
    · rw [h] at hes; simp at hes
    · have h2 := hw.2.1
      rw [hs] at h2 hes
      have := sortedKeys_sell_head h2 es hes
      omega
    · exact hw.2.2.2.1 (k, l) (by rw [hs]; exact List.mem_cons_self _ _) h
  · intro hb
    exact (hw.2.2.2.2.2.1 es hes b hb).2.2 hside

theorem no_cross_after_sell_exit {s : OrderBook} {b : OrderPointer} (hw : WellFormed s)
    (hpb : LevelsPositive s s.buyOrders_) (hps : LevelsPositive s s.sellOrders_)
    (hside : (s.deref b).side ≠ Side.buy) (hexit : matchSellStep s b = none) :
    ∀ eb ∈ s.buyOrders_, ∀ es ∈ s.sellOrders_, es.1 ≤ eb.1 →
      (b ∉ eb.2 ∧ b ∉ es.2) := by
  intro eb heb es hes hle
  constructor
  · intro hb
    exact hside (hw.2.2.2.2.1 eb heb b hb).2.2
  · intro hb
    have hprice := (hw.2.2.2.2.2.1 es hes b hb).2.1
    have hqpos := (hps es hes).2 b hb
    rcases matchSellStep_none hexit with h | h | ⟨k, l, rest, hs, h | h | ⟨x, tl, hl, hx⟩⟩
    · omega
    · rw [h] at heb; simp at heb
    · have h2 := hw.1
      rw [hs] at h2 heb
      have := sortedKeys_buy_head h2 eb heb
      omega
    · exact hw.2.2.1 (k, l) (by rw [hs]; exact List.mem_cons_self _ _) h
    · have := (hpb (k, l) (by rw [hs]; exact List.mem_cons_self _ _)).2 x
        (by rw [hl]; exact List.mem_cons_self _ _)
      omega

end OrderBook

namespace OrderBook

/-! ### Every disciplined operation keeps `Settled` -/

theorem settled_empty : Settled empty := by
  refine ⟨wellFormed_empty, ?_, ?_, ?_⟩ <;> simp [LevelsPositive, CrossPending, empty]

theorem mem_getD_mapFind {m : PriceMap} {k : Int} {p : OrderPointer}
    (h : p ∈ (mapFind m k).getD []) : ∃ l, (k, l) ∈ m ∧ p ∈ l := by
  cases hf : mapFind m k with
  | none => rw [hf] at h; simp at h
  | some l => rw [hf] at h; exact ⟨l, mapFind_mem m k l hf, h⟩

theorem levelsPositive_mapPushBack {s : OrderBook} {before : Int → Int → Bool} {m : PriceMap}
    (h : LevelsPositive s m) (k : Int) (p : OrderPointer) (hq : 0 < (s.deref p).quantity)
    (hn : p ∉ restingOrders m) : LevelsPositive s (mapPushBack before m k p) := by
  intro e he
  rcases mem_mapPushBack he with h1 | h1
  · exact h e h1
  · rw [h1]
    constructor
    · rw [List.nodup_append]
      refine ⟨?_, List.nodup_singleton p, ?_⟩
      · cases hf : mapFind m k with
        | none => simp
        | some l => exact (h (k, l) (mapFind_mem m k l hf)).1
      · intro x hx hy
        rw [List.mem_singleton.1 hy] at hx
        obtain ⟨l, hl, hxl⟩ := mem_getD_mapFind hx
        exact hn (mem_restingOrders.2 ⟨(k, l), hl, hxl⟩)
    · intro x hx
      rcases List.mem_append.1 hx with h2 | h2
      · obtain ⟨l, hl, hxl⟩ := mem_getD_mapFind h2
        exact (h (k, l) hl).2 x hxl
      · rw [List.mem_singleton.1 h2]; exact hq

theorem settled_insertResting {s : OrderBook} (h : Settled s) (p : OrderPointer) (side : Side)
    (k : Int) (hv : p < s.heap.length) (hp : (s.deref p).price = k)
    (hsd : (s.deref p).side = side) (hq : 0 < (s.deref p).quantity)
    (hnb : p ∉ restingOrders s.buyOrders_) (hns : p ∉ restingOrders s.sellOrders_) :
    Settled (s.insertResting p side k) := by
  obtain ⟨hw, hpb, hps, hc⟩ := h
  refine ⟨wellFormed_insertResting hw p side k hv hp hsd, ?_⟩
  unfold insertResting
  split_ifs with hside
  · refine ⟨levelsPositive_mapPushBack hpb k p hq hnb, hps, ?_⟩
    intro eb heb es hes hle pb hpb1 ps hps1
    rcases mem_mapPushBack heb with h1 | h1
    · rcases hc eb h1 es hes hle pb hpb1 ps hps1 with h2 | h2
      · exact Or.inl (List.mem_append_left _ h2)
      · exact Or.inr h2
    · rw [h1] at hpb1 hle
      rcases List.mem_append.1 hpb1 with h2 | h2
      · obtain ⟨l, hl, hxl⟩ := mem_getD_mapFind h2
        rcases hc (k, l) hl es hes hle pb hxl ps hps1 with h3 | h3
        · exact Or.inl (List.mem_append_left _ h3)
        · exact Or.inr h3
      · exact Or.inl (List.mem_append_right _ h2)
  · refine ⟨hpb, levelsPositive_mapPushBack hps k p hq hns, ?_⟩
    intro eb heb es hes hle pb hpb1 ps hps1
    rcases mem_mapPushBack hes with h1 | h1
    · rcases hc eb heb es h1 hle pb hpb1 ps hps1 with h2 | h2
      · exact Or.inl h2
      · exact Or.inr (List.mem_append_left _ h2)
    · rw [h1] at hps1 hle
      rcases List.mem_append.1 hps1 with h2 | h2
      · obtain ⟨l, hl, hxl⟩ := mem_getD_mapFind h2
        rcases hc eb heb (k, l) hl hle pb hpb1 ps hxl with h3 | h3
        · exact Or.inl h3
        · exact Or.inr (List.mem_append_left _ h3)
      · exact Or.inr (List.mem_append_right _ h2)

theorem resting_valid_buy {s : OrderBook} (hw : WellFormed s) {p : OrderPointer}
    (hp : p ∈ restingOrders s.buyOrders_) : p < s.heap.length := by
  obtain ⟨e, he, hpe⟩ := mem_restingOrders.1 hp
  exact (hw.2.2.2.2.1 e he p hpe).1

theorem resting_valid_sell {s : OrderBook} (hw : WellFormed s) {p : OrderPointer}
    (hp : p ∈ restingOrders s.sellOrders_) : p < s.heap.length := by
  obtain ⟨e, he, hpe⟩ := mem_restingOrders.1 hp
  exact (hw.2.2.2.2.2.1 e he p hpe).1

/-- `Settled` moves along a change of the store that keeps the records of all
resting orders, with the books and queues untouched. -/
theorem settled_of_same_books {s s1 : OrderBook} (h : Settled s) (hw1 : WellFormed s1)
    (hb : s1.buyOrders_ = s.buyOrders_) (hs : s1.sellOrders_ = s.sellOrders_)
    (hbq : s1.buyQueue_ = s.buyQueue_) (hsq : s1.sellQueue_ = s.sellQueue_)
    (hd : ∀ p, p ∈ restingOrders s.buyOrders_ ∨ p ∈ restingOrders s.sellOrders_ →
      s1.deref p = s.deref p) : Settled s1 := by
  obtain ⟨hw, hpb, hps, hc⟩ := h
  refine ⟨hw1, ?_, ?_, ?_⟩
  · rw [hb]
    intro e he
    refine ⟨(hpb e he).1, fun p hp => ?_⟩
    rw [hd p (Or.inl (mem_restingOrders.2 ⟨e, he, hp⟩))]
    exact (hpb e he).2 p hp
  · rw [hs]
    intro e he
    refine ⟨(hps e he).1, fun p hp => ?_⟩
    rw [hd p (Or.inr (mem_restingOrders.2 ⟨e, he, hp⟩))]
    exact (hps e he).2 p hp
  · intro eb heb es hes hle pb hpb1 ps hps1
    rw [hb] at heb
    rw [hs] at hes
    rw [hbq, hsq]
    exact hc eb heb es hes hle pb hpb1 ps hps1

theorem settled_alloc {s : OrderBook} (h : Settled s) (o : Order) : Settled (s.alloc o) :=
  settled_of_same_books h (wellFormed_alloc h.1 o) rfl rfl rfl rfl (fun p hp => by
    rcases hp with hp | hp
    · exact deref_alloc_old s o p (resting_valid_buy h.1 hp)
    · exact deref_alloc_old s o p (resting_valid_sell h.1 hp))

theorem settled_of_shrinks_same_heap {s s1 : OrderBook} (h : Settled s) (hsh : Shrinks s s1)
    (hd : ∀ p, s1.deref p = s.deref p) : Settled s1 := by
  obtain ⟨hw, hpb, hps, hc⟩ := h
  refine ⟨wellFormed_of_shrinks hw hsh, ?_, ?_, ?_⟩
  · exact levelsPositive_transport hpb hsh.2.1 (fun _ _ p _ hq => by rw [hd p]; exact hq)
  · exact levelsPositive_transport hps hsh.2.2.1 (fun _ _ p _ hq => by rw [hd p]; exact hq)
  · rw [hsh.2.2.2.2.2.2.1, hsh.2.2.2.2.2.2.2.1]
    exact crossPending_transport hc hsh.2.1 hsh.2.2.1 (fun _ h => h) (fun _ h => h)

theorem settled_cancelOrder {s : OrderBook} (h : Settled s) (orderId : Int) :
    Settled (s.cancelOrder orderId).2 := by
  refine settled_of_shrinks_same_heap h (shrinks_cancelOrder s orderId) (fun p => ?_)
  unfold cancelOrder
  cases activeFind s.activeOrders_ orderId with
  | none => rfl
  | some x =>
    simp only
    unfold removeResting
    split_ifs <;> rfl

end OrderBook

namespace OrderBook

theorem settled_processBuyOrdersStep {s : OrderBook} (h : Settled s) :
    Settled s.processBuyOrdersStep := by
  unfold processBuyOrdersStep
  cases hq : s.buyQueue_ with
  | nil => exact h
  | cons b rest =>
    simp only
    obtain ⟨hw, hpb, hps, hc⟩ := h
    have hw1 : WellFormed { s with buyQueue_ := rest } := by
      have := wellFormed_popBuy hw
      rw [hq] at this
      exact this
    have hside : (s.deref b).side = Side.buy :=
      (hw.2.2.2.2.2.2.2.1 b (by rw [hq]; exact List.mem_cons_self _ _)).2
    have hc1 : CrossPending { s with buyQueue_ := rest } (fun p => p ∈ rest ∨ p = b)
        (fun p => p ∈ s.sellQueue_) := by
      intro eb heb es hes hle pb hpb1 ps hps1
      rcases hc eb heb es hes hle pb hpb1 ps hps1 with h1 | h1
      · rw [hq] at h1
        rcases List.mem_cons.1 h1 with h2 | h2
        · exact Or.inl (Or.inr h2)
        · exact Or.inl (Or.inl h2)
      · exact Or.inr h1
    obtain ⟨c1, c2, c3, c4, c5⟩ := core_matchBuyLoop
      (restingCount ({ s with buyQueue_ := rest } : OrderBook).sellOrders_ + 1)
      (s := { s with buyQueue_ := rest }) (b := b) hw1 hpb hps hc1 hside
    have hexit := matchBuyOrder_exit { s with buyQueue_ := rest } b
    have hsh := shrinks_matchBuyOrder { s with buyQueue_ := rest } b
    unfold matchBuyOrder at hexit hsh ⊢
    have hno := no_cross_after_buy_exit c1 c2 c5 hexit
    refine ⟨c1, c2, c3, ?_⟩
    intro eb heb es hes hle pb hpb1 ps hps1
    rw [hsh.2.2.2.2.2.2.1, hsh.2.2.2.2.2.2.2.1]
    rcases c4 eb heb es hes hle pb hpb1 ps hps1 with (h1 | h1) | h1
    · exact Or.inl h1
    · exact absurd (h1 ▸ hpb1) (hno eb heb es hes hle).1
    · exact Or.inr h1

theorem settled_processSellOrdersStep {s : OrderBook} (h : Settled s) :
    Settled s.processSellOrdersStep := by
  unfold processSellOrdersStep
  cases hq : s.sellQueue_ with
  | nil => exact h
  | cons b rest =>
    simp only
    obtain ⟨hw, hpb, hps, hc⟩ := h
    have hw1 : WellFormed { s with sellQueue_ := rest } := by
      have := wellFormed_popSell hw
      rw [hq] at this
      exact this
    have hside : (s.deref b).side ≠ Side.buy :=
      (hw.2.2.2.2.2.2.2.2 b (by rw [hq]; exact List.mem_cons_self _ _)).2
    have hc1 : CrossPending { s with sellQueue_ := rest } (fun p => p ∈ s.buyQueue_)
        (fun p => p ∈ rest ∨ p = b) := by
      intro eb heb es hes hle pb hpb1 ps hps1
      rcases hc eb heb es hes hle pb hpb1 ps hps1 with h1 | h1
      · exact Or.inl h1
      · rw [hq] at h1
        rcases List.mem_cons.1 h1 with h2 | h2
        · exact Or.inr (Or.inr h2)
        · exact Or.inr (Or.inl h2)
    obtain ⟨c1, c2, c3, c4, c5⟩ := core_matchSellLoop
      (restingCount ({ s with sellQueue_ := rest } : OrderBook).buyOrders_ + 1)
      (s := { s with sellQueue_ := rest }) (b := b) hw1 hpb hps hc1 hside
    have hexit := matchSellOrder_exit { s with sellQueue_ := rest } b
    have hsh := shrinks_matchSellOrder { s with sellQueue_ := rest } b
    unfold matchSellOrder at hexit hsh ⊢
    have hno := no_cross_after_sell_exit c1 c2 c3 c5 hexit
    refine ⟨c1, c2, c3, ?_⟩
    intro eb heb es hes hle pb hpb1 ps hps1
    rw [hsh.2.2.2.2.2.2.1, hsh.2.2.2.2.2.2.2.1]
    rcases c4 eb heb es hes hle pb hpb1 ps hps1 with h1 | (h1 | h1)
    · exact Or.inl h1
    · exact Or.inr h1
    · exact absurd (h1 ▸ hps1) (hno eb heb es hes hle).2

theorem settled_processOrder {s : OrderBook} (h : Settled s) (p : OrderPointer) :
    Settled (s.processOrder p) := by
  obtain ⟨hw, hpb, hps, hc⟩ := h
  unfold processOrder
  split_ifs with h1 h2
  · obtain ⟨c1, c2, c3, c4, _⟩ := core_matchBuyLoop (restingCount s.sellOrders_ + 1)
      hw hpb hps hc h1
    have hsh := shrinks_matchBuyOrder s p
    unfold matchBuyOrder at hsh ⊢
    refine ⟨c1, c2, c3, ?_⟩
    rw [hsh.2.2.2.2.2.2.1, hsh.2.2.2.2.2.2.2.1]
    exact c4
  · obtain ⟨c1, c2, c3, c4, _⟩ := core_matchSellLoop (restingCount s.buyOrders_ + 1)
      hw hpb hps hc h1
    have hsh := shrinks_matchSellOrder s p
    unfold matchSellOrder at hsh ⊢
    refine ⟨c1, c2, c3, ?_⟩
    rw [hsh.2.2.2.2.2.2.1, hsh.2.2.2.2.2.2.2.1]
    exact c4
  · exact ⟨hw, hpb, hps, hc⟩

theorem settled_addOrder {s : OrderBook} (h : Settled s) (orderId price quantity : Int)
    (side : Side) (orderType : OrderType) (hq : 0 < quantity) :
    Settled (s.addOrder orderId price quantity side orderType) := by
  have h0 := settled_alloc h (Order.mk orderType orderId price quantity side 0)
  have hnew_b : ∀ t : OrderBook,
      Shrinks (s.alloc (Order.mk orderType orderId price quantity side 0)) t →
      s.heap.length ∉ restingOrders t.buyOrders_ ∧ s.heap.length ∉ restingOrders t.sellOrders_ :=
    fun t ht =>
      ⟨fun hc => absurd (resting_valid_buy h.1 (mem_restingOrders_of_levelSub ht.2.1 hc))
          (lt_irrefl _),
       fun hc => absurd (resting_valid_sell h.1 (mem_restingOrders_of_levelSub ht.2.2.1 hc))
          (lt_irrefl _)⟩
  unfold addOrder
  split_ifs with h1 h2
  · exact settled_processOrder h0 _
  · simp only
    have hp := settled_processOrder h0 s.heap.length
    have hsh := shrinks_processOrder (s.alloc (Order.mk orderType orderId price quantity side 0))
      s.heap.length
    split_ifs with h3
    · refine settled_of_same_books hp (wellFormed_of_shrinks hp.1 (shrinks_setQuantity _ _ _))
        rfl rfl rfl rfl (fun p hpr => deref_setQuantity_of_ne _ _ _ _ ?_)
      intro hc
      rcases hpr with hpr | hpr
      · exact (hnew_b _ hsh).1 (hc ▸ hpr)
      · exact (hnew_b _ hsh).2 (hc ▸ hpr)
    · exact hp
  · simp only
    have hv : s.heap.length <
        (s.alloc (Order.mk orderType orderId price quantity side 0)).heap.length := by
      simp [alloc]
    have hw1 := wellFormed_activeInsert h0.1 orderId s.heap.length hv (by rw [deref_alloc_new])
    have hs1 : Settled { s.alloc (Order.mk orderType orderId price quantity side 0) with
        activeOrders_ := activeInsert
          (s.alloc (Order.mk orderType orderId price quantity side 0)).activeOrders_ orderId
          s.heap.length } :=
      settled_of_same_books h0 hw1 rfl rfl rfl rfl (fun _ _ => rfl)
    have hnew := hnew_b _ (shrinks_refl _)
    exact settled_insertResting hs1 s.heap.length side price hv
      (by show ((s.alloc _).deref _).price = _; rw [deref_alloc_new])
      (by show ((s.alloc _).deref _).side = _; rw [deref_alloc_new])
      (by show 0 < ((s.alloc _).deref _).quantity; rw [deref_alloc_new]; exact hq)
      hnew.1 hnew.2

theorem settled_modifyOrder {s : OrderBook} (h : Settled s)
    (orderId newQuantity newPrice : Int) (hq : 0 < newQuantity) :
    Settled (s.modifyOrder orderId newQuantity newPrice).2 := by
  unfold modifyOrder
  cases hf : activeFind s.activeOrders_ orderId with
  | none => exact h
  | some p =>
    simp only
    obtain ⟨hv, hid⟩ := h.1.2.2.2.2.2.2.1 (orderId, p) (mem_of_activeFind hf)
    simp only at hv hid
    have hnot := not_mem_removeResting h.1 p
    rw [hid] at hnot
    have hsh := shrinks_removeResting s p orderId
    have hs1 : Settled (s.removeResting p orderId) :=
      settled_of_shrinks_same_heap h hsh (fun x => by
        unfold removeResting; split_ifs <;> rfl)
    have hw2 := wellFormed_setPriceQuantity hs1.1 p newPrice newQuantity hnot.1 hnot.2
    have hs2 : Settled ((s.removeResting p orderId).setPriceQuantity p newPrice newQuantity) :=
      settled_of_same_books hs1 hw2 rfl rfl rfl rfl (fun x hx => by
        rw [deref_setPriceQuantity]
        have hxp : x ≠ p := by
          intro hc
          rcases hx with hx | hx
          · exact hnot.1 (hc ▸ hx)
          · exact hnot.2 (hc ▸ hx)
        simp [hxp])
    have hv1 : p < (s.removeResting p orderId).heap.length := by rw [hsh.1.1]; exact hv
    have hd : ((s.removeResting p orderId).setPriceQuantity p newPrice newQuantity).deref p =
        { (s.removeResting p orderId).deref p with price := newPrice, quantity := newQuantity } := by
      rw [deref_setPriceQuantity]
      simp only [true_and]
      rw [if_pos hv1]
    exact settled_insertResting hs2 p _ newPrice (by simpa [setPriceQuantity] using hv1)
      (by rw [hd]) rfl (by rw [hd]; exact hq) hnot.1 hnot.2

theorem settled_of_disciplined {s : OrderBook} (h : Disciplined s) : Settled s := by
  induction h with
  | init => exact settled_empty
  | add s orderId price quantity side orderType _ _ hq ih =>
    exact settled_addOrder ih _ _ _ _ _ hq
  | cancel s orderId _ ih => exact settled_cancelOrder ih _
  | modify s orderId q p _ hq ih => exact settled_modifyOrder ih _ _ _ hq
  | buyWorker s _ ih => exact settled_processBuyOrdersStep ih
  | sellWorker s _ ih => exact settled_processSellOrdersStep ih

/-- C1 (non-crossing at quiescence): in every state reachable from the empty
book by `addOrder` (any discipline, id never used before, quantity > 0),
`cancelOrder`, `modifyOrder` (new quantity > 0) and worker steps, if both
ingress queues are empty then the bid side is empty, or the ask side is empty,
or `getBestBid` is strictly below `getBestAsk`. -/
theorem non_crossing_at_quiescence (s : OrderBook) (h : Disciplined s)
    (hbq : s.buyQueue_ = []) (hsq : s.sellQueue_ = []) :
    s.buyOrders_ = [] ∨ s.sellOrders_ = [] ∨ s.getBestBid < s.getBestAsk := by
  obtain ⟨hw, _, _, hc⟩ := settled_of_disciplined h
  cases hb : s.buyOrders_ with
  | nil => left; rfl
  | cons eb restb =>
    cases hs : s.sellOrders_ with
    | nil => right; left; rfl
    | cons es rests =>
      right; right
      obtain ⟨kb, lb⟩ := eb
      obtain ⟨ks, ls⟩ := es
      have hgb : s.getBestBid = kb := by unfold getBestBid; rw [hb]
      have hga : s.getBestAsk = ks := by unfold getBestAsk; rw [hs]
      rw [hgb, hga]
      by_contra hlt
      have heb : (kb, lb) ∈ s.buyOrders_ := by rw [hb]; exact List.mem_cons_self _ _
      have hes : (ks, ls) ∈ s.sellOrders_ := by rw [hs]; exact List.mem_cons_self _ _
      obtain ⟨pb, hpb⟩ := List.exists_mem_of_ne_nil lb (hw.2.2.1 _ heb)
      obtain ⟨ps, hps⟩ := List.exists_mem_of_ne_nil ls (hw.2.2.2.1 _ hes)
      rcases hc _ heb _ hes (not_lt.1 hlt) pb hpb ps hps with h1 | h1
      · rw [hbq] at h1; simp at h1
      · rw [hsq] at h1; simp at h1

theorem non_crossing_at_quiescence_witness :
    Disciplined ((((empty.addOrder 3 150 20 Side.buy OrderType.Limit).addOrder 4 150 10
      Side.sell OrderType.Limit).processBuyOrdersStep).processSellOrdersStep) ∧
    ((((empty.addOrder 3 150 20 Side.buy OrderType.Limit).addOrder 4 150 10
      Side.sell OrderType.Limit).processBuyOrdersStep).processSellOrdersStep).buyQueue_ = [] ∧
    ((((empty.addOrder 3 150 20 Side.buy OrderType.Limit).addOrder 4 150 10
      Side.sell OrderType.Limit).processBuyOrdersStep).processSellOrdersStep).sellQueue_ = [] ∧
    (((((empty.addOrder 3 150 20 Side.buy OrderType.Limit).addOrder 4 150 10
      Side.sell OrderType.Limit).processBuyOrdersStep).processSellOrdersStep).buyOrders_ = [] ∨
     ((((empty.addOrder 3 150 20 Side.buy OrderType.Limit).addOrder 4 150 10
      Side.sell OrderType.Limit).processBuyOrdersStep).processSellOrdersStep).sellOrders_ = [] ∨
     ((((empty.addOrder 3 150 20 Side.buy OrderType.Limit).addOrder 4 150 10
      Side.sell OrderType.Limit).processBuyOrdersStep).processSellOrdersStep).getBestBid <
     ((((empty.addOrder 3 150 20 Side.buy OrderType.Limit).addOrder 4 150 10
      Side.sell OrderType.Limit).processBuyOrdersStep).processSellOrdersStep).getBestAsk) :=
  ⟨Disciplined.sellWorker _ (Disciplined.buyWorker _ (Disciplined.add _ 4 150 10 Side.sell
      OrderType.Limit (Disciplined.add _ 3 150 20 Side.buy OrderType.Limit Disciplined.init
        (by decide) (by decide)) (by decide) (by decide))),
   by decide, by decide,
   non_crossing_at_quiescence _ (Disciplined.sellWorker _ (Disciplined.buyWorker _
      (Disciplined.add _ 4 150 10 Side.sell OrderType.Limit (Disciplined.add _ 3 150 20 Side.buy
        OrderType.Limit Disciplined.init (by decide) (by decide)) (by decide) (by decide))))
      (by decide) (by decide)⟩

end OrderBook

theorem tradedQuantity_append (A B : List Trade) :
    tradedQuantity (A ++ B) = tradedQuantity A + tradedQuantity B := by
  simp [tradedQuantity]

theorem filled_append (A B : List Trade) (x : Int) :
    filled (A ++ B) x = filled A x + filled B x := by
  simp [filled, tradedQuantity_append]

theorem filled_nil (x : Int) : filled [] x = 0 := rfl

theorem filled_singleton (t : Trade) (x : Int) :
    filled [t] x = if t.buyId = x ∨ t.sellId = x then t.qty else 0 := by
  unfold filled tradedQuantity
  by_cases h : t.buyId = x ∨ t.sellId = x
  · rw [if_pos h]
    rcases h with h | h <;> simp [List.filter_cons, h]
  · rw [if_neg h]
    simp only [not_or] at h
    simp [List.filter_cons, h.1, h.2]

theorem filled_nonneg (T : List Trade) (x : Int) (h : ∀ t ∈ T, 0 < t.qty) : 0 ≤ filled T x := by
  induction T with
  | nil => simp [filled_nil]
  | cons t rest ih =>
    have h1 : filled (t :: rest) x = filled [t] x + filled rest x := filled_append [t] rest x
    rw [h1, filled_singleton]
    have := ih (fun u hu => h u (List.mem_cons_of_mem _ hu))
    have := h t (List.mem_cons_self _ _)
    split_ifs <;> omega

theorem filled_eq_zero_of_unknown (T : List Trade) (x : Int)
    (h : ∀ t ∈ T, t.buyId ≠ x ∧ t.sellId ≠ x) : filled T x = 0 := by
  induction T with
  | nil => rfl
  | cons t rest ih =>
    have h1 : filled (t :: rest) x = filled [t] x + filled rest x := filled_append [t] rest x
    rw [h1, filled_singleton, ih (fun u hu => h u (List.mem_cons_of_mem _ hu))]
    have := h t (List.mem_cons_self _ _)
    rw [if_neg (by simp [this.1, this.2])]
    rfl

/-- Changing one entry of a duplicate-free list changes the sum by that much. -/
theorem sum_map_sub_single (R : List OrderPointer) (f f1 : OrderPointer → Int)
    (sp : OrderPointer) (m : Int) (hn : R.Nodup) (hsp : sp ∈ R) (h1 : f1 sp = f sp - m)
    (h2 : ∀ x ∈ R, x ≠ sp → f1 x = f x) : (R.map f1).sum = (R.map f).sum - m := by
  induction R with
  | nil => simp at hsp
  | cons a rest ih =>
    simp only [List.nodup_cons] at hn
    simp only [List.map_cons, List.sum_cons]
    by_cases ha : a = sp
    · subst ha
      have : rest.map f1 = rest.map f :=
        List.map_congr_left (fun x hx => h2 x (List.mem_cons_of_mem _ hx)
          (fun e => hn.1 (e ▸ hx)))
      rw [this, h1]
      omega
    · have hsp1 : sp ∈ rest := by
        rcases List.mem_cons.1 hsp with h | h
        · exact absurd h.symm ha
        · exact h
      rw [ih hn.2 hsp1 (fun x hx hxs => h2 x (List.mem_cons_of_mem _ hx) hxs),
        h2 a (List.mem_cons_self _ _) ha]
      omega

namespace OrderBook

/-! ### Conservation in one call of match -/

theorem matchBuyLoop_conservation (n : Nat) (s : OrderBook) (b : OrderPointer)
    (R : List OrderPointer) (hR : ∀ p ∈ restingOrders s.sellOrders_, p ∈ R) (hn : R.Nodup)
    (hb : b ∉ R) :
    ∃ T, (matchBuyLoop n s b).trades = s.trades ++ T ∧ (∀ t ∈ T, 0 < t.qty) ∧
      tradedQuantity T = (s.deref b).quantity - ((matchBuyLoop n s b).deref b).quantity ∧
      tradedQuantity T = (R.map (fun p => (s.deref p).quantity)).sum -
        (R.map (fun p => ((matchBuyLoop n s b).deref p).quantity)).sum ∧
      (∀ p, 0 ≤ (s.deref p).quantity → 0 ≤ ((matchBuyLoop n s b).deref p).quantity) := by
  have key := matchBuyLoop_induct
    (fun t => (∀ p ∈ restingOrders t.sellOrders_, p ∈ R) ∧
      ∃ T, t.trades = s.trades ++ T ∧ (∀ x ∈ T, 0 < x.qty) ∧
        tradedQuantity T = (s.deref b).quantity - (t.deref b).quantity ∧
        tradedQuantity T = (R.map (fun p => (s.deref p).quantity)).sum -
          (R.map (fun p => (t.deref p).quantity)).sum ∧
        (∀ p, 0 ≤ (s.deref p).quantity → 0 ≤ (t.deref p).quantity))
    b ?_ n s ⟨hR, [], by simp, by simp, by simp [tradedQuantity], by simp [tradedQuantity],
      fun _ h => h⟩
  · exact key.2
  · intro t t1 ⟨hRt, T, hT, hpos, hq1, hq2, hnn⟩ hstep
    have hsh := shrinks_matchBuyStep hstep
    have hR1 : ∀ p ∈ restingOrders t1.sellOrders_, p ∈ R :=
      fun p hp => hRt p (mem_restingOrders_of_levelSub hsh.2.2.1 hp)
    refine ⟨hR1, ?_⟩
    obtain ⟨k, sp, tl, rest, hs, hqb, _, h4 | h4⟩ := matchBuyStep_some hstep
    · obtain ⟨_, rfl⟩ := h4
      exact ⟨T, hT, hpos, hq1, hq2, hnn⟩
    · obtain ⟨hqs, rfl⟩ := h4
      have hspR : sp ∈ R := hRt sp (by rw [hs, restingOrders_cons]; simp)
      have hbsp : b ≠ sp := fun e => hb (e ▸ hspR)
      obtain ⟨e1, e2, e3⟩ := tradeBuy_effect t b sp k
        (min (t.deref b).quantity (t.deref sp).quantity) hbsp hqb hqs
      have hm1 := min_le_left (t.deref b).quantity (t.deref sp).quantity
      have hm2 := min_le_right (t.deref b).quantity (t.deref sp).quantity
      have hm0 : 0 < min (t.deref b).quantity (t.deref sp).quantity := lt_min hqb hqs
      have hsum := sum_map_sub_single R (fun p => (t.deref p).quantity)
        (fun p => ((t.tradeBuy b sp k (min (t.deref b).quantity
          (t.deref sp).quantity)).deref p).quantity) sp
        (min (t.deref b).quantity (t.deref sp).quantity) hn hspR e2
        (fun x hx hxs => by
          show ((t.tradeBuy b sp k _).deref x).quantity = (t.deref x).quantity
          rw [e3 x (fun e => hb (e ▸ hx)) hxs])
      refine ⟨T ++ [Trade.mk (t.deref b).orderId (t.deref sp).orderId
        (min (t.deref b).quantity (t.deref sp).quantity) k], ?_, ?_, ?_, ?_, ?_⟩
      · rw [tradeBuy_trades, hT, List.append_assoc]
      · intro x hx
        rcases List.mem_append.1 hx with h | h
        · exact hpos x h
        · rw [List.mem_singleton.1 h]; exact hm0
      · rw [tradedQuantity_append, hq1, e1]
        simp only [tradedQuantity, List.map_cons, List.map_nil, List.sum_cons, List.sum_nil]
        omega
      · rw [tradedQuantity_append, hq2, hsum]
        simp only [tradedQuantity, List.map_cons, List.map_nil, List.sum_cons, List.sum_nil]
        omega
      · intro p hp
        have := hnn p hp
        by_cases hpb : p = b
        · rw [hpb, e1]; omega
        · by_cases hpsp : p = sp
          · rw [hpsp, e2]; omega
          · rw [e3 p hpb hpsp]; exact this

end OrderBook

namespace OrderBook

theorem matchSellLoop_conservation (n : Nat) (s : OrderBook) (b : OrderPointer)
    (R : List OrderPointer) (hR : ∀ p ∈ restingOrders s.buyOrders_, p ∈ R) (hn : R.Nodup)
    (hb : b ∉ R) :
    ∃ T, (matchSellLoop n s b).trades = s.trades ++ T ∧ (∀ t ∈ T, 0 < t.qty) ∧
      tradedQuantity T = (s.deref b).quantity - ((matchSellLoop n s b).deref b).quantity ∧
      tradedQuantity T = (R.map (fun p => (s.deref p).quantity)).sum -
        (R.map (fun p => ((matchSellLoop n s b).deref p).quantity)).sum ∧
      (∀ p, 0 ≤ (s.deref p).quantity → 0 ≤ ((matchSellLoop n s b).deref p).quantity) := by
  have key := matchSellLoop_induct
    (fun t => (∀ p ∈ restingOrders t.buyOrders_, p ∈ R) ∧
      ∃ T, t.trades = s.trades ++ T ∧ (∀ x ∈ T, 0 < x.qty) ∧
        tradedQuantity T = (s.deref b).quantity - (t.deref b).quantity ∧
        tradedQuantity T = (R.map (fun p => (s.deref p).quantity)).sum -
          (R.map (fun p => (t.deref p).quantity)).sum ∧
        (∀ p, 0 ≤ (s.deref p).quantity → 0 ≤ (t.deref p).quantity))
    b ?_ n s ⟨hR, [], by simp, by simp, by simp [tradedQuantity], by simp [tradedQuantity],
      fun _ h => h⟩
  · exact key.2
  · intro t t1 ⟨hRt, T, hT, hpos, hq1, hq2, hnn⟩ hstep
    have hsh := shrinks_matchSellStep hstep
    have hR1 : ∀ p ∈ restingOrders t1.buyOrders_, p ∈ R :=
      fun p hp => hRt p (mem_restingOrders_of_levelSub hsh.2.1 hp)
    refine ⟨hR1, ?_⟩
    obtain ⟨k, sp, tl, rest, hs, hqb, _, hqs, rfl⟩ := matchSellStep_some hstep
    · have hspR : sp ∈ R := hRt sp (by rw [hs, restingOrders_cons]; simp)
      have hbsp : b ≠ sp := fun e => hb (e ▸ hspR)
      obtain ⟨e1, e2, e3⟩ := tradeSell_effect t b sp k
        (min (t.deref b).quantity (t.deref sp).quantity) hbsp hqb hqs
      have hm1 := min_le_left (t.deref b).quantity (t.deref sp).quantity
      have hm2 := min_le_right (t.deref b).quantity (t.deref sp).quantity
      have hm0 : 0 < min (t.deref b).quantity (t.deref sp).quantity := lt_min hqb hqs
      have hsum := sum_map_sub_single R (fun p => (t.deref p).quantity)
        (fun p => ((t.tradeSell b sp k (min (t.deref b).quantity
          (t.deref sp).quantity)).deref p).quantity) sp
        (min (t.deref b).quantity (t.deref sp).quantity) hn hspR e2
        (fun x hx hxs => by
          show ((t.tradeSell b sp k _).deref x).quantity = (t.deref x).quantity
          rw [e3 x (fun e => hb (e ▸ hx)) hxs])
      refine ⟨T ++ [Trade.mk (t.deref sp).orderId (t.deref b).orderId
        (min (t.deref b).quantity (t.deref sp).quantity) k], ?_, ?_, ?_, ?_, ?_⟩
      · rw [tradeSell_trades, hT, List.append_assoc]
      · intro x hx
        rcases List.mem_append.1 hx with h | h
        · exact hpos x h
        · rw [List.mem_singleton.1 h]; exact hm0
      · rw [tradedQuantity_append, hq1, e1]
        simp only [tradedQuantity, List.map_cons, List.map_nil, List.sum_cons, List.sum_nil]
        omega
      · rw [tradedQuantity_append, hq2, hsum]
        simp only [tradedQuantity, List.map_cons, List.map_nil, List.sum_cons, List.sum_nil]
        omega
      · intro p hp
        have := hnn p hp
        by_cases hpb : p = b
        · rw [hpb, e1]; omega
        · by_cases hpsp : p = sp
          · rw [hpsp, e2]; omega
          · rw [e3 p hpb hpsp]; exact this

end OrderBook

namespace OrderBook

/-! ### Conservation per order along a run -/

theorem conserved_refl (s : OrderBook) : Conserved s s := fun _ _ => ⟨rfl, id⟩

theorem conserved_trans {s t u : OrderBook} (hst : SameStatic s t) (h1 : Conserved s t)
    (h2 : Conserved t u) : Conserved s u := by
  intro p hp
  have hp1 : p < t.heap.length := by rw [hst.1]; exact hp
  obtain ⟨a1, a2⟩ := h1 p hp
  obtain ⟨b1, b2⟩ := h2 p hp1
  rw [hst.orderId] at b1
  exact ⟨b1.trans a1, fun h => b2 (a2 h)⟩

theorem idsDistinct_of_sameStatic {s t : OrderBook} (hst : SameStatic s t) (h : IdsDistinct s) :
    IdsDistinct t := by
  intro p q hp hq hid
  rw [hst.orderId, hst.orderId] at hid
  rw [hst.1] at hp hq
  exact h p q hp hq hid

theorem tradesKnown_of_same {s t : OrderBook} (hst : SameStatic s t) (h : TradesKnown s)
    (ht : t.trades = s.trades) : TradesKnown t := by
  intro x hx
  rw [ht] at hx
  obtain ⟨a, ⟨p, hp, hpi⟩, ⟨q, hq, hqi⟩⟩ := h x hx
  exact ⟨a, ⟨p, by rw [hst.1]; exact hp, by rw [hst.orderId]; exact hpi⟩,
    ⟨q, by rw [hst.1]; exact hq, by rw [hst.orderId]; exact hqi⟩⟩

theorem conserved_of_same {s t : OrderBook} (ht : t.trades = s.trades)
    (hd : ∀ p, p < s.heap.length → (t.deref p).quantity = (s.deref p).quantity) :
    Conserved s t := by
  intro p hp
  rw [ht, hd p hp]
  exact ⟨rfl, id⟩

/-- One trade between two different allocated orders of a state with distinct
ids is conserved per order. -/
theorem conserved_trade {s t : OrderBook} {b sp : OrderPointer} {buyId sellId m k : Int}
    (hids : IdsDistinct s) (hbsp : b ≠ sp) (hvb : b < s.heap.length) (hvs : sp < s.heap.length)
    (hm1 : m ≤ (s.deref b).quantity) (hm2 : m ≤ (s.deref sp).quantity)
    (hid : (buyId = (s.deref b).orderId ∧ sellId = (s.deref sp).orderId) ∨
      (buyId = (s.deref sp).orderId ∧ sellId = (s.deref b).orderId))
    (ht : t.trades = s.trades ++ [Trade.mk buyId sellId m k])
    (e1 : (t.deref b).quantity = (s.deref b).quantity - m)
    (e2 : (t.deref sp).quantity = (s.deref sp).quantity - m)
    (e3 : ∀ x, x ≠ b → x ≠ sp → t.deref x = s.deref x) : Conserved s t := by
  intro p hp
  rw [ht, filled_append, filled_singleton]
  simp only
  by_cases hpb : p = b
  · subst hpb
    have hne : (s.deref sp).orderId ≠ (s.deref p).orderId :=
      fun e => hbsp (hids sp p hvs hp e).symm
    rw [e1]
    rcases hid with ⟨h1, h2⟩ | ⟨h1, h2⟩
    · rw [if_pos (Or.inl h1)]
      exact ⟨by omega, fun _ => by omega⟩
    · rw [if_pos (Or.inr h2)]
      exact ⟨by omega, fun _ => by omega⟩
  · by_cases hpsp : p = sp
    · subst hpsp
      rw [e2]
      rcases hid with ⟨h1, h2⟩ | ⟨h1, h2⟩
      · rw [if_pos (Or.inr h2)]
        exact ⟨by omega, fun _ => by omega⟩
      · rw [if_pos (Or.inl h1)]
        exact ⟨by omega, fun _ => by omega⟩
    · have hn1 : (s.deref b).orderId ≠ (s.deref p).orderId :=
        fun e => hpb (hids b p hvb hp e).symm
      have hn2 : (s.deref sp).orderId ≠ (s.deref p).orderId :=
        fun e => hpsp (hids sp p hvs hp e).symm
      rw [e3 p hpb hpsp]
      rcases hid with ⟨h1, h2⟩ | ⟨h1, h2⟩
      · rw [if_neg (by rw [h1, h2]; simp [hn1, hn2])]
        exact ⟨by omega, id⟩
      · rw [if_neg (by rw [h1, h2]; simp [hn1, hn2])]
        exact ⟨by omega, id⟩

theorem tradesKnown_trade {s t : OrderBook} {b sp : OrderPointer} {buyId sellId m k : Int}
    (hst : SameStatic s t) (h : TradesKnown s) (hm : 0 < m)
    (hvb : b < s.heap.length) (hvs : sp < s.heap.length)
    (hid : (buyId = (s.deref b).orderId ∧ sellId = (s.deref sp).orderId) ∨
      (buyId = (s.deref sp).orderId ∧ sellId = (s.deref b).orderId))
    (ht : t.trades = s.trades ++ [Trade.mk buyId sellId m k]) : TradesKnown t := by
  intro x hx
  rw [ht] at hx
  rcases List.mem_append.1 hx with h1 | h1
  · obtain ⟨a, ⟨p, hp, hpi⟩, ⟨q, hq, hqi⟩⟩ := h x h1
    exact ⟨a, ⟨p, by rw [hst.1]; exact hp, by rw [hst.orderId]; exact hpi⟩,
      ⟨q, by rw [hst.1]; exact hq, by rw [hst.orderId]; exact hqi⟩⟩
  · rw [List.mem_singleton.1 h1]
    refine ⟨hm, ?_, ?_⟩
    · rcases hid with ⟨h2, _⟩ | ⟨h2, _⟩
      · exact ⟨b, by rw [hst.1]; exact hvb, by rw [hst.orderId]; exact h2.symm⟩
      · exact ⟨sp, by rw [hst.1]; exact hvs, by rw [hst.orderId]; exact h2.symm⟩
    · rcases hid with ⟨_, h2⟩ | ⟨_, h2⟩
      · exact ⟨sp, by rw [hst.1]; exact hvs, by rw [hst.orderId]; exact h2.symm⟩
      · exact ⟨b, by rw [hst.1]; exact hvb, by rw [hst.orderId]; exact h2.symm⟩

theorem conserved_matchBuyStep {s s1 : OrderBook} {b : OrderPointer} (hw : WellFormed s)
    (hids : IdsDistinct s) (hk : TradesKnown s) (hside : (s.deref b).side = Side.buy)
    (hstep : matchBuyStep s b = some s1) : Conserved s s1 ∧ TradesKnown s1 := by
  have hsh := shrinks_matchBuyStep hstep
  obtain ⟨k, sp, tl, rest, hs, hqb, _, h4 | h4⟩ := matchBuyStep_some hstep
  · obtain ⟨_, rfl⟩ := h4
    exact ⟨conserved_of_same rfl (fun _ _ => rfl), tradesKnown_of_same hsh.1 hk rfl⟩
  · obtain ⟨hqs, rfl⟩ := h4
    have hspside : (s.deref sp).side ≠ Side.buy :=
      (hw.2.2.2.2.2.1 _ (by rw [hs]; exact List.mem_cons_self _ _) sp
        (List.mem_cons_self _ _)).2.2
    have hbsp : b ≠ sp := fun e => hspside (e ▸ hside)
    obtain ⟨e1, e2, e3⟩ := tradeBuy_effect s b sp k
      (min (s.deref b).quantity (s.deref sp).quantity) hbsp hqb hqs
    exact ⟨conserved_trade hids hbsp (valid_of_quantity_pos hqb) (valid_of_quantity_pos hqs)
        (min_le_left _ _) (min_le_right _ _) (Or.inl ⟨rfl, rfl⟩) (tradeBuy_trades _ _ _ _ _)
        e1 e2 e3,
      tradesKnown_trade hsh.1 hk (lt_min hqb hqs) (valid_of_quantity_pos hqb)
        (valid_of_quantity_pos hqs) (Or.inl ⟨rfl, rfl⟩) (tradeBuy_trades _ _ _ _ _)⟩

theorem conserved_matchSellStep {s s1 : OrderBook} {b : OrderPointer} (hw : WellFormed s)
    (hids : IdsDistinct s) (hk : TradesKnown s) (hside : (s.deref b).side ≠ Side.buy)
    (hstep : matchSellStep s b = some s1) : Conserved s s1 ∧ TradesKnown s1 := by
  have hsh := shrinks_matchSellStep hstep
  obtain ⟨k, sp, tl, rest, hs, hqb, _, hqs, rfl⟩ := matchSellStep_some hstep
  have hspside : (s.deref sp).side = Side.buy :=
    (hw.2.2.2.2.1 _ (by rw [hs]; exact List.mem_cons_self _ _) sp
      (List.mem_cons_self _ _)).2.2
  have hbsp : b ≠ sp := fun e => hside (e ▸ hspside)
  obtain ⟨e1, e2, e3⟩ := tradeSell_effect s b sp k
    (min (s.deref b).quantity (s.deref sp).quantity) hbsp hqb hqs
  exact ⟨conserved_trade hids hbsp (valid_of_quantity_pos hqb) (valid_of_quantity_pos hqs)
      (min_le_left _ _) (min_le_right _ _) (Or.inr ⟨rfl, rfl⟩) (tradeSell_trades _ _ _ _ _)
      e1 e2 e3,
    tradesKnown_trade hsh.1 hk (lt_min hqb hqs) (valid_of_quantity_pos hqb)
      (valid_of_quantity_pos hqs) (Or.inr ⟨rfl, rfl⟩) (tradeSell_trades _ _ _ _ _)⟩

theorem conserved_matchBuyLoop (n : Nat) {s : OrderBook} {b : OrderPointer}
    (hw : WellFormed s) (hids : IdsDistinct s) (hk : TradesKnown s)
    (hside : (s.deref b).side = Side.buy) :
    Conserved s (matchBuyLoop n s b) ∧ TradesKnown (matchBuyLoop n s b) := by
  have key := matchBuyLoop_induct
    (fun t => Shrinks s t ∧ WellFormed t ∧ Conserved s t ∧ TradesKnown t) b ?_ n s
    ⟨shrinks_refl s, hw, conserved_refl s, hk⟩
  · exact ⟨key.2.2.1, key.2.2.2⟩
  · intro t t1 ⟨a1, a2, a3, a4⟩ hstep
    have hsh := shrinks_matchBuyStep hstep
    have hc := conserved_matchBuyStep a2 (idsDistinct_of_sameStatic a1.1 hids) a4
      (by rw [a1.1.side]; exact hside) hstep
    exact ⟨shrinks_trans a1 hsh, wellFormed_of_shrinks a2 hsh, conserved_trans a1.1 a3 hc.1, hc.2⟩

theorem conserved_matchSellLoop (n : Nat) {s : OrderBook} {b : OrderPointer}
    (hw : WellFormed s) (hids : IdsDistinct s) (hk : TradesKnown s)
    (hside : (s.deref b).side ≠ Side.buy) :
    Conserved s (matchSellLoop n s b) ∧ TradesKnown (matchSellLoop n s b) := by
  have key := matchSellLoop_induct
    (fun t => Shrinks s t ∧ WellFormed t ∧ Conserved s t ∧ TradesKnown t) b ?_ n s
    ⟨shrinks_refl s, hw, conserved_refl s, hk⟩
  · exact ⟨key.2.2.1, key.2.2.2⟩
  · intro t t1 ⟨a1, a2, a3, a4⟩ hstep
    have hsh := shrinks_matchSellStep hstep
    have hc := conserved_matchSellStep a2 (idsDistinct_of_sameStatic a1.1 hids) a4
      (by rw [a1.1.side]; exact hside) hstep
    exact ⟨shrinks_trans a1 hsh, wellFormed_of_shrinks a2 hsh, conserved_trans a1.1 a3 hc.1, hc.2⟩

theorem conserved_processOrder {s : OrderBook} (p : OrderPointer)
    (hw : WellFormed s) (hids : IdsDistinct s) (hk : TradesKnown s) :
    Conserved s (s.processOrder p) ∧ TradesKnown (s.processOrder p) := by
  unfold processOrder
  split_ifs with h1 h2
  · exact conserved_matchBuyLoop _ hw hids hk h1
  · exact conserved_matchSellLoop _ hw hids hk h1
  · exact ⟨conserved_refl s, hk⟩

theorem conserved_processBuyOrdersStep {s : OrderBook}
    (hw : WellFormed s) (hids : IdsDistinct s) (hk : TradesKnown s) :
    Conserved s s.processBuyOrdersStep ∧ TradesKnown s.processBuyOrdersStep := by
  unfold processBuyOrdersStep
  cases hq : s.buyQueue_ with
  | nil => exact ⟨conserved_refl s, hk⟩
  | cons b rest =>
    simp only
    have hw1 : WellFormed { s with buyQueue_ := rest } := by
      have := wellFormed_popBuy hw
      rw [hq] at this
      exact this
    have hside : (s.deref b).side = Side.buy :=
      (hw.2.2.2.2.2.2.2.1 b (by rw [hq]; exact List.mem_cons_self _ _)).2
    exact conserved_matchBuyLoop (s := { s with buyQueue_ := rest }) _ hw1 hids hk hside

theorem conserved_processSellOrdersStep {s : OrderBook}
    (hw : WellFormed s) (hids : IdsDistinct s) (hk : TradesKnown s) :
    Conserved s s.processSellOrdersStep ∧ TradesKnown s.processSellOrdersStep := by
  unfold processSellOrdersStep
  cases hq : s.sellQueue_ with
  | nil => exact ⟨conserved_refl s, hk⟩
  | cons b rest =>
    simp only
    have hw1 : WellFormed { s with sellQueue_ := rest } := by
      have := wellFormed_popSell hw
      rw [hq] at this
      exact this
    have hside : (s.deref b).side ≠ Side.buy :=
      (hw.2.2.2.2.2.2.2.2 b (by rw [hq]; exact List.mem_cons_self _ _)).2
    exact conserved_matchSellLoop (s := { s with sellQueue_ := rest }) _ hw1 hids hk hside

end OrderBook

namespace OrderBook

theorem balanced_of_conserved {s t : OrderBook} {g : Ledger} (hst : SameStatic s t)
    (hc : Conserved s t) (hb : Balanced s g) : Balanced t g := by
  obtain ⟨b1, b2, b3⟩ := hb
  refine ⟨by rw [hst.1]; exact b1, by rw [hst.1]; exact b2, ?_⟩
  intro p hp hm
  rw [hst.1] at hp
  obtain ⟨c1, c2, c3, c4⟩ := b3 p hp hm
  obtain ⟨d1, d2⟩ := hc p hp
  rw [hst.orderId, hst.orderType]
  exact ⟨by omega, d2 c2, c3, c4⟩

theorem insertResting_heap (s : OrderBook) (p : OrderPointer) (side : Side) (k : Int) :
    (s.insertResting p side k).heap = s.heap := by
  unfold insertResting
  split_ifs <;> rfl

theorem insertResting_trades (s : OrderBook) (p : OrderPointer) (side : Side) (k : Int) :
    (s.insertResting p side k).trades = s.trades := by
  unfold insertResting
  split_ifs <;> rfl

theorem removeResting_heap (s : OrderBook) (p : OrderPointer) (orderId : Int) :
    (s.removeResting p orderId).heap = s.heap := by
  unfold removeResting
  split_ifs <;> rfl

theorem removeResting_trades (s : OrderBook) (p : OrderPointer) (orderId : Int) :
    (s.removeResting p orderId).trades = s.trades := by
  unfold removeResting
  split_ifs <;> rfl

theorem cancelOrder_heap (s : OrderBook) (orderId : Int) :
    (s.cancelOrder orderId).2.heap = s.heap := by
  unfold cancelOrder
  cases activeFind s.activeOrders_ orderId with
  | none => rfl
  | some p => exact removeResting_heap s p orderId

theorem cancelOrder_trades (s : OrderBook) (orderId : Int) :
    (s.cancelOrder orderId).2.trades = s.trades := by
  unfold cancelOrder
  cases activeFind s.activeOrders_ orderId with
  | none => rfl
  | some p => exact removeResting_trades s p orderId

theorem getD_append_left (l : List Int) (x : Int) (p : Nat) (h : p < l.length) :
    (l ++ [x]).getD p 0 = l.getD p 0 := by
  simp [List.getD, List.getElem?_append_left h]

theorem getD_append_length (l : List Int) (x : Int) (n : Nat) (h : l.length = n) :
    (l ++ [x]).getD n 0 = x := by
  subst h
  simp [List.getD]

/-- Allocation of a record with a fresh id and a positive quantity keeps the
accounts, with a new ledger entry and no discard. -/
theorem balanced_alloc {s : OrderBook} {g : Ledger} (o : Order)
    (hfresh : ∀ p, p < s.heap.length → (s.deref p).orderId ≠ o.orderId) (hq : 0 < o.quantity)
    (hids : IdsDistinct s) (hk : TradesKnown s) (hb : Balanced s g) :
    IdsDistinct (s.alloc o) ∧ TradesKnown (s.alloc o) ∧
      Balanced (s.alloc o) ⟨g.original ++ [o.quantity], g.discarded ++ [0], g.modified⟩ := by
  have hlen : (s.alloc o).heap.length = s.heap.length + 1 := by simp [alloc]
  have htr : (s.alloc o).trades = s.trades := rfl
  refine ⟨?_, ?_, ?_⟩
  · intro p q hp hq1 hid
    rw [hlen] at hp hq1
    rcases Nat.lt_succ_iff_lt_or_eq.1 hp with h1 | h1
    · rcases Nat.lt_succ_iff_lt_or_eq.1 hq1 with h2 | h2
      · rw [deref_alloc_old s o p h1, deref_alloc_old s o q h2] at hid
        exact hids p q h1 h2 hid
      · subst h2
        rw [deref_alloc_old s o p h1, deref_alloc_new] at hid
        exact absurd hid (hfresh p h1)
    · rcases Nat.lt_succ_iff_lt_or_eq.1 hq1 with h2 | h2
      · subst h1
        rw [deref_alloc_old s o q h2, deref_alloc_new] at hid
        exact absurd hid.symm (hfresh q h2)
      · rw [h1, h2]
  · intro t ht
    rw [htr] at ht
    obtain ⟨a, ⟨p, hp, hpi⟩, ⟨q, hq1, hqi⟩⟩ := hk t ht
    exact ⟨a, ⟨p, by rw [hlen]; omega, by rw [deref_alloc_old s o p hp]; exact hpi⟩,
      ⟨q, by rw [hlen]; omega, by rw [deref_alloc_old s o q hq1]; exact hqi⟩⟩
  · obtain ⟨b1, b2, b3⟩ := hb
    refine ⟨by simp [hlen, b1], by simp [hlen, b2], ?_⟩
    intro p hp hm
    rw [hlen] at hp
    simp only at hm ⊢
    rw [htr]
    rcases Nat.lt_succ_iff_lt_or_eq.1 hp with h1 | h1
    · rw [deref_alloc_old s o p h1, getD_append_left _ _ _ (by omega),
        getD_append_left _ _ _ (by omega)]
      exact b3 p h1 hm
    · subst h1
      rw [deref_alloc_new, getD_append_length _ _ _ b1, getD_append_length _ _ _ b2]
      have h0 : filled s.trades o.orderId = 0 := by
        apply filled_eq_zero_of_unknown
        intro t ht
        obtain ⟨_, ⟨p, hp1, hpi⟩, ⟨q, hq1, hqi⟩⟩ := hk t ht
        exact ⟨by rw [← hpi]; exact hfresh p hp1, by rw [← hqi]; exact hfresh q hq1⟩
      rw [h0]
      exact ⟨by omega, le_of_lt hq, le_refl 0, fun _ => rfl⟩

end OrderBook

namespace OrderBook

theorem discardedByAdd_of_not_ioc (s : OrderBook) (orderId price quantity : Int) (side : Side)
    (orderType : OrderType) (h : orderType ≠ OrderType.IOC) :
    s.discardedByAdd orderId price quantity side orderType = 0 := by
  unfold discardedByAdd
  rw [if_neg h]

theorem discardedByAdd_of_ioc (s : OrderBook) (orderId price quantity : Int) (side : Side) :
    s.discardedByAdd orderId price quantity side OrderType.IOC =
      (((s.alloc (Order.mk OrderType.IOC orderId price quantity side 0)).processOrder
        s.heap.length).deref s.heap.length).quantity := by
  unfold discardedByAdd
  rw [if_pos rfl]

/-- The accounts are kept by `addOrder` of a fresh id with a positive
quantity. -/
theorem balanced_addOrder {s : OrderBook} {g : Ledger} (orderId price quantity : Int)
    (side : Side) (orderType : OrderType)
    (hfresh : ∀ p, p < s.heap.length → (s.deref p).orderId ≠ orderId) (hq : 0 < quantity)
    (hw : WellFormed s) (hids : IdsDistinct s) (hk : TradesKnown s) (hb : Balanced s g) :
    IdsDistinct (s.addOrder orderId price quantity side orderType) ∧
      TradesKnown (s.addOrder orderId price quantity side orderType) ∧
      Balanced (s.addOrder orderId price quantity side orderType)
        ⟨g.original ++ [quantity],
         g.discarded ++ [s.discardedByAdd orderId price quantity side orderType], g.modified⟩ := by
  obtain ⟨a1, a2, a3⟩ := balanced_alloc (Order.mk orderType orderId price quantity side 0)
    hfresh hq hids hk hb
  have hw0 := wellFormed_alloc hw (Order.mk orderType orderId price quantity side 0)
  simp only at a3
  obtain ⟨s0, hs0⟩ : ∃ s0, s0 = s.alloc (Order.mk orderType orderId price quantity side 0) :=
    ⟨_, rfl⟩
  have hlen0 : s0.heap.length = s.heap.length + 1 := by rw [hs0]; simp [alloc]
  have hnew : s0.deref s.heap.length = Order.mk orderType orderId price quantity side 0 := by
    rw [hs0]; exact deref_alloc_new s _
  by_cases hM : orderType = OrderType.Market
  · have he : s.addOrder orderId price quantity side orderType = s0.processOrder s.heap.length := by
      unfold addOrder
      simp only [if_pos hM]
      rw [hs0]
    rw [he, discardedByAdd_of_not_ioc _ _ _ _ _ _ (by rw [hM]; decide)]
    rw [← hs0] at a1 a2 a3 hw0
    have hsh := shrinks_processOrder s0 s.heap.length
    have hc := conserved_processOrder s.heap.length hw0 a1 a2
    exact ⟨idsDistinct_of_sameStatic hsh.1 a1, hc.2, balanced_of_conserved hsh.1 hc.1 a3⟩
  · by_cases hI : orderType = OrderType.IOC
    · subst hI
      rw [discardedByAdd_of_ioc, ← hs0]
      rw [← hs0] at a1 a2 a3 hw0
      have hsh := shrinks_processOrder s0 s.heap.length
      have hc := conserved_processOrder s.heap.length hw0 a1 a2
      have hbal := balanced_of_conserved hsh.1 hc.1 a3
      obtain ⟨t, ht⟩ : ∃ t, t = s0.processOrder s.heap.length := ⟨_, rfl⟩
      rw [← ht] at hsh hc hbal ⊢
      have hlen1 : t.heap.length = s.heap.length + 1 := by rw [hsh.1.1, hlen0]
      have he : s.addOrder orderId price quantity side OrderType.IOC =
          if (t.deref s.heap.length).quantity > 0 then t.setQuantity s.heap.length 0 else t := by
        unfold addOrder
        simp only [if_neg hM, if_true]
        rw [ht, hs0]
      obtain ⟨u, hu⟩ : ∃ u, u = if (t.deref s.heap.length).quantity > 0
          then t.setQuantity s.heap.length 0 else t := ⟨_, rfl⟩
      rw [he, ← hu]
      have hstu : SameStatic t u := by
        rw [hu]
        split_ifs
        · exact sameStatic_setQuantity t _ _
        · exact sameStatic_refl t
      have htru : u.trades = t.trades := by
        rw [hu]
        split_ifs <;> rfl
      have hold : ∀ p, p ≠ s.heap.length → u.deref p = t.deref p := by
        intro p hp
        rw [hu]
        split_ifs
        · exact deref_setQuantity_of_ne t _ _ _ hp
        · rfl
      have hqt : 0 ≤ (t.deref s.heap.length).quantity := by
        have := (hc.1 s.heap.length (by omega)).2
        rw [hnew] at this
        exact this (le_of_lt hq)
      have hnewq : (u.deref s.heap.length).quantity = 0 := by
        rw [hu]
        split_ifs with h1
        · have hv : s.heap.length < t.heap.length := by omega
          exact deref_setQuantity_quantity_self t _ _ hv
        · omega
      refine ⟨idsDistinct_of_sameStatic hstu (idsDistinct_of_sameStatic hsh.1 a1),
        tradesKnown_of_same hstu hc.2 htru, ?_⟩
      obtain ⟨b1, b2, b3⟩ := hbal
      simp only at b1 b2 b3
      have hgo : g.original.length = s.heap.length := by
        simp only [List.length_append, List.length_singleton] at b1
        omega
      have hgd : g.discarded.length = s.heap.length := by
        simp only [List.length_append, List.length_singleton] at b2
        omega
      refine ⟨by simpa [hstu.1] using b1, by simp [hstu.1, hlen1, hgd], ?_⟩
      intro p hp hm
      rw [hstu.1, hlen1] at hp
      simp only at hm ⊢
      rw [htru]
      rcases Nat.lt_succ_iff_lt_or_eq.1 hp with h1 | h1
      · have h3 := b3 p (by omega) hm
        rw [getD_append_left _ _ _ (by omega)] at h3 ⊢
        rw [getD_append_left _ _ _ (by omega)] at h3
        rw [getD_append_left _ _ _ (by omega), hold p (by omega)]
        exact h3
      · subst h1
        have h3 := b3 s.heap.length (by omega) hm
        rw [getD_append_length _ _ _ hgo, getD_append_length _ _ _ hgd] at h3
        rw [getD_append_length _ _ _ hgo, getD_append_length _ _ _ hgd, hnewq]
        rw [hstu.orderId, hstu.orderType]
        have hty : (t.deref s.heap.length).orderType = OrderType.IOC := by
          rw [hsh.1.orderType, hnew]
        refine ⟨by omega, le_refl 0, hqt, fun h => absurd hty h⟩
    · have he : s.addOrder orderId price quantity side orderType =
          ({ s0 with activeOrders_ := activeInsert s0.activeOrders_ orderId s.heap.length }
            ).insertResting s.heap.length side price := by
        unfold addOrder
        simp only [if_neg hM, if_neg hI]
        rw [hs0]
      rw [he, discardedByAdd_of_not_ioc _ _ _ _ _ _ hI]
      rw [← hs0] at a1 a2 a3
      have hheap := insertResting_heap
        { s0 with activeOrders_ := activeInsert s0.activeOrders_ orderId s.heap.length }
        s.heap.length side price
      have htr := insertResting_trades
        { s0 with activeOrders_ := activeInsert s0.activeOrders_ orderId s.heap.length }
        s.heap.length side price
      have hst : SameStatic s0 _ := sameStatic_of_heap_eq hheap
      exact ⟨idsDistinct_of_sameStatic hst a1, tradesKnown_of_same hst a2 htr,
        balanced_of_conserved hst
          (conserved_of_same htr (fun p _ => by rw [deref_congr hheap]; rfl)) a3⟩

end OrderBook

namespace OrderBook

theorem balanced_cancelOrder {s : OrderBook} {g : Ledger} (orderId : Int)
    (hids : IdsDistinct s) (hk : TradesKnown s) (hb : Balanced s g) :
    IdsDistinct (s.cancelOrder orderId).2 ∧ TradesKnown (s.cancelOrder orderId).2 ∧
      Balanced (s.cancelOrder orderId).2 g := by
  have hheap := cancelOrder_heap s orderId
  have htr := cancelOrder_trades s orderId
  have hst : SameStatic s _ := sameStatic_of_heap_eq hheap
  exact ⟨idsDistinct_of_sameStatic hst hids, tradesKnown_of_same hst hk htr,
    balanced_of_conserved hst (conserved_of_same htr (fun p _ => by rw [deref_congr hheap])) hb⟩

/-- What `modifyOrder` changes when the id is found: only the record of the
found order, and of it only price and quantity. -/
theorem modifyOrder_frame (s : OrderBook) (orderId newQuantity newPrice : Int)
    (p0 : OrderPointer) (hf : activeFind s.activeOrders_ orderId = some p0) :
    (s.modifyOrder orderId newQuantity newPrice).2.heap.length = s.heap.length ∧
    (s.modifyOrder orderId newQuantity newPrice).2.trades = s.trades ∧
    (∀ x, ((s.modifyOrder orderId newQuantity newPrice).2.deref x).orderId =
      (s.deref x).orderId) ∧
    (∀ x, ((s.modifyOrder orderId newQuantity newPrice).2.deref x).orderType =
      (s.deref x).orderType) ∧
    (∀ x, x ≠ p0 → (s.modifyOrder orderId newQuantity newPrice).2.deref x = s.deref x) := by
  unfold modifyOrder
  rw [hf]
  simp only
  obtain ⟨s1, hs1⟩ : ∃ s1, s1 = s.removeResting p0 orderId := ⟨_, rfl⟩
  rw [← hs1]
  have h1 : s1.heap = s.heap := by rw [hs1]; exact removeResting_heap s p0 orderId
  have t1 : s1.trades = s.trades := by rw [hs1]; exact removeResting_trades s p0 orderId
  obtain ⟨s2, hs2⟩ : ∃ s2, s2 = s1.setPriceQuantity p0 newPrice newQuantity := ⟨_, rfl⟩
  rw [← hs2]
  have hd2 : ∀ x, s2.deref x = if x = p0 ∧ p0 < s1.heap.length
      then { s1.deref p0 with price := newPrice, quantity := newQuantity } else s1.deref x := by
    intro x; rw [hs2]; exact deref_setPriceQuantity s1 p0 x newPrice newQuantity
  have hl2 : s2.heap.length = s1.heap.length := by rw [hs2]; simp [setPriceQuantity]
  have t2 : s2.trades = s1.trades := by rw [hs2]; rfl
  have h3 := insertResting_heap s2 p0 (s2.deref p0).side newPrice
  have t3 := insertResting_trades s2 p0 (s2.deref p0).side newPrice
  refine ⟨by rw [h3, hl2, h1], by rw [t3, t2, t1], ?_, ?_, ?_⟩
  · intro x
    rw [deref_congr h3, hd2, ← deref_congr h1]
    split_ifs with h
    · rw [h.1]
    · rfl
  · intro x
    rw [deref_congr h3, hd2, ← deref_congr h1]
    split_ifs with h
    · rw [h.1]
    · rfl
  · intro x hx
    rw [deref_congr h3, hd2, ← deref_congr h1, if_neg (fun h => hx h.1)]

theorem balanced_modifyOrder {s : OrderBook} {g : Ledger} (orderId newQuantity newPrice : Int)
    (hids : IdsDistinct s) (hk : TradesKnown s) (hb : Balanced s g) :
    IdsDistinct (s.modifyOrder orderId newQuantity newPrice).2 ∧
      TradesKnown (s.modifyOrder orderId newQuantity newPrice).2 ∧
      Balanced (s.modifyOrder orderId newQuantity newPrice).2
        ⟨g.original, g.discarded, (activeFind s.activeOrders_ orderId).toList ++ g.modified⟩ := by
  cases hf : activeFind s.activeOrders_ orderId with
  | none =>
    have he : (s.modifyOrder orderId newQuantity newPrice).2 = s := by
      unfold modifyOrder; rw [hf]
    rw [he]
    exact ⟨hids, hk, hb⟩
  | some p0 =>
    obtain ⟨f1, f2, f3, f4, f5⟩ := modifyOrder_frame s orderId newQuantity newPrice p0 hf
    refine ⟨?_, ?_, ?_⟩
    · intro p q hp hq hid
      rw [f1] at hp hq
      rw [f3, f3] at hid
      exact hids p q hp hq hid
    · intro t ht
      rw [f2] at ht
      obtain ⟨a, ⟨p, hp, hpi⟩, ⟨q, hq, hqi⟩⟩ := hk t ht
      exact ⟨a, ⟨p, by rw [f1]; exact hp, by rw [f3]; exact hpi⟩,
        ⟨q, by rw [f1]; exact hq, by rw [f3]; exact hqi⟩⟩
    · obtain ⟨b1, b2, b3⟩ := hb
      refine ⟨by rw [f1]; exact b1, by rw [f1]; exact b2, ?_⟩
      intro p hp hm
      rw [f1] at hp
      simp only [Option.toList, List.cons_append, List.nil_append, List.mem_cons, not_or] at hm
      rw [f2, f5 p hm.1]
      exact b3 p hp hm.2

theorem sameStatic_processBuyOrdersStep (s : OrderBook) :
    SameStatic s s.processBuyOrdersStep := by
  unfold processBuyOrdersStep
  cases s.buyQueue_ with
  | nil => exact sameStatic_refl s
  | cons b rest => exact (shrinks_matchBuyOrder { s with buyQueue_ := rest } b).1

theorem sameStatic_processSellOrdersStep (s : OrderBook) :
    SameStatic s s.processSellOrdersStep := by
  unfold processSellOrdersStep
  cases s.sellQueue_ with
  | nil => exact sameStatic_refl s
  | cons b rest => exact (shrinks_matchSellOrder { s with sellQueue_ := rest } b).1

/-- Every state of a run is well-formed, has distinct order ids, trades that
name allocated orders, and a ledger that balances. -/
theorem balanced_of_run {s : OrderBook} {g : Ledger} (h : Run s g) :
    WellFormed s ∧ IdsDistinct s ∧ TradesKnown s ∧ Balanced s g := by
  induction h with
  | init =>
    refine ⟨wellFormed_empty, ?_, ?_, rfl, rfl, ?_⟩
    · intro p q hp
      exact absurd hp (by simp [empty])
    · intro t ht
      exact absurd ht (by simp [empty])
    · intro p hp
      exact absurd hp (by simp [empty])
  | add s g orderId price quantity side orderType _ hfresh hq ih =>
    obtain ⟨w, i, k, b⟩ := ih
    exact ⟨wellFormed_addOrder w _ _ _ _ _,
      balanced_addOrder orderId price quantity side orderType hfresh hq w i k b⟩
  | cancel s g orderId _ ih =>
    obtain ⟨w, i, k, b⟩ := ih
    exact ⟨wellFormed_cancelOrder w _, balanced_cancelOrder orderId i k b⟩
  | modify s g orderId newQuantity newPrice _ _ ih =>
    obtain ⟨w, i, k, b⟩ := ih
    exact ⟨wellFormed_modifyOrder w _ _ _, balanced_modifyOrder orderId newQuantity newPrice i k b⟩
  | reset s g _ ih =>
    obtain ⟨w, i, k, b⟩ := ih
    have hst : SameStatic s s.reset := sameStatic_of_heap_eq rfl
    exact ⟨wellFormed_reset w, idsDistinct_of_sameStatic hst i, tradesKnown_of_same hst k rfl,
      balanced_of_conserved hst (conserved_of_same rfl (fun _ _ => rfl)) b⟩
  | buyWorker s g _ ih =>
    obtain ⟨w, i, k, b⟩ := ih
    have hst := sameStatic_processBuyOrdersStep s
    have hc := conserved_processBuyOrdersStep w i k
    exact ⟨wellFormed_processBuyOrdersStep w, idsDistinct_of_sameStatic hst i, hc.2,
      balanced_of_conserved hst hc.1 b⟩
  | sellWorker s g _ ih =>
    obtain ⟨w, i, k, b⟩ := ih
    have hst := sameStatic_processSellOrdersStep s
    have hc := conserved_processSellOrdersStep w i k
    exact ⟨wellFormed_processSellOrdersStep w, idsDistinct_of_sameStatic hst i, hc.2,
      balanced_of_conserved hst hc.1 b⟩

end OrderBook

namespace OrderBook

/-! ### No order rests twice -/

theorem levelsNodup_of_levelSub {m1 m : PriceMap} (h : LevelSub m1 m) (hn : LevelsNodup m) :
    LevelsNodup m1 := by
  intro e he
  obtain ⟨e0, he0, _, hsub⟩ := h.2 e he
  exact (hn e0 he0).sublist hsub

theorem levelsNodup_mapPushBack {before : Int → Int → Bool} {m : PriceMap} (k : Int)
    (o : OrderPointer) (hn : LevelsNodup m) (ho : o ∉ restingOrders m) :
    LevelsNodup (mapPushBack before m k o) := by
  intro e he
  rcases mem_mapPushBack he with h | h
  · exact hn e h
  · rw [h]
    simp only
    cases hf : mapFind m k with
    | none => simp
    | some l =>
      have hl := mapFind_mem m k l hf
      simp only [Option.getD_some]
      refine List.Nodup.append (hn _ hl) (List.nodup_singleton o) ?_
      intro x hx hx1
      rw [List.mem_singleton.1 hx1] at hx
      exact ho (mem_restingOrders.2 ⟨(k, l), hl, hx⟩)

/-- In a book whose keys are distinct and whose orders carry the key of their
level as price, levels without repetition give resting orders without
repetition. -/
theorem restingOrders_nodup {s : OrderBook} {m : PriceMap} (hk : (m.map Prod.fst).Nodup)
    (hp : ∀ e ∈ m, ∀ p ∈ e.2, (s.deref p).price = e.1) (hn : LevelsNodup m) :
    (restingOrders m).Nodup := by
  induction m with
  | nil => simp [restingOrders]
  | cons e rest ih =>
    obtain ⟨k, l⟩ := e
    simp only [List.map_cons, List.nodup_cons] at hk
    rw [restingOrders_cons]
    refine List.Nodup.append (hn (k, l) (List.mem_cons_self _ _))
      (ih hk.2 (fun e he => hp e (List.mem_cons_of_mem _ he))
        (fun e he => hn e (List.mem_cons_of_mem _ he))) ?_
    intro x hx hx1
    obtain ⟨e1, he1, hxe1⟩ := mem_restingOrders.1 hx1
    have h1 := hp (k, l) (List.mem_cons_self _ _) x hx
    have h2 := hp e1 (List.mem_cons_of_mem _ he1) x hxe1
    simp only at h1
    exact hk.1 (List.mem_map.2 ⟨e1, he1, by rw [← h2, h1]⟩)

theorem restingOrders_nodup_buy {s : OrderBook} (hw : WellFormed s)
    (hn : LevelsNodup s.buyOrders_) : (restingOrders s.buyOrders_).Nodup :=
  restingOrders_nodup (sortedKeys_buy_nodup hw.1) (fun e he p hp => (hw.2.2.2.2.1 e he p hp).2.1) hn

theorem restingOrders_nodup_sell {s : OrderBook} (hw : WellFormed s)
    (hn : LevelsNodup s.sellOrders_) : (restingOrders s.sellOrders_).Nodup :=
  restingOrders_nodup (sortedKeys_sell_nodup hw.2.1)
    (fun e he p hp => (hw.2.2.2.2.2.1 e he p hp).2.1) hn

theorem levelsNodup_of_shrinks {s s1 : OrderBook} (hsh : Shrinks s s1)
    (h : LevelsNodup s.buyOrders_ ∧ LevelsNodup s.sellOrders_) :
    LevelsNodup s1.buyOrders_ ∧ LevelsNodup s1.sellOrders_ :=
  ⟨levelsNodup_of_levelSub hsh.2.1 h.1, levelsNodup_of_levelSub hsh.2.2.1 h.2⟩

theorem levelsNodup_insertResting {s : OrderBook} (p : OrderPointer) (side : Side) (k : Int)
    (h : LevelsNodup s.buyOrders_ ∧ LevelsNodup s.sellOrders_)
    (hb : p ∉ restingOrders s.buyOrders_) (hs : p ∉ restingOrders s.sellOrders_) :
    LevelsNodup (s.insertResting p side k).buyOrders_ ∧
      LevelsNodup (s.insertResting p side k).sellOrders_ := by
  unfold insertResting
  split_ifs
  · exact ⟨levelsNodup_mapPushBack k p h.1 hb, h.2⟩
  · exact ⟨h.1, levelsNodup_mapPushBack k p h.2 hs⟩

theorem not_resting_of_invalid {s : OrderBook} (hw : WellFormed s) (p : OrderPointer)
    (hp : s.heap.length ≤ p) :
    p ∉ restingOrders s.buyOrders_ ∧ p ∉ restingOrders s.sellOrders_ := by
  constructor
  · intro h
    obtain ⟨e, he, hpe⟩ := mem_restingOrders.1 h
    exact absurd (hw.2.2.2.2.1 e he p hpe).1 (Nat.not_lt.2 hp)
  · intro h
    obtain ⟨e, he, hpe⟩ := mem_restingOrders.1 h
    exact absurd (hw.2.2.2.2.2.1 e he p hpe).1 (Nat.not_lt.2 hp)

theorem levelsNodup_addOrder {s : OrderBook} (hw : WellFormed s) (orderId price quantity : Int)
    (side : Side) (orderType : OrderType)
    (h : LevelsNodup s.buyOrders_ ∧ LevelsNodup s.sellOrders_) :
    LevelsNodup (s.addOrder orderId price quantity side orderType).buyOrders_ ∧
      LevelsNodup (s.addOrder orderId price quantity side orderType).sellOrders_ := by
  by_cases ht : orderType = OrderType.Market ∨ orderType = OrderType.IOC
  · exact levelsNodup_of_shrinks (shrinks_addOrder_immediate s _ _ _ _ _ ht) h
  · simp only [not_or] at ht
    have hnr := not_resting_of_invalid hw s.heap.length (le_refl _)
    unfold addOrder
    rw [if_neg ht.1, if_neg ht.2]
    exact levelsNodup_insertResting _ _ _ h hnr.1 hnr.2

theorem levelsNodup_modifyOrder {s : OrderBook} (hw : WellFormed s)
    (orderId newQuantity newPrice : Int)
    (h : LevelsNodup s.buyOrders_ ∧ LevelsNodup s.sellOrders_) :
    LevelsNodup (s.modifyOrder orderId newQuantity newPrice).2.buyOrders_ ∧
      LevelsNodup (s.modifyOrder orderId newQuantity newPrice).2.sellOrders_ := by
  unfold modifyOrder
  cases hf : activeFind s.activeOrders_ orderId with
  | none => exact h
  | some p =>
    simp only
    obtain ⟨_, hid⟩ := hw.2.2.2.2.2.2.1 (orderId, p) (mem_of_activeFind hf)
    simp only at hid
    have hnot := not_mem_removeResting hw p
    rw [hid] at hnot
    have h1 := levelsNodup_of_shrinks (shrinks_removeResting s p orderId) h
    exact levelsNodup_insertResting
      (s := (s.removeResting p orderId).setPriceQuantity p newPrice newQuantity) p _ newPrice
      h1 hnot.1 hnot.2

/-- In every state of a run no order rests twice. -/
theorem levelsNodup_of_run {s : OrderBook} {g : Ledger} (h : Run s g) :
    WellFormed s ∧ LevelsNodup s.buyOrders_ ∧ LevelsNodup s.sellOrders_ := by
  induction h with
  | init =>
    exact ⟨wellFormed_empty, fun e he => absurd he (by simp [empty]),
      fun e he => absurd he (by simp [empty])⟩
  | add s g orderId price quantity side orderType _ _ _ ih =>
    exact ⟨wellFormed_addOrder ih.1 _ _ _ _ _, levelsNodup_addOrder ih.1 _ _ _ _ _ ih.2⟩
  | cancel s g orderId _ ih =>
    exact ⟨wellFormed_cancelOrder ih.1 _, levelsNodup_of_shrinks (shrinks_cancelOrder s _) ih.2⟩
  | modify s g orderId newQuantity newPrice _ _ ih =>
    exact ⟨wellFormed_modifyOrder ih.1 _ _ _, levelsNodup_modifyOrder ih.1 _ _ _ ih.2⟩
  | reset s g _ ih =>
    exact ⟨wellFormed_reset ih.1, fun e he => absurd he (by simp [reset]),
      fun e he => absurd he (by simp [reset])⟩
  | buyWorker s g _ ih =>
    refine ⟨wellFormed_processBuyOrdersStep ih.1, ?_⟩
    unfold processBuyOrdersStep
    cases s.buyQueue_ with
    | nil => exact ih.2
    | cons b rest =>
      exact levelsNodup_of_shrinks (shrinks_matchBuyOrder { s with buyQueue_ := rest } b) ih.2
  | sellWorker s g _ ih =>
    refine ⟨wellFormed_processSellOrdersStep ih.1, ?_⟩
    unfold processSellOrdersStep
    cases s.sellQueue_ with
    | nil => exact ih.2
    | cons b rest =>
      exact levelsNodup_of_shrinks (shrinks_matchSellOrder { s with sellQueue_ := rest } b) ih.2

end OrderBook

namespace OrderBook

/-! ### Conservation: the steps of one call, one call, and a whole run -/

theorem matchBuyStep_accounts {u s1 : OrderBook} {b : OrderPointer}
    (hb : b ∉ restingOrders u.sellOrders_) (hstep : matchBuyStep u b = some s1) :
    (s1.trades = u.trades ∧ ∀ x, s1.deref x = u.deref x) ∨
    ∃ resting bestAsk, resting ∈ restingOrders u.sellOrders_ ∧
      s1.trades = u.trades ++ [Trade.mk (u.deref b).orderId (u.deref resting).orderId
        (min (u.deref b).quantity (u.deref resting).quantity) bestAsk] ∧
      0 < min (u.deref b).quantity (u.deref resting).quantity ∧
      (s1.deref b).quantity =
        (u.deref b).quantity - min (u.deref b).quantity (u.deref resting).quantity ∧
      (s1.deref resting).quantity =
        (u.deref resting).quantity - min (u.deref b).quantity (u.deref resting).quantity ∧
      ∀ x, x ≠ b → x ≠ resting → s1.deref x = u.deref x := by
  obtain ⟨k, sp, tl, rest, hs, hqb, _, h4 | h4⟩ := matchBuyStep_some hstep
  · obtain ⟨_, rfl⟩ := h4
    exact Or.inl ⟨rfl, fun _ => rfl⟩
  · obtain ⟨hqs, rfl⟩ := h4
    have hsp : sp ∈ restingOrders u.sellOrders_ := by rw [hs, restingOrders_cons]; simp
    have hbsp : b ≠ sp := fun e => hb (e ▸ hsp)
    obtain ⟨e1, e2, e3⟩ := tradeBuy_effect u b sp k
      (min (u.deref b).quantity (u.deref sp).quantity) hbsp hqb hqs
    exact Or.inr ⟨sp, k, hsp, tradeBuy_trades _ _ _ _ _, lt_min hqb hqs, e1, e2, e3⟩

theorem matchSellStep_accounts {u s1 : OrderBook} {a : OrderPointer}
    (ha : a ∉ restingOrders u.buyOrders_) (hstep : matchSellStep u a = some s1) :
    ∃ resting bestBid, resting ∈ restingOrders u.buyOrders_ ∧
      s1.trades = u.trades ++ [Trade.mk (u.deref resting).orderId (u.deref a).orderId
        (min (u.deref a).quantity (u.deref resting).quantity) bestBid] ∧
      0 < min (u.deref a).quantity (u.deref resting).quantity ∧
      (s1.deref a).quantity =
        (u.deref a).quantity - min (u.deref a).quantity (u.deref resting).quantity ∧
      (s1.deref resting).quantity =
        (u.deref resting).quantity - min (u.deref a).quantity (u.deref resting).quantity ∧
      ∀ x, x ≠ a → x ≠ resting → s1.deref x = u.deref x := by
  obtain ⟨k, sp, tl, rest, hs, hqb, _, hqs, rfl⟩ := matchSellStep_some hstep
  have hsp : sp ∈ restingOrders u.buyOrders_ := by rw [hs, restingOrders_cons]; simp
  have hbsp : a ≠ sp := fun e => ha (e ▸ hsp)
  obtain ⟨e1, e2, e3⟩ := tradeSell_effect u a sp k
    (min (u.deref a).quantity (u.deref sp).quantity) hbsp hqb hqs
  exact ⟨sp, k, hsp, tradeSell_trades _ _ _ _ _, lt_min hqb hqs, e1, e2, e3⟩

theorem not_resting_matchBuyLoop (n : Nat) (s : OrderBook) (b x : OrderPointer)
    (h : x ∉ restingOrders s.sellOrders_) :
    x ∉ restingOrders (matchBuyLoop n s b).sellOrders_ :=
  fun hx => h (mem_restingOrders_of_levelSub (shrinks_matchBuyLoop n s b).2.2.1 hx)

theorem not_resting_matchSellLoop (n : Nat) (s : OrderBook) (a x : OrderPointer)
    (h : x ∉ restingOrders s.buyOrders_) :
    x ∉ restingOrders (matchSellLoop n s a).buyOrders_ :=
  fun hx => h (mem_restingOrders_of_levelSub (shrinks_matchSellLoop n s a).2.1 hx)

/-- In a run, the orders the engine hands to a match call do not rest on the
opposing side, and no order rests twice. -/
theorem match_calls_of_run {t : OrderBook} {g : Ledger} (h : Run t g) :
    (restingOrders t.buyOrders_).Nodup ∧ (restingOrders t.sellOrders_).Nodup ∧
    (∀ b ∈ t.buyQueue_, b ∉ restingOrders t.sellOrders_) ∧
    (∀ a ∈ t.sellQueue_, a ∉ restingOrders t.buyOrders_) ∧
    t.heap.length ∉ restingOrders t.buyOrders_ ∧
    t.heap.length ∉ restingOrders t.sellOrders_ := by
  obtain ⟨hw, n1, n2⟩ := levelsNodup_of_run h
  have hnr := not_resting_of_invalid hw t.heap.length (le_refl _)
  refine ⟨restingOrders_nodup_buy hw n1, restingOrders_nodup_sell hw n2, ?_, ?_, hnr.1, hnr.2⟩
  · intro b hb hr
    obtain ⟨e, he, hbe⟩ := mem_restingOrders.1 hr
    exact (hw.2.2.2.2.2.1 e he b hbe).2.2 (hw.2.2.2.2.2.2.2.1 b hb).2
  · intro a ha hr
    obtain ⟨e, he, hae⟩ := mem_restingOrders.1 hr
    exact (hw.2.2.2.2.2.2.2.2 a ha).2 (hw.2.2.2.2.1 e he a hae).2.2

/-- The accounts of one order in a run, read off the balanced ledger. -/
theorem accounts_of_run {t : OrderBook} {g : Ledger} (h : Run t g) (p : OrderPointer)
    (hp : p < t.heap.length) (hm : p ∉ g.modified) :
    filled t.trades (t.deref p).orderId =
      g.original.getD p 0 - ((t.deref p).quantity + g.discarded.getD p 0) ∧
    0 ≤ filled t.trades (t.deref p).orderId ∧
    0 ≤ (t.deref p).quantity ∧ 0 ≤ g.discarded.getD p 0 ∧
    ((t.deref p).orderType ≠ OrderType.IOC → g.discarded.getD p 0 = 0) ∧
    filled t.trades (t.deref p).orderId ≤ g.original.getD p 0 ∧
    (filled t.trades (t.deref p).orderId = g.original.getD p 0 ↔
      (t.deref p).quantity = 0 ∧ g.discarded.getD p 0 = 0) := by
  obtain ⟨_, _, hk, _, _, hb⟩ := balanced_of_run h
  obtain ⟨c1, c2, c3, c4⟩ := hb p hp hm
  have c0 := filled_nonneg t.trades (t.deref p).orderId (fun x hx => (hk x hx).1)
  refine ⟨by omega, c0, c2, c3, c4, by omega, ?_⟩
  constructor
  · intro e
    constructor <;> omega
  · rintro ⟨e1, e2⟩
    omega

end OrderBook

namespace OrderBook

/-- C4 (quantity conservation).  One call of match: let `s` be any state whose
opposing side holds no order twice and does not hold the incoming order.  At
every loop head of `matchBuyOrder s incoming` (the state after `n` iterations,
for every `n`) an iteration either emits no trade and leaves all order records
as they are, or emits exactly one trade, between the incoming order and an order
resting on the ask side, of quantity min(incoming quantity, resting quantity),
which is > 0, and takes exactly that amount off both quantities and changes no
other record.  The call returns at a loop exit; the trades it appended are all
of positive quantity, their sum is the decrease of the incoming order's
quantity and also the total decrease of the quantities of the orders resting on
the ask side, and no quantity that was non-negative becomes negative.  The same
holds for `matchSellOrder` and the bid side.  Whole runs: in every state `t` of
a run from the empty book (`addOrder` with fresh ids and positive quantities,
`cancelOrder`, `modifyOrder`, `reset`, worker steps) the orders the engine hands to a
match call satisfy the two conditions above, and for every order never rewritten
by `modifyOrder` the quantities of the trades it takes part in sum to its
original quantity minus its residual, where the residual is the `quantity` field
plus, for an IOC order only, the leftover that `addOrder` discarded by
overwriting the field with zero after the match call returned.  Hence the sum
is between zero and the original quantity, and equals it exactly when the
residual is zero with nothing discarded, that is when it reached zero by
matching. -/
theorem quantity_conservation (s : OrderBook) (incoming : OrderPointer) (t : OrderBook)
    (g : Ledger) (hrun : Run t g) :
    ((restingOrders s.sellOrders_).Nodup → incoming ∉ restingOrders s.sellOrders_ →
      (∀ n s1, matchBuyStep (matchBuyLoop n s incoming) incoming = some s1 →
        (s1.trades = (matchBuyLoop n s incoming).trades ∧
          ∀ x, s1.deref x = (matchBuyLoop n s incoming).deref x) ∨
        ∃ resting bestAsk, resting ∈ restingOrders (matchBuyLoop n s incoming).sellOrders_ ∧
          s1.trades = (matchBuyLoop n s incoming).trades ++
            [Trade.mk ((matchBuyLoop n s incoming).deref incoming).orderId
              ((matchBuyLoop n s incoming).deref resting).orderId
              (min ((matchBuyLoop n s incoming).deref incoming).quantity
                ((matchBuyLoop n s incoming).deref resting).quantity) bestAsk] ∧
          0 < min ((matchBuyLoop n s incoming).deref incoming).quantity
            ((matchBuyLoop n s incoming).deref resting).quantity ∧
          (s1.deref incoming).quantity = ((matchBuyLoop n s incoming).deref incoming).quantity -
            min ((matchBuyLoop n s incoming).deref incoming).quantity
              ((matchBuyLoop n s incoming).deref resting).quantity ∧
          (s1.deref resting).quantity = ((matchBuyLoop n s incoming).deref resting).quantity -
            min ((matchBuyLoop n s incoming).deref incoming).quantity
              ((matchBuyLoop n s incoming).deref resting).quantity ∧
          ∀ x, x ≠ incoming → x ≠ resting →
            s1.deref x = (matchBuyLoop n s incoming).deref x) ∧
      matchBuyStep (s.matchBuyOrder incoming) incoming = none ∧
      ∃ T, (s.matchBuyOrder incoming).trades = s.trades ++ T ∧ (∀ x ∈ T, 0 < x.qty) ∧
        tradedQuantity T =
          (s.deref incoming).quantity - ((s.matchBuyOrder incoming).deref incoming).quantity ∧
        tradedQuantity T =
          ((restingOrders s.sellOrders_).map (fun p => (s.deref p).quantity)).sum -
          ((restingOrders s.sellOrders_).map
            (fun p => ((s.matchBuyOrder incoming).deref p).quantity)).sum ∧
        ∀ p, 0 ≤ (s.deref p).quantity → 0 ≤ ((s.matchBuyOrder incoming).deref p).quantity) ∧
    ((restingOrders s.buyOrders_).Nodup → incoming ∉ restingOrders s.buyOrders_ →
      (∀ n s1, matchSellStep (matchSellLoop n s incoming) incoming = some s1 →
        ∃ resting bestBid, resting ∈ restingOrders (matchSellLoop n s incoming).buyOrders_ ∧
          s1.trades = (matchSellLoop n s incoming).trades ++
            [Trade.mk ((matchSellLoop n s incoming).deref resting).orderId
              ((matchSellLoop n s incoming).deref incoming).orderId
              (min ((matchSellLoop n s incoming).deref incoming).quantity
                ((matchSellLoop n s incoming).deref resting).quantity) bestBid] ∧
          0 < min ((matchSellLoop n s incoming).deref incoming).quantity
            ((matchSellLoop n s incoming).deref resting).quantity ∧
          (s1.deref incoming).quantity = ((matchSellLoop n s incoming).deref incoming).quantity -
            min ((matchSellLoop n s incoming).deref incoming).quantity
              ((matchSellLoop n s incoming).deref resting).quantity ∧
          (s1.deref resting).quantity = ((matchSellLoop n s incoming).deref resting).quantity -
            min ((matchSellLoop n s incoming).deref incoming).quantity
              ((matchSellLoop n s incoming).deref resting).quantity ∧
          ∀ x, x ≠ incoming → x ≠ resting →
            s1.deref x = (matchSellLoop n s incoming).deref x) ∧
      matchSellStep (s.matchSellOrder incoming) incoming = none ∧
      ∃ T, (s.matchSellOrder incoming).trades = s.trades ++ T ∧ (∀ x ∈ T, 0 < x.qty) ∧
        tradedQuantity T =
          (s.deref incoming).quantity - ((s.matchSellOrder incoming).deref incoming).quantity ∧
        tradedQuantity T =
          ((restingOrders s.buyOrders_).map (fun p => (s.deref p).quantity)).sum -
          ((restingOrders s.buyOrders_).map
            (fun p => ((s.matchSellOrder incoming).deref p).quantity)).sum ∧
        ∀ p, 0 ≤ (s.deref p).quantity → 0 ≤ ((s.matchSellOrder incoming).deref p).quantity) ∧
    ((restingOrders t.buyOrders_).Nodup ∧ (restingOrders t.sellOrders_).Nodup ∧
      (∀ b ∈ t.buyQueue_, b ∉ restingOrders t.sellOrders_) ∧
      (∀ a ∈ t.sellQueue_, a ∉ restingOrders t.buyOrders_) ∧
      t.heap.length ∉ restingOrders t.buyOrders_ ∧
      t.heap.length ∉ restingOrders t.sellOrders_) ∧
    (∀ p, p < t.heap.length → p ∉ g.modified →
      filled t.trades (t.deref p).orderId =
        g.original.getD p 0 - ((t.deref p).quantity + g.discarded.getD p 0) ∧
      0 ≤ filled t.trades (t.deref p).orderId ∧
      0 ≤ (t.deref p).quantity ∧ 0 ≤ g.discarded.getD p 0 ∧
      ((t.deref p).orderType ≠ OrderType.IOC → g.discarded.getD p 0 = 0) ∧
      filled t.trades (t.deref p).orderId ≤ g.original.getD p 0 ∧
      (filled t.trades (t.deref p).orderId = g.original.getD p 0 ↔
        (t.deref p).quantity = 0 ∧ g.discarded.getD p 0 = 0)) := by
  refine ⟨?_, ?_, match_calls_of_run hrun, fun p hp hm => accounts_of_run hrun p hp hm⟩
  · intro hn hb
    exact ⟨fun n s1 hstep => matchBuyStep_accounts (not_resting_matchBuyLoop n s incoming _ hb) hstep,
      matchBuyOrder_exit s incoming,
      matchBuyLoop_conservation _ s incoming (restingOrders s.sellOrders_) (fun _ h => h) hn hb⟩
  · intro hn hb
    exact ⟨fun n s1 hstep =>
        matchSellStep_accounts (not_resting_matchSellLoop n s incoming _ hb) hstep,
      matchSellOrder_exit s incoming,
      matchSellLoop_conservation _ s incoming (restingOrders s.buyOrders_) (fun _ h => h) hn hb⟩

/-- Example for C4.  One call: in `marketBuyExample` the Market buy of 5 meets the
resting ask of 10.  A run: `conservationExample`, in which order 1 (original 10)
is filled 4 + 6, order 2 (original 4) is filled 4, and the IOC order 3
(original 8) is filled 6 with its leftover 2 discarded. -/
theorem quantity_conservation_witness :
    Run conservationExample conservationLedger ∧
    (restingOrders marketBuyExample.sellOrders_).Nodup ∧
    (1 : OrderPointer) ∉ restingOrders marketBuyExample.sellOrders_ ∧
    (marketBuyExample.matchBuyOrder 1).trades = [Trade.mk 5 8 5 150] ∧
    conservationExample.trades = [Trade.mk 2 1 4 150, Trade.mk 3 1 6 150] ∧
    (conservationExample.deref 2).orderId = 3 ∧
    filled conservationExample.trades 3 = 6 ∧
    (conservationExample.deref 2).quantity = 0 ∧
    (matchBuyStep (marketBuyExample.matchBuyOrder 1) 1 = none ∧
      ∃ T, (marketBuyExample.matchBuyOrder 1).trades = marketBuyExample.trades ++ T ∧
        (∀ x ∈ T, 0 < x.qty) ∧
        tradedQuantity T = (marketBuyExample.deref 1).quantity -
          ((marketBuyExample.matchBuyOrder 1).deref 1).quantity ∧
        tradedQuantity T =
          ((restingOrders marketBuyExample.sellOrders_).map
            (fun p => (marketBuyExample.deref p).quantity)).sum -
          ((restingOrders marketBuyExample.sellOrders_).map
            (fun p => ((marketBuyExample.matchBuyOrder 1).deref p).quantity)).sum ∧
        ∀ p, 0 ≤ (marketBuyExample.deref p).quantity →
          0 ≤ ((marketBuyExample.matchBuyOrder 1).deref p).quantity) ∧
    (filled conservationExample.trades (conservationExample.deref 2).orderId =
        conservationLedger.original.getD 2 0 -
          ((conservationExample.deref 2).quantity + conservationLedger.discarded.getD 2 0) ∧
      0 ≤ filled conservationExample.trades (conservationExample.deref 2).orderId ∧
      0 ≤ (conservationExample.deref 2).quantity ∧
      0 ≤ conservationLedger.discarded.getD 2 0 ∧
      ((conservationExample.deref 2).orderType ≠ OrderType.IOC →
        conservationLedger.discarded.getD 2 0 = 0) ∧
      filled conservationExample.trades (conservationExample.deref 2).orderId ≤
        conservationLedger.original.getD 2 0 ∧
      (filled conservationExample.trades (conservationExample.deref 2).orderId =
          conservationLedger.original.getD 2 0 ↔
        (conservationExample.deref 2).quantity = 0 ∧
          conservationLedger.discarded.getD 2 0 = 0)) :=
  ⟨Run.add _ _ 3 150 8 Side.buy OrderType.IOC
      (Run.buyWorker _ _
        (Run.add _ _ 2 150 4 Side.buy OrderType.Limit
          (Run.add _ _ 1 150 10 Side.sell OrderType.Limit Run.init (by decide) (by decide))
          (by decide) (by decide)))
      (by decide) (by decide),
   by decide, by decide, by decide, by decide, by decide, by decide, by decide,
   ((quantity_conservation marketBuyExample 1 conservationExample conservationLedger
      (Run.add _ _ 3 150 8 Side.buy OrderType.IOC
        (Run.buyWorker _ _
          (Run.add _ _ 2 150 4 Side.buy OrderType.Limit
            (Run.add _ _ 1 150 10 Side.sell OrderType.Limit Run.init (by decide) (by decide))
            (by decide) (by decide)))
        (by decide) (by decide))).1 (by decide) (by decide)).2,
   (quantity_conservation marketBuyExample 1 conservationExample conservationLedger
      (Run.add _ _ 3 150 8 Side.buy OrderType.IOC
        (Run.buyWorker _ _
          (Run.add _ _ 2 150 4 Side.buy OrderType.Limit
            (Run.add _ _ 1 150 10 Side.sell OrderType.Limit Run.init (by decide) (by decide))
            (by decide) (by decide)))
        (by decide) (by decide))).2.2.2 2 (by decide) (by decide)⟩

end OrderBook

namespace OrderBook

/-! ### `modifyOrder` on an active id -/

/-- Lookup in a side book after the removal block of `cancelOrder` and
`modifyOrder`, when the only resting order carrying the id is `p`: every level
is the old level without `p`, and a level that became empty is gone. -/
theorem mapFind_removeFromLevel_pointer (s : OrderBook) (m : PriceMap) (p : OrderPointer)
    (orderId : Int) (hne : NonemptyLevels m)
    (hprice : ∀ e ∈ m, ∀ x ∈ e.2, (s.deref x).price = e.1)
    (hid : (s.deref p).orderId = orderId)
    (hids : ∀ q ∈ restingOrders m, (s.deref q).orderId = orderId → q = p) (k : Int) :
    mapFind (removeFromLevel s m (s.deref p).price orderId) k =
      if ((mapFind m k).getD []).filter (fun x => !decide (x = p)) = [] then none
      else some (((mapFind m k).getD []).filter (fun x => !decide (x = p))) := by
  by_cases hk : k = (s.deref p).price
  · subst hk
    cases hf : mapFind m (s.deref p).price with
    | none =>
      have : removeFromLevel s m (s.deref p).price orderId = m := by
        unfold removeFromLevel; rw [hf]
      rw [this, hf]
      simp
    | some l =>
      rw [mapFind_removeFromLevel_self s m _ orderId l hf]
      have hl := mapFind_mem m _ l hf
      have hfil : l.filter (fun o => !decide ((s.deref o).orderId = orderId)) =
          l.filter (fun x => !decide (x = p)) := by
        apply List.filter_congr
        intro x hx
        have hxr : x ∈ restingOrders m := mem_restingOrders.2 ⟨_, hl, hx⟩
        by_cases hxp : x = p
        · subst hxp; simp [hid]
        · have : (s.deref x).orderId ≠ orderId := fun e => hxp (hids x hxr e)
          simp [hxp, this]
      rw [hfil]
      simp only [Option.getD_some]
  · rw [mapFind_removeFromLevel_of_ne s m _ orderId k hk]
    cases hf : mapFind m k with
    | none => simp
    | some l =>
      have hl := mapFind_mem m _ l hf
      have hpl : p ∉ l := fun hp => hk (hprice _ hl p hp).symm
      have hfil : l.filter (fun x => !decide (x = p)) = l := by
        apply List.filter_eq_self.2
        intro x hx
        have : x ≠ p := fun e => hpl (e ▸ hx)
        simp [this]
      simp only [Option.getD_some, hfil]
      rw [if_neg (hne _ hl)]

theorem modifyOrder_of_find (s : OrderBook) (orderId newQuantity newPrice : Int)
    (p : OrderPointer) (h : activeFind s.activeOrders_ orderId = some p) :
    s.modifyOrder orderId newQuantity newPrice =
      (true, ((s.removeResting p orderId).setPriceQuantity p newPrice newQuantity).insertResting p
        (((s.removeResting p orderId).setPriceQuantity p newPrice newQuantity).deref p).side
        newPrice) := by
  unfold modifyOrder
  rw [h]

theorem removeResting_deref (s : OrderBook) (p : OrderPointer) (orderId : Int) (x : OrderPointer) :
    (s.removeResting p orderId).deref x = s.deref x :=
  deref_congr (removeResting_heap s p orderId) x

theorem insertResting_deref (s : OrderBook) (p : OrderPointer) (side : Side) (k : Int)
    (x : OrderPointer) : (s.insertResting p side k).deref x = s.deref x :=
  deref_congr (insertResting_heap s p side k) x

theorem insertResting_activeOrders (s : OrderBook) (p : OrderPointer) (side : Side) (k : Int) :
    (s.insertResting p side k).activeOrders_ = s.activeOrders_ := by
  unfold insertResting
  split_ifs <;> rfl

theorem modifyOrder_deref_self (s : OrderBook) (orderId newQuantity newPrice : Int)
    (p : OrderPointer) (hf : activeFind s.activeOrders_ orderId = some p)
    (hv : p < s.heap.length) :
    (s.modifyOrder orderId newQuantity newPrice).2.deref p =
      { s.deref p with price := newPrice, quantity := newQuantity } := by
  rw [modifyOrder_of_find s _ _ _ p hf]
  simp only
  rw [insertResting_deref, deref_setPriceQuantity, removeResting_deref]
  rw [if_pos ⟨rfl, by rw [removeResting_heap]; exact hv⟩]

theorem modifyOrder_activeOrders (s : OrderBook) (orderId newQuantity newPrice : Int) :
    (s.modifyOrder orderId newQuantity newPrice).2.activeOrders_ = s.activeOrders_ := by
  unfold modifyOrder
  cases hf : activeFind s.activeOrders_ orderId with
  | none => rfl
  | some p =>
    simp only
    rw [insertResting_activeOrders]
    exact removeResting_activeOrders s p orderId

/-- The side books after `modifyOrder` found the order `p`, with the side of `p`
read in the state before. -/
theorem modifyOrder_books (s : OrderBook) (orderId newQuantity newPrice : Int)
    (p : OrderPointer) (hf : activeFind s.activeOrders_ orderId = some p)
    (hv : p < s.heap.length) :
    ((s.deref p).side = Side.buy →
      (s.modifyOrder orderId newQuantity newPrice).2.buyOrders_ =
        mapPushBack buyBefore (removeFromLevel s s.buyOrders_ (s.deref p).price orderId)
          newPrice p ∧
      (s.modifyOrder orderId newQuantity newPrice).2.sellOrders_ = s.sellOrders_ ∧
      (s.modifyOrder orderId newQuantity newPrice).2.buyQueue_ = s.buyQueue_ ++ [p] ∧
      (s.modifyOrder orderId newQuantity newPrice).2.sellQueue_ = s.sellQueue_) ∧
    ((s.deref p).side ≠ Side.buy →
      (s.modifyOrder orderId newQuantity newPrice).2.sellOrders_ =
        mapPushBack sellBefore (removeFromLevel s s.sellOrders_ (s.deref p).price orderId)
          newPrice p ∧
      (s.modifyOrder orderId newQuantity newPrice).2.buyOrders_ = s.buyOrders_ ∧
      (s.modifyOrder orderId newQuantity newPrice).2.sellQueue_ = s.sellQueue_ ++ [p] ∧
      (s.modifyOrder orderId newQuantity newPrice).2.buyQueue_ = s.buyQueue_) := by
  rw [modifyOrder_of_find s _ _ _ p hf]
  simp only
  have hside : (((s.removeResting p orderId).setPriceQuantity p newPrice newQuantity).deref p).side
      = (s.deref p).side := by
    rw [deref_setPriceQuantity, removeResting_deref]
    rw [if_pos ⟨rfl, by rw [removeResting_heap]; exact hv⟩]
  rw [hside]
  constructor
  · intro hb
    rw [removeResting_of_buy s p _ hb]
    refine ⟨?_, ?_, ?_, ?_⟩ <;> simp [insertResting, setPriceQuantity, hb]
  · intro hb
    rw [removeResting_of_not_buy s p _ hb]
    refine ⟨?_, ?_, ?_, ?_⟩ <;> simp [insertResting, setPriceQuantity, hb]

end OrderBook

theorem not_mem_levelWithout (m : PriceMap) (k : Int) (p : OrderPointer) :
    p ∉ levelWithout m k p := by
  simp [levelWithout]

namespace OrderBook

/-- Lookup in a side book after the removal block and the `push_back` of
`modifyOrder`. -/
theorem mapFind_modify (before : Int → Int → Bool) (s : OrderBook) (m : PriceMap)
    (p : OrderPointer) (orderId newPrice : Int) (hne : NonemptyLevels m)
    (hprice : ∀ e ∈ m, ∀ x ∈ e.2, (s.deref x).price = e.1)
    (hid : (s.deref p).orderId = orderId)
    (hids : ∀ q ∈ restingOrders m, (s.deref q).orderId = orderId → q = p) (k : Int) :
    mapFind (mapPushBack before (removeFromLevel s m (s.deref p).price orderId) newPrice p) k =
      if k = newPrice then some (levelWithout m k p ++ [p])
      else if levelWithout m k p = [] then none else some (levelWithout m k p) := by
  have key := mapFind_removeFromLevel_pointer s m p orderId hne hprice hid hids
  by_cases hk : k = newPrice
  · subst hk
    rw [if_pos rfl, mapFind_mapPushBack_self, key]
    unfold levelWithout
    split_ifs with h
    · rw [h]; rfl
    · rfl
  · rw [if_neg hk, mapFind_mapPushBack_of_ne _ _ _ _ _ hk, key]
    rfl

end OrderBook

namespace OrderBook

/-- C11 (`modifyOrder` on an active id).  Let `s` be a well-formed state (every
reachable state is) in which the index maps `orderId` to the order `p` and no
resting order other than `p` carries that id.  Then `modifyOrder orderId
newQuantity newPrice` returns true; the record of `p` has the new price and the
new quantity and is otherwise as before (same side, id, discipline); no other
record changes; the index is unchanged, so the id is still mapped to `p`; no
trade is emitted; and on the side of `p` (bids when its side is "buy", asks
otherwise) the level of `newPrice` is its old content without `p`, in the old
order, followed by `p` as last element, every other level is its old content
without `p`, a level left empty is gone, and the other side book is unchanged
and does not hold `p`.  For `newPrice` equal to the old price this says that
`p` moved to the tail of its level.  The result is well formed again. -/
theorem modifyOrder_active (s : OrderBook) (orderId newQuantity newPrice : Int)
    (p : OrderPointer) (hw : WellFormed s)
    (hfind : activeFind s.activeOrders_ orderId = some p)
    (hids : ∀ q ∈ restingOrders s.buyOrders_ ++ restingOrders s.sellOrders_,
      (s.deref q).orderId = orderId → q = p) :
    (s.modifyOrder orderId newQuantity newPrice).1 = true ∧
    (s.modifyOrder orderId newQuantity newPrice).2.deref p =
      { s.deref p with price := newPrice, quantity := newQuantity } ∧
    (∀ x, x ≠ p → (s.modifyOrder orderId newQuantity newPrice).2.deref x = s.deref x) ∧
    (s.modifyOrder orderId newQuantity newPrice).2.activeOrders_ = s.activeOrders_ ∧
    activeFind (s.modifyOrder orderId newQuantity newPrice).2.activeOrders_ orderId = some p ∧
    (s.modifyOrder orderId newQuantity newPrice).2.trades = s.trades ∧
    WellFormed (s.modifyOrder orderId newQuantity newPrice).2 ∧
    ((s.deref p).side = Side.buy →
      (∀ k, mapFind (s.modifyOrder orderId newQuantity newPrice).2.buyOrders_ k =
        if k = newPrice then some (levelWithout s.buyOrders_ k p ++ [p])
        else if levelWithout s.buyOrders_ k p = [] then none
        else some (levelWithout s.buyOrders_ k p)) ∧
      (s.modifyOrder orderId newQuantity newPrice).2.sellOrders_ = s.sellOrders_ ∧
      p ∉ restingOrders s.sellOrders_) ∧
    ((s.deref p).side ≠ Side.buy →
      (∀ k, mapFind (s.modifyOrder orderId newQuantity newPrice).2.sellOrders_ k =
        if k = newPrice then some (levelWithout s.sellOrders_ k p ++ [p])
        else if levelWithout s.sellOrders_ k p = [] then none
        else some (levelWithout s.sellOrders_ k p)) ∧
      (s.modifyOrder orderId newQuantity newPrice).2.buyOrders_ = s.buyOrders_ ∧
      p ∉ restingOrders s.buyOrders_) := by
  obtain ⟨hv, hid⟩ := hw.2.2.2.2.2.2.1 (orderId, p) (mem_of_activeFind hfind)
  simp only at hv hid
  obtain ⟨_, f2, _, _, f5⟩ := modifyOrder_frame s orderId newQuantity newPrice p hfind
  have hbooks := modifyOrder_books s orderId newQuantity newPrice p hfind hv
  refine ⟨by rw [modifyOrder_of_find s _ _ _ p hfind],
    modifyOrder_deref_self s _ _ _ p hfind hv, f5, modifyOrder_activeOrders s _ _ _,
    by rw [modifyOrder_activeOrders]; exact hfind, f2, wellFormed_modifyOrder hw _ _ _, ?_, ?_⟩
  · intro hb
    obtain ⟨b1, b2, _, _⟩ := hbooks.1 hb
    refine ⟨fun k => ?_, b2, ?_⟩
    · rw [b1]
      exact mapFind_modify buyBefore s s.buyOrders_ p orderId newPrice hw.2.2.1
        (fun e he x hx => (hw.2.2.2.2.1 e he x hx).2.1) hid
        (fun q hq => hids q (List.mem_append_left _ hq)) k
    · intro hp
      obtain ⟨e, he, hpe⟩ := mem_restingOrders.1 hp
      exact (hw.2.2.2.2.2.1 e he p hpe).2.2 hb
  · intro hb
    obtain ⟨b1, b2, _, _⟩ := hbooks.2 hb
    refine ⟨fun k => ?_, b2, ?_⟩
    · rw [b1]
      exact mapFind_modify sellBefore s s.sellOrders_ p orderId newPrice hw.2.2.2.1
        (fun e he x hx => (hw.2.2.2.2.2.1 e he x hx).2.1) hid
        (fun q hq => hids q (List.mem_append_right _ hq)) k
    · intro hp
      obtain ⟨e, he, hpe⟩ := mem_restingOrders.1 hp
      exact hb (hw.2.2.2.2.1 e he p hpe).2.2

/-- Example for C11: the sell order 11 (price 130, quantity 10) rests and is
modified to quantity 15 at price 125. -/
theorem modifyOrder_active_witness :
    WellFormed (empty.addOrder 11 130 10 Side.sell OrderType.Limit) ∧
    activeFind (empty.addOrder 11 130 10 Side.sell OrderType.Limit).activeOrders_ 11 = some 0 ∧
    ((empty.addOrder 11 130 10 Side.sell OrderType.Limit).modifyOrder 11 15 125).2.sellOrders_ =
      [(125, [0])] ∧
    ((empty.addOrder 11 130 10 Side.sell OrderType.Limit).modifyOrder 11 15 125).1 = true ∧
    ((empty.addOrder 11 130 10 Side.sell OrderType.Limit).modifyOrder 11 15 125).2.deref 0 =
      { (empty.addOrder 11 130 10 Side.sell OrderType.Limit).deref 0 with
        price := 125, quantity := 15 } :=
  ⟨wellFormed_of_reachable (Reachable.add _ 11 130 10 Side.sell OrderType.Limit Reachable.init),
   by decide, by decide,
   (modifyOrder_active (empty.addOrder 11 130 10 Side.sell OrderType.Limit) 11 15 125 0
     (wellFormed_of_reachable (Reachable.add _ 11 130 10 Side.sell OrderType.Limit
       Reachable.init))
     (by decide) (by decide)).1,
   (modifyOrder_active (empty.addOrder 11 130 10 Side.sell OrderType.Limit) 11 15 125 0
     (wellFormed_of_reachable (Reachable.add _ 11 130 10 Side.sell OrderType.Limit
       Reachable.init))
     (by decide) (by decide)).2.1⟩

end OrderBook

/-! ### Comparing states up to the identity of the records -/

theorem map_mapAssign_congr {β : Type} (f g : OrderPointer → β) (m : PriceMap) (k : Int)
    (l : OrderList) (a b : OrderPointer) (hm : ∀ e ∈ m, ∀ x ∈ e.2, f x = g x)
    (hl : ∀ x ∈ l, f x = g x) (hab : f a = g b) :
    (mapAssign m k (l ++ [a])).map (fun e => (e.1, e.2.map f)) =
      (mapAssign m k (l ++ [b])).map (fun e => (e.1, e.2.map g)) := by
  induction m with
  | nil => rfl
  | cons e rest ih =>
    obtain ⟨k1, l1⟩ := e
    have hrest : rest.map (fun e => (e.1, e.2.map f)) = rest.map (fun e => (e.1, e.2.map g)) :=
      List.map_congr_left (fun e he => by
        simp only [Prod.mk.injEq, true_and]
        exact List.map_congr_left (hm e (List.mem_cons_of_mem _ he)))
    simp only [mapAssign]
    split_ifs with h
    · simp only [List.map_cons, List.map_append, List.map_nil, hab, hrest,
        List.map_congr_left hl]
    · simp only [List.map_cons]
      rw [ih (fun e he => hm e (List.mem_cons_of_mem _ he)),
        List.map_congr_left (hm (k1, l1) (List.mem_cons_self _ _))]

theorem map_mapInsert_congr {β : Type} (before : Int → Int → Bool) (f g : OrderPointer → β)
    (m : PriceMap) (k : Int) (a b : OrderPointer) (hm : ∀ e ∈ m, ∀ x ∈ e.2, f x = g x)
    (hab : f a = g b) :
    (mapInsert before m k [a]).map (fun e => (e.1, e.2.map f)) =
      (mapInsert before m k [b]).map (fun e => (e.1, e.2.map g)) := by
  induction m with
  | nil => simp [mapInsert, hab]
  | cons e rest ih =>
    obtain ⟨k1, l1⟩ := e
    have hrest : rest.map (fun e => (e.1, e.2.map f)) = rest.map (fun e => (e.1, e.2.map g)) :=
      List.map_congr_left (fun e he => by
        simp only [Prod.mk.injEq, true_and]
        exact List.map_congr_left (hm e (List.mem_cons_of_mem _ he)))
    have hhead : l1.map f = l1.map g :=
      List.map_congr_left (hm (k1, l1) (List.mem_cons_self _ _))
    simp only [mapInsert]
    split_ifs with h
    · simp only [List.map_cons, List.map_nil, hab, hrest, hhead]
    · simp only [List.map_cons]
      rw [ih (fun e he => hm e (List.mem_cons_of_mem _ he)), hhead]

theorem map_mapPushBack_congr {β : Type} (before : Int → Int → Bool) (f g : OrderPointer → β)
    (m : PriceMap) (k : Int) (a b : OrderPointer) (hm : ∀ e ∈ m, ∀ x ∈ e.2, f x = g x)
    (hab : f a = g b) :
    (mapPushBack before m k a).map (fun e => (e.1, e.2.map f)) =
      (mapPushBack before m k b).map (fun e => (e.1, e.2.map g)) := by
  unfold mapPushBack
  cases hf : mapFind m k with
  | none => exact map_mapInsert_congr before f g m k a b hm hab
  | some l =>
    exact map_mapAssign_congr f g m k l a b hm (hm _ (mapFind_mem m k l hf)) hab

theorem map_levels_congr {β : Type} (f g : OrderPointer → β) (m : PriceMap)
    (hm : ∀ e ∈ m, ∀ x ∈ e.2, f x = g x) :
    m.map (fun e => (e.1, e.2.map f)) = m.map (fun e => (e.1, e.2.map g)) :=
  List.map_congr_left (fun e he => by
    simp only [Prod.mk.injEq, true_and]
    exact List.map_congr_left (hm e he))

namespace OrderBook

theorem addOrder_resting (s : OrderBook) (orderId price quantity : Int) (side : Side)
    (orderType : OrderType) (h1 : orderType ≠ OrderType.Market) (h2 : orderType ≠ OrderType.IOC) :
    s.addOrder orderId price quantity side orderType =
      ({ s.alloc (Order.mk orderType orderId price quantity side 0) with
          activeOrders_ := activeInsert s.activeOrders_ orderId s.heap.length }).insertResting
        s.heap.length side price := by
  unfold addOrder
  simp only [if_neg h1, if_neg h2]
  rfl

theorem addOrder_resting_heap (s : OrderBook) (orderId price quantity : Int) (side : Side)
    (orderType : OrderType) (h1 : orderType ≠ OrderType.Market) (h2 : orderType ≠ OrderType.IOC) :
    (s.addOrder orderId price quantity side orderType).heap =
      s.heap ++ [Order.mk orderType orderId price quantity side 0] := by
  rw [addOrder_resting s _ _ _ _ _ h1 h2, insertResting_heap]
  rfl

theorem addOrder_resting_activeOrders (s : OrderBook) (orderId price quantity : Int)
    (side : Side) (orderType : OrderType) (h1 : orderType ≠ OrderType.Market)
    (h2 : orderType ≠ OrderType.IOC) :
    (s.addOrder orderId price quantity side orderType).activeOrders_ =
      activeInsert s.activeOrders_ orderId s.heap.length := by
  rw [addOrder_resting s _ _ _ _ _ h1 h2, insertResting_activeOrders]

theorem addOrder_resting_trades (s : OrderBook) (orderId price quantity : Int)
    (side : Side) (orderType : OrderType) (h1 : orderType ≠ OrderType.Market)
    (h2 : orderType ≠ OrderType.IOC) :
    (s.addOrder orderId price quantity side orderType).trades = s.trades := by
  rw [addOrder_resting s _ _ _ _ _ h1 h2, insertResting_trades]
  rfl

theorem addOrder_resting_books (s : OrderBook) (orderId price quantity : Int)
    (side : Side) (orderType : OrderType) (h1 : orderType ≠ OrderType.Market)
    (h2 : orderType ≠ OrderType.IOC) :
    (side = Side.buy →
      (s.addOrder orderId price quantity side orderType).buyOrders_ =
        mapPushBack buyBefore s.buyOrders_ price s.heap.length ∧
      (s.addOrder orderId price quantity side orderType).sellOrders_ = s.sellOrders_ ∧
      (s.addOrder orderId price quantity side orderType).buyQueue_ =
        s.buyQueue_ ++ [s.heap.length] ∧
      (s.addOrder orderId price quantity side orderType).sellQueue_ = s.sellQueue_) ∧
    (side ≠ Side.buy →
      (s.addOrder orderId price quantity side orderType).sellOrders_ =
        mapPushBack sellBefore s.sellOrders_ price s.heap.length ∧
      (s.addOrder orderId price quantity side orderType).buyOrders_ = s.buyOrders_ ∧
      (s.addOrder orderId price quantity side orderType).sellQueue_ =
        s.sellQueue_ ++ [s.heap.length] ∧
      (s.addOrder orderId price quantity side orderType).buyQueue_ = s.buyQueue_) := by
  rw [addOrder_resting s _ _ _ _ _ h1 h2]
  constructor
  · intro hb
    refine ⟨?_, ?_, ?_, ?_⟩ <;> simp [insertResting, alloc, hb]
  · intro hb
    refine ⟨?_, ?_, ?_, ?_⟩ <;> simp [insertResting, alloc, hb]

theorem cancelOrder_books (s : OrderBook) (orderId : Int) (p : OrderPointer)
    (hf : activeFind s.activeOrders_ orderId = some p) :
    (s.cancelOrder orderId).1 = true ∧
    (s.cancelOrder orderId).2.activeOrders_ = activeErase s.activeOrders_ orderId ∧
    (s.cancelOrder orderId).2.buyQueue_ = s.buyQueue_ ∧
    (s.cancelOrder orderId).2.sellQueue_ = s.sellQueue_ ∧
    ((s.deref p).side = Side.buy →
      (s.cancelOrder orderId).2.buyOrders_ =
        removeFromLevel s s.buyOrders_ (s.deref p).price orderId ∧
      (s.cancelOrder orderId).2.sellOrders_ = s.sellOrders_) ∧
    ((s.deref p).side ≠ Side.buy →
      (s.cancelOrder orderId).2.sellOrders_ =
        removeFromLevel s s.sellOrders_ (s.deref p).price orderId ∧
      (s.cancelOrder orderId).2.buyOrders_ = s.buyOrders_) := by
  rw [cancelOrder_of_find s orderId p hf]
  refine ⟨rfl, rfl, ?_, ?_, ?_, ?_⟩
  · simp only [removeResting]; split_ifs <;> rfl
  · simp only [removeResting]; split_ifs <;> rfl
  · intro hb
    rw [removeResting_of_buy s p _ hb]
    exact ⟨rfl, rfl⟩
  · intro hb
    rw [removeResting_of_not_buy s p _ hb]
    exact ⟨rfl, rfl⟩

end OrderBook

namespace OrderBook

theorem activeFind_activeInsert_of_ne (a : ActiveOrdersMap) (k k1 : Int) (p : OrderPointer)
    (h : k1 ≠ k) : activeFind (activeInsert a k p) k1 = activeFind a k1 := by
  have hk : ¬ k = k1 := fun e => h e.symm
  simp only [activeInsert, activeFind, if_neg hk]
  exact activeFind_activeErase_of_ne a k k1 h

/-- The records after `cancelOrder` followed by `addOrder` of a resting
discipline: the old ones are as before, the new one is at the next pointer. -/
theorem cancel_add_deref (s : OrderBook) (orderId price quantity : Int) (side : Side)
    (orderType : OrderType) (h1 : orderType ≠ OrderType.Market) (h2 : orderType ≠ OrderType.IOC) :
    (∀ x, x < s.heap.length →
      ((s.cancelOrder orderId).2.addOrder orderId price quantity side orderType).deref x =
        s.deref x) ∧
    ((s.cancelOrder orderId).2.addOrder orderId price quantity side orderType).deref
      s.heap.length = Order.mk orderType orderId price quantity side 0 := by
  have hheap : ((s.cancelOrder orderId).2.addOrder orderId price quantity side orderType).heap =
      (s.alloc (Order.mk orderType orderId price quantity side 0)).heap := by
    rw [addOrder_resting_heap _ _ _ _ _ _ h1 h2, cancelOrder_heap]
    rfl
  constructor
  · intro x hx
    rw [deref_congr hheap, deref_alloc_old s _ x hx]
  · rw [deref_congr hheap, deref_alloc_new]

/-- The modify law for an indexed order of discipline Limit: in a well-formed
state `modifyOrder` yields the same bid book, ask book and index as
`cancelOrder` followed by `addOrder ... Limit` with the side of the order, when
orders are compared by id, side, discipline, price and residual quantity. -/
theorem modify_law_of_limit (s : OrderBook) (orderId newQuantity newPrice : Int)
    (p : OrderPointer) (hw : WellFormed s)
    (hfind : activeFind s.activeOrders_ orderId = some p)
    (htype : (s.deref p).orderType = OrderType.Limit) :
    bookView (s.modifyOrder orderId newQuantity newPrice).2
        (s.modifyOrder orderId newQuantity newPrice).2.buyOrders_ =
      bookView ((s.cancelOrder orderId).2.addOrder orderId newPrice newQuantity (s.deref p).side
          OrderType.Limit)
        ((s.cancelOrder orderId).2.addOrder orderId newPrice newQuantity (s.deref p).side
          OrderType.Limit).buyOrders_ ∧
    bookView (s.modifyOrder orderId newQuantity newPrice).2
        (s.modifyOrder orderId newQuantity newPrice).2.sellOrders_ =
      bookView ((s.cancelOrder orderId).2.addOrder orderId newPrice newQuantity (s.deref p).side
          OrderType.Limit)
        ((s.cancelOrder orderId).2.addOrder orderId newPrice newQuantity (s.deref p).side
          OrderType.Limit).sellOrders_ ∧
    ∀ k, indexView (s.modifyOrder orderId newQuantity newPrice).2 k =
      indexView ((s.cancelOrder orderId).2.addOrder orderId newPrice newQuantity (s.deref p).side
        OrderType.Limit) k := by
  obtain ⟨hv, hid⟩ := hw.2.2.2.2.2.2.1 (orderId, p) (mem_of_activeFind hfind)
  simp only at hv hid
  obtain ⟨_, _, _, _, f5⟩ := modifyOrder_frame s orderId newQuantity newPrice p hfind
  have fp := modifyOrder_deref_self s orderId newQuantity newPrice p hfind hv
  have hmb := modifyOrder_books s orderId newQuantity newPrice p hfind hv
  obtain ⟨_, ci, _, _, cb, cs⟩ := cancelOrder_books s orderId p hfind
  have hL1 : OrderType.Limit ≠ OrderType.Market := by decide
  have hL2 : OrderType.Limit ≠ OrderType.IOC := by decide
  have hab := addOrder_resting_books (s.cancelOrder orderId).2 orderId newPrice newQuantity
    (s.deref p).side OrderType.Limit hL1 hL2
  have hai := addOrder_resting_activeOrders (s.cancelOrder orderId).2 orderId newPrice
    newQuantity (s.deref p).side OrderType.Limit hL1 hL2
  obtain ⟨g1, g2⟩ := cancel_add_deref s orderId newPrice newQuantity (s.deref p).side
    OrderType.Limit hL1 hL2
  have hclen : (s.cancelOrder orderId).2.heap.length = s.heap.length := by
    rw [cancelOrder_heap]
  rw [hclen] at hab hai
  obtain ⟨r1, hr1⟩ : ∃ r1, r1 = (s.modifyOrder orderId newQuantity newPrice).2 := ⟨_, rfl⟩
  obtain ⟨r2, hr2⟩ : ∃ r2, r2 = (s.cancelOrder orderId).2.addOrder orderId newPrice newQuantity
    (s.deref p).side OrderType.Limit := ⟨_, rfl⟩
  rw [← hr1] at f5 fp hmb
  rw [← hr2] at hab hai g1 g2
  rw [← hr1, ← hr2]
  -- the views of the moved order agree
  have hnew : (r1.deref p).view = (r2.deref s.heap.length).view := by
    rw [fp, g2]
    simp only [Order.view, hid, htype]
  -- an allocated order other than `p` is seen alike
  have hold : ∀ x, x < s.heap.length → x ≠ p → (r1.deref x).view = (r2.deref x).view := by
    intro x hx hxp
    rw [f5 x hxp, g1 x hx]
  have hnot := not_mem_removeResting hw p
  rw [hid] at hnot
  have hvalidB : ∀ x ∈ restingOrders s.buyOrders_, x < s.heap.length := fun x hx => by
    obtain ⟨e, he, hxe⟩ := mem_restingOrders.1 hx
    exact (hw.2.2.2.2.1 e he x hxe).1
  have hvalidS : ∀ x ∈ restingOrders s.sellOrders_, x < s.heap.length := fun x hx => by
    obtain ⟨e, he, hxe⟩ := mem_restingOrders.1 hx
    exact (hw.2.2.2.2.2.1 e he x hxe).1
  refine ⟨?_, ?_, ?_⟩
  · by_cases hb : (s.deref p).side = Side.buy
    · rw [removeResting_of_buy s p _ hb] at hnot
      simp only [bookView]
      rw [(hmb.1 hb).1, (hab.1 hb).1, (cb hb).1]
      apply map_mapPushBack_congr
      · intro e he x hx
        have hxm : x ∈ restingOrders (removeFromLevel s s.buyOrders_ (s.deref p).price orderId) :=
          mem_restingOrders.2 ⟨e, he, hx⟩
        exact hold x
          (hvalidB x (mem_restingOrders_of_levelSub (LevelSub_removeFromLevel _ _ _ _) hxm))
          (fun e1 => hnot.1 (e1 ▸ hxm))
      · exact hnew
    · rw [removeResting_of_not_buy s p _ hb] at hnot
      simp only [bookView]
      rw [(hmb.2 hb).2.1, (hab.2 hb).2.1, (cs hb).2]
      apply map_levels_congr
      intro e he x hx
      have hxm : x ∈ restingOrders s.buyOrders_ := mem_restingOrders.2 ⟨e, he, hx⟩
      exact hold x (hvalidB x hxm) (fun e1 => hnot.1 (e1 ▸ hxm))
  · by_cases hb : (s.deref p).side = Side.buy
    · rw [removeResting_of_buy s p _ hb] at hnot
      simp only [bookView]
      rw [(hmb.1 hb).2.1, (hab.1 hb).2.1, (cb hb).2]
      apply map_levels_congr
      intro e he x hx
      have hxm : x ∈ restingOrders s.sellOrders_ := mem_restingOrders.2 ⟨e, he, hx⟩
      exact hold x (hvalidS x hxm) (fun e1 => hnot.2 (e1 ▸ hxm))
    · rw [removeResting_of_not_buy s p _ hb] at hnot
      simp only [bookView]
      rw [(hmb.2 hb).1, (hab.2 hb).1, (cs hb).1]
      apply map_mapPushBack_congr
      · intro e he x hx
        have hxm : x ∈ restingOrders (removeFromLevel s s.sellOrders_ (s.deref p).price orderId) :=
          mem_restingOrders.2 ⟨e, he, hx⟩
        exact hold x
          (hvalidS x (mem_restingOrders_of_levelSub (LevelSub_removeFromLevel _ _ _ _) hxm))
          (fun e1 => hnot.2 (e1 ▸ hxm))
      · exact hnew
  · intro k
    have hi1 : r1.activeOrders_ = s.activeOrders_ := by
      rw [hr1]; exact modifyOrder_activeOrders s _ _ _
    simp only [indexView]
    rw [hi1, hai, ci]
    by_cases hk : k = orderId
    · subst hk
      rw [hfind, activeFind_activeInsert_self]
      simp only [Option.map_some', hnew]
    · rw [activeFind_activeInsert_of_ne _ _ _ _ hk, activeFind_activeErase_of_ne _ _ _ hk]
      cases hfk : activeFind s.activeOrders_ k with
      | none => rfl
      | some x =>
        obtain ⟨hxv, hxid⟩ := hw.2.2.2.2.2.2.1 (k, x) (mem_of_activeFind hfk)
        simp only at hxv hxid
        have hxp : x ≠ p := fun e => hk (by rw [← hxid, e, hid])
        simp only [Option.map_some', hold x hxv hxp]

end OrderBook

theorem mapAssign_mapAssign (m : PriceMap) (k : Int) (v w : OrderList) :
    mapAssign (mapAssign m k v) k w = mapAssign m k w := by
  induction m with
  | nil => rfl
  | cons e rest ih =>
    obtain ⟨k1, l1⟩ := e
    simp only [mapAssign]
    split_ifs with h
    · simp [mapAssign, h]
    · simp [mapAssign, h, ih]

theorem mapAssign_of_find (m : PriceMap) (k : Int) (l : OrderList) (h : mapFind m k = some l) :
    mapAssign m k l = m := by
  induction m with
  | nil => rfl
  | cons e rest ih =>
    obtain ⟨k1, l1⟩ := e
    simp only [mapFind] at h
    simp only [mapAssign]
    split_ifs at h ⊢ with h1
    · simp only [Option.some.injEq] at h
      rw [h]
    · rw [ih h]

namespace OrderBook

/-- The removal block undoes a `push_back` of an order that is the only one of
its level to carry the id. -/
theorem removeFromLevel_mapPushBack (a : OrderBook) (before : Int → Int → Bool) (m : PriceMap)
    (k orderId : Int) (n : OrderPointer) (hne : NonemptyLevels m)
    (hn : (a.deref n).orderId = orderId)
    (hids : ∀ x ∈ restingOrders m, (a.deref x).orderId ≠ orderId) :
    removeFromLevel a (mapPushBack before m k n) k orderId = m := by
  have hfind := mapFind_mapPushBack_self before m k n
  rw [removeFromLevel_of_find a _ k orderId _ hfind]
  have hfil : ∀ l : OrderList, (∀ x ∈ l, (a.deref x).orderId ≠ orderId) →
      (l ++ [n]).filter (fun o => !decide ((a.deref o).orderId = orderId)) = l := by
    intro l hl
    rw [List.filter_append]
    have h1 : l.filter (fun o => !decide ((a.deref o).orderId = orderId)) = l := by
      apply List.filter_eq_self.2
      intro x hx
      simp [hl x hx]
    rw [h1]
    simp [hn]
  cases hf : mapFind m k with
  | none =>
    simp only [Option.getD_none]
    rw [hfil [] (fun x hx => absurd hx (List.not_mem_nil x)), if_pos rfl,
      mapErase_mapPushBack, mapErase_of_find_none m k hf]
  | some l =>
    have hl := mapFind_mem m k l hf
    simp only [Option.getD_some]
    rw [hfil l (fun x hx => hids x (mem_restingOrders.2 ⟨_, hl, hx⟩)), if_neg (hne _ hl)]
    unfold mapPushBack
    rw [hf]
    simp only
    rw [mapAssign_mapAssign, mapAssign_of_find m k l hf]

/-- C13 (add-then-cancel round trip), amended.  Let `s` be a well-formed state
(every reachable state is) and `orderId` an id that no resting order carries and
that is not a key of the index.  Then `addOrder orderId price quantity side
Limit` immediately followed by `cancelOrder orderId` returns true and leaves the
bid book, the ask book (levels, their order, their contents) and the index
exactly as they were, every record of the state as it was, and emits no
trade. -/
theorem add_cancel_round_trip (s : OrderBook) (orderId price quantity : Int) (side : Side)
    (hw : WellFormed s)
    (hres : ∀ q ∈ restingOrders s.buyOrders_ ++ restingOrders s.sellOrders_,
      (s.deref q).orderId ≠ orderId)
    (hidx : activeFind s.activeOrders_ orderId = none) :
    ((s.addOrder orderId price quantity side OrderType.Limit).cancelOrder orderId).1 = true ∧
    ((s.addOrder orderId price quantity side OrderType.Limit).cancelOrder orderId).2.buyOrders_ =
      s.buyOrders_ ∧
    ((s.addOrder orderId price quantity side OrderType.Limit).cancelOrder orderId).2.sellOrders_ =
      s.sellOrders_ ∧
    ((s.addOrder orderId price quantity side OrderType.Limit).cancelOrder
      orderId).2.activeOrders_ = s.activeOrders_ ∧
    (∀ x, x < s.heap.length →
      ((s.addOrder orderId price quantity side OrderType.Limit).cancelOrder orderId).2.deref x =
        s.deref x) ∧
    ((s.addOrder orderId price quantity side OrderType.Limit).cancelOrder orderId).2.trades =
      s.trades := by
  have hL1 : OrderType.Limit ≠ OrderType.Market := by decide
  have hL2 : OrderType.Limit ≠ OrderType.IOC := by decide
  have hheap := addOrder_resting_heap s orderId price quantity side OrderType.Limit hL1 hL2
  have hai := addOrder_resting_activeOrders s orderId price quantity side OrderType.Limit hL1 hL2
  have hab := addOrder_resting_books s orderId price quantity side OrderType.Limit hL1 hL2
  have htr := addOrder_resting_trades s orderId price quantity side OrderType.Limit hL1 hL2
  obtain ⟨a, ha⟩ : ∃ a, a = s.addOrder orderId price quantity side OrderType.Limit := ⟨_, rfl⟩
  rw [← ha] at hheap hai hab htr ⊢
  have hah : a.heap = (s.alloc (Order.mk OrderType.Limit orderId price quantity side 0)).heap :=
    hheap
  have hnew : a.deref s.heap.length = Order.mk OrderType.Limit orderId price quantity side 0 := by
    rw [deref_congr hah, deref_alloc_new]
  have hold : ∀ x, x < s.heap.length → a.deref x = s.deref x := fun x hx => by
    rw [deref_congr hah, deref_alloc_old s _ x hx]
  have hfind : activeFind a.activeOrders_ orderId = some s.heap.length := by
    rw [hai, activeFind_activeInsert_self]
  obtain ⟨c1, c2, _, _, cb, cs⟩ := cancelOrder_books a orderId s.heap.length hfind
  rw [hnew] at cb cs
  simp only at cb cs
  have hidsB : ∀ x ∈ restingOrders s.buyOrders_, (a.deref x).orderId ≠ orderId := fun x hx => by
    obtain ⟨e, he, hxe⟩ := mem_restingOrders.1 hx
    rw [hold x (hw.2.2.2.2.1 e he x hxe).1]
    exact hres x (List.mem_append_left _ hx)
  have hidsS : ∀ x ∈ restingOrders s.sellOrders_, (a.deref x).orderId ≠ orderId := fun x hx => by
    obtain ⟨e, he, hxe⟩ := mem_restingOrders.1 hx
    rw [hold x (hw.2.2.2.2.2.1 e he x hxe).1]
    exact hres x (List.mem_append_right _ hx)
  have hnid : (a.deref s.heap.length).orderId = orderId := by rw [hnew]
  refine ⟨c1, ?_, ?_, ?_, ?_, ?_⟩
  · by_cases hb : side = Side.buy
    · rw [(cb hb).1, (hab.1 hb).1]
      exact removeFromLevel_mapPushBack a buyBefore s.buyOrders_ price orderId _ hw.2.2.1 hnid
        hidsB
    · rw [(cs hb).2, (hab.2 hb).2.1]
  · by_cases hb : side = Side.buy
    · rw [(cb hb).2, (hab.1 hb).2.1]
    · rw [(cs hb).1, (hab.2 hb).1]
      exact removeFromLevel_mapPushBack a sellBefore s.sellOrders_ price orderId _ hw.2.2.2.1 hnid
        hidsS
  · rw [c2, hai, activeErase_activeInsert, activeErase_of_find_none _ _ hidx]
  · intro x hx
    rw [deref_congr (cancelOrder_heap a orderId), hold x hx]
  · rw [cancelOrder_trades, htr]

/-- Example for C13: beside the resting buy 6 (price 80, quantity 5), the sell 7
(price 120, quantity 5) is added and cancelled at once. -/
theorem add_cancel_round_trip_witness :
    WellFormed (empty.addOrder 6 80 5 Side.buy OrderType.Limit) ∧
    (((empty.addOrder 6 80 5 Side.buy OrderType.Limit).addOrder 7 120 5 Side.sell
      OrderType.Limit).cancelOrder 7).1 = true ∧
    (((empty.addOrder 6 80 5 Side.buy OrderType.Limit).addOrder 7 120 5 Side.sell
      OrderType.Limit).cancelOrder 7).2.buyOrders_ =
      (empty.addOrder 6 80 5 Side.buy OrderType.Limit).buyOrders_ ∧
    (((empty.addOrder 6 80 5 Side.buy OrderType.Limit).addOrder 7 120 5 Side.sell
      OrderType.Limit).cancelOrder 7).2.sellOrders_ =
      (empty.addOrder 6 80 5 Side.buy OrderType.Limit).sellOrders_ ∧
    (((empty.addOrder 6 80 5 Side.buy OrderType.Limit).addOrder 7 120 5 Side.sell
      OrderType.Limit).cancelOrder 7).2.activeOrders_ =
      (empty.addOrder 6 80 5 Side.buy OrderType.Limit).activeOrders_ ∧
    (empty.addOrder 6 80 5 Side.buy OrderType.Limit).buyOrders_ = [(80, [0])] :=
  ⟨wellFormed_of_reachable (Reachable.add _ 6 80 5 Side.buy OrderType.Limit Reachable.init),
   (add_cancel_round_trip (empty.addOrder 6 80 5 Side.buy OrderType.Limit) 7 120 5 Side.sell
     (wellFormed_of_reachable (Reachable.add _ 6 80 5 Side.buy OrderType.Limit Reachable.init))
     (by decide) (by decide)).1,
   (add_cancel_round_trip (empty.addOrder 6 80 5 Side.buy OrderType.Limit) 7 120 5 Side.sell
     (wellFormed_of_reachable (Reachable.add _ 6 80 5 Side.buy OrderType.Limit Reachable.init))
     (by decide) (by decide)).2.1,
   (add_cancel_round_trip (empty.addOrder 6 80 5 Side.buy OrderType.Limit) 7 120 5 Side.sell
     (wellFormed_of_reachable (Reachable.add _ 6 80 5 Side.buy OrderType.Limit Reachable.init))
     (by decide) (by decide)).2.2.1,
   (add_cancel_round_trip (empty.addOrder 6 80 5 Side.buy OrderType.Limit) 7 120 5 Side.sell
     (wellFormed_of_reachable (Reachable.add _ 6 80 5 Side.buy OrderType.Limit Reachable.init))
     (by decide) (by decide)).2.2.2.1,
   by decide⟩

/-- C13 as stated fails when the id is still a key of the index although its
order no longer rests.  A sell order 1 with quantity 0 is added and rests; the
Market buy 2 finds it at the head of the best ask level with quantity <= 0 and
pops it (lines 67-72 of `matchBuyOrder`), which does not touch the index.  Now
no order rests, so id 1 is the id of no resting order, but the index still maps
1 to the popped record.  `addOrder 1 100 5 sell Limit` followed by
`cancelOrder 1` returns true and leaves an index without the key 1: not the
index from before the add. -/
theorem add_cancel_drops_stale_index_entry :
    restingOrders ((empty.addOrder 1 100 0 Side.sell OrderType.Limit).addOrder 2 0 5 Side.buy
      OrderType.Market).buyOrders_ = [] ∧
    restingOrders ((empty.addOrder 1 100 0 Side.sell OrderType.Limit).addOrder 2 0 5 Side.buy
      OrderType.Market).sellOrders_ = [] ∧
    ((empty.addOrder 1 100 0 Side.sell OrderType.Limit).addOrder 2 0 5 Side.buy
      OrderType.Market).activeOrders_ = [(1, 0)] ∧
    ((((empty.addOrder 1 100 0 Side.sell OrderType.Limit).addOrder 2 0 5 Side.buy
      OrderType.Market).addOrder 1 100 5 Side.sell OrderType.Limit).cancelOrder 1).1 = true ∧
    ((((empty.addOrder 1 100 0 Side.sell OrderType.Limit).addOrder 2 0 5 Side.buy
      OrderType.Market).addOrder 1 100 5 Side.sell OrderType.Limit).cancelOrder
        1).2.activeOrders_ = [] ∧
    ((((empty.addOrder 1 100 0 Side.sell OrderType.Limit).addOrder 2 0 5 Side.buy
      OrderType.Market).addOrder 1 100 5 Side.sell OrderType.Limit).cancelOrder
        1).2.activeOrders_ ≠
      ((empty.addOrder 1 100 0 Side.sell OrderType.Limit).addOrder 2 0 5 Side.buy
        OrderType.Market).activeOrders_ := by
  decide

end OrderBook

namespace OrderBook

theorem getBestBid_spec {s : OrderBook} (hw : WellFormed s) :
    (restingOrders s.buyOrders_ = [] → s.getBestBid = 0) ∧
    (restingOrders s.buyOrders_ ≠ [] →
      (∃ p ∈ restingOrders s.buyOrders_, (s.deref p).price = s.getBestBid) ∧
      ∀ q ∈ restingOrders s.buyOrders_, (s.deref q).price ≤ s.getBestBid) := by
  obtain ⟨w1, _, w3, _, w5, _⟩ := hw
  cases hb : s.buyOrders_ with
  | nil =>
    refine ⟨fun _ => by unfold getBestBid; rw [hb], fun h => absurd ?_ h⟩
    simp [restingOrders]
  | cons e rest =>
    obtain ⟨k, l⟩ := e
    rw [hb] at w1 w3 w5
    have hl : l ≠ [] := w3 (k, l) (List.mem_cons_self _ _)
    obtain ⟨p, tl, rfl⟩ := List.exists_cons_of_ne_nil hl
    have hg : s.getBestBid = k := by unfold getBestBid; rw [hb]
    refine ⟨fun h => ?_, fun _ => ⟨⟨p, ?_, ?_⟩, ?_⟩⟩
    · rw [restingOrders_cons] at h
      simp at h
    · rw [restingOrders_cons]; simp
    · rw [hg]
      exact (w5 (k, p :: tl) (List.mem_cons_self _ _) p (List.mem_cons_self _ _)).2.1
    · intro q hq
      obtain ⟨e, he, hqe⟩ := mem_restingOrders.1 hq
      rw [hg, (w5 e he q hqe).2.1]
      exact sortedKeys_buy_head w1 e he

theorem getBestAsk_spec {s : OrderBook} (hw : WellFormed s) :
    (restingOrders s.sellOrders_ = [] → s.getBestAsk = 0) ∧
    (restingOrders s.sellOrders_ ≠ [] →
      (∃ p ∈ restingOrders s.sellOrders_, (s.deref p).price = s.getBestAsk) ∧
      ∀ q ∈ restingOrders s.sellOrders_, s.getBestAsk ≤ (s.deref q).price) := by
  obtain ⟨_, w2, _, w4, _, w6, _⟩ := hw
  cases hb : s.sellOrders_ with
  | nil =>
    refine ⟨fun _ => by unfold getBestAsk; rw [hb], fun h => absurd ?_ h⟩
    simp [restingOrders]
  | cons e rest =>
    obtain ⟨k, l⟩ := e
    rw [hb] at w2 w4 w6
    have hl : l ≠ [] := w4 (k, l) (List.mem_cons_self _ _)
    obtain ⟨p, tl, rfl⟩ := List.exists_cons_of_ne_nil hl
    have hg : s.getBestAsk = k := by unfold getBestAsk; rw [hb]
    refine ⟨fun h => ?_, fun _ => ⟨⟨p, ?_, ?_⟩, ?_⟩⟩
    · rw [restingOrders_cons] at h
      simp at h
    · rw [restingOrders_cons]; simp
    · rw [hg]
      exact (w6 (k, p :: tl) (List.mem_cons_self _ _) p (List.mem_cons_self _ _)).2.1
    · intro q hq
      obtain ⟨e, he, hqe⟩ := mem_restingOrders.1 hq
      rw [hg, (w6 e he q hqe).2.1]
      exact sortedKeys_sell_head w2 e he

/-- C16 (best-of-book accessors).  In every state reachable from the empty book
by `addOrder`, `cancelOrder`, `modifyOrder`, `reset` (all with arbitrary
arguments) and worker steps, no price level of either side book is empty and
every order in a level has the key of the level as its `price`.  Consequently
`getBestBid` is 0 when no order rests in the bid book and otherwise is the price
of a resting bid and at least the price of every resting bid; `getBestAsk` is 0
when no order rests in the ask book and otherwise is the price of a resting ask
and at most the price of every resting ask. -/
theorem best_of_book (s : OrderBook) (h : Reachable s) :
    NonemptyLevels s.buyOrders_ ∧ NonemptyLevels s.sellOrders_ ∧
    (∀ e ∈ s.buyOrders_, ∀ p ∈ e.2, (s.deref p).price = e.1) ∧
    (∀ e ∈ s.sellOrders_, ∀ p ∈ e.2, (s.deref p).price = e.1) ∧
    (restingOrders s.buyOrders_ = [] → s.getBestBid = 0) ∧
    (restingOrders s.buyOrders_ ≠ [] →
      (∃ p ∈ restingOrders s.buyOrders_, (s.deref p).price = s.getBestBid) ∧
      ∀ q ∈ restingOrders s.buyOrders_, (s.deref q).price ≤ s.getBestBid) ∧
    (restingOrders s.sellOrders_ = [] → s.getBestAsk = 0) ∧
    (restingOrders s.sellOrders_ ≠ [] →
      (∃ p ∈ restingOrders s.sellOrders_, (s.deref p).price = s.getBestAsk) ∧
      ∀ q ∈ restingOrders s.sellOrders_, s.getBestAsk ≤ (s.deref q).price) := by
  have hw := wellFormed_of_reachable h
  exact ⟨hw.2.2.1, hw.2.2.2.1, fun e he p hp => (hw.2.2.2.2.1 e he p hp).2.1,
    fun e he p hp => (hw.2.2.2.2.2.1 e he p hp).2.1, (getBestBid_spec hw).1, (getBestBid_spec hw).2,
    (getBestAsk_spec hw).1, (getBestAsk_spec hw).2⟩

/-- Example for C16: bids at 80 and 90, an ask at 120. -/
theorem best_of_book_witness :
    Reachable (((empty.addOrder 6 80 5 Side.buy OrderType.Limit).addOrder 7 120 5 Side.sell
      OrderType.Limit).addOrder 8 90 5 Side.buy OrderType.Limit) ∧
    (((empty.addOrder 6 80 5 Side.buy OrderType.Limit).addOrder 7 120 5 Side.sell
      OrderType.Limit).addOrder 8 90 5 Side.buy OrderType.Limit).getBestBid = 90 ∧
    (((empty.addOrder 6 80 5 Side.buy OrderType.Limit).addOrder 7 120 5 Side.sell
      OrderType.Limit).addOrder 8 90 5 Side.buy OrderType.Limit).getBestAsk = 120 ∧
    ∀ q ∈ restingOrders (((empty.addOrder 6 80 5 Side.buy OrderType.Limit).addOrder 7 120 5
        Side.sell OrderType.Limit).addOrder 8 90 5 Side.buy OrderType.Limit).buyOrders_,
      ((((empty.addOrder 6 80 5 Side.buy OrderType.Limit).addOrder 7 120 5 Side.sell
        OrderType.Limit).addOrder 8 90 5 Side.buy OrderType.Limit).deref q).price ≤
      (((empty.addOrder 6 80 5 Side.buy OrderType.Limit).addOrder 7 120 5 Side.sell
        OrderType.Limit).addOrder 8 90 5 Side.buy OrderType.Limit).getBestBid :=
  ⟨Reachable.add _ 8 90 5 Side.buy OrderType.Limit (Reachable.add _ 7 120 5 Side.sell
      OrderType.Limit (Reachable.add _ 6 80 5 Side.buy OrderType.Limit Reachable.init)),
   by decide, by decide,
   ((best_of_book _ (Reachable.add _ 8 90 5 Side.buy OrderType.Limit (Reachable.add _ 7 120 5
      Side.sell OrderType.Limit (Reachable.add _ 6 80 5 Side.buy OrderType.Limit
        Reachable.init)))).2.2.2.2.2.1 (by decide)).2⟩

end OrderBook

/-! ### Index and book stay consistent -/

theorem mapFind_of_mem {m : PriceMap} (hn : (m.map Prod.fst).Nodup) {e : Int × OrderList}
    (he : e ∈ m) : mapFind m e.1 = some e.2 := by
  induction m with
  | nil => simp at he
  | cons e1 rest ih =>
    obtain ⟨k1, l1⟩ := e1
    simp only [List.map_cons, List.nodup_cons] at hn
    simp only [mapFind]
    rcases List.mem_cons.1 he with h | h
    · rw [h]; simp
    · have hk : k1 ≠ e.1 := fun hc => hn.1 (hc ▸ List.mem_map_of_mem Prod.fst h)
      rw [if_neg hk]
      exact ih hn.2 h

theorem mem_activeErase_ne {a : ActiveOrdersMap} {k : Int} {e : Int × OrderPointer}
    (h : e ∈ activeErase a k) : e.1 ≠ k := by
  induction a with
  | nil => simp [activeErase] at h
  | cons e1 rest ih =>
    obtain ⟨k1, p1⟩ := e1
    simp only [activeErase] at h
    split_ifs at h with hk
    · exact ih h
    · rcases List.mem_cons.1 h with h1 | h1
      · rw [h1]; exact hk
      · exact ih h1

theorem mem_activeErase_of_ne {a : ActiveOrdersMap} {k : Int} {e : Int × OrderPointer}
    (he : e ∈ a) (hk : e.1 ≠ k) : e ∈ activeErase a k := by
  induction a with
  | nil => simp at he
  | cons e1 rest ih =>
    obtain ⟨k1, p1⟩ := e1
    simp only [activeErase]
    rcases List.mem_cons.1 he with h | h
    · subst h
      rw [if_neg hk]
      exact List.mem_cons_self _ _
    · split_ifs
      · exact ih h
      · exact List.mem_cons_of_mem _ (ih h)

namespace OrderBook

theorem mem_restingOrders_popFront {k : Int} {sp x : OrderPointer} {tl : OrderList}
    {rest : PriceMap} (hk : k ∉ rest.map Prod.fst)
    (hx : x ∈ restingOrders ((k, sp :: tl) :: rest)) (hne : x ≠ sp) :
    x ∈ restingOrders (popFront ((k, sp :: tl) :: rest)) := by
  rw [restingOrders_popFront hk]
  rw [restingOrders_cons] at hx
  simp only [List.cons_append, List.mem_cons] at hx
  rcases hx with h | h
  · exact absurd h hne
  · exact h

theorem mem_restingOrders_removeFromLevel (s : OrderBook) {m : PriceMap} (price orderId : Int)
    (hn : (m.map Prod.fst).Nodup) {x : OrderPointer} (hx : x ∈ restingOrders m)
    (hid : (s.deref x).orderId ≠ orderId) :
    x ∈ restingOrders (removeFromLevel s m price orderId) := by
  obtain ⟨e, he, hxe⟩ := mem_restingOrders.1 hx
  have hf := mapFind_of_mem hn he
  by_cases hk : e.1 = price
  · rw [hk] at hf
    have hfx : x ∈ e.2.filter (fun o => !decide ((s.deref o).orderId = orderId)) := by
      rw [List.mem_filter]
      exact ⟨hxe, by simp [hid]⟩
    have h1 := mapFind_removeFromLevel_self s m price orderId e.2 hf
    rw [if_neg (List.ne_nil_of_mem hfx)] at h1
    exact mem_restingOrders.2 ⟨_, mapFind_mem _ _ _ h1, hfx⟩
  · have h1 := mapFind_removeFromLevel_of_ne s m price orderId e.1 hk
    rw [hf] at h1
    exact mem_restingOrders.2 ⟨_, mapFind_mem _ _ _ h1, hxe⟩

theorem mem_restingOrders_mapPushBack_self (before : Int → Int → Bool) (m : PriceMap) (k : Int)
    (o : OrderPointer) : o ∈ restingOrders (mapPushBack before m k o) :=
  mem_restingOrders.2 ⟨_, mapFind_mem _ _ _ (mapFind_mapPushBack_self before m k o), by simp⟩

theorem mem_restingOrders_mapPushBack (before : Int → Int → Bool) {m : PriceMap} (k : Int)
    (o : OrderPointer) (hn : (m.map Prod.fst).Nodup) {x : OrderPointer}
    (hx : x ∈ restingOrders m) : x ∈ restingOrders (mapPushBack before m k o) := by
  obtain ⟨e, he, hxe⟩ := mem_restingOrders.1 hx
  have hf := mapFind_of_mem hn he
  by_cases hk : e.1 = k
  · subst hk
    have h1 := mapFind_mapPushBack_self before m e.1 o
    rw [hf] at h1
    exact mem_restingOrders.2 ⟨_, mapFind_mem _ _ _ h1, by simp [hxe]⟩
  · have h1 := mapFind_mapPushBack_of_ne before m k e.1 o hk
    rw [hf] at h1
    exact mem_restingOrders.2 ⟨_, mapFind_mem _ _ _ h1, hxe⟩

theorem retireAskHead_activeOrders (s : OrderBook) (p : OrderPointer) :
    (s.retireAskHead p).activeOrders_ =
      if (s.deref p).quantity = 0 then activeErase s.activeOrders_ (s.deref p).orderId
      else s.activeOrders_ := by
  unfold retireAskHead; split_ifs <;> rfl

theorem retireBidHead_activeOrders (s : OrderBook) (p : OrderPointer) :
    (s.retireBidHead p).activeOrders_ =
      if (s.deref p).quantity = 0 then activeErase s.activeOrders_ (s.deref p).orderId
      else s.activeOrders_ := by
  unfold retireBidHead; split_ifs <;> rfl

theorem retireIncomingBuy_activeOrders (s : OrderBook) (p : OrderPointer) :
    (s.retireIncomingBuy p).activeOrders_ =
      if (s.deref p).quantity = 0 then activeErase s.activeOrders_ (s.deref p).orderId
      else s.activeOrders_ := by
  unfold retireIncomingBuy; split_ifs <;> rfl

theorem retireIncomingSell_activeOrders (s : OrderBook) (p : OrderPointer) :
    (s.retireIncomingSell p).activeOrders_ =
      if (s.deref p).quantity = 0 then activeErase s.activeOrders_ (s.deref p).orderId
      else s.activeOrders_ := by
  unfold retireIncomingSell; split_ifs <;> rfl

/-- The index after the trade block of `matchBuyOrder`: the ids of the two
orders are erased when their quantity reached zero. -/
theorem tradeBuy_activeOrders (s : OrderBook) (b sp : OrderPointer) (k q : Int) :
    (s.tradeBuy b sp k q).activeOrders_ =
      if ((s.tradeBuy b sp k q).deref b).quantity = 0 then
        activeErase (if ((s.tradeBuy b sp k q).deref sp).quantity = 0 then
          activeErase s.activeOrders_ (s.deref sp).orderId else s.activeOrders_)
          (s.deref b).orderId
      else (if ((s.tradeBuy b sp k q).deref sp).quantity = 0 then
        activeErase s.activeOrders_ (s.deref sp).orderId else s.activeOrders_) := by
  have hsh := shrinks_tradeBuy s b sp k q
  obtain ⟨s3, hs3⟩ : ∃ s3, s3 = (({ s with trades := s.trades ++
      [Trade.mk (s.deref b).orderId (s.deref sp).orderId q k] } : OrderBook).subQuantity
        b q).subQuantity sp q := ⟨_, rfl⟩
  have h1 : s.tradeBuy b sp k q = (s3.retireAskHead sp).retireIncomingBuy b := by rw [hs3]; rfl
  have h3 : ∀ x, s3.deref x = (s.tradeBuy b sp k q).deref x := by
    intro x; rw [h1, retireIncomingBuy_deref, retireAskHead_deref]
  have h4 : ∀ x, (s3.deref x).orderId = (s.deref x).orderId := by
    intro x; rw [h3, hsh.1.orderId]
  have h5 : s3.activeOrders_ = s.activeOrders_ := by rw [hs3]; rfl
  rw [← h3 b, ← h3 sp, h1, retireIncomingBuy_activeOrders, retireAskHead_activeOrders,
    retireAskHead_deref, h4, h4, h5]

theorem tradeSell_activeOrders (s : OrderBook) (sp b : OrderPointer) (k q : Int) :
    (s.tradeSell sp b k q).activeOrders_ =
      if ((s.tradeSell sp b k q).deref sp).quantity = 0 then
        activeErase (if ((s.tradeSell sp b k q).deref b).quantity = 0 then
          activeErase s.activeOrders_ (s.deref b).orderId else s.activeOrders_)
          (s.deref sp).orderId
      else (if ((s.tradeSell sp b k q).deref b).quantity = 0 then
        activeErase s.activeOrders_ (s.deref b).orderId else s.activeOrders_) := by
  have hsh := shrinks_tradeSell s sp b k q
  obtain ⟨s3, hs3⟩ : ∃ s3, s3 = (({ s with trades := s.trades ++
      [Trade.mk (s.deref b).orderId (s.deref sp).orderId q k] } : OrderBook).subQuantity
        sp q).subQuantity b q := ⟨_, rfl⟩
  have h1 : s.tradeSell sp b k q = (s3.retireBidHead b).retireIncomingSell sp := by
    rw [hs3]; rfl
  have h3 : ∀ x, s3.deref x = (s.tradeSell sp b k q).deref x := by
    intro x; rw [h1, retireIncomingSell_deref, retireBidHead_deref]
  have h4 : ∀ x, (s3.deref x).orderId = (s.deref x).orderId := by
    intro x; rw [h3, hsh.1.orderId]
  have h5 : s3.activeOrders_ = s.activeOrders_ := by rw [hs3]; rfl
  rw [← h3 b, ← h3 sp, h1, retireIncomingSell_activeOrders, retireBidHead_activeOrders,
    retireBidHead_deref, h4, h4, h5]

/-- What is known of an index entry that survived a trade block. -/
theorem mem_tradeBuy_activeOrders {s : OrderBook} {b sp : OrderPointer} {k q : Int}
    {e : Int × OrderPointer} (h : e ∈ (s.tradeBuy b sp k q).activeOrders_) :
    e ∈ s.activeOrders_ ∧
    (((s.tradeBuy b sp k q).deref sp).quantity = 0 → e.1 ≠ (s.deref sp).orderId) ∧
    (((s.tradeBuy b sp k q).deref b).quantity = 0 → e.1 ≠ (s.deref b).orderId) := by
  rw [tradeBuy_activeOrders] at h
  refine ⟨?_, ?_, ?_⟩
  · split_ifs at h
    · exact mem_activeErase (mem_activeErase h)
    · exact mem_activeErase h
    · exact mem_activeErase h
    · exact h
  · intro h0
    rw [if_pos h0] at h
    split_ifs at h
    · exact mem_activeErase_ne (mem_activeErase h)
    · exact mem_activeErase_ne h
  · intro h0
    rw [if_pos h0] at h
    exact mem_activeErase_ne h

theorem mem_tradeSell_activeOrders {s : OrderBook} {sp b : OrderPointer} {k q : Int}
    {e : Int × OrderPointer} (h : e ∈ (s.tradeSell sp b k q).activeOrders_) :
    e ∈ s.activeOrders_ ∧
    (((s.tradeSell sp b k q).deref b).quantity = 0 → e.1 ≠ (s.deref b).orderId) ∧
    (((s.tradeSell sp b k q).deref sp).quantity = 0 → e.1 ≠ (s.deref sp).orderId) := by
  rw [tradeSell_activeOrders] at h
  refine ⟨?_, ?_, ?_⟩
  · split_ifs at h
    · exact mem_activeErase (mem_activeErase h)
    · exact mem_activeErase h
    · exact mem_activeErase h
    · exact h
  · intro h0
    rw [if_pos h0] at h
    split_ifs at h
    · exact mem_activeErase_ne (mem_activeErase h)
    · exact mem_activeErase_ne h
  · intro h0
    rw [if_pos h0] at h
    exact mem_activeErase_ne h

end OrderBook

namespace OrderBook

theorem retired_of_shrinks {s s1 : OrderBook} (hsh : Shrinks s s1) {x : OrderPointer}
    (h : Retired s x) : Retired s1 x :=
  ⟨fun hx => h.1 (mem_restingOrders_of_levelSub hsh.2.1 hx),
   fun hx => h.2.1 (mem_restingOrders_of_levelSub hsh.2.2.1 hx),
   by rw [hsh.1.orderId]; exact activeFind_none_of_sublist hsh.2.2.2.2.2.1 h.2.2⟩

/-- One iteration of `matchBuyOrder` in a well-formed state whose resting orders
have positive quantities: the index keeps referring to resting orders only, an
order whose quantity reaches zero is retired, no quantity becomes negative, and
orders without quantity are not touched. -/
theorem matchBuyStep_retires {s s1 : OrderBook} {b : OrderPointer} (hw : WellFormed s)
    (hps : LevelsPositive s s.sellOrders_)
    (hside : (s.deref b).side = Side.buy) (hstep : matchBuyStep s b = some s1) :
    (IndexRests s → IndexRests s1) ∧
    (∀ x, 0 < (s.deref x).quantity → 0 ≤ (s1.deref x).quantity ∧
      ((s1.deref x).quantity = 0 → Retired s1 x)) ∧
    (∀ x, (s.deref x).quantity ≤ 0 → s1.deref x = s.deref x) := by
  have hsh := shrinks_matchBuyStep hstep
  obtain ⟨k, sp, tl, rest, hs, hqb, _, h4 | h4⟩ := matchBuyStep_some hstep
  · exfalso
    have := (hps (k, sp :: tl) (by rw [hs]; exact List.mem_cons_self _ _)).2 sp
      (List.mem_cons_self _ _)
    omega
  · obtain ⟨hqs, rfl⟩ := h4
    have hhead : (k, sp :: tl) ∈ s.sellOrders_ := by rw [hs]; exact List.mem_cons_self _ _
    have hspv := (hw.2.2.2.2.2.1 _ hhead sp (List.mem_cons_self _ _))
    have hspside : (s.deref sp).side ≠ Side.buy := hspv.2.2
    have hbsp : b ≠ sp := fun e => hspside (e ▸ hside)
    obtain ⟨e1, e2, e3⟩ := tradeBuy_effect s b sp k
      (min (s.deref b).quantity (s.deref sp).quantity) hbsp hqb hqs
    have hm1 := min_le_left (s.deref b).quantity (s.deref sp).quantity
    have hm2 := min_le_right (s.deref b).quantity (s.deref sp).quantity
    obtain ⟨u1, u2⟩ := ask_head_unique hw hs
    have hbo := tradeBuy_buyOrders s b sp k (min (s.deref b).quantity (s.deref sp).quantity)
    have hso := tradeBuy_sellOrders s b sp k (min (s.deref b).quantity (s.deref sp).quantity)
    rw [← tradeBuy_deref] at hso
    have hao := tradeBuy_activeOrders s b sp k (min (s.deref b).quantity (s.deref sp).quantity)
    obtain ⟨t, ht⟩ : ∃ t, t = s.tradeBuy b sp k (min (s.deref b).quantity (s.deref sp).quantity) :=
      ⟨_, rfl⟩
    rw [← ht] at hsh e1 e2 e3 hbo hso hao ⊢
    have hnb := not_mem_removeFromLevel_buy hw b hside
    have hspnb : sp ∉ restingOrders s.buyOrders_ := by
      intro hc
      obtain ⟨e, he, hpe⟩ := mem_restingOrders.1 hc
      exact hspside (hw.2.2.2.2.1 e he sp hpe).2.2
    refine ⟨?_, ?_, ?_⟩
    · intro hir e he
      have hmem : e ∈ s.activeOrders_ ∧
          ((t.deref sp).quantity = 0 → e.1 ≠ (s.deref sp).orderId) ∧
          ((t.deref b).quantity = 0 → e.1 ≠ (s.deref b).orderId) := by
        rw [ht] at he ⊢
        exact mem_tradeBuy_activeOrders he
      obtain ⟨m1, m2, m3⟩ := hmem
      have hid : (s.deref e.2).orderId = e.1 := (hw.2.2.2.2.2.2.1 e m1).2
      rcases hir e m1 with hr | hr
      · left
        rw [hbo]
        split_ifs with h0
        · exact mem_restingOrders_removeFromLevel s _ _ (sortedKeys_buy_nodup hw.1) hr
            (by rw [hid]; exact m3 h0)
        · exact hr
      · right
        rw [hso]
        split_ifs with h0
        · rw [hs] at hr ⊢
          exact mem_restingOrders_popFront u1 hr
            (fun hc => m2 h0 (by rw [← hid, hc]))
        · exact hr
    · intro x hx
      by_cases hxb : x = b
      · rw [hxb]
        refine ⟨by rw [e1]; omega, fun h0 => ⟨?_, ?_, ?_⟩⟩
        · rw [hbo, if_pos h0]; exact hnb.1
        · exact fun hc => hnb.2 (mem_restingOrders_of_levelSub hsh.2.2.1 hc)
        · rw [hao, if_pos h0, hsh.1.orderId]
          exact activeFind_activeErase_self _ _
      · by_cases hxs : x = sp
        · rw [hxs]
          refine ⟨by rw [e2]; omega, fun h0 => ⟨?_, ?_, ?_⟩⟩
          · exact fun hc => hspnb (mem_restingOrders_of_levelSub hsh.2.1 hc)
          · rw [hso, if_pos h0, hs]
            exact not_mem_popFront u1 (hps _ hhead).1 u2
          · rw [hsh.1.orderId]
            have hsub : t.activeOrders_.Sublist
                (activeErase s.activeOrders_ (s.deref sp).orderId) := by
              rw [hao, if_pos h0]
              split_ifs
              · exact activeErase_sublist _ _
              · exact List.Sublist.refl _
            exact activeFind_none_of_sublist hsub (activeFind_activeErase_self _ _)
        · rw [e3 x hxb hxs]
          exact ⟨le_of_lt hx, fun h0 => by omega⟩
    · intro x hx
      exact e3 x (fun e => by rw [e] at hx; omega) (fun e => by rw [e] at hx; omega)

end OrderBook

namespace OrderBook

/-- One iteration of `matchSellOrder`, as `matchBuyStep_retires`. -/
theorem matchSellStep_retires {s s1 : OrderBook} {a : OrderPointer} (hw : WellFormed s)
    (hpb : LevelsPositive s s.buyOrders_)
    (hside : (s.deref a).side ≠ Side.buy) (hstep : matchSellStep s a = some s1) :
    (IndexRests s → IndexRests s1) ∧
    (∀ x, 0 < (s.deref x).quantity → 0 ≤ (s1.deref x).quantity ∧
      ((s1.deref x).quantity = 0 → Retired s1 x)) ∧
    (∀ x, (s.deref x).quantity ≤ 0 → s1.deref x = s.deref x) := by
  have hsh := shrinks_matchSellStep hstep
  obtain ⟨k, bp, tl, rest, hs, hqa, _, hqb, rfl⟩ := matchSellStep_some hstep
  have hhead : (k, bp :: tl) ∈ s.buyOrders_ := by rw [hs]; exact List.mem_cons_self _ _
  have hbpv := (hw.2.2.2.2.1 _ hhead bp (List.mem_cons_self _ _))
  have hbpside : (s.deref bp).side = Side.buy := hbpv.2.2
  have habp : a ≠ bp := fun e => hside (e ▸ hbpside)
  obtain ⟨e1, e2, e3⟩ := tradeSell_effect s a bp k
    (min (s.deref a).quantity (s.deref bp).quantity) habp hqa hqb
  have hm1 := min_le_left (s.deref a).quantity (s.deref bp).quantity
  have hm2 := min_le_right (s.deref a).quantity (s.deref bp).quantity
  obtain ⟨u1, u2⟩ := bid_head_unique hw hs
  have hso := tradeSell_sellOrders s a bp k (min (s.deref a).quantity (s.deref bp).quantity)
  have hbo := tradeSell_buyOrders s a bp k (min (s.deref a).quantity (s.deref bp).quantity)
  rw [← tradeSell_deref] at hbo
  have hao := tradeSell_activeOrders s a bp k (min (s.deref a).quantity (s.deref bp).quantity)
  obtain ⟨t, ht⟩ : ∃ t, t = s.tradeSell a bp k (min (s.deref a).quantity (s.deref bp).quantity) :=
    ⟨_, rfl⟩
  rw [← ht] at hsh e1 e2 e3 hbo hso hao ⊢
  have hns := not_mem_removeFromLevel_sell hw a hside
  have hbpns : bp ∉ restingOrders s.sellOrders_ := by
    intro hc
    obtain ⟨e, he, hpe⟩ := mem_restingOrders.1 hc
    exact (hw.2.2.2.2.2.1 e he bp hpe).2.2 hbpside
  refine ⟨?_, ?_, ?_⟩
  · intro hir e he
    have hmem : e ∈ s.activeOrders_ ∧
        ((t.deref bp).quantity = 0 → e.1 ≠ (s.deref bp).orderId) ∧
        ((t.deref a).quantity = 0 → e.1 ≠ (s.deref a).orderId) := by
      rw [ht] at he ⊢
      exact mem_tradeSell_activeOrders he
    obtain ⟨m1, m2, m3⟩ := hmem
    have hid : (s.deref e.2).orderId = e.1 := (hw.2.2.2.2.2.2.1 e m1).2
    rcases hir e m1 with hr | hr
    · left
      rw [hbo]
      split_ifs with h0
      · rw [hs] at hr ⊢
        exact mem_restingOrders_popFront u1 hr
          (fun hc => m2 h0 (by rw [← hid, hc]))
      · exact hr
    · right
      rw [hso]
      split_ifs with h0
      · exact mem_restingOrders_removeFromLevel s _ _ (sortedKeys_sell_nodup hw.2.1) hr
          (by rw [hid]; exact m3 h0)
      · exact hr
  · intro x hx
    by_cases hxa : x = a
    · rw [hxa]
      refine ⟨by rw [e1]; omega, fun h0 => ⟨?_, ?_, ?_⟩⟩
      · exact fun hc => hns.1 (mem_restingOrders_of_levelSub hsh.2.1 hc)
      · rw [hso, if_pos h0]; exact hns.2
      · rw [hsh.1.orderId]
        have hsub : t.activeOrders_.Sublist
            (activeErase (if (t.deref bp).quantity = 0 then
              activeErase s.activeOrders_ (s.deref bp).orderId else s.activeOrders_)
              (s.deref a).orderId) := by
          rw [hao, if_pos h0]
        exact activeFind_none_of_sublist hsub (activeFind_activeErase_self _ _)
    · by_cases hxb : x = bp
      · rw [hxb]
        refine ⟨by rw [e2]; omega, fun h0 => ⟨?_, ?_, ?_⟩⟩
        · rw [hbo, if_pos h0, hs]
          exact not_mem_popFront u1 (hpb _ hhead).1 u2
        · exact fun hc => hbpns (mem_restingOrders_of_levelSub hsh.2.2.1 hc)
        · rw [hsh.1.orderId]
          have hsub : t.activeOrders_.Sublist
              (activeErase s.activeOrders_ (s.deref bp).orderId) := by
            rw [hao, if_pos h0]
            split_ifs
            · exact activeErase_sublist _ _
            · exact List.Sublist.refl _
          exact activeFind_none_of_sublist hsub (activeFind_activeErase_self _ _)
      · rw [e3 x hxa hxb]
        exact ⟨le_of_lt hx, fun h0 => by omega⟩
  · intro x hx
    exact e3 x (fun e => by rw [e] at hx; omega) (fun e => by rw [e] at hx; omega)

/-- The invariants carried through one call of `matchBuyOrder`. -/
theorem matchBuyLoop_retires (n : Nat) {s : OrderBook} {b : OrderPointer} (hw : WellFormed s)
    (hpb : LevelsPositive s s.buyOrders_) (hps : LevelsPositive s s.sellOrders_)
    (hside : (s.deref b).side = Side.buy) :
    (IndexRests s → IndexRests (matchBuyLoop n s b)) ∧
    (∀ x, 0 < (s.deref x).quantity → 0 ≤ ((matchBuyLoop n s b).deref x).quantity ∧
      (((matchBuyLoop n s b).deref x).quantity = 0 → Retired (matchBuyLoop n s b) x)) := by
  have key := matchBuyLoop_induct
    (fun t => Shrinks s t ∧ WellFormed t ∧ LevelsPositive t t.buyOrders_ ∧
      LevelsPositive t t.sellOrders_ ∧ (IndexRests s → IndexRests t) ∧
      (∀ x, 0 < (s.deref x).quantity → 0 ≤ (t.deref x).quantity ∧
        ((t.deref x).quantity = 0 → Retired t x)))
    b ?_ n s ⟨shrinks_refl s, hw, hpb, hps, id, fun x hx => ⟨le_of_lt hx, fun h0 => by omega⟩⟩
  · exact ⟨key.2.2.2.2.1, key.2.2.2.2.2⟩
  · intro t t1 ⟨a1, a2, a3, a4, a5, a6⟩ hstep
    have hsh := shrinks_matchBuyStep hstep
    have hsd : (t.deref b).side = Side.buy := by rw [a1.1.side]; exact hside
    obtain ⟨r1, r2, r3⟩ := matchBuyStep_retires a2 a4 hsd hstep
    obtain ⟨p1, p2⟩ := levelsPositive_matchBuyStep a2 a3 a4 hsd hstep
    refine ⟨shrinks_trans a1 hsh, wellFormed_of_shrinks a2 hsh, p1, p2, fun h => r1 (a5 h), ?_⟩
    intro x hx
    obtain ⟨q1, q2⟩ := a6 x hx
    rcases lt_or_eq_of_le q1 with h | h
    · exact r2 x h
    · have hsame := r3 x (le_of_eq h.symm)
      rw [hsame]
      exact ⟨q1, fun h0 => retired_of_shrinks hsh (q2 h0)⟩

theorem matchSellLoop_retires (n : Nat) {s : OrderBook} {a : OrderPointer} (hw : WellFormed s)
    (hpb : LevelsPositive s s.buyOrders_) (hps : LevelsPositive s s.sellOrders_)
    (hside : (s.deref a).side ≠ Side.buy) :
    (IndexRests s → IndexRests (matchSellLoop n s a)) ∧
    (∀ x, 0 < (s.deref x).quantity → 0 ≤ ((matchSellLoop n s a).deref x).quantity ∧
      (((matchSellLoop n s a).deref x).quantity = 0 → Retired (matchSellLoop n s a) x)) := by
  have key := matchSellLoop_induct
    (fun t => Shrinks s t ∧ WellFormed t ∧ LevelsPositive t t.buyOrders_ ∧
      LevelsPositive t t.sellOrders_ ∧ (IndexRests s → IndexRests t) ∧
      (∀ x, 0 < (s.deref x).quantity → 0 ≤ (t.deref x).quantity ∧
        ((t.deref x).quantity = 0 → Retired t x)))
    a ?_ n s ⟨shrinks_refl s, hw, hpb, hps, id, fun x hx => ⟨le_of_lt hx, fun h0 => by omega⟩⟩
  · exact ⟨key.2.2.2.2.1, key.2.2.2.2.2⟩
  · intro t t1 ⟨a1, a2, a3, a4, a5, a6⟩ hstep
    have hsh := shrinks_matchSellStep hstep
    have hsd : (t.deref a).side ≠ Side.buy := by rw [a1.1.side]; exact hside
    obtain ⟨r1, r2, r3⟩ := matchSellStep_retires a2 a3 hsd hstep
    obtain ⟨p1, p2⟩ := levelsPositive_matchSellStep a2 a3 a4 hsd hstep
    refine ⟨shrinks_trans a1 hsh, wellFormed_of_shrinks a2 hsh, p1, p2, fun h => r1 (a5 h), ?_⟩
    intro x hx
    obtain ⟨q1, q2⟩ := a6 x hx
    rcases lt_or_eq_of_le q1 with h | h
    · exact r2 x h
    · have hsame := r3 x (le_of_eq h.symm)
      rw [hsame]
      exact ⟨q1, fun h0 => retired_of_shrinks hsh (q2 h0)⟩

end OrderBook

namespace OrderBook

theorem run_of_disciplined {s : OrderBook} (h : Disciplined s) : ∃ g, Run s g := by
  induction h with
  | init => exact ⟨_, Run.init⟩
  | add s orderId price quantity side orderType _ hf hq ih =>
    obtain ⟨g, hg⟩ := ih
    exact ⟨_, Run.add s g orderId price quantity side orderType hg hf hq⟩
  | cancel s orderId _ ih =>
    obtain ⟨g, hg⟩ := ih
    exact ⟨_, Run.cancel s g orderId hg⟩
  | modify s orderId newQuantity newPrice _ hq ih =>
    obtain ⟨g, hg⟩ := ih
    exact ⟨_, Run.modify s g orderId newQuantity newPrice hg hq⟩
  | buyWorker s _ ih =>
    obtain ⟨g, hg⟩ := ih
    exact ⟨_, Run.buyWorker s g hg⟩
  | sellWorker s _ ih =>
    obtain ⟨g, hg⟩ := ih
    exact ⟨_, Run.sellWorker s g hg⟩

theorem idsDistinct_of_disciplined {s : OrderBook} (h : Disciplined s) : IdsDistinct s := by
  obtain ⟨g, hg⟩ := run_of_disciplined h
  exact (balanced_of_run hg).2.1

theorem indexRests_processBuyOrdersStep {s : OrderBook} (h : Settled s) (hi : IndexRests s) :
    IndexRests s.processBuyOrdersStep := by
  unfold processBuyOrdersStep
  cases hq : s.buyQueue_ with
  | nil => exact hi
  | cons b rest =>
    simp only
    have hw1 : WellFormed { s with buyQueue_ := rest } := by
      have := wellFormed_popBuy h.1
      rw [hq] at this
      exact this
    have hside : (s.deref b).side = Side.buy :=
      (h.1.2.2.2.2.2.2.2.1 b (by rw [hq]; exact List.mem_cons_self _ _)).2
    exact (matchBuyLoop_retires (s := { s with buyQueue_ := rest }) _ hw1 h.2.1 h.2.2.1 hside).1 hi

theorem indexRests_processSellOrdersStep {s : OrderBook} (h : Settled s) (hi : IndexRests s) :
    IndexRests s.processSellOrdersStep := by
  unfold processSellOrdersStep
  cases hq : s.sellQueue_ with
  | nil => exact hi
  | cons b rest =>
    simp only
    have hw1 : WellFormed { s with sellQueue_ := rest } := by
      have := wellFormed_popSell h.1
      rw [hq] at this
      exact this
    have hside : (s.deref b).side ≠ Side.buy :=
      (h.1.2.2.2.2.2.2.2.2 b (by rw [hq]; exact List.mem_cons_self _ _)).2
    exact (matchSellLoop_retires (s := { s with sellQueue_ := rest }) _ hw1 h.2.1 h.2.2.1
      hside).1 hi

theorem indexRests_processOrder {s : OrderBook} (h : Settled s) (hi : IndexRests s)
    (p : OrderPointer) : IndexRests (s.processOrder p) := by
  unfold processOrder
  split_ifs with h1 h2
  · exact (matchBuyLoop_retires _ h.1 h.2.1 h.2.2.1 h1).1 hi
  · exact (matchSellLoop_retires _ h.1 h.2.1 h.2.2.1 h1).1 hi
  · exact hi

theorem indexRests_of_same {s t : OrderBook} (hb : t.buyOrders_ = s.buyOrders_)
    (hs : t.sellOrders_ = s.sellOrders_) (ha : t.activeOrders_ = s.activeOrders_)
    (hi : IndexRests s) : IndexRests t := by
  intro e he
  rw [ha] at he
  rw [hb, hs]
  exact hi e he

theorem indexRests_insertResting {u : OrderBook} (hnb : (u.buyOrders_.map Prod.fst).Nodup)
    (hns : (u.sellOrders_.map Prod.fst).Nodup) (p : OrderPointer) (side : Side) (k : Int)
    (hi : ∀ e ∈ u.activeOrders_, e.2 = p ∨ e.2 ∈ restingOrders u.buyOrders_ ∨
      e.2 ∈ restingOrders u.sellOrders_) :
    IndexRests (u.insertResting p side k) := by
  intro e he
  rw [insertResting_activeOrders] at he
  unfold insertResting
  split_ifs
  · rcases hi e he with h | h | h
    · rw [h]; exact Or.inl (mem_restingOrders_mapPushBack_self _ _ _ _)
    · exact Or.inl (mem_restingOrders_mapPushBack _ _ _ hnb h)
    · exact Or.inr h
  · rcases hi e he with h | h | h
    · rw [h]; exact Or.inr (mem_restingOrders_mapPushBack_self _ _ _ _)
    · exact Or.inl h
    · exact Or.inr (mem_restingOrders_mapPushBack _ _ _ hns h)

theorem indexRests_addOrder {s : OrderBook} (h : Settled s) (hi : IndexRests s)
    (orderId price quantity : Int) (side : Side) (orderType : OrderType) :
    IndexRests (s.addOrder orderId price quantity side orderType) := by
  have h0 : Settled (s.alloc (Order.mk orderType orderId price quantity side 0)) :=
    settled_alloc h _
  have hi0 : IndexRests (s.alloc (Order.mk orderType orderId price quantity side 0)) := hi
  by_cases hM : orderType = OrderType.Market
  · unfold addOrder
    simp only [if_pos hM]
    exact indexRests_processOrder h0 hi0 _
  · by_cases hI : orderType = OrderType.IOC
    · unfold addOrder
      simp only [if_neg hM, if_pos hI]
      have := indexRests_processOrder h0 hi0 s.heap.length
      split_ifs
      · exact indexRests_of_same rfl rfl rfl this
      · exact this
    · rw [addOrder_resting s _ _ _ _ _ hM hI]
      refine indexRests_insertResting ?_ ?_ _ _ _ ?_
      · exact sortedKeys_buy_nodup h.1.1
      · exact sortedKeys_sell_nodup h.1.2.1
      intro e he
      rcases List.mem_cons.1 he with h1 | h1
      · left; rw [h1]
      · right; exact hi e (mem_activeErase h1)

theorem indexRests_cancelOrder {s : OrderBook} (hw : WellFormed s) (hi : IndexRests s)
    (orderId : Int) : IndexRests (s.cancelOrder orderId).2 := by
  cases hf : activeFind s.activeOrders_ orderId with
  | none =>
    have : (s.cancelOrder orderId).2 = s := by unfold cancelOrder; rw [hf]
    rw [this]; exact hi
  | some p =>
    obtain ⟨_, ci, _, _, cb, cs⟩ := cancelOrder_books s orderId p hf
    intro e he
    rw [ci] at he
    have hne := mem_activeErase_ne he
    have hmem := mem_activeErase he
    have hid : (s.deref e.2).orderId ≠ orderId := by
      rw [(hw.2.2.2.2.2.2.1 e hmem).2]; exact hne
    by_cases hb : (s.deref p).side = Side.buy
    · rw [(cb hb).1, (cb hb).2]
      rcases hi e hmem with h | h
      · exact Or.inl (mem_restingOrders_removeFromLevel s _ _ (sortedKeys_buy_nodup hw.1) h hid)
      · exact Or.inr h
    · rw [(cs hb).1, (cs hb).2]
      rcases hi e hmem with h | h
      · exact Or.inl h
      · exact Or.inr
          (mem_restingOrders_removeFromLevel s _ _ (sortedKeys_sell_nodup hw.2.1) h hid)

theorem indexRests_modifyOrder {s : OrderBook} (hw : WellFormed s) (hd : IdsDistinct s)
    (hi : IndexRests s) (orderId newQuantity newPrice : Int) :
    IndexRests (s.modifyOrder orderId newQuantity newPrice).2 := by
  cases hf : activeFind s.activeOrders_ orderId with
  | none =>
    have : (s.modifyOrder orderId newQuantity newPrice).2 = s := by unfold modifyOrder; rw [hf]
    rw [this]; exact hi
  | some p =>
    obtain ⟨hv, hpid⟩ := hw.2.2.2.2.2.2.1 (orderId, p) (mem_of_activeFind hf)
    simp only at hv hpid
    have hbooks := modifyOrder_books s orderId newQuantity newPrice p hf hv
    intro e he
    rw [modifyOrder_activeOrders] at he
    obtain ⟨hev, heid⟩ := hw.2.2.2.2.2.2.1 e he
    by_cases hep : e.2 = p
    · rw [hep]
      by_cases hb : (s.deref p).side = Side.buy
      · rw [(hbooks.1 hb).1]
        exact Or.inl (mem_restingOrders_mapPushBack_self _ _ _ _)
      · rw [(hbooks.2 hb).1]
        exact Or.inr (mem_restingOrders_mapPushBack_self _ _ _ _)
    · have hid : (s.deref e.2).orderId ≠ orderId := by
        intro hc
        exact hep (hd e.2 p hev hv (by rw [hc, hpid]))
      have hwr := wellFormed_of_shrinks hw (shrinks_removeResting s p orderId)
      by_cases hb : (s.deref p).side = Side.buy
      · rw [(hbooks.1 hb).1, (hbooks.1 hb).2.1]
        rw [removeResting_of_buy s p _ hb] at hwr
        rcases hi e he with h | h
        · exact Or.inl (mem_restingOrders_mapPushBack _ _ _ (sortedKeys_buy_nodup hwr.1)
            (mem_restingOrders_removeFromLevel s _ _ (sortedKeys_buy_nodup hw.1) h hid))
        · exact Or.inr h
      · rw [(hbooks.2 hb).1, (hbooks.2 hb).2.1]
        rw [removeResting_of_not_buy s p _ hb] at hwr
        rcases hi e he with h | h
        · exact Or.inl h
        · exact Or.inr (mem_restingOrders_mapPushBack _ _ _ (sortedKeys_sell_nodup hwr.2.1)
            (mem_restingOrders_removeFromLevel s _ _ (sortedKeys_sell_nodup hw.2.1) h hid))

theorem indexRests_of_disciplined {s : OrderBook} (h : Disciplined s) : IndexRests s := by
  induction h with
  | init => intro e he; simp [empty] at he
  | add s orderId price quantity side orderType hs _ _ ih =>
    exact indexRests_addOrder (settled_of_disciplined hs) ih _ _ _ _ _
  | cancel s orderId hs ih =>
    exact indexRests_cancelOrder (settled_of_disciplined hs).1 ih _
  | modify s orderId newQuantity newPrice hs _ ih =>
    exact indexRests_modifyOrder (settled_of_disciplined hs).1 (idsDistinct_of_disciplined hs)
      ih _ _ _
  | buyWorker s hs ih => exact indexRests_processBuyOrdersStep (settled_of_disciplined hs) ih
  | sellWorker s hs ih => exact indexRests_processSellOrdersStep (settled_of_disciplined hs) ih

end OrderBook

namespace OrderBook

/-- In a settled state an order resting in a side book occurs exactly once in
it, in the level whose key is its price. -/
theorem resting_once {s : OrderBook} {m : PriceMap} {p : OrderPointer}
    (hk : (m.map Prod.fst).Nodup) (hprice : ∀ e ∈ m, ∀ x ∈ e.2, (s.deref x).price = e.1)
    (hn : LevelsNodup m) (hp : p ∈ restingOrders m) :
    (∃ l, mapFind m (s.deref p).price = some l ∧ l.count p = 1) ∧
    (restingOrders m).count p = 1 := by
  obtain ⟨e, he, hpe⟩ := mem_restingOrders.1 hp
  have hf := mapFind_of_mem hk he
  rw [← hprice e he p hpe] at hf
  exact ⟨⟨e.2, hf, List.count_eq_one_of_mem (hn e he) hpe⟩,
    List.count_eq_one_of_mem (restingOrders_nodup hk hprice hn) hp⟩

/-- C17 (index/book consistency).  In every state reachable from the empty book
by `addOrder` (id never used before, quantity > 0), `cancelOrder`, `modifyOrder`
(new quantity > 0) and worker steps, for every id the index maps to an order
`p`: the record of `p` carries that id; when the side of `p` is "buy", the bid
book has a level under the price of `p`, `p` occurs exactly once in that level
and exactly once in the whole bid book, and not at all in the ask book; when
the side of `p` is not "buy", the same holds with the ask book and the bid book
exchanged. -/
theorem index_book_consistency (s : OrderBook) (h : Disciplined s) (orderId : Int)
    (p : OrderPointer) (hfind : activeFind s.activeOrders_ orderId = some p) :
    (s.deref p).orderId = orderId ∧
    ((s.deref p).side = Side.buy →
      (∃ l, mapFind s.buyOrders_ (s.deref p).price = some l ∧ l.count p = 1) ∧
      (restingOrders s.buyOrders_).count p = 1 ∧ (restingOrders s.sellOrders_).count p = 0) ∧
    ((s.deref p).side ≠ Side.buy →
      (∃ l, mapFind s.sellOrders_ (s.deref p).price = some l ∧ l.count p = 1) ∧
      (restingOrders s.sellOrders_).count p = 1 ∧ (restingOrders s.buyOrders_).count p = 0) := by
  obtain ⟨hw, hpb, hps, _⟩ := settled_of_disciplined h
  have hmem := mem_of_activeFind hfind
  have hir := indexRests_of_disciplined h (orderId, p) hmem
  simp only at hir
  have hnb : p ∈ restingOrders s.buyOrders_ → (s.deref p).side = Side.buy := fun hc => by
    obtain ⟨e, he, hpe⟩ := mem_restingOrders.1 hc
    exact (hw.2.2.2.2.1 e he p hpe).2.2
  have hns : p ∈ restingOrders s.sellOrders_ → (s.deref p).side ≠ Side.buy := fun hc => by
    obtain ⟨e, he, hpe⟩ := mem_restingOrders.1 hc
    exact (hw.2.2.2.2.2.1 e he p hpe).2.2
  refine ⟨(hw.2.2.2.2.2.2.1 _ hmem).2, fun hb => ?_, fun hb => ?_⟩
  · have hin : p ∈ restingOrders s.buyOrders_ := by
      rcases hir with h1 | h1
      · exact h1
      · exact absurd hb (hns h1)
    obtain ⟨r1, r2⟩ := resting_once (s := s) (sortedKeys_buy_nodup hw.1)
      (fun e he x hx => (hw.2.2.2.2.1 e he x hx).2.1) (fun e he => (hpb e he).1) hin
    exact ⟨r1, r2, List.count_eq_zero_of_not_mem (fun hc => hns hc hb)⟩
  · have hin : p ∈ restingOrders s.sellOrders_ := by
      rcases hir with h1 | h1
      · exact absurd (hnb h1) hb
      · exact h1
    obtain ⟨r1, r2⟩ := resting_once (s := s) (sortedKeys_sell_nodup hw.2.1)
      (fun e he x hx => (hw.2.2.2.2.2.1 e he x hx).2.1) (fun e he => (hps e he).1) hin
    exact ⟨r1, r2, List.count_eq_zero_of_not_mem (fun hc => hb (hnb hc))⟩

/-- Example for C17: after the partial fill of buy 3 (20 at 150) by sell 4 (10 at
150) the index still maps 3 to its order, which rests once, at 150. -/
theorem index_book_consistency_witness :
    Disciplined (((empty.addOrder 3 150 20 Side.buy OrderType.Limit).addOrder 4 150 10
      Side.sell OrderType.Limit).processBuyOrdersStep) ∧
    activeFind (((empty.addOrder 3 150 20 Side.buy OrderType.Limit).addOrder 4 150 10
      Side.sell OrderType.Limit).processBuyOrdersStep).activeOrders_ 3 = some 0 ∧
    (restingOrders (((empty.addOrder 3 150 20 Side.buy OrderType.Limit).addOrder 4 150 10
      Side.sell OrderType.Limit).processBuyOrdersStep).buyOrders_).count 0 = 1 :=
  ⟨Disciplined.buyWorker _ (Disciplined.add _ 4 150 10 Side.sell OrderType.Limit
      (Disciplined.add _ 3 150 20 Side.buy OrderType.Limit Disciplined.init
        (by decide) (by decide)) (by decide) (by decide)),
   by decide,
   ((index_book_consistency _ (Disciplined.buyWorker _ (Disciplined.add _ 4 150 10 Side.sell
      OrderType.Limit (Disciplined.add _ 3 150 20 Side.buy OrderType.Limit Disciplined.init
        (by decide) (by decide)) (by decide) (by decide))) 3 0 (by decide)).2.1
      (by decide)).2.1⟩

end OrderBook

namespace OrderBook

theorem processBuyOrdersStep_retires {s : OrderBook} (h : Settled s) (x : OrderPointer)
    (hx : 0 < (s.deref x).quantity) (h0 : (s.processBuyOrdersStep.deref x).quantity = 0) :
    Retired s.processBuyOrdersStep x := by
  unfold processBuyOrdersStep at h0 ⊢
  cases hq : s.buyQueue_ with
  | nil =>
    rw [hq] at h0
    simp only at h0
    omega
  | cons b rest =>
    rw [hq] at h0
    simp only at h0 ⊢
    have hw1 : WellFormed { s with buyQueue_ := rest } := by
      have := wellFormed_popBuy h.1
      rw [hq] at this
      exact this
    have hside : (s.deref b).side = Side.buy :=
      (h.1.2.2.2.2.2.2.2.1 b (by rw [hq]; exact List.mem_cons_self _ _)).2
    exact ((matchBuyLoop_retires (s := { s with buyQueue_ := rest }) _ hw1 h.2.1 h.2.2.1
      hside).2 x hx).2 h0

theorem processSellOrdersStep_retires {s : OrderBook} (h : Settled s) (x : OrderPointer)
    (hx : 0 < (s.deref x).quantity) (h0 : (s.processSellOrdersStep.deref x).quantity = 0) :
    Retired s.processSellOrdersStep x := by
  unfold processSellOrdersStep at h0 ⊢
  cases hq : s.sellQueue_ with
  | nil =>
    rw [hq] at h0
    simp only at h0
    omega
  | cons b rest =>
    rw [hq] at h0
    simp only at h0 ⊢
    have hw1 : WellFormed { s with sellQueue_ := rest } := by
      have := wellFormed_popSell h.1
      rw [hq] at this
      exact this
    have hside : (s.deref b).side ≠ Side.buy :=
      (h.1.2.2.2.2.2.2.2.2 b (by rw [hq]; exact List.mem_cons_self _ _)).2
    exact ((matchSellLoop_retires (s := { s with sellQueue_ := rest }) _ hw1 h.2.1 h.2.2.1
      hside).2 x hx).2 h0

theorem processOrder_retires {s : OrderBook} (h : Settled s) (p x : OrderPointer)
    (hx : 0 < (s.deref x).quantity) (h0 : ((s.processOrder p).deref x).quantity = 0) :
    Retired (s.processOrder p) x := by
  unfold processOrder at h0 ⊢
  split_ifs at h0 ⊢ with h1 h2
  · exact ((matchBuyLoop_retires _ h.1 h.2.1 h.2.2.1 h1).2 x hx).2 h0
  · exact ((matchSellLoop_retires _ h.1 h.2.1 h.2.2.1 h1).2 x hx).2 h0
  · omega

/-- C18 (positive residuals).  In every state `s` reachable from the empty book
by `addOrder` (id never used before, quantity > 0), `cancelOrder`, `modifyOrder`
(new quantity > 0) and worker steps, every order in every price level of either
side has a quantity > 0.  Moreover, in every match call made from such a state,
by a buy worker step, by a sell worker step, or by `addOrder` for a new Market
or IOC order `o` (the call `processOrder` on the state with `o` allocated), an
order whose quantity was > 0 when the call started and is zero when it returns,
be it a resting counterparty or the incoming order itself, is by then in no
price level of either side and has no entry in the index. -/
theorem positive_residuals (s : OrderBook) (h : Disciplined s) :
    (∀ e ∈ s.buyOrders_, ∀ p ∈ e.2, 0 < (s.deref p).quantity) ∧
    (∀ e ∈ s.sellOrders_, ∀ p ∈ e.2, 0 < (s.deref p).quantity) ∧
    (∀ x, 0 < (s.deref x).quantity → (s.processBuyOrdersStep.deref x).quantity = 0 →
      Retired s.processBuyOrdersStep x) ∧
    (∀ x, 0 < (s.deref x).quantity → (s.processSellOrdersStep.deref x).quantity = 0 →
      Retired s.processSellOrdersStep x) ∧
    (∀ (o : Order) (x : OrderPointer), 0 < ((s.alloc o).deref x).quantity →
      (((s.alloc o).processOrder s.heap.length).deref x).quantity = 0 →
      Retired ((s.alloc o).processOrder s.heap.length) x) := by
  have hst := settled_of_disciplined h
  exact ⟨fun e he => (hst.2.1 e he).2, fun e he => (hst.2.2.1 e he).2,
    fun x => processBuyOrdersStep_retires hst x, fun x => processSellOrdersStep_retires hst x,
    fun o x => processOrder_retires (settled_alloc hst o) _ x⟩

/-- Example for C18: buy 3 (20 at 150) and sell 4 (10 at 150) rest; the buy
worker step fills sell 4 completely, and it is retired. -/
theorem positive_residuals_witness :
    Disciplined ((empty.addOrder 3 150 20 Side.buy OrderType.Limit).addOrder 4 150 10
      Side.sell OrderType.Limit) ∧
    (((empty.addOrder 3 150 20 Side.buy OrderType.Limit).addOrder 4 150 10
      Side.sell OrderType.Limit).deref 1).quantity = 10 ∧
    ((((empty.addOrder 3 150 20 Side.buy OrderType.Limit).addOrder 4 150 10
      Side.sell OrderType.Limit).processBuyOrdersStep).deref 1).quantity = 0 ∧
    Retired (((empty.addOrder 3 150 20 Side.buy OrderType.Limit).addOrder 4 150 10
      Side.sell OrderType.Limit).processBuyOrdersStep) 1 :=
  ⟨Disciplined.add _ 4 150 10 Side.sell OrderType.Limit
      (Disciplined.add _ 3 150 20 Side.buy OrderType.Limit Disciplined.init
        (by decide) (by decide)) (by decide) (by decide),
   by decide, by decide,
   (positive_residuals _ (Disciplined.add _ 4 150 10 Side.sell OrderType.Limit
      (Disciplined.add _ 3 150 20 Side.buy OrderType.Limit Disciplined.init
        (by decide) (by decide)) (by decide) (by decide))).2.2.1 1 (by decide) (by decide)⟩

end OrderBook

theorem priceMap_cases (m : PriceMap) : m = [] ∨ ∃ k l more, m = (k, l) :: more := by
  cases m with
  | nil => exact Or.inl rfl
  | cons e more => exact Or.inr ⟨e.1, e.2, more, rfl⟩

namespace OrderBook

/-! ### Orders popped by a worker after they left the book -/

theorem matchBuyOrder_first_trade (s : OrderBook) (b sp : OrderPointer) (k : Int)
    (tl : OrderList) (more : PriceMap) (hs : s.sellOrders_ = (k, sp :: tl) :: more)
    (hb : 0 < (s.deref b).quantity)
    (hc : (s.deref b).orderType = OrderType.Market ∨ k ≤ (s.deref b).price)
    (hsp : 0 < (s.deref sp).quantity) :
    ∃ T, (s.matchBuyOrder b).trades = s.trades ++ Trade.mk (s.deref b).orderId
      (s.deref sp).orderId (min (s.deref b).quantity (s.deref sp).quantity) k :: T := by
  have hstep := matchBuyStep_of_trade hs hb hc hsp
  unfold matchBuyOrder
  simp only [matchBuyLoop, hstep]
  obtain ⟨T, hT⟩ := (shrinks_matchBuyLoop (restingCount s.sellOrders_)
    (s.tradeBuy b sp k (min (s.deref b).quantity (s.deref sp).quantity)) b).2.2.2.2.2.2.2.2
  refine ⟨T, ?_⟩
  rw [← hT, tradeBuy_trades, List.append_assoc]
  rfl

theorem matchSellOrder_first_trade (s : OrderBook) (a bp : OrderPointer) (k : Int)
    (tl : OrderList) (more : PriceMap) (hs : s.buyOrders_ = (k, bp :: tl) :: more)
    (ha : 0 < (s.deref a).quantity)
    (hc : (s.deref a).orderType = OrderType.Market ∨ (s.deref a).price ≤ k)
    (hbp : 0 < (s.deref bp).quantity) :
    ∃ T, (s.matchSellOrder a).trades = s.trades ++ Trade.mk (s.deref bp).orderId
      (s.deref a).orderId (min (s.deref a).quantity (s.deref bp).quantity) k :: T := by
  have hstep := matchSellStep_of_trade hs ha hc hbp
  unfold matchSellOrder
  simp only [matchSellLoop, hstep]
  obtain ⟨T, hT⟩ := (shrinks_matchSellLoop (restingCount s.buyOrders_)
    (s.tradeSell a bp k (min (s.deref a).quantity (s.deref bp).quantity)) a).2.2.2.2.2.2.2.2
  refine ⟨T, ?_⟩
  rw [← hT, tradeSell_trades, List.append_assoc]
  rfl

end OrderBook

namespace OrderBook

/-- C19: a cancelled order still trades (the code does not do what C19 says).
`cancelOrder` returns true for the buy 2, which leaves the bid book and the
index but stays in the buy queue with its quantity 5: `cancelOrder` removes the
two references it finds and misses the third.  The buy worker step that pops
the order emits the trade (2, 1, 5, 100) and takes 5 off the resting sell 1,
where C19 says that it emits no trade and changes no residual.  Likewise the
buy 2 dropped by `reset`, which clears the side books and the index but not the
queues, trades with the sell 3 added afterwards. -/
theorem cancelled_order_trades :
    (((empty.addOrder 1 100 10 Side.sell OrderType.Limit).addOrder 2 100 5 Side.buy
      OrderType.Limit).cancelOrder 2).1 = true ∧
    activeFind cancelledInQueueExample.activeOrders_ 2 = none ∧
    cancelledInQueueExample.buyOrders_ = [] ∧
    cancelledInQueueExample.buyQueue_ = [1] ∧
    (cancelledInQueueExample.deref 1).orderId = 2 ∧
    cancelledInQueueExample.trades = [] ∧
    cancelledInQueueExample.processBuyOrdersStep.trades = [Trade.mk 2 1 5 100] ∧
    (cancelledInQueueExample.deref 0).quantity = 10 ∧
    (cancelledInQueueExample.processBuyOrdersStep.deref 0).quantity = 5 ∧
    cancelledInQueueExample.processBuyOrdersStep.sellOrders_ = [(100, [0])] ∧
    resetInQueueExample.activeOrders_ = [(3, 1)] ∧
    resetInQueueExample.buyOrders_ = [] ∧
    resetInQueueExample.buyQueue_ = [0] ∧
    (resetInQueueExample.deref 0).orderId = 2 ∧
    resetInQueueExample.sellOrders_ = [(100, [1])] ∧
    resetInQueueExample.processBuyOrdersStep.trades = [Trade.mk 2 3 5 100] ∧
    resetInQueueExample.processBuyOrdersStep.sellOrders_ = [] ∧
    resetInQueueExample.processBuyOrdersStep.activeOrders_ = [] := by
  decide

end OrderBook

namespace OrderBook

/-! ### Priority on the own side of a re-examined order -/

/-- C20 as stated fails.  In `priorityExample`, a state of a run with fresh ids
and positive quantities, the buy 1 rests at 101 and the buy 2 at 100; the buy
worker step pops the Limit order 2 and emits the trade (2, 3, 5, 100) for it,
although the resting buy 1 has a strictly higher price: the re-examined order is
not in the best level of its own side. -/
theorem traded_buy_below_resting_buy :
    priorityExample.buyQueue_ = [1] ∧
    (priorityExample.deref 1).orderType = OrderType.Limit ∧
    (priorityExample.deref 1).orderId = 2 ∧
    (priorityExample.deref 1).price = 100 ∧
    priorityExample.buyOrders_ = [(101, [0]), (100, [1])] ∧
    (priorityExample.deref 0).orderId = 1 ∧
    (priorityExample.deref 0).price = 101 ∧
    priorityExample.getBestBid = 101 ∧
    priorityExample.trades = [] ∧
    priorityExample.processBuyOrdersStep.trades = [Trade.mk 2 3 5 100] ∧
    priorityExample.processBuyOrdersStep.buyOrders_ = [(101, [0])] := by
  decide

end OrderBook

theorem order_eq_of_static {o1 o2 : Order} (h : o1.static = o2.static) :
    o1 = { o2 with quantity := o1.quantity } := by
  cases o1; cases o2
  simp only [Order.static, Order.mk.injEq] at h ⊢
  simp [h.1, h.2.1, h.2.2.1, h.2.2.2.2.1, h.2.2.2.2.2]

namespace OrderBook

/-- The state after the two adds. -/
theorem twoResting_after_adds (s0 : OrderBook) (b a p q1 q2 : Int)
    (h1 : s0.buyOrders_ = []) (h2 : s0.sellOrders_ = []) (h3 : s0.activeOrders_ = [])
    (h4 : s0.buyQueue_ = []) (h5 : s0.sellQueue_ = []) (hba : b ≠ a) :
    TwoResting s0 b a p q1 q2
      ((s0.addOrder b p q1 Side.buy OrderType.Limit).addOrder a p q2 Side.sell
        OrderType.Limit) := by
  have hL1 : OrderType.Limit ≠ OrderType.Market := by decide
  have hL2 : OrderType.Limit ≠ OrderType.IOC := by decide
  have hsb : Side.sell ≠ Side.buy := by decide
  obtain ⟨s1, hs1⟩ : ∃ s1, s1 = s0.addOrder b p q1 Side.buy OrderType.Limit := ⟨_, rfl⟩
  have a1 := addOrder_resting_heap s0 b p q1 Side.buy OrderType.Limit hL1 hL2
  have a2 := addOrder_resting_activeOrders s0 b p q1 Side.buy OrderType.Limit hL1 hL2
  have a3 := (addOrder_resting_books s0 b p q1 Side.buy OrderType.Limit hL1 hL2).1 rfl
  have a4 := addOrder_resting_trades s0 b p q1 Side.buy OrderType.Limit hL1 hL2
  rw [← hs1] at a1 a2 a3 a4 ⊢
  have hlen1 : s1.heap.length = s0.heap.length + 1 := by rw [a1]; simp
  have c1 := addOrder_resting_heap s1 a p q2 Side.sell OrderType.Limit hL1 hL2
  have c2 := addOrder_resting_activeOrders s1 a p q2 Side.sell OrderType.Limit hL1 hL2
  have c3 := (addOrder_resting_books s1 a p q2 Side.sell OrderType.Limit hL1 hL2).2 hsb
  have c4 := addOrder_resting_trades s1 a p q2 Side.sell OrderType.Limit hL1 hL2
  obtain ⟨s2, hs2⟩ : ∃ s2, s2 = s1.addOrder a p q2 Side.sell OrderType.Limit := ⟨_, rfl⟩
  rw [← hs2] at c1 c2 c3 c4 ⊢
  have hd1 : s1.deref s0.heap.length = Order.mk OrderType.Limit b p q1 Side.buy 0 := by
    have : s1.heap = (s0.alloc (Order.mk OrderType.Limit b p q1 Side.buy 0)).heap := a1
    rw [deref_congr this, deref_alloc_new]
  have hh2 : s2.heap = (s1.alloc (Order.mk OrderType.Limit a p q2 Side.sell 0)).heap := c1
  refine ⟨?_, ?_, ?_, ?_, ?_, ?_, ?_, ?_⟩
  · rw [c3.2.1, a3.1, h1]
    simp [mapPushBack, mapFind, mapInsert]
  · rw [c3.1, a3.2.1, h2, hlen1]
    simp [mapPushBack, mapFind, mapInsert]
  · rw [c2, a2, h3, hlen1]
    simp [activeInsert, activeErase, hba]
  · rw [c3.2.2.2, a3.2.2.1, h4]; rfl
  · rw [c3.2.2.1, a3.2.2.2, h5, hlen1]; rfl
  · rw [c4, a4]
  · rw [deref_congr hh2, deref_alloc_old s1 _ _ (by rw [hlen1]; exact Nat.lt_succ_self _), hd1]
  · rw [deref_congr hh2, ← hlen1, deref_alloc_new]

end OrderBook

namespace OrderBook

theorem sub_min_eq_zero_left (q1 q2 : Int) : q1 - min q1 q2 = 0 ↔ q1 ≤ q2 := by
  constructor <;> intro h <;> omega

theorem sub_min_eq_zero_right (q1 q2 : Int) : q2 - min q1 q2 = 0 ↔ q2 ≤ q1 := by
  constructor <;> intro h <;> omega

theorem twoTraded_buy_first {s0 u : OrderBook} {b a p q1 q2 : Int}
    (h : TwoResting s0 b a p q1 q2 u) (hq1 : 0 < q1) (hq2 : 0 < q2) (hba : b ≠ a) :
    TwoTraded s0 b a p q1 q2 u.processBuyOrdersStep := by
  obtain ⟨hb, hs, hi, hbq, hsq, ht, hdb, hda⟩ := h
  unfold TwoTraded
  obtain ⟨n, hn⟩ : ∃ n, n = s0.heap.length := ⟨_, rfl⟩
  rw [← hn] at hb hs hi hbq hsq hdb hda ⊢
  obtain ⟨u1, hu1⟩ : ∃ u1, u1 = ({ u with buyQueue_ := [] } : OrderBook) := ⟨_, rfl⟩
  have k1 : u1.sellOrders_ = [(p, [n + 1])] := by rw [hu1]; exact hs
  have k2 : u1.buyOrders_ = [(p, [n])] := by rw [hu1]; exact hb
  have k3 : u1.activeOrders_ = [(a, n + 1), (b, n)] := by rw [hu1]; exact hi
  have k4 : u1.trades = s0.trades := by rw [hu1]; exact ht
  have k5 : u1.buyQueue_ = [] := by rw [hu1]
  have k6 : u1.sellQueue_ = [n + 1] := by rw [hu1]; exact hsq
  have hdb1 : u1.deref n = Order.mk OrderType.Limit b p q1 Side.buy 0 := by
    rw [← hdb, hu1]; rfl
  have hda1 : u1.deref (n + 1) = Order.mk OrderType.Limit a p q2 Side.sell 0 := by
    rw [← hda, hu1]; rfl
  have hstep := matchBuyStep_of_trade (s := u1) (b := n) k1 (by rw [hdb1]; exact hq1)
    (Or.inr (by rw [hdb1])) (by rw [hda1]; exact hq2)
  rw [hdb1, hda1] at hstep
  simp only at hstep
  have eff := tradeBuy_effect u1 n (n + 1) p (min q1 q2) (Nat.succ_ne_self n).symm (by rw [hdb1]; exact hq1)
    (by rw [hda1]; exact hq2)
  have sh := shrinks_tradeBuy u1 n (n + 1) p (min q1 q2)
  have tb := tradeBuy_buyOrders u1 n (n + 1) p (min q1 q2)
  have ts := tradeBuy_sellOrders u1 n (n + 1) p (min q1 q2)
  have ti := tradeBuy_activeOrders u1 n (n + 1) p (min q1 q2)
  have tt := tradeBuy_trades u1 n (n + 1) p (min q1 q2)
  rw [← tradeBuy_deref] at ts
  obtain ⟨t, htd⟩ : ∃ t, t = u1.tradeBuy n (n + 1) p (min q1 q2) := ⟨_, rfl⟩
  rw [← htd] at hstep eff sh tb ts ti tt
  have tdb : t.deref n = Order.mk OrderType.Limit b p (q1 - min q1 q2) Side.buy 0 := by
    have e := order_eq_of_static (sh.1.2 n)
    rw [eff.1, hdb1] at e
    exact e
  have tda : t.deref (n + 1) = Order.mk OrderType.Limit a p (q2 - min q1 q2) Side.sell 0 := by
    have e := order_eq_of_static (sh.1.2 (n + 1))
    rw [eff.2.1, hda1] at e
    exact e
  rw [tdb, hdb1, k2] at tb
  rw [tda, k1] at ts
  rw [tdb, tda, hdb1, hda1, k3] at ti
  rw [hdb1, hda1, k4] at tt
  simp only [sub_min_eq_zero_left, sub_min_eq_zero_right] at tb ts ti
  have tsell : t.sellOrders_ = if q2 ≤ q1 then [] else [(p, [n + 1])] := by
    rw [ts]; simp [popFront, mapErase]
  have tbuy : t.buyOrders_ = if q1 ≤ q2 then [] else [(p, [n])] := by
    rw [tb]; simp [removeFromLevel, mapFind, mapErase, mapAssign, hdb1]
  have tidx : t.activeOrders_ = (if q2 ≤ q1 then [] else [(a, n + 1)]) ++
      (if q1 ≤ q2 then [] else [(b, n)]) := by
    rw [ti]
    by_cases c1 : q1 ≤ q2 <;> by_cases c2 : q2 ≤ q1 <;>
      simp [c1, c2, activeErase, hba, Ne.symm hba]
  have hnone : matchBuyStep t n = none := by
    unfold matchBuyStep
    rw [tdb, tsell]
    by_cases c1 : q1 ≤ q2
    · rw [if_neg]
      simp only [gt_iff_lt, not_lt]
      omega
    · have c2 : q2 ≤ q1 := by omega
      simp [c2]
  have e1 : u.processBuyOrdersStep = t := by
    unfold processBuyOrdersStep
    rw [hbq]
    show ({ u with buyQueue_ := [] } : OrderBook).matchBuyOrder n = t
    rw [← hu1]
    unfold matchBuyOrder
    rw [k1]
    show matchBuyLoop (1 + 1) u1 n = t
    simp only [matchBuyLoop, hstep, hnone]
  rw [e1]
  exact ⟨tt, tbuy, tsell, tidx, tdb, tda, Or.inl ⟨by rw [sh.2.2.2.2.2.2.1, k5],
    by rw [sh.2.2.2.2.2.2.2.1, k6]⟩⟩

end OrderBook

namespace OrderBook

theorem twoTraded_sell_first {s0 u : OrderBook} {b a p q1 q2 : Int}
    (h : TwoResting s0 b a p q1 q2 u) (hq1 : 0 < q1) (hq2 : 0 < q2) (hba : b ≠ a) :
    TwoTraded s0 b a p q1 q2 u.processSellOrdersStep := by
  obtain ⟨hb, hs, hi, hbq, hsq, ht, hdb, hda⟩ := h
  unfold TwoTraded
  obtain ⟨n, hn⟩ : ∃ n, n = s0.heap.length := ⟨_, rfl⟩
  rw [← hn] at hb hs hi hbq hsq hdb hda ⊢
  obtain ⟨u1, hu1⟩ : ∃ u1, u1 = ({ u with sellQueue_ := [] } : OrderBook) := ⟨_, rfl⟩
  have k1 : u1.sellOrders_ = [(p, [n + 1])] := by rw [hu1]; exact hs
  have k2 : u1.buyOrders_ = [(p, [n])] := by rw [hu1]; exact hb
  have k3 : u1.activeOrders_ = [(a, n + 1), (b, n)] := by rw [hu1]; exact hi
  have k4 : u1.trades = s0.trades := by rw [hu1]; exact ht
  have k5 : u1.buyQueue_ = [n] := by rw [hu1]; exact hbq
  have k6 : u1.sellQueue_ = [] := by rw [hu1]
  have hdb1 : u1.deref n = Order.mk OrderType.Limit b p q1 Side.buy 0 := by
    rw [← hdb, hu1]; rfl
  have hda1 : u1.deref (n + 1) = Order.mk OrderType.Limit a p q2 Side.sell 0 := by
    rw [← hda, hu1]; rfl
  have hstep := @matchSellStep_of_trade u1 (n + 1) n p [] [] k2 (by rw [hda1]; exact hq2)
    (Or.inr (by rw [hda1])) (by rw [hdb1]; exact hq1)
  rw [hdb1, hda1] at hstep
  simp only at hstep
  rw [min_comm q2 q1] at hstep
  have eff := tradeSell_effect u1 (n + 1) n p (min q1 q2) (Nat.succ_ne_self n)
    (by rw [hda1]; exact hq2) (by rw [hdb1]; exact hq1)
  have sh := shrinks_tradeSell u1 (n + 1) n p (min q1 q2)
  have tb := tradeSell_buyOrders u1 (n + 1) n p (min q1 q2)
  have ts := tradeSell_sellOrders u1 (n + 1) n p (min q1 q2)
  have ti := tradeSell_activeOrders u1 (n + 1) n p (min q1 q2)
  have tt := tradeSell_trades u1 (n + 1) n p (min q1 q2)
  rw [← tradeSell_deref] at tb
  obtain ⟨t, htd⟩ : ∃ t, t = u1.tradeSell (n + 1) n p (min q1 q2) := ⟨_, rfl⟩
  rw [← htd] at hstep eff sh tb ts ti tt
  have tdb : t.deref n = Order.mk OrderType.Limit b p (q1 - min q1 q2) Side.buy 0 := by
    have e := order_eq_of_static (sh.1.2 n)
    rw [eff.2.1, hdb1] at e
    exact e
  have tda : t.deref (n + 1) = Order.mk OrderType.Limit a p (q2 - min q1 q2) Side.sell 0 := by
    have e := order_eq_of_static (sh.1.2 (n + 1))
    rw [eff.1, hda1] at e
    exact e
  rw [tdb, k2] at tb
  rw [tda, hda1, k1] at ts
  rw [tdb, tda, hdb1, hda1, k3] at ti
  rw [hdb1, hda1, k4] at tt
  simp only [sub_min_eq_zero_left, sub_min_eq_zero_right] at tb ts ti
  have tbuy : t.buyOrders_ = if q1 ≤ q2 then [] else [(p, [n])] := by
    rw [tb]; simp [popFront, mapErase]
  have tsell : t.sellOrders_ = if q2 ≤ q1 then [] else [(p, [n + 1])] := by
    rw [ts]; simp [removeFromLevel, mapFind, mapErase, mapAssign, hda1]
  have tidx : t.activeOrders_ = (if q2 ≤ q1 then [] else [(a, n + 1)]) ++
      (if q1 ≤ q2 then [] else [(b, n)]) := by
    rw [ti]
    by_cases c1 : q1 ≤ q2 <;> by_cases c2 : q2 ≤ q1 <;>
      simp [c1, c2, activeErase, hba, Ne.symm hba]
  have hnone : matchSellStep t (n + 1) = none := by
    unfold matchSellStep
    rw [tda, tbuy]
    by_cases c1 : q2 ≤ q1
    · rw [if_neg]
      simp only [gt_iff_lt, not_lt]
      omega
    · have c2 : q1 ≤ q2 := by omega
      simp [c2]
  have e1 : u.processSellOrdersStep = t := by
    unfold processSellOrdersStep
    rw [hsq]
    show ({ u with sellQueue_ := [] } : OrderBook).matchSellOrder (n + 1) = t
    rw [← hu1]
    unfold matchSellOrder
    rw [k2]
    show matchSellLoop (1 + 1) u1 (n + 1) = t
    simp only [matchSellLoop, hstep, hnone]
  rw [e1]
  exact ⟨tt, tbuy, tsell, tidx, tdb, tda, Or.inr (Or.inl ⟨by rw [sh.2.2.2.2.2.2.1, k5],
    by rw [sh.2.2.2.2.2.2.2.1, k6]⟩)⟩

/-- Once the two orders have traded, a further step of the buy worker only
empties the buy queue. -/
theorem twoTraded_buy_step {s0 u : OrderBook} {b a p q1 q2 : Int}
    (h : TwoTraded s0 b a p q1 q2 u) :
    TwoTraded s0 b a p q1 q2 u.processBuyOrdersStep := by
  obtain ⟨tt, tbuy, tsell, tidx, tdb, tda, hq⟩ := h
  rcases hq with ⟨hbq, hsq⟩ | ⟨hbq, hsq⟩ | ⟨hbq, hsq⟩
  · have e : u.processBuyOrdersStep = u := by unfold processBuyOrdersStep; rw [hbq]
    rw [e]; exact ⟨tt, tbuy, tsell, tidx, tdb, tda, Or.inl ⟨hbq, hsq⟩⟩
  · obtain ⟨u1, hu1⟩ : ∃ u1, u1 = ({ u with buyQueue_ := [] } : OrderBook) := ⟨_, rfl⟩
    have hd : ∀ x, u1.deref x = u.deref x := by intro x; rw [hu1]; rfl
    have hnone : matchBuyStep u1 s0.heap.length = none := by
      unfold matchBuyStep
      rw [hd, tdb]
      have : u1.sellOrders_ = u.sellOrders_ := by rw [hu1]
      rw [this, tsell]
      by_cases c1 : q1 ≤ q2
      · rw [if_neg]
        simp only [gt_iff_lt, not_lt]
        omega
      · have c2 : q2 ≤ q1 := by omega
        simp [c2]
    have e : u.processBuyOrdersStep = u1 := by
      unfold processBuyOrdersStep
      rw [hbq]
      show ({ u with buyQueue_ := [] } : OrderBook).matchBuyOrder s0.heap.length = u1
      rw [← hu1]
      unfold matchBuyOrder
      simp only [matchBuyLoop, hnone]
    rw [e]
    refine ⟨by rw [hu1]; exact tt, by rw [hu1]; exact tbuy, by rw [hu1]; exact tsell,
      by rw [hu1]; exact tidx, by rw [hd]; exact tdb, by rw [hd]; exact tda,
      Or.inr (Or.inr ⟨by rw [hu1], by rw [hu1]; exact hsq⟩)⟩
  · have e : u.processBuyOrdersStep = u := by unfold processBuyOrdersStep; rw [hbq]
    rw [e]; exact ⟨tt, tbuy, tsell, tidx, tdb, tda, Or.inr (Or.inr ⟨hbq, hsq⟩)⟩

/-- Once the two orders have traded, a further step of the sell worker only
empties the sell queue. -/
theorem twoTraded_sell_step {s0 u : OrderBook} {b a p q1 q2 : Int}
    (h : TwoTraded s0 b a p q1 q2 u) :
    TwoTraded s0 b a p q1 q2 u.processSellOrdersStep := by
  obtain ⟨tt, tbuy, tsell, tidx, tdb, tda, hq⟩ := h
  rcases hq with ⟨hbq, hsq⟩ | ⟨hbq, hsq⟩ | ⟨hbq, hsq⟩
  · obtain ⟨u1, hu1⟩ : ∃ u1, u1 = ({ u with sellQueue_ := [] } : OrderBook) := ⟨_, rfl⟩
    have hd : ∀ x, u1.deref x = u.deref x := by intro x; rw [hu1]; rfl
    have hnone : matchSellStep u1 (s0.heap.length + 1) = none := by
      unfold matchSellStep
      rw [hd, tda]
      have : u1.buyOrders_ = u.buyOrders_ := by rw [hu1]
      rw [this, tbuy]
      by_cases c1 : q2 ≤ q1
      · rw [if_neg]
        simp only [gt_iff_lt, not_lt]
        omega
      · have c2 : q1 ≤ q2 := by omega
        simp [c2]
    have e : u.processSellOrdersStep = u1 := by
      unfold processSellOrdersStep
      rw [hsq]
      show ({ u with sellQueue_ := [] } : OrderBook).matchSellOrder (s0.heap.length + 1) = u1
      rw [← hu1]
      unfold matchSellOrder
      simp only [matchSellLoop, hnone]
    rw [e]
    refine ⟨by rw [hu1]; exact tt, by rw [hu1]; exact tbuy, by rw [hu1]; exact tsell,
      by rw [hu1]; exact tidx, by rw [hd]; exact tdb, by rw [hd]; exact tda,
      Or.inr (Or.inr ⟨by rw [hu1]; exact hbq, by rw [hu1]⟩)⟩
  · have e : u.processSellOrdersStep = u := by unfold processSellOrdersStep; rw [hsq]
    rw [e]; exact ⟨tt, tbuy, tsell, tidx, tdb, tda, Or.inr (Or.inl ⟨hbq, hsq⟩)⟩
  · have e : u.processSellOrdersStep = u := by unfold processSellOrdersStep; rw [hsq]
    rw [e]; exact ⟨tt, tbuy, tsell, tidx, tdb, tda, Or.inr (Or.inr ⟨hbq, hsq⟩)⟩

theorem twoTraded_runWorkers {s0 : OrderBook} {b a p q1 q2 : Int} (steps : List Bool) :
    ∀ u, TwoTraded s0 b a p q1 q2 u → TwoTraded s0 b a p q1 q2 (runWorkers steps u) := by
  induction steps with
  | nil => intro u h; exact h
  | cons c steps ih =>
    intro u h
    cases c
    · exact ih _ (twoTraded_sell_step h)
    · exact ih _ (twoTraded_buy_step h)

/-- Any sequence of worker steps on the state after the two adds leaves the
two orders either still queued and untraded, or traded exactly once. -/
theorem twoResting_runWorkers {s0 : OrderBook} {b a p q1 q2 : Int} (hq1 : 0 < q1) (hq2 : 0 < q2)
    (hba : b ≠ a) (steps : List Bool) :
    ∀ u, TwoResting s0 b a p q1 q2 u →
      TwoResting s0 b a p q1 q2 (runWorkers steps u) ∨
      TwoTraded s0 b a p q1 q2 (runWorkers steps u) := by
  induction steps with
  | nil => intro u h; exact Or.inl h
  | cons c steps ih =>
    intro u h
    cases c
    · exact Or.inr (twoTraded_runWorkers steps _ (twoTraded_sell_first h hq1 hq2 hba))
    · exact Or.inr (twoTraded_runWorkers steps _ (twoTraded_buy_first h hq1 hq2 hba))

end OrderBook

namespace OrderBook

/-- C14: two crossing Limit orders at one price.  On a state `s0` whose side
books, index and queues are empty, for every price `p`, quantities `q1, q2 > 0`
and ids `b ≠ a`, after `addOrder(b, p, q1, "buy", Limit)` and
`addOrder(a, p, q2, "sell", Limit)` and any sequence of buy-worker and
sell-worker steps that leaves both queues empty, exactly one trade was emitted:
buyer `b`, seller `a`, quantity `min q1 q2`, price `p`.  If `q1 > q2` the bid
side holds only `b` with residual `q1 - q2`, the ask side is empty, the index
holds exactly `b`, the best bid is `p` and the best ask is 0; if `q2 > q1` the
same with the sides exchanged; if `q1 = q2` both sides and the index are empty
and both best prices are 0. -/
theorem two_crossing_limit_orders (s0 : OrderBook) (b a p q1 q2 : Int) (steps : List Bool)
    (hbuy : s0.buyOrders_ = []) (hsell : s0.sellOrders_ = []) (hidx : s0.activeOrders_ = [])
    (hbq : s0.buyQueue_ = []) (hsq : s0.sellQueue_ = [])
    (hq1 : 0 < q1) (hq2 : 0 < q2) (hba : b ≠ a)
    (hdrain : (crossingPair s0 b a p q1 q2 steps).buyQueue_ = [] ∧
      (crossingPair s0 b a p q1 q2 steps).sellQueue_ = []) :
    (crossingPair s0 b a p q1 q2 steps).trades = s0.trades ++ [Trade.mk b a (min q1 q2) p] ∧
    (q2 < q1 →
      bookView (crossingPair s0 b a p q1 q2 steps) (crossingPair s0 b a p q1 q2 steps).buyOrders_ =
        [(p, [OrderView.mk b Side.buy OrderType.Limit p (q1 - q2)])] ∧
      (crossingPair s0 b a p q1 q2 steps).sellOrders_ = [] ∧
      (crossingPair s0 b a p q1 q2 steps).activeOrders_.map Prod.fst = [b] ∧
      indexView (crossingPair s0 b a p q1 q2 steps) b =
        some (OrderView.mk b Side.buy OrderType.Limit p (q1 - q2)) ∧
      (crossingPair s0 b a p q1 q2 steps).getBestBid = p ∧
      (crossingPair s0 b a p q1 q2 steps).getBestAsk = 0) ∧
    (q1 < q2 →
      bookView (crossingPair s0 b a p q1 q2 steps) (crossingPair s0 b a p q1 q2 steps).sellOrders_ =
        [(p, [OrderView.mk a Side.sell OrderType.Limit p (q2 - q1)])] ∧
      (crossingPair s0 b a p q1 q2 steps).buyOrders_ = [] ∧
      (crossingPair s0 b a p q1 q2 steps).activeOrders_.map Prod.fst = [a] ∧
      indexView (crossingPair s0 b a p q1 q2 steps) a =
        some (OrderView.mk a Side.sell OrderType.Limit p (q2 - q1)) ∧
      (crossingPair s0 b a p q1 q2 steps).getBestBid = 0 ∧
      (crossingPair s0 b a p q1 q2 steps).getBestAsk = p) ∧
    (q1 = q2 →
      (crossingPair s0 b a p q1 q2 steps).buyOrders_ = [] ∧
      (crossingPair s0 b a p q1 q2 steps).sellOrders_ = [] ∧
      (crossingPair s0 b a p q1 q2 steps).activeOrders_ = [] ∧
      (crossingPair s0 b a p q1 q2 steps).getBestBid = 0 ∧
      (crossingPair s0 b a p q1 q2 steps).getBestAsk = 0) := by
  have h0 := twoResting_after_adds s0 b a p q1 q2 hbuy hsell hidx hbq hsq hba
  have h1 := twoResting_runWorkers hq1 hq2 hba steps _ h0
  obtain ⟨r, hr⟩ : ∃ r, r = crossingPair s0 b a p q1 q2 steps := ⟨_, rfl⟩
  rw [← hr] at hdrain ⊢
  have h2 : TwoTraded s0 b a p q1 q2 r := by
    rcases h1 with h | h
    · exfalso
      have e : r.buyQueue_ = [s0.heap.length] := by rw [hr]; exact h.2.2.2.1
      rw [hdrain.1] at e
      exact List.noConfusion e
    · rw [hr]; exact h
  obtain ⟨tt, tbuy, tsell, tidx, tdb, tda, -⟩ := h2
  refine ⟨tt, ?_, ?_, ?_⟩
  · intro hlt
    have c1 : ¬ q1 ≤ q2 := by omega
    have c2 : q2 ≤ q1 := by omega
    rw [if_neg c1] at tbuy
    rw [if_pos c2] at tsell
    rw [if_neg c1, if_pos c2] at tidx
    rw [min_eq_right c2] at tdb
    refine ⟨?_, tsell, ?_, ?_, ?_, ?_⟩
    · rw [tbuy]; simp [bookView, tdb, Order.view]
    · rw [tidx]; rfl
    · simp [indexView, tidx, activeFind, tdb, Order.view]
    · simp [getBestBid, tbuy]
    · simp [getBestAsk, tsell]
  · intro hlt
    have c1 : q1 ≤ q2 := by omega
    have c2 : ¬ q2 ≤ q1 := by omega
    rw [if_pos c1] at tbuy
    rw [if_neg c2] at tsell
    rw [if_pos c1, if_neg c2] at tidx
    rw [min_eq_left c1] at tda
    refine ⟨?_, tbuy, ?_, ?_, ?_, ?_⟩
    · rw [tsell]; simp [bookView, tda, Order.view]
    · rw [tidx]; rfl
    · simp [indexView, tidx, activeFind, tda, Order.view]
    · simp [getBestBid, tbuy]
    · simp [getBestAsk, tsell]
  · intro heq
    have c1 : q1 ≤ q2 := by omega
    have c2 : q2 ≤ q1 := by omega
    rw [if_pos c1] at tbuy
    rw [if_pos c2] at tsell
    rw [if_pos c1, if_pos c2] at tidx
    refine ⟨tbuy, tsell, tidx, ?_, ?_⟩
    · simp [getBestBid, tbuy]
    · simp [getBestAsk, tsell]

/-- Example for C14: the partial fill of the buy 3 (price 150, quantity 20) by
the sell 4 (price 150, quantity 10), the sell worker running first. -/
theorem two_crossing_limit_orders_witness :
    ((crossingPair empty 3 4 150 20 10 [false, true]).buyQueue_ = [] ∧
      (crossingPair empty 3 4 150 20 10 [false, true]).sellQueue_ = []) ∧
    (crossingPair empty 3 4 150 20 10 [false, true]).trades = [Trade.mk 3 4 10 150] ∧
    bookView (crossingPair empty 3 4 150 20 10 [false, true])
      (crossingPair empty 3 4 150 20 10 [false, true]).buyOrders_ =
        [(150, [OrderView.mk 3 Side.buy OrderType.Limit 150 10])] ∧
    (crossingPair empty 3 4 150 20 10 [false, true]).sellOrders_ = [] ∧
    (crossingPair empty 3 4 150 20 10 [false, true]).activeOrders_.map Prod.fst = [3] ∧
    (crossingPair empty 3 4 150 20 10 [false, true]).getBestBid = 150 ∧
    (crossingPair empty 3 4 150 20 10 [false, true]).getBestAsk = 0 :=
  have h := two_crossing_limit_orders empty 3 4 150 20 10 [false, true] rfl rfl rfl rfl rfl
    (by decide) (by decide) (by decide) (by decide)
  ⟨by decide, h.1, (h.2.1 (by decide)).1, (h.2.1 (by decide)).2.1, (h.2.1 (by decide)).2.2.1,
    (h.2.1 (by decide)).2.2.2.2.1, (h.2.1 (by decide)).2.2.2.2.2⟩

end OrderBook

namespace OrderBook

theorem deref_setOrderType (s : OrderBook) (p p1 : OrderPointer) (t : OrderType) :
    (s.setOrderType p t).deref p1 =
      if p1 = p ∧ p < s.heap.length then { s.deref p with orderType := t } else s.deref p1 := by
  unfold setOrderType deref
  simp only [List.getElem?_set]
  by_cases h : p = p1
  · subst h
    by_cases h2 : p < s.heap.length
    · simp [h2]
    · have h3 : s.heap[p]? = none := List.getElem?_eq_none (Nat.le_of_not_lt h2)
      simp [h2, h3]
  · have h3 : ¬ p1 = p := fun e => h e.symm
    simp [h, h3]

theorem deref_setOrderType_self (s : OrderBook) (p : OrderPointer) (t : OrderType)
    (h : p < s.heap.length) :
    (s.setOrderType p t).deref p = { s.deref p with orderType := t } := by
  rw [deref_setOrderType]; simp [h]

theorem setOrderType_quantity (s : OrderBook) (p x : OrderPointer) (t : OrderType) :
    ((s.setOrderType p t).deref x).quantity = (s.deref x).quantity := by
  rw [deref_setOrderType]
  split_ifs with h
  · rw [h.1]
  · rfl

theorem setOrderType_orderId (s : OrderBook) (p x : OrderPointer) (t : OrderType) :
    ((s.setOrderType p t).deref x).orderId = (s.deref x).orderId := by
  rw [deref_setOrderType]
  split_ifs with h
  · rw [h.1]
  · rfl

theorem setOrderType_side (s : OrderBook) (p x : OrderPointer) (t : OrderType) :
    ((s.setOrderType p t).deref x).side = (s.deref x).side := by
  rw [deref_setOrderType]
  split_ifs with h
  · rw [h.1]
  · rfl

end OrderBook

namespace StopOrderScheduler

open OrderBook

theorem examine_fst (ob : OrderBook) (order : OrderPointer) :
    (examine ob order).1 = true ↔
      ((ob.deref order).side = Side.buy ∧ ob.getBestAsk ≥ (ob.deref order).stopPrice) ∨
      ((ob.deref order).side = Side.sell ∧ ob.getBestBid ≤ (ob.deref order).stopPrice) := by
  unfold examine
  by_cases h1 : (ob.deref order).side = Side.buy ∧ ob.getBestAsk ≥ (ob.deref order).stopPrice
  · rw [if_pos h1]; simp [h1]
  · rw [if_neg h1]
    by_cases h2 : (ob.deref order).side = Side.sell ∧ ob.getBestBid ≤ (ob.deref order).stopPrice
    · rw [if_pos h2]; simp [h2]
    · rw [if_neg h2]; simp [h1, h2]

theorem examine_of_activated (ob : OrderBook) (order : OrderPointer)
    (h : (examine ob order).1 = true) :
    (examine ob order).2 = (ob.setOrderType order OrderType.Market).processOrder order := by
  unfold examine at h ⊢
  by_cases h1 : (ob.deref order).side = Side.buy ∧ ob.getBestAsk ≥ (ob.deref order).stopPrice
  · rw [if_pos h1]
  · rw [if_neg h1] at h ⊢
    by_cases h2 : (ob.deref order).side = Side.sell ∧ ob.getBestBid ≤ (ob.deref order).stopPrice
    · rw [if_pos h2]
    · rw [if_neg h2] at h
      exact absurd h Bool.false_ne_true

theorem examine_of_not_activated (ob : OrderBook) (order : OrderPointer)
    (h : (examine ob order).1 = false) : (examine ob order).2 = ob := by
  unfold examine at h ⊢
  by_cases h1 : (ob.deref order).side = Side.buy ∧ ob.getBestAsk ≥ (ob.deref order).stopPrice
  · rw [if_pos h1] at h; exact absurd h (fun e => Bool.false_ne_true e.symm)
  · rw [if_neg h1] at h ⊢
    by_cases h2 : (ob.deref order).side = Side.sell ∧ ob.getBestBid ≤ (ob.deref order).stopPrice
    · rw [if_pos h2] at h; exact absurd h (fun e => Bool.false_ne_true e.symm)
    · rw [if_neg h2]

theorem poll_sublist (table : List (Int × OrderPointer)) :
    ∀ ob, (poll table ob).1.Sublist table := by
  induction table with
  | nil => intro ob; exact List.Sublist.slnil
  | cons e rest ih =>
    intro ob
    unfold poll
    by_cases h : (examine ob e.2).1 = true
    · rw [if_pos h]; exact (ih _).cons e
    · rw [if_neg h]; exact (ih _).cons₂ e

end StopOrderScheduler

namespace StopOrderScheduler

open OrderBook

/-- A promoted buy stop sweeps the ask side like any Market buy. -/
theorem promoted_buy_sweep (ob : OrderBook) (order : OrderPointer)
    (hside : (ob.deref order).side = Side.buy) (hq : 0 ≤ (ob.deref order).quantity)
    (hsorted : SortedKeys sellBefore ob.sellOrders_) (hne : NonemptyLevels ob.sellOrders_)
    (hnd : (restingOrders ob.sellOrders_).Nodup)
    (hpos : ∀ p ∈ restingOrders ob.sellOrders_, p ≠ order ∧ 0 < (ob.deref p).quantity) :
    ((ob.setOrderType order OrderType.Market).processOrder order).trades = ob.trades ++
      List.zipWith (fun e f => Trade.mk (ob.deref order).orderId (ob.deref e.2).orderId f e.1)
        (restingEntries ob.sellOrders_)
        (sweepFills (ob.deref order).quantity
          ((restingEntries ob.sellOrders_).map (fun e => (ob.deref e.2).quantity))) ∧
    (((ob.setOrderType order OrderType.Market).processOrder order).deref order).quantity =
      (ob.deref order).quantity -
        (sweepFills (ob.deref order).quantity
          ((restingEntries ob.sellOrders_).map (fun e => (ob.deref e.2).quantity))).sum ∧
    (((ob.setOrderType order OrderType.Market).processOrder order).sellOrders_ = [] ∨
      (((ob.setOrderType order OrderType.Market).processOrder order).deref order).quantity =
        0) := by
  by_cases hvalid : order < ob.heap.length
  · have e1 : (ob.setOrderType order OrderType.Market).processOrder order =
        matchBuyLoop (restingCount ob.sellOrders_ + 1) (ob.setOrderType order OrderType.Market)
          order := by
      unfold processOrder
      rw [if_pos (by rw [setOrderType_side]; exact hside)]
      rfl
    rw [e1]
    have hloop := matchBuyLoop_sweep (restingCount ob.sellOrders_ + 1)
      (ob.setOrderType order OrderType.Market) order (Nat.lt_succ_self _)
      (sortedKeys_sell_nodup hsorted) hne hnd
      (fun p hp => ⟨(hpos p hp).1, by rw [setOrderType_quantity]; exact (hpos p hp).2⟩)
      (by rw [setOrderType_quantity]; exact hq)
      (by rw [deref_setOrderType_self _ _ _ hvalid])
    have hE : (ob.setOrderType order OrderType.Market).sellOrders_ = ob.sellOrders_ := rfl
    have hT : (ob.setOrderType order OrderType.Market).trades = ob.trades := rfl
    rw [hE, hT] at hloop
    simp only [setOrderType_quantity, setOrderType_orderId] at hloop
    exact hloop
  · exfalso
    rw [deref_invalid ob order (Nat.le_of_not_lt hvalid)] at hside
    exact absurd hside (by decide)

/-- A promoted sell stop sweeps the bid side like any Market sell. -/
theorem promoted_sell_sweep (ob : OrderBook) (order : OrderPointer)
    (hside : (ob.deref order).side = Side.sell) (hq : 0 ≤ (ob.deref order).quantity)
    (hsorted : SortedKeys buyBefore ob.buyOrders_) (hne : NonemptyLevels ob.buyOrders_)
    (hnd : (restingOrders ob.buyOrders_).Nodup)
    (hpos : ∀ p ∈ restingOrders ob.buyOrders_, p ≠ order ∧ 0 < (ob.deref p).quantity) :
    ((ob.setOrderType order OrderType.Market).processOrder order).trades = ob.trades ++
      List.zipWith (fun e f => Trade.mk (ob.deref e.2).orderId (ob.deref order).orderId f e.1)
        (restingEntries ob.buyOrders_)
        (sweepFills (ob.deref order).quantity
          ((restingEntries ob.buyOrders_).map (fun e => (ob.deref e.2).quantity))) ∧
    (((ob.setOrderType order OrderType.Market).processOrder order).deref order).quantity =
      (ob.deref order).quantity -
        (sweepFills (ob.deref order).quantity
          ((restingEntries ob.buyOrders_).map (fun e => (ob.deref e.2).quantity))).sum ∧
    (((ob.setOrderType order OrderType.Market).processOrder order).buyOrders_ = [] ∨
      (((ob.setOrderType order OrderType.Market).processOrder order).deref order).quantity =
        0) := by
  by_cases hvalid : order < ob.heap.length
  · have e1 : (ob.setOrderType order OrderType.Market).processOrder order =
        matchSellLoop (restingCount ob.buyOrders_ + 1) (ob.setOrderType order OrderType.Market)
          order := by
      unfold processOrder
      rw [if_neg (by rw [setOrderType_side, hside]; decide),
        if_pos (by rw [setOrderType_side]; exact hside)]
      rfl
    rw [e1]
    have hloop := matchSellLoop_sweep (restingCount ob.buyOrders_ + 1)
      (ob.setOrderType order OrderType.Market) order (Nat.lt_succ_self _)
      (sortedKeys_buy_nodup hsorted) hne hnd
      (fun p hp => ⟨(hpos p hp).1, by rw [setOrderType_quantity]; exact (hpos p hp).2⟩)
      (by rw [setOrderType_quantity]; exact hq)
      (by rw [deref_setOrderType_self _ _ _ hvalid])
    have hE : (ob.setOrderType order OrderType.Market).buyOrders_ = ob.buyOrders_ := rfl
    have hT : (ob.setOrderType order OrderType.Market).trades = ob.trades := rfl
    rw [hE, hT] at hloop
    simp only [setOrderType_quantity, setOrderType_orderId] at hloop
    exact hloop
  · exfalso
    rw [deref_invalid ob order (Nat.le_of_not_lt hvalid)] at hside
    exact absurd hside (by decide)

/-- The promoted order still has the discipline Market after it was matched. -/
theorem promoted_orderType (ob : OrderBook) (order : OrderPointer)
    (hvalid : order < ob.heap.length) :
    (((ob.setOrderType order OrderType.Market).processOrder order).deref order).orderType =
      OrderType.Market := by
  rw [(shrinks_processOrder _ order).1.orderType, deref_setOrderType_self _ _ _ hvalid]

end StopOrderScheduler

namespace StopOrderScheduler

open OrderBook

/-- C15: stop trigger and promotion.  Let the scheduler's pass examine the
table entry `(key, order)` of an allocated stop order on the order book `ob`.
A buy stop is activated if and only if `getBestAsk() >= stopPrice`, a sell stop
if and only if `getBestBid() <= stopPrice`, where an empty side reads as 0.  An
activated stop has its discipline set to Market, is passed to `processOrder`
with that discipline and still carries it afterwards, and its entry is erased
from the table (the pass goes on with the remaining entries on the resulting
book).  It is matched as a Market order: if the opposite side is a well-formed
book of distinct orders with positive residual, other than the stop order
itself, the trades emitted are the sweep of that side in priority order for the
stop's quantity, whatever the stop's price field, and the sweep ends only when
the stop is filled or the opposite side is empty.  A stop that is not activated
keeps its entry, and the book is unchanged. -/
theorem stop_trigger_and_promotion (ob : OrderBook) (key : Int) (order : OrderPointer)
    (rest : List (Int × OrderPointer)) (hvalid : order < ob.heap.length) :
    ((ob.deref order).side = Side.buy →
      ((examine ob order).1 = true ↔ ob.getBestAsk ≥ (ob.deref order).stopPrice)) ∧
    ((ob.deref order).side = Side.sell →
      ((examine ob order).1 = true ↔ ob.getBestBid ≤ (ob.deref order).stopPrice)) ∧
    (ob.sellOrders_ = [] → ob.getBestAsk = 0) ∧
    (ob.buyOrders_ = [] → ob.getBestBid = 0) ∧
    ((examine ob order).1 = true →
      (examine ob order).2 = (ob.setOrderType order OrderType.Market).processOrder order ∧
      ((ob.setOrderType order OrderType.Market).deref order).orderType = OrderType.Market ∧
      ((examine ob order).2.deref order).orderType = OrderType.Market ∧
      poll ((key, order) :: rest) ob = poll rest (examine ob order).2 ∧
      (poll ((key, order) :: rest) ob).1.Sublist rest ∧
      ((ob.deref order).side = Side.buy → 0 ≤ (ob.deref order).quantity →
        SortedKeys sellBefore ob.sellOrders_ → NonemptyLevels ob.sellOrders_ →
        (restingOrders ob.sellOrders_).Nodup →
        (∀ p ∈ restingOrders ob.sellOrders_, p ≠ order ∧ 0 < (ob.deref p).quantity) →
        (examine ob order).2.trades = ob.trades ++
          List.zipWith
            (fun e f => Trade.mk (ob.deref order).orderId (ob.deref e.2).orderId f e.1)
            (restingEntries ob.sellOrders_)
            (sweepFills (ob.deref order).quantity
              ((restingEntries ob.sellOrders_).map (fun e => (ob.deref e.2).quantity))) ∧
        ((examine ob order).2.sellOrders_ = [] ∨
          ((examine ob order).2.deref order).quantity = 0)) ∧
      ((ob.deref order).side = Side.sell → 0 ≤ (ob.deref order).quantity →
        SortedKeys buyBefore ob.buyOrders_ → NonemptyLevels ob.buyOrders_ →
        (restingOrders ob.buyOrders_).Nodup →
        (∀ p ∈ restingOrders ob.buyOrders_, p ≠ order ∧ 0 < (ob.deref p).quantity) →
        (examine ob order).2.trades = ob.trades ++
          List.zipWith
            (fun e f => Trade.mk (ob.deref e.2).orderId (ob.deref order).orderId f e.1)
            (restingEntries ob.buyOrders_)
            (sweepFills (ob.deref order).quantity
              ((restingEntries ob.buyOrders_).map (fun e => (ob.deref e.2).quantity))) ∧
        ((examine ob order).2.buyOrders_ = [] ∨
          ((examine ob order).2.deref order).quantity = 0))) ∧
    ((examine ob order).1 = false →
      (examine ob order).2 = ob ∧
      poll ((key, order) :: rest) ob =
        ((key, order) :: (poll rest ob).1, (poll rest ob).2)) := by
  refine ⟨?_, ?_, ?_, ?_, ?_, ?_⟩
  · intro hside
    rw [examine_fst]
    constructor
    · rintro (h | h)
      · exact h.2
      · rw [hside] at h; exact absurd h.1 (by decide)
    · intro h; exact Or.inl ⟨hside, h⟩
  · intro hside
    rw [examine_fst]
    constructor
    · rintro (h | h)
      · rw [hside] at h; exact absurd h.1 (by decide)
      · exact h.2
    · intro h; exact Or.inr ⟨hside, h⟩
  · intro h; unfold getBestAsk; rw [h]
  · intro h; unfold getBestBid; rw [h]
  · intro hact
    have e := examine_of_activated ob order hact
    have hp : poll ((key, order) :: rest) ob = poll rest (examine ob order).2 := by
      show (if (examine ob order).1 then poll rest (examine ob order).2 else _) = _
      rw [if_pos hact]
    refine ⟨e, ?_, ?_, hp, ?_, ?_, ?_⟩
    · rw [deref_setOrderType_self _ _ _ hvalid]
    · rw [e]; exact promoted_orderType ob order hvalid
    · rw [hp]; exact poll_sublist rest _
    · intro hside hq hsorted hne hnd hpos
      rw [e]
      have h := promoted_buy_sweep ob order hside hq hsorted hne hnd hpos
      exact ⟨h.1, h.2.2⟩
    · intro hside hq hsorted hne hnd hpos
      rw [e]
      have h := promoted_sell_sweep ob order hside hq hsorted hne hnd hpos
      exact ⟨h.1, h.2.2⟩
  · intro hno
    have e := examine_of_not_activated ob order hno
    refine ⟨e, ?_⟩
    show (if (examine ob order).1 then _ else _) = _
    rw [if_neg (by rw [hno]; exact Bool.false_ne_true), e]

/-- Example for C15: in `stopExample` the best ask 155 has reached the stop price
150 of the pending buy stop 30, whose price field is 140; the pass activates it,
it buys 10 at 155 and its entry leaves the table. -/
theorem stop_trigger_and_promotion_witness :
    0 < stopExample.heap.length ∧
    (examine stopExample 0).1 = true ∧
    ((examine stopExample 0).2.deref 0).orderType = OrderType.Market ∧
    poll [(30, 0)] stopExample = poll [] (examine stopExample 0).2 ∧
    (examine stopExample 0).2.trades = [Trade.mk 30 31 10 155] ∧
    ((examine stopExample 0).2.sellOrders_ = [] ∨
      ((examine stopExample 0).2.deref 0).quantity = 0) :=
  have h := stop_trigger_and_promotion stopExample 30 0 [] (by decide)
  have hact : (examine stopExample 0).1 = true := (h.1 (by decide)).2 (by decide)
  ⟨by decide, hact, (h.2.2.2.2.1 hact).2.2.1, (h.2.2.2.2.1 hact).2.2.2.1,
    ((h.2.2.2.2.1 hact).2.2.2.2.2.1 (by decide) (by decide) (by decide) (by decide) (by decide)
      (by decide)).1,
    ((h.2.2.2.2.1 hact).2.2.2.2.2.1 (by decide) (by decide) (by decide) (by decide) (by decide)
      (by decide)).2⟩

end StopOrderScheduler

namespace OrderBook

/-- An incoming buy pops a head ask whose residual is not positive. -/
theorem matchBuyStep_stale_head {s : OrderBook} {b sp : OrderPointer} {k : Int} {tl : OrderList}
    {rest : PriceMap} (hs : s.sellOrders_ = (k, sp :: tl) :: rest)
    (hb : 0 < (s.deref b).quantity)
    (hc : (s.deref b).orderType = OrderType.Market ∨ k ≤ (s.deref b).price)
    (hsp : (s.deref sp).quantity ≤ 0) :
    matchBuyStep s b = some { s with sellOrders_ := popFront s.sellOrders_ } := by
  unfold matchBuyStep
  rw [if_pos hb, hs]
  simp only
  rw [if_pos hc, if_pos hsp]

/-- An incoming sell leaves the loop at a head bid whose residual is not
positive: nothing is popped. -/
theorem matchSellStep_stale_head {s : OrderBook} {sp b : OrderPointer} {k : Int} {tl : OrderList}
    {rest : PriceMap} (hs : s.buyOrders_ = (k, b :: tl) :: rest)
    (hb : (s.deref b).quantity ≤ 0) :
    matchSellStep s sp = none := by
  unfold matchSellStep
  by_cases hsp : (s.deref sp).quantity > 0
  · rw [if_pos hsp, hs]
    simp only
    by_cases hc : (s.deref sp).orderType = OrderType.Market ∨ k ≥ (s.deref sp).price
    · rw [if_pos hc, if_neg (not_le.2 hsp), if_pos (le_trans (min_le_right _ _) hb)]
    · rw [if_neg hc]
  · rw [if_neg hsp]

/-- With a head bid whose residual is not positive, `matchSellOrder` returns the
state unchanged. -/
theorem matchSellOrder_stale_head {s : OrderBook} {sp b : OrderPointer} {k : Int}
    {tl : OrderList} {rest : PriceMap} (hs : s.buyOrders_ = (k, b :: tl) :: rest)
    (hb : (s.deref b).quantity ≤ 0) :
    s.matchSellOrder sp = s :=
  matchSellLoop_of_none (matchSellStep_stale_head hs hb) _

/-- C21: the defensive skip is not symmetric for sells.  In `staleBidExample`
the head of the best bid level (buy 1) has residual 0 and the buy 2 with
residual 5 rests behind it.  A Market sell 3 of quantity 5 does not pop the
head: `matchSellOrder` leaves the loop at once, no trade is emitted, the bid
side is unchanged and the sell keeps its 5 units.  In the mirror image
`staleAskExample` a Market buy 3 of quantity 5 pops the stale head ask, trades
5 with the sell 2 behind it and empties the ask side. -/
theorem sell_skip_missing :
    staleBidExample.buyOrders_ = [(100, [0, 1])] ∧
    (staleBidExample.deref 0).quantity = 0 ∧
    (staleBidExample.deref 1).quantity = 5 ∧
    (staleBidExample.addOrder 3 100 5 Side.sell OrderType.Market).trades = [] ∧
    (staleBidExample.addOrder 3 100 5 Side.sell OrderType.Market).buyOrders_ =
      [(100, [0, 1])] ∧
    ((staleBidExample.addOrder 3 100 5 Side.sell OrderType.Market).deref 2).quantity = 5 ∧
    staleAskExample.sellOrders_ = [(100, [0, 1])] ∧
    (staleAskExample.deref 0).quantity = 0 ∧
    (staleAskExample.deref 1).quantity = 5 ∧
    (staleAskExample.addOrder 3 100 5 Side.buy OrderType.Market).trades =
      [Trade.mk 3 2 5 100] ∧
    (staleAskExample.addOrder 3 100 5 Side.buy OrderType.Market).sellOrders_ = [] ∧
    ((staleAskExample.addOrder 3 100 5 Side.buy OrderType.Market).deref 2).quantity = 0 := by
  decide

end OrderBook

namespace StopOrderScheduler

open OrderBook

theorem poll_cons (e : Int × OrderPointer) (rest : List (Int × OrderPointer)) (ob : OrderBook) :
    poll (e :: rest) ob =
      if (examine ob e.2).1 then poll rest (examine ob e.2).2
      else (e :: (poll rest (examine ob e.2).2).1, (poll rest (examine ob e.2).2).2) := rfl

/-- The pass over a table in two parts: the second part is examined on the book
that the first part has left. -/
theorem poll_append (pre rest : List (Int × OrderPointer)) :
    ∀ ob, poll (pre ++ rest) ob =
      ((poll pre ob).1 ++ (poll rest (poll pre ob).2).1, (poll rest (poll pre ob).2).2) := by
  induction pre with
  | nil => intro ob; rfl
  | cons e pre ih =>
    intro ob
    rw [List.cons_append, poll_cons, poll_cons]
    by_cases h : (examine ob e.2).1 = true
    · rw [if_pos h, if_pos h, ih]
    · rw [if_neg h, if_neg h, ih]
      rfl

/-- A pass that erases no entry leaves the book as it was. -/
theorem poll_of_nothing_activated (table : List (Int × OrderPointer)) :
    ∀ ob, (poll table ob).1 = table → (poll table ob).2 = ob := by
  induction table with
  | nil => intro ob _; rfl
  | cons e rest ih =>
    intro ob h
    rw [poll_cons] at h ⊢
    by_cases hact : (examine ob e.2).1 = true
    · exfalso
      rw [if_pos hact] at h
      have hsub := poll_sublist rest (examine ob e.2).2
      rw [h] at hsub
      have := hsub.length_le
      simp at this
    · rw [if_neg hact] at h ⊢
      have hno : (examine ob e.2).1 = false := by simpa using hact
      rw [examine_of_not_activated ob e.2 hno] at h ⊢
      exact ih ob (List.cons.inj h).2

end StopOrderScheduler

namespace StopOrderScheduler

open OrderBook

/-- C22 (amended): no snapshot is taken.  In a pass over the table
`pre ++ (key, order) :: rest` the entry `(key, order)` is examined on the book
that the pass over the entries `pre` before it has left, that is after every
stop activated earlier in the same pass has been matched: a buy stop is
activated if and only if the best ask of that book has reached its stop price,
a sell stop if and only if the best bid of that book is at or below its stop
price; an activated entry is erased and the pass goes on with the book after
its match, any other entry is kept.  If the pass has erased no entry of `pre`,
that book is the book at the start of the pass. -/
theorem stop_tested_against_current_book (ob : OrderBook)
    (pre rest : List (Int × OrderPointer)) (key : Int) (order : OrderPointer) :
    poll (pre ++ (key, order) :: rest) ob =
      ((poll pre ob).1 ++ (poll ((key, order) :: rest) (poll pre ob).2).1,
        (poll ((key, order) :: rest) (poll pre ob).2).2) ∧
    ((examine (poll pre ob).2 order).1 = true →
      poll ((key, order) :: rest) (poll pre ob).2 =
        poll rest (examine (poll pre ob).2 order).2) ∧
    ((examine (poll pre ob).2 order).1 = false →
      poll ((key, order) :: rest) (poll pre ob).2 =
        ((key, order) :: (poll rest (poll pre ob).2).1, (poll rest (poll pre ob).2).2)) ∧
    (((poll pre ob).2.deref order).side = Side.buy →
      ((examine (poll pre ob).2 order).1 = true ↔
        (poll pre ob).2.getBestAsk ≥ ((poll pre ob).2.deref order).stopPrice)) ∧
    (((poll pre ob).2.deref order).side = Side.sell →
      ((examine (poll pre ob).2 order).1 = true ↔
        (poll pre ob).2.getBestBid ≤ ((poll pre ob).2.deref order).stopPrice)) ∧
    ((poll pre ob).1 = pre → (poll pre ob).2 = ob) := by
  obtain ⟨ob1, hob1⟩ : ∃ ob1, ob1 = (poll pre ob).2 := ⟨_, rfl⟩
  refine ⟨poll_append pre _ ob, ?_, ?_, ?_, ?_, poll_of_nothing_activated pre ob⟩
  · rw [← hob1]
    intro hact
    rw [poll_cons, if_pos hact]
  · rw [← hob1]
    intro hno
    rw [poll_cons, if_neg (by rw [hno]; exact Bool.false_ne_true),
      examine_of_not_activated ob1 order hno]
  · rw [← hob1]
    intro hside
    rw [examine_fst]
    constructor
    · rintro (h | h)
      · exact h.2
      · rw [hside] at h; exact absurd h.1 (by decide)
    · intro h; exact Or.inl ⟨hside, h⟩
  · rw [← hob1]
    intro hside
    rw [examine_fst]
    constructor
    · rintro (h | h)
      · rw [hside] at h; exact absurd h.1 (by decide)
      · exact h.2
    · intro h; exact Or.inr ⟨hside, h⟩

/-- Example for C22 (amended): in `twoStopsExample` the stop 41 is examined after
the stop 40, which has bought the only resting sell; the best ask then reads 0,
below the stop price 150, and the entry of 41 stays in the table. -/
theorem stop_tested_against_current_book_witness :
    (examine (poll [(40, 0)] twoStopsExample).2 1).1 = false ∧
    ((poll [(40, 0)] twoStopsExample).2.deref 1).side = Side.buy ∧
    (poll [(40, 0)] twoStopsExample).2.getBestAsk = 0 ∧
    ((poll [(40, 0)] twoStopsExample).2.deref 1).stopPrice = 150 ∧
    poll [(41, 1)] (poll [(40, 0)] twoStopsExample).2 =
      ((41, 1) :: (poll [] (poll [(40, 0)] twoStopsExample).2).1,
        (poll [] (poll [(40, 0)] twoStopsExample).2).2) ∧
    ((examine (poll [(40, 0)] twoStopsExample).2 1).1 = true ↔
      (poll [(40, 0)] twoStopsExample).2.getBestAsk ≥
        ((poll [(40, 0)] twoStopsExample).2.deref 1).stopPrice) :=
  have h := stop_tested_against_current_book twoStopsExample [(40, 0)] [] 41 1
  ⟨by decide, by decide, by decide, by decide, h.2.2.1 (by decide), h.2.2.2.1 (by decide)⟩

/-- C22 as stated fails: in `twoStopsExample` the best ask at the start of the
pass is 155 and both buy stops have the stop price 150, so each of them passes
the trigger test on the book at the start of the pass.  Yet the pass over the
table in the order 40, 41 activates only the stop 40 (the entry of 41 stays),
and the pass in the order 41, 40 activates only the stop 41 (the entry of 40
stays): whether a stop is activated depends on the stops activated before it
and on the order of traversal. -/
theorem poll_depends_on_traversal_order :
    twoStopsExample.getBestAsk = 155 ∧
    (twoStopsExample.deref 0).side = Side.buy ∧ (twoStopsExample.deref 0).stopPrice = 150 ∧
    (twoStopsExample.deref 1).side = Side.buy ∧ (twoStopsExample.deref 1).stopPrice = 150 ∧
    (examine twoStopsExample 0).1 = true ∧ (examine twoStopsExample 1).1 = true ∧
    (poll [(40, 0), (41, 1)] twoStopsExample).1 = [(41, 1)] ∧
    (poll [(41, 1), (40, 0)] twoStopsExample).1 = [(40, 0)] ∧
    (poll [(40, 0), (41, 1)] twoStopsExample).2.trades = [Trade.mk 40 31 10 155] ∧
    (poll [(41, 1), (40, 0)] twoStopsExample).2.trades = [Trade.mk 41 31 10 155] := by
  decide

end StopOrderScheduler

namespace OrderBook

theorem restingOrders_popFront_tail {k : Int} {p : OrderPointer} {tl : OrderList}
    {rest : PriceMap} (hk : (((k, p :: tl) :: rest).map Prod.fst).Nodup) :
    restingOrders (popFront ((k, p :: tl) :: rest)) =
      (restingOrders ((k, p :: tl) :: rest)).tail := by
  rw [restingOrders_popFront (List.nodup_cons.1 hk).1, restingOrders_cons]
  rfl

/-- An iteration of the buy loop that stays in the loop removes the head resting
sell, or leaves the sell side as it is with the incoming residual used up. -/
theorem matchBuyStep_progress {s s1 : OrderBook} {p : OrderPointer}
    (h : matchBuyStep s p = some s1) :
    (restingCount s1.sellOrders_ < restingCount s.sellOrders_ ∧
      ((s.sellOrders_.map Prod.fst).Nodup →
        restingOrders s1.sellOrders_ = (restingOrders s.sellOrders_).tail)) ∨
    (s1.sellOrders_ = s.sellOrders_ ∧ (s1.deref p).quantity ≤ 0 ∧
      (p ∉ restingOrders s.sellOrders_ → (s1.deref p).quantity = 0) ∧
      matchBuyStep s1 p = none) := by
  obtain ⟨k, sp, tl, rest, hs, hb, _, h4 | h4⟩ := matchBuyStep_some h
  · left
    rw [h4.2]
    show restingCount (popFront s.sellOrders_) < _ ∧
      (_ → restingOrders (popFront s.sellOrders_) = _)
    rw [hs]
    exact ⟨restingCount_popFront_lt k sp tl rest, fun hk => restingOrders_popFront_tail hk⟩
  · obtain ⟨hsp, he⟩ := h4
    have hso := tradeBuy_sellOrders s p sp k (min (s.deref p).quantity (s.deref sp).quantity)
    rw [← tradeBuy_deref, ← he] at hso
    by_cases hz : (s1.deref sp).quantity = 0
    · left
      rw [hso, if_pos hz, hs]
      exact ⟨restingCount_popFront_lt k sp tl rest, fun hk => restingOrders_popFront_tail hk⟩
    · right
      rw [if_neg hz] at hso
      have hq := quantities_after_trade s p sp hb hsp
      simp only at hq
      rw [← tradeBuy_deref s p sp k, ← tradeBuy_deref s p sp k, ← he] at hq
      have hle : (s1.deref p).quantity ≤ 0 := by
        rcases hq with hq | hq
        · exact absurd hq hz
        · exact hq
      refine ⟨hso, hle, ?_, matchBuyStep_of_nonpos hle⟩
      intro hnot
      have hne : p ≠ sp := by
        intro e
        apply hnot
        rw [hs, restingOrders_cons, e]
        exact List.mem_append_left _ (List.mem_cons_self _ _)
      have eff := tradeBuy_effect s p sp k (min (s.deref p).quantity (s.deref sp).quantity)
        hne hb hsp
      rw [← he] at eff
      have e1 := eff.1
      have e2 := eff.2.1
      rw [e2] at hz
      rw [e1]
      omega

/-- An iteration of the sell loop that stays in the loop removes the head resting
buy, or leaves the buy side as it is with the incoming residual used up. -/
theorem matchSellStep_progress {s s1 : OrderBook} {p : OrderPointer}
    (h : matchSellStep s p = some s1) :
    (restingCount s1.buyOrders_ < restingCount s.buyOrders_ ∧
      ((s.buyOrders_.map Prod.fst).Nodup →
        restingOrders s1.buyOrders_ = (restingOrders s.buyOrders_).tail)) ∨
    (s1.buyOrders_ = s.buyOrders_ ∧ (s1.deref p).quantity ≤ 0 ∧
      (p ∉ restingOrders s.buyOrders_ → (s1.deref p).quantity = 0) ∧
      matchSellStep s1 p = none) := by
  obtain ⟨k, b, tl, rest, hs, hsp, _, hb, he⟩ := matchSellStep_some h
  have hso := tradeSell_buyOrders s p b k (min (s.deref p).quantity (s.deref b).quantity)
  rw [← tradeSell_deref, ← he] at hso
  by_cases hz : (s1.deref b).quantity = 0
  · left
    rw [hso, if_pos hz, hs]
    exact ⟨restingCount_popFront_lt k b tl rest, fun hk => restingOrders_popFront_tail hk⟩
  · right
    rw [if_neg hz] at hso
    have hq := quantities_after_trade s p b hsp hb
    simp only at hq
    rw [← tradeSell_deref s p b k, ← tradeSell_deref s p b k, ← he] at hq
    have hle : (s1.deref p).quantity ≤ 0 := by
      rcases hq with hq | hq
      · exact absurd hq hz
      · exact hq
    refine ⟨hso, hle, ?_, matchSellStep_of_nonpos hle⟩
    intro hnot
    have hne : p ≠ b := by
      intro e
      apply hnot
      rw [hs, restingOrders_cons, e]
      exact List.mem_append_left _ (List.mem_cons_self _ _)
    have eff := tradeSell_effect s p b k (min (s.deref p).quantity (s.deref b).quantity)
      hne hsp hb
    rw [← he] at eff
    have e1 := eff.1
    have e2 := eff.2.1
    rw [e2] at hz
    rw [e1]
    omega

theorem matchBuyLoop_add (n m : Nat) (p : OrderPointer) :
    ∀ s, matchBuyLoop (n + m) s p = matchBuyLoop m (matchBuyLoop n s p) p := by
  induction n with
  | zero => intro s; rw [Nat.zero_add]; rfl
  | succ n ih =>
    intro s
    rw [Nat.succ_add]
    simp only [matchBuyLoop]
    cases hstep : matchBuyStep s p with
    | none => simp only; exact (matchBuyLoop_of_none hstep m).symm
    | some s1 => simp only; exact ih s1

theorem matchSellLoop_add (n m : Nat) (p : OrderPointer) :
    ∀ s, matchSellLoop (n + m) s p = matchSellLoop m (matchSellLoop n s p) p := by
  induction n with
  | zero => intro s; rw [Nat.zero_add]; rfl
  | succ n ih =>
    intro s
    rw [Nat.succ_add]
    simp only [matchSellLoop]
    cases hstep : matchSellStep s p with
    | none => simp only; exact (matchSellLoop_of_none hstep m).symm
    | some s1 => simp only; exact ih s1

/-- More iterations than `matchBuyOrder` allows change nothing: the loop has
left by itself. -/
theorem matchBuyLoop_stable (s : OrderBook) (p : OrderPointer) (n : Nat)
    (h : restingCount s.sellOrders_ < n) : matchBuyLoop n s p = s.matchBuyOrder p := by
  obtain ⟨m, hm⟩ : ∃ m, n = (restingCount s.sellOrders_ + 1) + m :=
    ⟨n - (restingCount s.sellOrders_ + 1), by omega⟩
  rw [hm, matchBuyLoop_add]
  exact matchBuyLoop_of_none (matchBuyOrder_exit s p) m

theorem matchSellLoop_stable (s : OrderBook) (p : OrderPointer) (n : Nat)
    (h : restingCount s.buyOrders_ < n) : matchSellLoop n s p = s.matchSellOrder p := by
  obtain ⟨m, hm⟩ : ∃ m, n = (restingCount s.buyOrders_ + 1) + m :=
    ⟨n - (restingCount s.buyOrders_ + 1), by omega⟩
  rw [hm, matchSellLoop_add]
  exact matchSellLoop_of_none (matchSellOrder_exit s p) m

end OrderBook

namespace OrderBook

/-- C23: the matching loops terminate, for every book and every incoming order.
An iteration of the loop of `matchBuyOrder` that does not leave the loop either
removes a resting order from the sell side (the number of resting sells drops;
with distinct level keys it is exactly the head order that goes), or leaves the
sell side as it is and uses up the incoming residual (it is zero whenever the
incoming order is not itself resting on the sell side), after which the next
loop test fails.  Hence the loop has left after at most `restingCount + 1`
iterations: the state `matchBuyOrder` returns is one in which the loop test
fails, and any larger bound on the iterations gives the same state.  The same
holds for `matchSellOrder` and the buy side. -/
theorem matching_loop_terminates (s : OrderBook) (p : OrderPointer) :
    (∀ s1, matchBuyStep s p = some s1 →
      (restingCount s1.sellOrders_ < restingCount s.sellOrders_ ∧
        ((s.sellOrders_.map Prod.fst).Nodup →
          restingOrders s1.sellOrders_ = (restingOrders s.sellOrders_).tail)) ∨
      (s1.sellOrders_ = s.sellOrders_ ∧ (s1.deref p).quantity ≤ 0 ∧
        (p ∉ restingOrders s.sellOrders_ → (s1.deref p).quantity = 0) ∧
        matchBuyStep s1 p = none)) ∧
    matchBuyStep (s.matchBuyOrder p) p = none ∧
    (∀ n, restingCount s.sellOrders_ < n → matchBuyLoop n s p = s.matchBuyOrder p) ∧
    (∀ s1, matchSellStep s p = some s1 →
      (restingCount s1.buyOrders_ < restingCount s.buyOrders_ ∧
        ((s.buyOrders_.map Prod.fst).Nodup →
          restingOrders s1.buyOrders_ = (restingOrders s.buyOrders_).tail)) ∨
      (s1.buyOrders_ = s.buyOrders_ ∧ (s1.deref p).quantity ≤ 0 ∧
        (p ∉ restingOrders s.buyOrders_ → (s1.deref p).quantity = 0) ∧
        matchSellStep s1 p = none)) ∧
    matchSellStep (s.matchSellOrder p) p = none ∧
    (∀ n, restingCount s.buyOrders_ < n → matchSellLoop n s p = s.matchSellOrder p) :=
  ⟨fun _ h => matchBuyStep_progress h, matchBuyOrder_exit s p, matchBuyLoop_stable s p,
    fun _ h => matchSellStep_progress h, matchSellOrder_exit s p, matchSellLoop_stable s p⟩

/-- Example for C23: in `staleAskIncoming` the first iteration pops the stale
head sell (two resting sells become one), the second fills the incoming buy
from the sell behind it, and the loop has left after these two iterations. -/
theorem matching_loop_terminates_witness :
    matchBuyStep staleAskIncoming 2 = some (matchBuyLoop 1 staleAskIncoming 2) ∧
    restingCount staleAskIncoming.sellOrders_ = 2 ∧
    restingCount (matchBuyLoop 1 staleAskIncoming 2).sellOrders_ = 1 ∧
    ((restingCount (matchBuyLoop 1 staleAskIncoming 2).sellOrders_ <
        restingCount staleAskIncoming.sellOrders_ ∧
        ((staleAskIncoming.sellOrders_.map Prod.fst).Nodup →
          restingOrders (matchBuyLoop 1 staleAskIncoming 2).sellOrders_ =
            (restingOrders staleAskIncoming.sellOrders_).tail)) ∨
      ((matchBuyLoop 1 staleAskIncoming 2).sellOrders_ = staleAskIncoming.sellOrders_ ∧
        ((matchBuyLoop 1 staleAskIncoming 2).deref 2).quantity ≤ 0 ∧
        (2 ∉ restingOrders staleAskIncoming.sellOrders_ →
          ((matchBuyLoop 1 staleAskIncoming 2).deref 2).quantity = 0) ∧
        matchBuyStep (matchBuyLoop 1 staleAskIncoming 2) 2 = none)) ∧
    matchBuyLoop 2 staleAskIncoming 2 = staleAskIncoming.matchBuyOrder 2 ∧
    matchBuyLoop 7 staleAskIncoming 2 = staleAskIncoming.matchBuyOrder 2 :=
  have h := matching_loop_terminates staleAskIncoming 2
  ⟨rfl, by decide, by decide, h.1 _ rfl, rfl, h.2.2.1 7 (by decide)⟩

end OrderBook

namespace OrderBook

/-- C9 (cancel of an active id).  Let `s` be a well-formed state (every
reachable state is) in which the index maps `orderId` to the order `p` and no
resting order other than `p` carries that id (this follows from pairwise
distinct ids of the resting orders).  Then `cancelOrder orderId` returns true;
the index is the old one without `orderId`, every other id is mapped as before;
on the side of `p` (bids when its side is "buy", asks otherwise) the level of
the price of `p` is its old content without `p`, the others in their old order,
and is deleted when that is empty, and every other level is as before; the
other side book is unchanged; `p` rests nowhere afterwards; all order records
(hence all residuals), the queues and the trades are unchanged, so no trade is
emitted; the result is well formed; and cancelling `orderId` again returns
false. -/
theorem cancelOrder_active (s : OrderBook) (orderId : Int) (p : OrderPointer)
    (hw : WellFormed s)
    (hfind : activeFind s.activeOrders_ orderId = some p)
    (hids : ∀ q ∈ restingOrders s.buyOrders_ ++ restingOrders s.sellOrders_,
      (s.deref q).orderId = orderId → q = p) :
    (s.cancelOrder orderId).1 = true ∧
    (s.cancelOrder orderId).2.activeOrders_ = activeErase s.activeOrders_ orderId ∧
    activeFind (s.cancelOrder orderId).2.activeOrders_ orderId = none ∧
    (∀ k, k ≠ orderId →
      activeFind (s.cancelOrder orderId).2.activeOrders_ k = activeFind s.activeOrders_ k) ∧
    (s.cancelOrder orderId).2.heap = s.heap ∧
    (s.cancelOrder orderId).2.trades = s.trades ∧
    (s.cancelOrder orderId).2.buyQueue_ = s.buyQueue_ ∧
    (s.cancelOrder orderId).2.sellQueue_ = s.sellQueue_ ∧
    WellFormed (s.cancelOrder orderId).2 ∧
    p ∉ restingOrders (s.cancelOrder orderId).2.buyOrders_ ∧
    p ∉ restingOrders (s.cancelOrder orderId).2.sellOrders_ ∧
    ((s.deref p).side = Side.buy →
      mapFind (s.cancelOrder orderId).2.buyOrders_ (s.deref p).price =
        (if levelWithout s.buyOrders_ (s.deref p).price p = [] then none
         else some (levelWithout s.buyOrders_ (s.deref p).price p)) ∧
      (∀ k, k ≠ (s.deref p).price →
        mapFind (s.cancelOrder orderId).2.buyOrders_ k = mapFind s.buyOrders_ k) ∧
      (s.cancelOrder orderId).2.sellOrders_ = s.sellOrders_) ∧
    ((s.deref p).side ≠ Side.buy →
      mapFind (s.cancelOrder orderId).2.sellOrders_ (s.deref p).price =
        (if levelWithout s.sellOrders_ (s.deref p).price p = [] then none
         else some (levelWithout s.sellOrders_ (s.deref p).price p)) ∧
      (∀ k, k ≠ (s.deref p).price →
        mapFind (s.cancelOrder orderId).2.sellOrders_ k = mapFind s.sellOrders_ k) ∧
      (s.cancelOrder orderId).2.buyOrders_ = s.buyOrders_) ∧
    ((s.cancelOrder orderId).2.cancelOrder orderId).1 = false := by
  obtain ⟨_, hid⟩ := hw.2.2.2.2.2.2.1 (orderId, p) (mem_of_activeFind hfind)
  simp only at hid
  obtain ⟨c1, c2, c3, c4, cb, cs⟩ := cancelOrder_books s orderId p hfind
  have hnot := not_mem_removeResting hw p
  rw [hid] at hnot
  have hbooks : (s.cancelOrder orderId).2.buyOrders_ = (s.removeResting p orderId).buyOrders_ ∧
      (s.cancelOrder orderId).2.sellOrders_ = (s.removeResting p orderId).sellOrders_ := by
    rw [cancelOrder_of_find s orderId p hfind]
    exact ⟨rfl, rfl⟩
  refine ⟨c1, c2, by rw [c2]; exact activeFind_activeErase_self _ _,
    fun k hk => by rw [c2]; exact activeFind_activeErase_of_ne _ _ _ hk,
    cancelOrder_heap s orderId, cancelOrder_trades s orderId, c3, c4,
    wellFormed_cancelOrder hw orderId, by rw [hbooks.1]; exact hnot.1,
    by rw [hbooks.2]; exact hnot.2, ?_, ?_, ?_⟩
  · intro hb
    obtain ⟨b1, b2⟩ := cb hb
    refine ⟨?_, fun k hk => ?_, b2⟩
    · rw [b1]
      exact mapFind_removeFromLevel_pointer s s.buyOrders_ p orderId hw.2.2.1
        (fun e he x hx => (hw.2.2.2.2.1 e he x hx).2.1) hid
        (fun q hq => hids q (List.mem_append_left _ hq)) _
    · rw [b1]
      exact mapFind_removeFromLevel_of_ne s s.buyOrders_ _ orderId k hk
  · intro hb
    obtain ⟨b1, b2⟩ := cs hb
    refine ⟨?_, fun k hk => ?_, b2⟩
    · rw [b1]
      exact mapFind_removeFromLevel_pointer s s.sellOrders_ p orderId hw.2.2.2.1
        (fun e he x hx => (hw.2.2.2.2.2.1 e he x hx).2.1) hid
        (fun q hq => hids q (List.mem_append_right _ hq)) _
    · rw [b1]
      exact mapFind_removeFromLevel_of_ne s s.sellOrders_ _ orderId k hk
  · have hagain : ∀ t : OrderBook, t.activeOrders_ = activeErase s.activeOrders_ orderId →
        (t.cancelOrder orderId).1 = false := by
      intro t ht
      unfold cancelOrder
      rw [ht, activeFind_activeErase_self]
    exact hagain _ c2

/-- Example for C9: the buy 10 (price 110, quantity 10) is added and cancelled,
and cancelled again; and in `staleIndexExample`, where the index maps 1 to an
order that no longer rests, `cancelOrder 1` returns true, empties the index and
leaves the (empty) side books as they are. -/
theorem cancelOrder_active_witness :
    (WellFormed (empty.addOrder 10 110 10 Side.buy OrderType.Limit) ∧
      activeFind (empty.addOrder 10 110 10 Side.buy OrderType.Limit).activeOrders_ 10 = some 0 ∧
      WellFormed staleIndexExample ∧
      activeFind staleIndexExample.activeOrders_ 1 = some 0 ∧
      restingOrders staleIndexExample.buyOrders_ ++ restingOrders staleIndexExample.sellOrders_ =
        []) ∧
    ((empty.addOrder 10 110 10 Side.buy OrderType.Limit).cancelOrder 10).1 = true ∧
    mapFind ((empty.addOrder 10 110 10 Side.buy OrderType.Limit).cancelOrder 10).2.buyOrders_
      ((empty.addOrder 10 110 10 Side.buy OrderType.Limit).deref 0).price =
      (if levelWithout (empty.addOrder 10 110 10 Side.buy OrderType.Limit).buyOrders_
          ((empty.addOrder 10 110 10 Side.buy OrderType.Limit).deref 0).price 0 = [] then none
       else some (levelWithout (empty.addOrder 10 110 10 Side.buy OrderType.Limit).buyOrders_
          ((empty.addOrder 10 110 10 Side.buy OrderType.Limit).deref 0).price 0)) ∧
    ((empty.addOrder 10 110 10 Side.buy OrderType.Limit).cancelOrder 10).2.buyOrders_ = [] ∧
    (((empty.addOrder 10 110 10 Side.buy OrderType.Limit).cancelOrder 10).2.cancelOrder 10).1
      = false ∧
    ((empty.addOrder 10 110 10 Side.buy OrderType.Limit).cancelOrder 10).2.getBestBid = 0 ∧
    (staleIndexExample.cancelOrder 1).1 = true ∧
    activeFind (staleIndexExample.cancelOrder 1).2.activeOrders_ 1 = none ∧
    ((staleIndexExample.cancelOrder 1).2.cancelOrder 1).1 = false :=
  have hw1 : WellFormed (empty.addOrder 10 110 10 Side.buy OrderType.Limit) :=
    wellFormed_of_reachable (Reachable.add _ 10 110 10 Side.buy OrderType.Limit Reachable.init)
  have hw2 : WellFormed staleIndexExample :=
    wellFormed_of_reachable (Reachable.add _ 2 0 5 Side.buy OrderType.Market
      (Reachable.add _ 1 100 0 Side.sell OrderType.Limit Reachable.init))
  have h1 := cancelOrder_active (empty.addOrder 10 110 10 Side.buy OrderType.Limit) 10 0 hw1
    (by decide) (by decide)
  have h2 := cancelOrder_active staleIndexExample 1 0 hw2 (by decide) (by decide)
  ⟨⟨hw1, by decide, hw2, by decide, by decide⟩, h1.1, (h1.2.2.2.2.2.2.2.2.2.2.2.1 (by decide)).1,
    by decide, h1.2.2.2.2.2.2.2.2.2.2.2.2.2, by decide, h2.1, h2.2.2.1,
    h2.2.2.2.2.2.2.2.2.2.2.2.2.2⟩

end OrderBook

namespace OrderBook

theorem indexedLimit_transport {s s1 : OrderBook} (h : IndexedLimit s)
    (hsub : ∀ e ∈ s1.activeOrders_, e ∈ s.activeOrders_)
    (hty : ∀ e ∈ s.activeOrders_, (s1.deref e.2).orderType = (s.deref e.2).orderType) :
    IndexedLimit s1 := by
  intro e he
  rw [hty e (hsub e he)]
  exact h e (hsub e he)

theorem indexedLimit_of_shrinks {s s1 : OrderBook} (h : IndexedLimit s) (hsh : Shrinks s s1) :
    IndexedLimit s1 :=
  indexedLimit_transport h (fun _ he => hsh.2.2.2.2.2.1.subset he)
    (fun e _ => hsh.1.orderType e.2)

theorem indexedLimit_alloc {s : OrderBook} (hw : WellFormed s) (h : IndexedLimit s) (o : Order) :
    IndexedLimit (s.alloc o) :=
  indexedLimit_transport h (fun _ he => he)
    (fun e he => by rw [deref_alloc_old s o e.2 (hw.2.2.2.2.2.2.1 e he).1])

theorem indexedLimit_addOrder {s : OrderBook} (hw : WellFormed s) (h : IndexedLimit s)
    (orderId price quantity : Int) (side : Side) (orderType : OrderType)
    (hns : orderType ≠ OrderType.Stop) :
    IndexedLimit (s.addOrder orderId price quantity side orderType) := by
  by_cases ht : orderType = OrderType.Market ∨ orderType = OrderType.IOC
  · exact indexedLimit_of_shrinks (indexedLimit_alloc hw h _)
      (shrinks_addOrder_immediate s _ _ _ _ _ ht)
  · simp only [not_or] at ht
    have hL : orderType = OrderType.Limit := by
      cases orderType
      · exact absurd rfl ht.1
      · rfl
      · exact absurd rfl hns
      · exact absurd rfl ht.2
    have hheap := addOrder_resting_heap s orderId price quantity side orderType ht.1 ht.2
    have hidx := addOrder_resting_activeOrders s orderId price quantity side orderType ht.1 ht.2
    have hh : (s.addOrder orderId price quantity side orderType).heap =
        (s.alloc (Order.mk orderType orderId price quantity side 0)).heap := hheap
    intro e he
    rw [hidx] at he
    rw [deref_congr hh]
    rcases List.mem_cons.1 he with h1 | h1
    · rw [h1]
      show ((s.alloc _).deref s.heap.length).orderType = _
      rw [deref_alloc_new]
      exact hL
    · have he0 := mem_activeErase h1
      rw [deref_alloc_old s _ e.2 (hw.2.2.2.2.2.2.1 e he0).1]
      exact h e he0

theorem indexedLimit_modifyOrder {s : OrderBook} (hw : WellFormed s) (h : IndexedLimit s)
    (orderId newQuantity newPrice : Int) :
    IndexedLimit (s.modifyOrder orderId newQuantity newPrice).2 := by
  cases hf : activeFind s.activeOrders_ orderId with
  | none =>
    have : s.modifyOrder orderId newQuantity newPrice = (false, s) := by
      unfold modifyOrder; rw [hf]
    rw [this]; exact h
  | some p =>
    have hv := (hw.2.2.2.2.2.2.1 (orderId, p) (mem_of_activeFind hf)).1
    obtain ⟨_, _, _, _, f5⟩ := modifyOrder_frame s orderId newQuantity newPrice p hf
    have fp := modifyOrder_deref_self s orderId newQuantity newPrice p hf hv
    refine indexedLimit_transport h
      (fun e he => by rw [modifyOrder_activeOrders] at he; exact he) (fun e _ => ?_)
    by_cases hx : e.2 = p
    · rw [hx, fp]
    · rw [f5 e.2 hx]

theorem indexedLimit_processBuyOrdersStep {s : OrderBook} (h : IndexedLimit s) :
    IndexedLimit s.processBuyOrdersStep := by
  unfold processBuyOrdersStep
  cases hq : s.buyQueue_ with
  | nil => exact h
  | cons order rest =>
    simp only
    exact indexedLimit_of_shrinks (s := { s with buyQueue_ := rest }) h
      (shrinks_matchBuyOrder _ _)

theorem indexedLimit_processSellOrdersStep {s : OrderBook} (h : IndexedLimit s) :
    IndexedLimit s.processSellOrdersStep := by
  unfold processSellOrdersStep
  cases hq : s.sellQueue_ with
  | nil => exact h
  | cons order rest =>
    simp only
    exact indexedLimit_of_shrinks (s := { s with sellQueue_ := rest }) h
      (shrinks_matchSellOrder _ _)

/-- Every state reachable through the interface of the spec is well formed, and
every order of its index has the discipline Limit. -/
theorem wellFormed_indexedLimit_of_admitted {s : OrderBook} (h : Admitted s) :
    WellFormed s ∧ IndexedLimit s := by
  induction h with
  | init => exact ⟨wellFormed_empty, fun e he => by simp [empty] at he⟩
  | add s orderId price quantity side orderType _ hns ih =>
    exact ⟨wellFormed_addOrder ih.1 _ _ _ _ _, indexedLimit_addOrder ih.1 ih.2 _ _ _ _ _ hns⟩
  | cancel s orderId _ ih =>
    exact ⟨wellFormed_cancelOrder ih.1 _, indexedLimit_of_shrinks ih.2 (shrinks_cancelOrder s _)⟩
  | modify s orderId q p _ ih =>
    exact ⟨wellFormed_modifyOrder ih.1 _ _ _, indexedLimit_modifyOrder ih.1 ih.2 _ _ _⟩
  | reset s _ ih => exact ⟨wellFormed_reset ih.1, fun e he => by simp [reset] at he⟩
  | buyWorker s _ ih =>
    exact ⟨wellFormed_processBuyOrdersStep ih.1, indexedLimit_processBuyOrdersStep ih.2⟩
  | sellWorker s _ ih =>
    exact ⟨wellFormed_processSellOrdersStep ih.1, indexedLimit_processSellOrdersStep ih.2⟩
  | stop s o _ ih =>
    exact ⟨wellFormed_of_shrinks (wellFormed_alloc ih.1 o) (shrinks_processOrder _ _),
      indexedLimit_of_shrinks (indexedLimit_alloc ih.1 ih.2 o) (shrinks_processOrder _ _)⟩

end OrderBook

namespace OrderBook

/-- C12 (modify law).  In every state reachable through the interface of the
spec (`addOrder` with a discipline among Limit, Market and IOC, `cancelOrder`,
`modifyOrder`, `reset`, worker steps, matches of promoted stop orders, all with
arbitrary arguments) in which the index maps `orderId` to the order `p`, and for
every new quantity and new price, `modifyOrder` yields the same bid book, the
same ask book and the same index as `cancelOrder orderId` followed by
`addOrder orderId newPrice newQuantity side Limit` with the side of `p`, run
from the same state, when orders are compared by id, side, discipline, price
and residual quantity, levels by their key and ordered contents, and the index
by what each id is mapped to.  Distinct ids of the resting orders are not
needed: both paths remove the same orders. -/
theorem modify_law (s : OrderBook) (orderId newQuantity newPrice : Int) (p : OrderPointer)
    (hs : Admitted s) (hfind : activeFind s.activeOrders_ orderId = some p) :
    bookView (s.modifyOrder orderId newQuantity newPrice).2
        (s.modifyOrder orderId newQuantity newPrice).2.buyOrders_ =
      bookView ((s.cancelOrder orderId).2.addOrder orderId newPrice newQuantity (s.deref p).side
          OrderType.Limit)
        ((s.cancelOrder orderId).2.addOrder orderId newPrice newQuantity (s.deref p).side
          OrderType.Limit).buyOrders_ ∧
    bookView (s.modifyOrder orderId newQuantity newPrice).2
        (s.modifyOrder orderId newQuantity newPrice).2.sellOrders_ =
      bookView ((s.cancelOrder orderId).2.addOrder orderId newPrice newQuantity (s.deref p).side
          OrderType.Limit)
        ((s.cancelOrder orderId).2.addOrder orderId newPrice newQuantity (s.deref p).side
          OrderType.Limit).sellOrders_ ∧
    ∀ k, indexView (s.modifyOrder orderId newQuantity newPrice).2 k =
      indexView ((s.cancelOrder orderId).2.addOrder orderId newPrice newQuantity (s.deref p).side
        OrderType.Limit) k :=
  modify_law_of_limit s orderId newQuantity newPrice p (wellFormed_indexedLimit_of_admitted hs).1
    hfind ((wellFormed_indexedLimit_of_admitted hs).2 (orderId, p) (mem_of_activeFind hfind))

/-- Example for C12: the sell 11 (price 130, quantity 10) rests behind the sell 12
(price 125, quantity 4) and beside the bid 13; it is modified to quantity 15 at
price 125 and lands behind the sell 12, as after cancel and add. -/
theorem modify_law_witness :
    Admitted modifyExample ∧
    activeFind modifyExample.activeOrders_ 11 = some 0 ∧
    (modifyExample.deref 0).side = Side.sell ∧
    bookView (modifyExample.modifyOrder 11 15 125).2
        (modifyExample.modifyOrder 11 15 125).2.sellOrders_ =
      [(125, [OrderView.mk 12 Side.sell OrderType.Limit 125 4,
        OrderView.mk 11 Side.sell OrderType.Limit 125 15])] ∧
    bookView ((modifyExample.cancelOrder 11).2.addOrder 11 125 15 Side.sell OrderType.Limit)
        ((modifyExample.cancelOrder 11).2.addOrder 11 125 15 Side.sell
          OrderType.Limit).sellOrders_ =
      [(125, [OrderView.mk 12 Side.sell OrderType.Limit 125 4,
        OrderView.mk 11 Side.sell OrderType.Limit 125 15])] ∧
    bookView (modifyExample.modifyOrder 11 15 125).2
        (modifyExample.modifyOrder 11 15 125).2.sellOrders_ =
      bookView ((modifyExample.cancelOrder 11).2.addOrder 11 125 15 (modifyExample.deref 0).side
          OrderType.Limit)
        ((modifyExample.cancelOrder 11).2.addOrder 11 125 15 (modifyExample.deref 0).side
          OrderType.Limit).sellOrders_ ∧
    bookView (modifyExample.modifyOrder 11 15 125).2
        (modifyExample.modifyOrder 11 15 125).2.buyOrders_ =
      bookView ((modifyExample.cancelOrder 11).2.addOrder 11 125 15 (modifyExample.deref 0).side
          OrderType.Limit)
        ((modifyExample.cancelOrder 11).2.addOrder 11 125 15 (modifyExample.deref 0).side
          OrderType.Limit).buyOrders_ :=
  have ha : Admitted modifyExample :=
    Admitted.add _ 13 120 6 Side.buy OrderType.Limit
      (Admitted.add _ 12 125 4 Side.sell OrderType.Limit
        (Admitted.add _ 11 130 10 Side.sell OrderType.Limit Admitted.init (by decide))
        (by decide)) (by decide)
  have h := modify_law modifyExample 11 15 125 0 ha (by decide)
  ⟨ha, by decide, by decide, by decide, by decide, h.2.1, h.1⟩

end OrderBook

namespace OrderBook

/-! ### The operations do not read the ingress queues -/

theorem retireAskHead_withQueues (s : OrderBook) (qb qs : List OrderPointer) (p : OrderPointer) :
    (s.withQueues qb qs).retireAskHead p = (s.retireAskHead p).withQueues qb qs := by
  unfold retireAskHead
  by_cases h : (s.deref p).quantity = 0
  · rw [if_pos h, if_pos (show ((s.withQueues qb qs).deref p).quantity = 0 from h)]; rfl
  · rw [if_neg h, if_neg (show ¬ ((s.withQueues qb qs).deref p).quantity = 0 from h)]

theorem retireBidHead_withQueues (s : OrderBook) (qb qs : List OrderPointer) (p : OrderPointer) :
    (s.withQueues qb qs).retireBidHead p = (s.retireBidHead p).withQueues qb qs := by
  unfold retireBidHead
  by_cases h : (s.deref p).quantity = 0
  · rw [if_pos h, if_pos (show ((s.withQueues qb qs).deref p).quantity = 0 from h)]; rfl
  · rw [if_neg h, if_neg (show ¬ ((s.withQueues qb qs).deref p).quantity = 0 from h)]

theorem retireIncomingBuy_withQueues (s : OrderBook) (qb qs : List OrderPointer)
    (p : OrderPointer) :
    (s.withQueues qb qs).retireIncomingBuy p = (s.retireIncomingBuy p).withQueues qb qs := by
  unfold retireIncomingBuy
  by_cases h : (s.deref p).quantity = 0
  · rw [if_pos h, if_pos (show ((s.withQueues qb qs).deref p).quantity = 0 from h)]; rfl
  · rw [if_neg h, if_neg (show ¬ ((s.withQueues qb qs).deref p).quantity = 0 from h)]

theorem retireIncomingSell_withQueues (s : OrderBook) (qb qs : List OrderPointer)
    (p : OrderPointer) :
    (s.withQueues qb qs).retireIncomingSell p = (s.retireIncomingSell p).withQueues qb qs := by
  unfold retireIncomingSell
  by_cases h : (s.deref p).quantity = 0
  · rw [if_pos h, if_pos (show ((s.withQueues qb qs).deref p).quantity = 0 from h)]; rfl
  · rw [if_neg h, if_neg (show ¬ ((s.withQueues qb qs).deref p).quantity = 0 from h)]

theorem tradeBuy_withQueues (s : OrderBook) (qb qs : List OrderPointer) (b sp : OrderPointer)
    (k q : Int) :
    (s.withQueues qb qs).tradeBuy b sp k q = (s.tradeBuy b sp k q).withQueues qb qs := by
  unfold tradeBuy
  simp only
  rw [← retireIncomingBuy_withQueues, ← retireAskHead_withQueues]
  rfl

theorem tradeSell_withQueues (s : OrderBook) (qb qs : List OrderPointer) (sp b : OrderPointer)
    (k q : Int) :
    (s.withQueues qb qs).tradeSell sp b k q = (s.tradeSell sp b k q).withQueues qb qs := by
  unfold tradeSell
  simp only
  rw [← retireIncomingSell_withQueues, ← retireBidHead_withQueues]
  rfl

theorem matchBuyStep_withQueues (s : OrderBook) (qb qs : List OrderPointer) (b : OrderPointer) :
    matchBuyStep (s.withQueues qb qs) b =
      (matchBuyStep s b).map (fun t => t.withQueues qb qs) := by
  have hd : ∀ x, (s.withQueues qb qs).deref x = s.deref x := fun _ => rfl
  have hs : (s.withQueues qb qs).sellOrders_ = s.sellOrders_ := rfl
  unfold matchBuyStep
  simp only [hd, hs]
  split_ifs <;> try rfl
  all_goals (split <;> try rfl)
  all_goals (split_ifs <;> try rfl)
  all_goals (split <;> try rfl)
  all_goals (split_ifs <;> try rfl)
  all_goals (simp only [Option.map_some', tradeBuy_withQueues])

theorem matchSellStep_withQueues (s : OrderBook) (qb qs : List OrderPointer) (b : OrderPointer) :
    matchSellStep (s.withQueues qb qs) b =
      (matchSellStep s b).map (fun t => t.withQueues qb qs) := by
  have hd : ∀ x, (s.withQueues qb qs).deref x = s.deref x := fun _ => rfl
  have hs : (s.withQueues qb qs).buyOrders_ = s.buyOrders_ := rfl
  have hs2 : (s.withQueues qb qs).sellOrders_ = s.sellOrders_ := rfl
  unfold matchSellStep
  simp only [hd, hs, hs2]
  split_ifs <;> try rfl
  all_goals (split <;> try rfl)
  all_goals (split_ifs <;> try rfl)
  all_goals (split <;> try rfl)
  all_goals (split_ifs <;> try rfl)
  all_goals (simp only [Option.map_some', tradeSell_withQueues])

theorem matchBuyLoop_withQueues (n : Nat) (qb qs : List OrderPointer) (b : OrderPointer) :
    ∀ s : OrderBook, matchBuyLoop n (s.withQueues qb qs) b =
      (matchBuyLoop n s b).withQueues qb qs := by
  induction n with
  | zero => intro s; rfl
  | succ n ih =>
    intro s
    simp only [matchBuyLoop, matchBuyStep_withQueues]
    cases matchBuyStep s b with
    | none => rfl
    | some s1 => exact ih s1

theorem matchSellLoop_withQueues (n : Nat) (qb qs : List OrderPointer) (b : OrderPointer) :
    ∀ s : OrderBook, matchSellLoop n (s.withQueues qb qs) b =
      (matchSellLoop n s b).withQueues qb qs := by
  induction n with
  | zero => intro s; rfl
  | succ n ih =>
    intro s
    simp only [matchSellLoop, matchSellStep_withQueues]
    cases matchSellStep s b with
    | none => rfl
    | some s1 => exact ih s1

theorem matchBuyOrder_withQueues (s : OrderBook) (qb qs : List OrderPointer) (b : OrderPointer) :
    (s.withQueues qb qs).matchBuyOrder b = (s.matchBuyOrder b).withQueues qb qs :=
  matchBuyLoop_withQueues _ qb qs b s

theorem matchSellOrder_withQueues (s : OrderBook) (qb qs : List OrderPointer) (b : OrderPointer) :
    (s.withQueues qb qs).matchSellOrder b = (s.matchSellOrder b).withQueues qb qs :=
  matchSellLoop_withQueues _ qb qs b s

theorem processOrder_withQueues (s : OrderBook) (qb qs : List OrderPointer) (p : OrderPointer) :
    (s.withQueues qb qs).processOrder p = (s.processOrder p).withQueues qb qs := by
  unfold processOrder
  have hd : ∀ x, (s.withQueues qb qs).deref x = s.deref x := fun _ => rfl
  simp only [hd]
  split_ifs
  · exact matchBuyOrder_withQueues s qb qs p
  · exact matchSellOrder_withQueues s qb qs p
  · rfl

theorem processOrder_queues (s : OrderBook) (p : OrderPointer) :
    (s.processOrder p).buyQueue_ = s.buyQueue_ ∧ (s.processOrder p).sellQueue_ = s.sellQueue_ :=
  ⟨(shrinks_processOrder s p).2.2.2.2.2.2.1, (shrinks_processOrder s p).2.2.2.2.2.2.2.1⟩

/-- Orders put in front of the queues stay in front of them across `addOrder`. -/
theorem addOrder_withQueues (s : OrderBook) (pb ps : List OrderPointer)
    (orderId price quantity : Int) (side : Side) (orderType : OrderType) :
    (s.withQueues (pb ++ s.buyQueue_) (ps ++ s.sellQueue_)).addOrder orderId price quantity side
        orderType =
      (s.addOrder orderId price quantity side orderType).withQueues
        (pb ++ (s.addOrder orderId price quantity side orderType).buyQueue_)
        (ps ++ (s.addOrder orderId price quantity side orderType).sellQueue_) := by
  obtain ⟨o, ho⟩ : ∃ o, o = Order.mk orderType orderId price quantity side 0 := ⟨_, rfl⟩
  have hq := processOrder_queues (s.alloc o) s.heap.length
  have hp : ((s.withQueues (pb ++ s.buyQueue_) (ps ++ s.sellQueue_)).alloc o).processOrder
      s.heap.length =
      ((s.alloc o).processOrder s.heap.length).withQueues (pb ++ s.buyQueue_)
        (ps ++ s.sellQueue_) :=
    processOrder_withQueues (s.alloc o) _ _ _
  by_cases h1 : orderType = OrderType.Market
  · have e1 : ∀ t : OrderBook, t.addOrder orderId price quantity side orderType =
        (t.alloc o).processOrder t.heap.length := by
      intro t; unfold addOrder; rw [if_pos h1, ho]
    rw [e1, e1]
    show ((s.withQueues _ _).alloc o).processOrder s.heap.length = _
    rw [hp, hq.1, hq.2]
    rfl
  · by_cases h2 : orderType = OrderType.IOC
    · have e1 : ∀ t : OrderBook, t.addOrder orderId price quantity side orderType =
          if (((t.alloc o).processOrder t.heap.length).deref t.heap.length).quantity > 0 then
            ((t.alloc o).processOrder t.heap.length).setQuantity t.heap.length 0
          else (t.alloc o).processOrder t.heap.length := by
        intro t; unfold addOrder; rw [if_neg h1, if_pos h2, ho]
      rw [e1, e1]
      show (if ((((s.withQueues _ _).alloc o).processOrder s.heap.length).deref
          s.heap.length).quantity > 0 then
            (((s.withQueues _ _).alloc o).processOrder s.heap.length).setQuantity s.heap.length 0
          else ((s.withQueues _ _).alloc o).processOrder s.heap.length) = _
      rw [hp]
      by_cases h3 : (((s.alloc o).processOrder s.heap.length).deref s.heap.length).quantity > 0
      · rw [if_pos h3, if_pos (show ((((s.alloc o).processOrder s.heap.length).withQueues
          (pb ++ s.buyQueue_) (ps ++ s.sellQueue_)).deref s.heap.length).quantity > 0 from h3)]
        show _ = (((s.alloc o).processOrder s.heap.length).setQuantity s.heap.length 0).withQueues
          (pb ++ ((s.alloc o).processOrder s.heap.length).buyQueue_)
          (ps ++ ((s.alloc o).processOrder s.heap.length).sellQueue_)
        rw [hq.1, hq.2]
        rfl
      · rw [if_neg h3, if_neg (show ¬ ((((s.alloc o).processOrder s.heap.length).withQueues
          (pb ++ s.buyQueue_) (ps ++ s.sellQueue_)).deref s.heap.length).quantity > 0 from h3),
          hq.1, hq.2]
        rfl
    · rw [addOrder_resting _ _ _ _ _ _ h1 h2, addOrder_resting _ _ _ _ _ _ h1 h2]
      unfold insertResting
      by_cases hs : side = Side.buy
      · rw [if_pos hs, if_pos hs]
        simp only [withQueues, alloc, List.append_assoc]
      · rw [if_neg hs, if_neg hs]
        simp only [withQueues, alloc, List.append_assoc]

theorem removeResting_withQueues (s : OrderBook) (qb qs : List OrderPointer) (p : OrderPointer)
    (orderId : Int) :
    (s.withQueues qb qs).removeResting p orderId = (s.removeResting p orderId).withQueues qb qs := by
  unfold removeResting
  by_cases h : (s.deref p).side = Side.buy
  · rw [if_pos h, if_pos (show ((s.withQueues qb qs).deref p).side = Side.buy from h)]; rfl
  · rw [if_neg h, if_neg (show ¬ ((s.withQueues qb qs).deref p).side = Side.buy from h)]; rfl

theorem cancelOrder_withQueues (s : OrderBook) (pb ps : List OrderPointer) (orderId : Int) :
    ((s.withQueues (pb ++ s.buyQueue_) (ps ++ s.sellQueue_)).cancelOrder orderId).2 =
      (s.cancelOrder orderId).2.withQueues (pb ++ (s.cancelOrder orderId).2.buyQueue_)
        (ps ++ (s.cancelOrder orderId).2.sellQueue_) := by
  have hq1 : (s.cancelOrder orderId).2.buyQueue_ = s.buyQueue_ :=
    (shrinks_cancelOrder s orderId).2.2.2.2.2.2.1
  have hq2 : (s.cancelOrder orderId).2.sellQueue_ = s.sellQueue_ :=
    (shrinks_cancelOrder s orderId).2.2.2.2.2.2.2.1
  rw [hq1, hq2]
  unfold cancelOrder
  show (match activeFind s.activeOrders_ orderId with
    | none => (false, s.withQueues (pb ++ s.buyQueue_) (ps ++ s.sellQueue_))
    | some order => _).2 = _
  cases activeFind s.activeOrders_ orderId with
  | none => rfl
  | some p =>
    simp only
    rw [removeResting_withQueues]
    rfl

theorem modifyOrder_withQueues (s : OrderBook) (pb ps : List OrderPointer)
    (orderId newQuantity newPrice : Int) :
    ((s.withQueues (pb ++ s.buyQueue_) (ps ++ s.sellQueue_)).modifyOrder orderId newQuantity
        newPrice).2 =
      (s.modifyOrder orderId newQuantity newPrice).2.withQueues
        (pb ++ (s.modifyOrder orderId newQuantity newPrice).2.buyQueue_)
        (ps ++ (s.modifyOrder orderId newQuantity newPrice).2.sellQueue_) := by
  unfold modifyOrder
  show (match activeFind s.activeOrders_ orderId with
    | none => (false, s.withQueues (pb ++ s.buyQueue_) (ps ++ s.sellQueue_))
    | some order => _).2 = _
  cases activeFind s.activeOrders_ orderId with
  | none => rfl
  | some p =>
    simp only
    rw [removeResting_withQueues]
    have hside : ((((s.removeResting p orderId).withQueues (pb ++ s.buyQueue_)
        (ps ++ s.sellQueue_)).setPriceQuantity p newPrice newQuantity).deref p).side =
        (((s.removeResting p orderId).setPriceQuantity p newPrice newQuantity).deref p).side :=
      rfl
    rw [hside]
    have hrq : (s.removeResting p orderId).buyQueue_ = s.buyQueue_ ∧
        (s.removeResting p orderId).sellQueue_ = s.sellQueue_ := by
      unfold removeResting; split_ifs <;> exact ⟨rfl, rfl⟩
    unfold insertResting
    split_ifs
    · simp only [withQueues, setPriceQuantity, hrq.1, hrq.2, List.append_assoc]
      rfl
    · simp only [withQueues, setPriceQuantity, hrq.1, hrq.2, List.append_assoc]
      rfl

end OrderBook

namespace OrderBook

theorem wellFormed_withQueues {s : OrderBook} (h : WellFormed s) (qb qs : List OrderPointer)
    (hb : ∀ p ∈ qb, p ∈ s.buyQueue_) (hs : ∀ p ∈ qs, p ∈ s.sellQueue_) :
    WellFormed (s.withQueues qb qs) :=
  wellFormed_transport h (le_refl _) (fun _ _ => rfl) (levelSub_refl _) (levelSub_refl _) id id
    (fun _ hx => hx) hb hs

theorem settled_reset {s : OrderBook} (h : Settled s) : Settled s.reset := by
  refine ⟨wellFormed_reset h.1, ?_, ?_, ?_⟩ <;> simp [LevelsPositive, CrossPending, reset]

/-- The match of a buy order taken from anywhere among the orders that await
their match keeps `Settled`. -/
theorem settled_matchBuy_of_mem {v : OrderBook} (h : Settled v) (x : OrderPointer)
    (hx : x ∈ v.buyQueue_) (qb : List OrderPointer)
    (hcover : ∀ p ∈ v.buyQueue_, p = x ∨ p ∈ qb) (hsub : ∀ p ∈ qb, p ∈ v.buyQueue_) :
    Settled ((v.withQueues qb v.sellQueue_).matchBuyOrder x) := by
  obtain ⟨hw, hpb, hps, hc⟩ := h
  have hw1 : WellFormed (v.withQueues qb v.sellQueue_) :=
    wellFormed_withQueues hw qb v.sellQueue_ hsub (fun _ hp => hp)
  have hside : (v.deref x).side = Side.buy := (hw.2.2.2.2.2.2.2.1 x hx).2
  have hc1 : CrossPending (v.withQueues qb v.sellQueue_) (fun p => p ∈ qb ∨ p = x)
      (fun p => p ∈ v.sellQueue_) := by
    intro eb heb es hes hle pb hpb1 ps hps1
    rcases hc eb heb es hes hle pb hpb1 ps hps1 with h1 | h1
    · rcases hcover pb h1 with h2 | h2
      · exact Or.inl (Or.inr h2)
      · exact Or.inl (Or.inl h2)
    · exact Or.inr h1
  obtain ⟨c1, c2, c3, c4, c5⟩ := core_matchBuyLoop
    (restingCount (v.withQueues qb v.sellQueue_).sellOrders_ + 1)
    (s := v.withQueues qb v.sellQueue_) (b := x) hw1 hpb hps hc1 hside
  have hexit := matchBuyOrder_exit (v.withQueues qb v.sellQueue_) x
  have hsh := shrinks_matchBuyOrder (v.withQueues qb v.sellQueue_) x
  unfold matchBuyOrder at hexit hsh ⊢
  have hno := no_cross_after_buy_exit c1 c2 c5 hexit
  refine ⟨c1, c2, c3, ?_⟩
  intro eb heb es hes hle pb hpb1 ps hps1
  rw [hsh.2.2.2.2.2.2.1, hsh.2.2.2.2.2.2.2.1]
  rcases c4 eb heb es hes hle pb hpb1 ps hps1 with (h1 | h1) | h1
  · exact Or.inl h1
  · exact absurd (h1 ▸ hpb1) (hno eb heb es hes hle).1
  · exact Or.inr h1

/-- The match of a sell order taken from anywhere among the orders that await
their match keeps `Settled`. -/
theorem settled_matchSell_of_mem {v : OrderBook} (h : Settled v) (x : OrderPointer)
    (hx : x ∈ v.sellQueue_) (qs : List OrderPointer)
    (hcover : ∀ p ∈ v.sellQueue_, p = x ∨ p ∈ qs) (hsub : ∀ p ∈ qs, p ∈ v.sellQueue_) :
    Settled ((v.withQueues v.buyQueue_ qs).matchSellOrder x) := by
  obtain ⟨hw, hpb, hps, hc⟩ := h
  have hw1 : WellFormed (v.withQueues v.buyQueue_ qs) :=
    wellFormed_withQueues hw v.buyQueue_ qs (fun _ hp => hp) hsub
  have hside : (v.deref x).side ≠ Side.buy := (hw.2.2.2.2.2.2.2.2 x hx).2
  have hc1 : CrossPending (v.withQueues v.buyQueue_ qs) (fun p => p ∈ v.buyQueue_)
      (fun p => p ∈ qs ∨ p = x) := by
    intro eb heb es hes hle pb hpb1 ps hps1
    rcases hc eb heb es hes hle pb hpb1 ps hps1 with h1 | h1
    · exact Or.inl h1
    · rcases hcover ps h1 with h2 | h2
      · exact Or.inr (Or.inr h2)
      · exact Or.inr (Or.inl h2)
  obtain ⟨c1, c2, c3, c4, c5⟩ := core_matchSellLoop
    (restingCount (v.withQueues v.buyQueue_ qs).buyOrders_ + 1)
    (s := v.withQueues v.buyQueue_ qs) (b := x) hw1 hpb hps hc1 hside
  have hexit := matchSellOrder_exit (v.withQueues v.buyQueue_ qs) x
  have hsh := shrinks_matchSellOrder (v.withQueues v.buyQueue_ qs) x
  unfold matchSellOrder at hexit hsh ⊢
  have hno := no_cross_after_sell_exit c1 c2 c3 c5 hexit
  refine ⟨c1, c2, c3, ?_⟩
  intro eb heb es hes hle pb hpb1 ps hps1
  rw [hsh.2.2.2.2.2.2.1, hsh.2.2.2.2.2.2.2.1]
  rcases c4 eb heb es hes hle pb hpb1 ps hps1 with h1 | (h1 | h1)
  · exact Or.inl h1
  · exact Or.inr h1
  · exact absurd (h1 ▸ hps1) (hno eb heb es hes hle).2

end OrderBook

namespace Engine

open OrderBook

theorem pending_popBuy (e : Engine) : e.popBuy.pending = e.pending := by
  unfold popBuy
  cases hq : e.book.buyQueue_ with
  | nil => simp only
  | cons x rest =>
    simp only [pending, withQueues, hq, List.append_assoc, List.singleton_append]

theorem pending_popSell (e : Engine) : e.popSell.pending = e.pending := by
  unfold popSell
  cases hq : e.book.sellQueue_ with
  | nil => simp only
  | cons x rest =>
    simp only [pending, withQueues, hq, List.append_assoc, List.singleton_append]

theorem pending_matchBuy (e : Engine) (x : OrderPointer) :
    (e.matchBuy x).pending =
      (e.pending.withQueues (e.buyPopped.erase x ++ e.book.buyQueue_)
        e.pending.sellQueue_).matchBuyOrder x := by
  have hq := shrinks_matchBuyOrder e.book x
  show (e.book.matchBuyOrder x).withQueues
    (e.buyPopped.erase x ++ (e.book.matchBuyOrder x).buyQueue_)
    (e.sellPopped ++ (e.book.matchBuyOrder x).sellQueue_) = _
  rw [hq.2.2.2.2.2.2.1, hq.2.2.2.2.2.2.2.1, ← matchBuyOrder_withQueues]
  rfl

theorem pending_matchSell (e : Engine) (x : OrderPointer) :
    (e.matchSell x).pending =
      (e.pending.withQueues e.pending.buyQueue_
        (e.sellPopped.erase x ++ e.book.sellQueue_)).matchSellOrder x := by
  have hq := shrinks_matchSellOrder e.book x
  show (e.book.matchSellOrder x).withQueues
    (e.buyPopped ++ (e.book.matchSellOrder x).buyQueue_)
    (e.sellPopped.erase x ++ (e.book.matchSellOrder x).sellQueue_) = _
  rw [hq.2.2.2.2.2.2.1, hq.2.2.2.2.2.2.2.1, ← matchSellOrder_withQueues]
  rfl

theorem mem_erase_append_cover {l q : List OrderPointer} {x p : OrderPointer}
    (h : p ∈ l ++ q) : p = x ∨ p ∈ l.erase x ++ q := by
  by_cases hp : p = x
  · exact Or.inl hp
  · right
    rcases List.mem_append.1 h with h1 | h1
    · exact List.mem_append_left _ ((List.mem_erase_of_ne hp).2 h1)
    · exact List.mem_append_right _ h1

theorem mem_of_erase_append {l q : List OrderPointer} {x p : OrderPointer}
    (h : p ∈ l.erase x ++ q) : p ∈ l ++ q := by
  rcases List.mem_append.1 h with h1 | h1
  · exact List.mem_append_left _ (List.mem_of_mem_erase h1)
  · exact List.mem_append_right _ h1

/-- In every run with separate pops and match calls, the book with the held
orders counted as awaiting their match is `Settled`: every crossing pair of
resting orders has a member that is still queued or held by a worker. -/
theorem settled_pending_of_interleaved {e : Engine} (h : Interleaved e) : Settled e.pending := by
  induction h with
  | init => exact settled_empty
  | add e orderId price quantity side orderType _ hq ih =>
    have hf := addOrder_withQueues e.book e.buyPopped e.sellPopped orderId price quantity side
      orderType
    show Settled ((e.book.addOrder orderId price quantity side orderType).withQueues
      (e.buyPopped ++ (e.book.addOrder orderId price quantity side orderType).buyQueue_)
      (e.sellPopped ++ (e.book.addOrder orderId price quantity side orderType).sellQueue_))
    rw [← hf]
    exact settled_addOrder ih _ _ _ _ _ hq
  | cancel e orderId _ ih =>
    have hf := cancelOrder_withQueues e.book e.buyPopped e.sellPopped orderId
    show Settled ((e.book.cancelOrder orderId).2.withQueues
      (e.buyPopped ++ (e.book.cancelOrder orderId).2.buyQueue_)
      (e.sellPopped ++ (e.book.cancelOrder orderId).2.sellQueue_))
    rw [← hf]
    exact settled_cancelOrder ih _
  | modify e orderId q p _ hq ih =>
    have hf := modifyOrder_withQueues e.book e.buyPopped e.sellPopped orderId q p
    show Settled ((e.book.modifyOrder orderId q p).2.withQueues
      (e.buyPopped ++ (e.book.modifyOrder orderId q p).2.buyQueue_)
      (e.sellPopped ++ (e.book.modifyOrder orderId q p).2.sellQueue_))
    rw [← hf]
    exact settled_modifyOrder ih _ _ _ hq
  | reset e _ ih => exact settled_reset ih
  | stop e o _ ih =>
    have hq := processOrder_queues (e.book.alloc o) e.book.heap.length
    show Settled (((e.book.alloc o).processOrder e.book.heap.length).withQueues
      (e.buyPopped ++ ((e.book.alloc o).processOrder e.book.heap.length).buyQueue_)
      (e.sellPopped ++ ((e.book.alloc o).processOrder e.book.heap.length).sellQueue_))
    rw [hq.1, hq.2, ← processOrder_withQueues]
    exact settled_processOrder (settled_alloc ih o) _
  | popBuy e _ ih => rw [pending_popBuy]; exact ih
  | popSell e _ ih => rw [pending_popSell]; exact ih
  | matchBuy e x _ hx ih =>
    rw [pending_matchBuy]
    exact settled_matchBuy_of_mem ih x (List.mem_append_left _ hx) _
      (fun p hp => mem_erase_append_cover hp) (fun p hp => mem_of_erase_append hp)
  | matchSell e x _ hx ih =>
    rw [pending_matchSell]
    exact settled_matchSell_of_mem ih x (List.mem_append_left _ hx) _
      (fun p hp => mem_erase_append_cover hp) (fun p hp => mem_of_erase_append hp)

end Engine

namespace Engine

open OrderBook

theorem wellFormed_book_of_pending {e : Engine} (h : WellFormed e.pending) :
    WellFormed e.book :=
  wellFormed_withQueues h e.book.buyQueue_ e.book.sellQueue_
    (fun _ hp => List.mem_append_right _ hp) (fun _ hp => List.mem_append_right _ hp)

theorem buy_priority_up_to_pending {e : Engine} (hst : Settled e.pending) {order : OrderPointer}
    (hx : order ∈ e.buyPopped) (ht : (e.book.deref order).orderType ≠ OrderType.Market)
    (n : Nat) (t t1 : OrderBook) (htdef : t = matchBuyLoop n e.book order)
    (hstep : matchBuyStep t order = some t1) :
    ∃ ask bestAsk tl more, t.sellOrders_ = (bestAsk, ask :: tl) :: more ∧
      t1.trades = t.trades ++ [Trade.mk (t.deref order).orderId (t.deref ask).orderId
        (min (t.deref order).quantity (t.deref ask).quantity) bestAsk] ∧
      (∀ eb ∈ t.buyOrders_, (e.book.deref order).price < eb.1 → ∀ x ∈ eb.2,
        (x ≠ order ∧ (x ∈ e.book.buyQueue_ ∨ x ∈ e.buyPopped)) ∨
        (ask ∈ e.book.sellQueue_ ∨ ask ∈ e.sellPopped)) ∧
      (e.book.buyQueue_ = [] → e.buyPopped = [order] → e.book.sellQueue_ = [] →
        e.sellPopped = [] → ∀ eb ∈ t.buyOrders_, eb.1 ≤ (e.book.deref order).price) := by
  have hw : WellFormed e.book := wellFormed_book_of_pending hst.1
  have hpb : LevelsPositive e.book e.book.buyOrders_ := hst.2.1
  have hps : LevelsPositive e.book e.book.sellOrders_ := hst.2.2.1
  have hc : CrossPending e.book (fun p => p ∈ e.buyPopped ++ e.book.buyQueue_)
      (fun p => p ∈ e.sellPopped ++ e.book.sellQueue_) := hst.2.2.2
  have hside : (e.book.deref order).side = Side.buy :=
    (hst.1.2.2.2.2.2.2.2.1 order (List.mem_append_left _ hx)).2
  obtain ⟨cw, cpb, cps, cc, _⟩ := core_matchBuyLoop n (s := e.book) (b := order) hw hpb hps hc
    hside
  have hsh := shrinks_matchBuyLoop n e.book order
  rw [← htdef] at cw cpb cps cc hsh
  have hprice : (t.deref order).price = (e.book.deref order).price := hsh.1.price order
  have htype : (t.deref order).orderType = (e.book.deref order).orderType :=
    hsh.1.orderType order
  obtain ⟨k, sp, tl, more, hs, hqb, hcross, h4 | h4⟩ := matchBuyStep_some hstep
  · exfalso
    have := (cps (k, sp :: tl) (by rw [hs]; exact List.mem_cons_self _ _)).2 sp
      (List.mem_cons_self _ _)
    omega
  · obtain ⟨_, rfl⟩ := h4
    have hk : k ≤ (e.book.deref order).price := by
      rcases hcross with hc1 | hc1
      · rw [htype] at hc1; exact absurd hc1 ht
      · rw [hprice] at hc1; exact hc1
    have hpend : ∀ eb ∈ t.buyOrders_, (e.book.deref order).price < eb.1 → ∀ x ∈ eb.2,
        (x ≠ order ∧ (x ∈ e.book.buyQueue_ ∨ x ∈ e.buyPopped)) ∨
        (sp ∈ e.book.sellQueue_ ∨ sp ∈ e.sellPopped) := by
      intro eb he hlt x hxe
      have hne : x ≠ order := by
        intro h2
        have := (cw.2.2.2.2.1 eb he x hxe).2.1
        rw [h2, hprice] at this
        omega
      rcases cc eb he (k, sp :: tl) (by rw [hs]; exact List.mem_cons_self _ _)
        (by simp only; omega) x hxe sp (List.mem_cons_self _ _) with h1 | h1
      · left
        rcases List.mem_append.1 h1 with h2 | h2
        · exact ⟨hne, Or.inr h2⟩
        · exact ⟨hne, Or.inl h2⟩
      · right
        rcases List.mem_append.1 h1 with h2 | h2
        · exact Or.inr h2
        · exact Or.inl h2
    refine ⟨sp, k, tl, more, hs, tradeBuy_trades _ _ _ _ _, hpend, ?_⟩
    intro hq hp hsq hsp eb he
    by_contra hlt
    obtain ⟨x, tlx, hxl⟩ := List.exists_cons_of_ne_nil (cw.2.2.1 eb he)
    rcases hpend eb he (lt_of_not_ge hlt) x (by rw [hxl]; exact List.mem_cons_self _ _) with
      ⟨hne, h1 | h1⟩ | h1 | h1
    · rw [hq] at h1; exact absurd h1 (List.not_mem_nil x)
    · rw [hp] at h1; exact hne (List.mem_singleton.1 h1)
    · rw [hsq] at h1; exact absurd h1 (List.not_mem_nil sp)
    · rw [hsp] at h1; exact absurd h1 (List.not_mem_nil sp)

theorem sell_priority_up_to_pending {e : Engine} (hst : Settled e.pending) {order : OrderPointer}
    (hx : order ∈ e.sellPopped) (ht : (e.book.deref order).orderType ≠ OrderType.Market)
    (n : Nat) (t t1 : OrderBook) (htdef : t = matchSellLoop n e.book order)
    (hstep : matchSellStep t order = some t1) :
    ∃ bid bestBid tl more, t.buyOrders_ = (bestBid, bid :: tl) :: more ∧
      t1.trades = t.trades ++ [Trade.mk (t.deref bid).orderId (t.deref order).orderId
        (min (t.deref order).quantity (t.deref bid).quantity) bestBid] ∧
      (∀ es ∈ t.sellOrders_, es.1 < (e.book.deref order).price → ∀ x ∈ es.2,
        (x ≠ order ∧ (x ∈ e.book.sellQueue_ ∨ x ∈ e.sellPopped)) ∨
        (bid ∈ e.book.buyQueue_ ∨ bid ∈ e.buyPopped)) ∧
      (e.book.sellQueue_ = [] → e.sellPopped = [order] → e.book.buyQueue_ = [] →
        e.buyPopped = [] → ∀ es ∈ t.sellOrders_, (e.book.deref order).price ≤ es.1) := by
  have hw : WellFormed e.book := wellFormed_book_of_pending hst.1
  have hpb : LevelsPositive e.book e.book.buyOrders_ := hst.2.1
  have hps : LevelsPositive e.book e.book.sellOrders_ := hst.2.2.1
  have hc : CrossPending e.book (fun p => p ∈ e.buyPopped ++ e.book.buyQueue_)
      (fun p => p ∈ e.sellPopped ++ e.book.sellQueue_) := hst.2.2.2
  have hside : (e.book.deref order).side ≠ Side.buy :=
    (hst.1.2.2.2.2.2.2.2.2 order (List.mem_append_left _ hx)).2
  obtain ⟨cw, cpb, cps, cc, _⟩ := core_matchSellLoop n (s := e.book) (b := order) hw hpb hps hc
    hside
  have hsh := shrinks_matchSellLoop n e.book order
  rw [← htdef] at cw cpb cps cc hsh
  have hprice : (t.deref order).price = (e.book.deref order).price := hsh.1.price order
  have htype : (t.deref order).orderType = (e.book.deref order).orderType :=
    hsh.1.orderType order
  obtain ⟨k, bp, tl, more, hs, hqa, hcross, hqb, rfl⟩ := matchSellStep_some hstep
  have hk : (e.book.deref order).price ≤ k := by
    rcases hcross with hc1 | hc1
    · rw [htype] at hc1; exact absurd hc1 ht
    · rw [hprice] at hc1; exact hc1
  have hpend : ∀ es ∈ t.sellOrders_, es.1 < (e.book.deref order).price → ∀ x ∈ es.2,
      (x ≠ order ∧ (x ∈ e.book.sellQueue_ ∨ x ∈ e.sellPopped)) ∨
      (bp ∈ e.book.buyQueue_ ∨ bp ∈ e.buyPopped) := by
    intro es he hlt x hxe
    have hne : x ≠ order := by
      intro h2
      have := (cw.2.2.2.2.2.1 es he x hxe).2.1
      rw [h2, hprice] at this
      omega
    rcases cc (k, bp :: tl) (by rw [hs]; exact List.mem_cons_self _ _) es he
      (by simp only; omega) bp (List.mem_cons_self _ _) x hxe with h1 | h1
    · right
      rcases List.mem_append.1 h1 with h2 | h2
      · exact Or.inr h2
      · exact Or.inl h2
    · left
      rcases List.mem_append.1 h1 with h2 | h2
      · exact ⟨hne, Or.inr h2⟩
      · exact ⟨hne, Or.inl h2⟩
  refine ⟨bp, k, tl, more, hs, tradeSell_trades _ _ _ _ _, hpend, ?_⟩
  intro hq hp hbq hbp es he
  by_contra hlt
  obtain ⟨x, tlx, hxl⟩ := List.exists_cons_of_ne_nil (cw.2.2.2.1 es he)
  rcases hpend es he (lt_of_not_ge hlt) x (by rw [hxl]; exact List.mem_cons_self _ _) with
    ⟨hne, h1 | h1⟩ | h1 | h1
  · rw [hq] at h1; exact absurd h1 (List.not_mem_nil x)
  · rw [hp] at h1; exact hne (List.mem_singleton.1 h1)
  · rw [hbq] at h1; exact absurd h1 (List.not_mem_nil bp)
  · rw [hbp] at h1; exact absurd h1 (List.not_mem_nil bp)

/-- C20, amended.  Take any run of the engine in which a worker's pop and its
match call are separate steps (`addOrder` with quantity > 0, `cancelOrder`,
`modifyOrder` with new quantity > 0, `reset`, matches of promoted stop orders,
pops and match calls of the workers, in any order), let a buy worker hold the
popped Limit order `order`, and let `t` be any loop head of its match call.
Every iteration that stays in the loop emits a trade of `order` with the order
`ask` at the head of the best ask level, and at that moment every order resting
in the bid book at a price strictly above the price of `order` is another order
that still awaits its match (it waits in the buy queue or is held by a buy
worker), or `ask` still awaits its match (it waits in the sell queue or is held
by a sell worker).  In particular, when both queues are empty and no worker
holds another order, no resting buy has a strictly higher price than the traded
buy.  Symmetrically for a Limit order held by a sell worker: a resting sell with
a strictly lower price still awaits its match, or the traded bid does. -/
theorem own_side_priority_up_to_pending (e : Engine) (h : Interleaved e)
    (order : OrderPointer) (hLimit : (e.book.deref order).orderType = OrderType.Limit) :
    (order ∈ e.buyPopped → ∀ (n : Nat) (t t1 : OrderBook),
      t = matchBuyLoop n e.book order → matchBuyStep t order = some t1 →
      ∃ ask bestAsk tl more, t.sellOrders_ = (bestAsk, ask :: tl) :: more ∧
        t1.trades = t.trades ++ [Trade.mk (t.deref order).orderId (t.deref ask).orderId
          (min (t.deref order).quantity (t.deref ask).quantity) bestAsk] ∧
        (∀ eb ∈ t.buyOrders_, (e.book.deref order).price < eb.1 → ∀ x ∈ eb.2,
          (x ≠ order ∧ (x ∈ e.book.buyQueue_ ∨ x ∈ e.buyPopped)) ∨
          (ask ∈ e.book.sellQueue_ ∨ ask ∈ e.sellPopped)) ∧
        (e.book.buyQueue_ = [] → e.buyPopped = [order] → e.book.sellQueue_ = [] →
          e.sellPopped = [] → ∀ eb ∈ t.buyOrders_, eb.1 ≤ (e.book.deref order).price)) ∧
    (order ∈ e.sellPopped → ∀ (n : Nat) (t t1 : OrderBook),
      t = matchSellLoop n e.book order → matchSellStep t order = some t1 →
      ∃ bid bestBid tl more, t.buyOrders_ = (bestBid, bid :: tl) :: more ∧
        t1.trades = t.trades ++ [Trade.mk (t.deref bid).orderId (t.deref order).orderId
          (min (t.deref order).quantity (t.deref bid).quantity) bestBid] ∧
        (∀ es ∈ t.sellOrders_, es.1 < (e.book.deref order).price → ∀ x ∈ es.2,
          (x ≠ order ∧ (x ∈ e.book.sellQueue_ ∨ x ∈ e.sellPopped)) ∨
          (bid ∈ e.book.buyQueue_ ∨ bid ∈ e.buyPopped)) ∧
        (e.book.sellQueue_ = [] → e.sellPopped = [order] → e.book.buyQueue_ = [] →
          e.buyPopped = [] → ∀ es ∈ t.sellOrders_, (e.book.deref order).price ≤ es.1)) := by
  have hst := settled_pending_of_interleaved h
  have ht : (e.book.deref order).orderType ≠ OrderType.Market := by rw [hLimit]; decide
  exact ⟨fun hx n t t1 htdef hstep => buy_priority_up_to_pending hst hx ht n t t1 htdef hstep,
    fun hx n t t1 htdef hstep => sell_priority_up_to_pending hst hx ht n t t1 htdef hstep⟩

end Engine

namespace Engine

open OrderBook

/-- Example for C20 (amended): in `raceExample` both queues are empty, the buy
worker holds the buy 2 (price 100) and the sell worker holds the sell 3; the
match call of the buy worker trades the buy 2 with the sell 3 at 100 although
the buy 1 rests at 101: the sell 3 still awaits its match by the sell
worker. -/
theorem own_side_priority_up_to_pending_witness :
    Interleaved raceExample ∧
    raceExample.book.buyQueue_ = [] ∧ raceExample.book.sellQueue_ = [] ∧
    raceExample.buyPopped = [1] ∧ raceExample.sellPopped = [2] ∧
    (raceExample.book.deref 1).orderType = OrderType.Limit ∧
    raceExample.book.getBestBid = 101 ∧
    (raceExample.matchBuy 1).book.trades = [Trade.mk 2 3 5 100] ∧
    ∃ ask bestAsk tl more,
      (matchBuyLoop 0 raceExample.book 1).sellOrders_ = (bestAsk, ask :: tl) :: more ∧
      ((matchBuyLoop 0 raceExample.book 1).tradeBuy 1 2 100 5).trades =
        (matchBuyLoop 0 raceExample.book 1).trades ++
          [Trade.mk ((matchBuyLoop 0 raceExample.book 1).deref 1).orderId
            ((matchBuyLoop 0 raceExample.book 1).deref ask).orderId
            (min ((matchBuyLoop 0 raceExample.book 1).deref 1).quantity
              ((matchBuyLoop 0 raceExample.book 1).deref ask).quantity)
            bestAsk] ∧
      (∀ eb ∈ (matchBuyLoop 0 raceExample.book 1).buyOrders_,
        (raceExample.book.deref 1).price < eb.1 → ∀ x ∈ eb.2,
          (x ≠ 1 ∧ (x ∈ raceExample.book.buyQueue_ ∨ x ∈ raceExample.buyPopped)) ∨
          (ask ∈ raceExample.book.sellQueue_ ∨ ask ∈ raceExample.sellPopped)) ∧
      (raceExample.book.buyQueue_ = [] → raceExample.buyPopped = [1] →
        raceExample.book.sellQueue_ = [] → raceExample.sellPopped = [] →
        ∀ eb ∈ (matchBuyLoop 0 raceExample.book 1).buyOrders_,
          eb.1 ≤ (raceExample.book.deref 1).price) :=
  have hrun : Interleaved raceExample :=
    Interleaved.popBuy _ (Interleaved.popSell _
      (Interleaved.add _ 3 100 5 Side.sell OrderType.Limit
        (Interleaved.add _ 2 100 5 Side.buy OrderType.Limit
          (Interleaved.matchBuy _ 0
            (Interleaved.popBuy _
              (Interleaved.add _ 1 101 5 Side.buy OrderType.Limit Interleaved.init (by decide)))
            (by decide))
          (by decide))
        (by decide)))
  ⟨hrun, by decide, by decide, by decide, by decide, by decide, by decide, by decide,
   (own_side_priority_up_to_pending raceExample hrun 1 (by decide)).1 (by decide) 0 _ _ rfl
     (by decide)⟩

end Engine

namespace Engine

/-- Why the runs of `Interleaved` add positive quantities only: an order of
quantity 0 rests without ever being filled, and `matchSellOrder` stops at it.
In `zeroQuantityExample` no order waits in a queue and the buy worker holds the
only popped order, the Limit buy 2 at price 100; its match emits the trade
(2, 3, 5, 100) although the buy 1 rests at the strictly higher price 101 and
the counterparty, the sell 3, has been matched already. -/
theorem zero_quantity_breaks_priority :
    zeroQuantityExample.book.buyQueue_ = [] ∧
    zeroQuantityExample.book.sellQueue_ = [] ∧
    zeroQuantityExample.buyPopped = [1] ∧
    zeroQuantityExample.sellPopped = [] ∧
    (zeroQuantityExample.book.deref 1).orderType = OrderType.Limit ∧
    (zeroQuantityExample.book.deref 1).orderId = 2 ∧
    (zeroQuantityExample.book.deref 1).price = 100 ∧
    zeroQuantityExample.book.buyOrders_ = [(101, [0]), (100, [1])] ∧
    (zeroQuantityExample.book.deref 0).quantity = 0 ∧
    zeroQuantityExample.book.sellOrders_ = [(100, [2])] ∧
    zeroQuantityExample.book.trades = [] ∧
    (zeroQuantityExample.matchBuy 1).book.trades = [Trade.mk 2 3 5 100] ∧
    (zeroQuantityExample.matchBuy 1).book.buyOrders_ = [(101, [0])] := by
  decide

end Engine
